import Mathlib

/-!
# libgif: a shallow embedding of the GIF reader and writer

The development follows `gif.h`, `gif_writer.c` and `gif_reader.c`.

Conventions of the embedding.

* A byte is a natural number; a value of C type `unsigned char` is kept below 256 by
  the code that produces it, and every place where the C code narrows a wider value
  (`& 0xff`, a cast to `unsigned char`) is written out with `&&&` or `%`.
* `unsigned int` is 32 bits wide and `unsigned long`, `size_t` are 64 bits wide; every
  `unsigned int` expression that can exceed 32 bits carries an explicit `% 4294967296`.
* Only the in-memory source and destination (`GIF_BUFFER`) are modelled.  The writer's
  destination, a growable byte array, is the list of the bytes appended so far.  A read
  cursor `unsigned char *ptr` into the source buffer is the list of the bytes from `ptr`
  to the end of the buffer; a read that would run past the end of the buffer has no
  defined result in C and yields `none` here.
* `malloc` is taken to succeed.  The contents of freshly allocated memory are a parameter
  (`Uninit`).
* The LZW coder is external to the repository: `lzw_compress_gif` and `lzw_decompress`
  are function parameters taking the code size and the input bytes.
* Loops are written with a fuel argument; every entry point supplies a fuel that the loop
  cannot exhaust (one more than the number of bytes left to consume).
* The accesses to the canvas, to the colour tables and to the decoded image do not decide
  the control flow; they are total here: a load outside a buffer gives 0 and a store outside
  the canvas is dropped.  In C both are undefined, so the embedding says what the C code
  computes only where these accesses are in bounds: for a frame inside a canvas of fewer
  than `2^32` bytes and a decoded image of at least `width * height` bytes.
* Byte order is little-endian: where the reader copies one byte into a wider variable
  whose other bytes are zero (`advance_read(g, 1, &tag)` into an `enum gif_tag` that holds
  a one-byte value, `advance_read(g, 1, &size)` into an `unsigned long` that holds a
  one-byte value), the variable then holds that byte.
-/

namespace Gif

/-! ## gif.h -/

/-- The `enum gif_version`. -/
inductive gif_version where
  | GIF_87a
  | GIF_89a
  deriving DecidableEq, Repr

def TAG_GRAPHIC_EXTENSION : Nat := 0x21
def TAG_GRAPHIC_CONTROL_LABEL : Nat := 0xf9
def TAG_COMMENT_LABEL : Nat := 0xfe
def TAG_APPLICATION_LABEL : Nat := 0xff
def TAG_PLAIN_TEXT_LABEL : Nat := 0x01
def TAG_IMAGE_DESCRIPTOR : Nat := 0x2c
def TAG_TRAILER : Nat := 0x3b

/-- The `struct gif_opts`: `delay` is an `unsigned int`, the other two are bytes. -/
structure gif_opts where
  delay : Nat
  flags : Nat
  trans_index : Nat
  deriving DecidableEq, Repr

/-! ## gif_writer.c -/

namespace Writer

/-- The `struct gif_writer`; `dst` holds the bytes appended to `meta.dst.ptr` so far. -/
structure gif_writer where
  dst : List Nat
  width : Nat
  height : Nat
  n_colors : Nat
  code_size : Nat
  palette : List Nat
  deriving DecidableEq, Repr

/-- The two bytes stored by the `WRITE2BYTES(dst, val)` macro. -/
def WRITE2BYTES (val : Nat) : List Nat :=
  [val &&& 0xff, (val >>> 8) &&& 0xff]

/-- The static table `DEFAULT_PALETTE` (256 RGB entries). -/
def DEFAULT_PALETTE : List Nat :=
  [
     0,   0,   0,   0,   0,  64,   0,   0, 128,   0,   0, 192,
     0,  32,   0,   0,  32,  64,   0,  32, 128,   0,  32, 192,
     0,  64,   0,   0,  64,  64,   0,  64, 128,   0,  64, 192,
     0,  96,   0,   0,  96,  64,   0,  96, 128,   0,  96, 192,
     0, 128,   0,   0, 128,  64,   0, 128, 128,   0, 128, 192,
     0, 160,   0,   0, 160,  64,   0, 160, 128,   0, 160, 192,
     0, 192,   0,   0, 192,  64,   0, 192, 128,   0, 192, 192,
     0, 224,   0,   0, 224,  64,   0, 224, 128,   0, 224, 192,
    32,   0,   0,  32,   0,  64,  32,   0, 128,  32,   0, 192,
    32,  32,   0,  32,  32,  64,  32,  32, 128,  32,  32, 192,
    32,  64,   0,  32,  64,  64,  32,  64, 128,  32,  64, 192,
    32,  96,   0,  32,  96,  64,  32,  96, 128,  32,  96, 192,
    32, 128,   0,  32, 128,  64,  32, 128, 128,  32, 128, 192,
    32, 160,   0,  32, 160,  64,  32, 160, 128,  32, 160, 192,
    32, 192,   0,  32, 192,  64,  32, 192, 128,  32, 192, 192,
    32, 224,   0,  32, 224,  64,  32, 224, 128,  32, 224, 192,
    64,   0,   0,  64,   0,  64,  64,   0, 128,  64,   0, 192,
    64,  32,   0,  64,  32,  64,  64,  32, 128,  64,  32, 192,
    64,  64,   0,  64,  64,  64,  64,  64, 128,  64,  64, 192,
    64,  96,   0,  64,  96,  64,  64,  96, 128,  64,  96, 192,
    64, 128,   0,  64, 128,  64,  64, 128, 128,  64, 128, 192,
    64, 160,   0,  64, 160,  64,  64, 160, 128,  64, 160, 192,
    64, 192,   0,  64, 192,  64,  64, 192, 128,  64, 192, 192,
    64, 224,   0,  64, 224,  64,  64, 224, 128,  64, 224, 192,
    96,   0,   0,  96,   0,  64,  96,   0, 128,  96,   0, 192,
    96,  32,   0,  96,  32,  64,  96,  32, 128,  96,  32, 192,
    96,  64,   0,  96,  64,  64,  96,  64, 128,  96,  64, 192,
    96,  96,   0,  96,  96,  64,  96,  96, 128,  96,  96, 192,
    96, 128,   0,  96, 128,  64,  96, 128, 128,  96, 128, 192,
    96, 160,   0,  96, 160,  64,  96, 160, 128,  96, 160, 192,
    96, 192,   0,  96, 192,  64,  96, 192, 128,  96, 192, 192,
    96, 224,   0,  96, 224,  64,  96, 224, 128,  96, 224, 192,
   128,   0,   0, 128,   0,  64, 128,   0, 128, 128,   0, 192,
   128,  32,   0, 128,  32,  64, 128,  32, 128, 128,  32, 192,
   128,  64,   0, 128,  64,  64, 128,  64, 128, 128,  64, 192,
   128,  96,   0, 128,  96,  64, 128,  96, 128, 128,  96, 192,
   128, 128,   0, 128, 128,  64, 128, 128, 128, 128, 128, 192,
   128, 160,   0, 128, 160,  64, 128, 160, 128, 128, 160, 192,
   128, 192,   0, 128, 192,  64, 128, 192, 128, 128, 192, 192,
   128, 224,   0, 128, 224,  64, 128, 224, 128, 128, 224, 192,
   160,   0,   0, 160,   0,  64, 160,   0, 128, 160,   0, 192,
   160,  32,   0, 160,  32,  64, 160,  32, 128, 160,  32, 192,
   160,  64,   0, 160,  64,  64, 160,  64, 128, 160,  64, 192,
   160,  96,   0, 160,  96,  64, 160,  96, 128, 160,  96, 192,
   160, 128,   0, 160, 128,  64, 160, 128, 128, 160, 128, 192,
   160, 160,   0, 160, 160,  64, 160, 160, 128, 160, 160, 192,
   160, 192,   0, 160, 192,  64, 160, 192, 128, 160, 192, 192,
   160, 224,   0, 160, 224,  64, 160, 224, 128, 160, 224, 192,
   192,   0,   0, 192,   0,  64, 192,   0, 128, 192,   0, 192,
   192,  32,   0, 192,  32,  64, 192,  32, 128, 192,  32, 192,
   192,  64,   0, 192,  64,  64, 192,  64, 128, 192,  64, 192,
   192,  96,   0, 192,  96,  64, 192,  96, 128, 192,  96, 192,
   192, 128,   0, 192, 128,  64, 192, 128, 128, 192, 128, 192,
   192, 160,   0, 192, 160,  64, 192, 160, 128, 192, 160, 192,
   192, 192,   0, 192, 192,  64, 192, 192, 128, 192, 192, 192,
   192, 224,   0, 192, 224,  64, 192, 224, 128, 192, 224, 192,
   224,   0,   0, 224,   0,  64, 224,   0, 128, 224,   0, 192,
   224,  32,   0, 224,  32,  64, 224,  32, 128, 224,  32, 192,
   224,  64,   0, 224,  64,  64, 224,  64, 128, 224,  64, 192,
   224,  96,   0, 224,  96,  64, 224,  96, 128, 224,  96, 192,
   224, 128,   0, 224, 128,  64, 224, 128, 128, 224, 128, 192,
   224, 160,   0, 224, 160,  64, 224, 160, 128, 224, 160, 192,
   224, 192,   0, 224, 192,  64, 224, 192, 128, 224, 192, 192,
   224, 224,   0, 224, 224,  64, 224, 224, 128, 224, 224, 192
  ]

/-- Source `write_bytes(g, len, bytes)` on a buffer destination: `dapushn(ptr, len, bytes)`. -/
def write_bytes (g : gif_writer) (len : Nat) (bytes : List Nat) : gif_writer :=
  { g with dst := g.dst ++ bytes.take len }

/-- Source `write_byte(g, byte)`. -/
def write_byte (g : gif_writer) (byte : Nat) : gif_writer :=
  write_bytes g 1 [byte]

/-- Source `header(g)`: the signature `GIF89a`. -/
def header (g : gif_writer) : gif_writer :=
  write_bytes g 6 [0x47, 0x49, 0x46, 0x38, 0x39, 0x61]

/-- Source `logical_screen(g)`: the 7-byte logical screen descriptor, then the palette. -/
def logical_screen (g : gif_writer) : gif_writer :=
  let lsd := WRITE2BYTES g.width ++ WRITE2BYTES g.height ++
    [0x80 ||| ((g.code_size + 255) % 256), 0, 0]
  let g := write_bytes g 7 lsd
  write_bytes g ((g.n_colors * 3) % 4294967296) g.palette

/-- Source `netscape_loop(g)`: the application extension with loop count 0. -/
def netscape_loop (g : gif_writer) : gif_writer :=
  let g := write_byte g TAG_GRAPHIC_EXTENSION
  let g := write_byte g TAG_APPLICATION_LABEL
  let header : List Nat :=
    [12 - 1, 0x4e, 0x45, 0x54, 0x53, 0x43, 0x41, 0x50, 0x45, 0x32, 0x2e, 0x30]
  let g := write_bytes g 12 header
  let g := write_byte g 3
  let g := write_byte g 1
  let g := write_byte g 0
  let g := write_byte g 0
  write_byte g 0

/-- Source `graphic_control(g, opts)`. -/
def graphic_control (g : gif_writer) (opts : gif_opts) : gif_writer :=
  let g := write_byte g TAG_GRAPHIC_EXTENSION
  let g := write_byte g TAG_GRAPHIC_CONTROL_LABEL
  let header : List Nat := [5 - 1, opts.flags] ++ WRITE2BYTES opts.delay ++ [opts.trans_index]
  let g := write_bytes g 5 header
  write_byte g 0

/-- Source `image_descriptor(g, left, top, width, height)`. -/
def image_descriptor (g : gif_writer) (left top width height : Nat) : gif_writer :=
  let g := write_byte g TAG_IMAGE_DESCRIPTOR
  let header : List Nat :=
    WRITE2BYTES left ++ WRITE2BYTES top ++ WRITE2BYTES width ++ WRITE2BYTES height ++ [0]
  write_bytes g 9 header

/-- The value `delta` computed in the body of the loop of `calc_color` for palette entry
`i`: the three squares are computed in `int` and converted to `unsigned int`. -/
def calc_delta (palette : List Nat) (r g b : Nat) (i : Nat) : Nat :=
  let index := (3 * i) % 4294967296
  let pr : Int := palette.getD (index + 0) 0
  let pg : Int := palette.getD (index + 1) 0
  let pb : Int := palette.getD (index + 2) 0
  let delta := Int.toNat (((pr - r) * (pr - r)) % 4294967296)
  let delta := (delta + Int.toNat (((pg - g) * (pg - g)) % 4294967296)) % 4294967296
  let delta := (delta + Int.toNat (((pb - b) * (pb - b)) % 4294967296)) % 4294967296
  delta

/-- One iteration of the loop of `calc_color`; `result` is the pair `(min, index)`. -/
def calc_color_step (palette : List Nat) (r g b : Nat) (result : Nat × Nat) (i : Nat) :
    Nat × Nat :=
  let delta := calc_delta palette r g b i
  if delta < result.1 then (delta, i % 256) else result

/-- Source `calc_color(gw, r, g, b)`; `result.min` starts at `~0UL`. -/
def calc_color (gw : gif_writer) (r g b : Nat) : Nat :=
  ((List.range gw.n_colors).foldl (calc_color_step gw.palette r g b)
    (18446744073709551615, 0)).2

/-- The first part of `write_image`: the buffer `indexed_img` after the two nested loops
(`width * height < 2 ^ 32`, so that `(i * width) + j` runs through the buffer in order). -/
def quantize (g : gif_writer) (width height : Nat) (img : List Nat) : List Nat :=
  (List.range height).flatMap fun i =>
    (List.range width).map fun j =>
      let index := (i * width + j) % 4294967296
      calc_color g (img.getD (3 * index + 0) 0) (img.getD (3 * index + 1) 0)
        (img.getD (3 * index + 2) 0)

/-- The loop `while (len > 255)` of `write_image`, on the state `(g, tmp, len)`. -/
def write_image_loop : Nat → gif_writer → List Nat → Nat → gif_writer × List Nat × Nat
  | 0, g, tmp, len => (g, tmp, len)
  | fuel + 1, g, tmp, len =>
    if len > 255 then
      let g := write_byte g 255
      let g := write_bytes g 255 tmp
      write_image_loop fuel g (tmp.drop 255) (len - 255)
    else (g, tmp, len)

/-- The second part of `write_image`: the code size byte and the compressed bytes `compr`
cut into sub-blocks. -/
def write_compressed (g : gif_writer) (compr : List Nat) : gif_writer :=
  let g := write_byte g g.code_size
  let st := write_image_loop compr.length g compr compr.length
  let g := st.1
  let tmp := st.2.1
  let len := st.2.2
  let g := write_byte g (len % 256)
  let g := write_bytes g len tmp
  write_byte g 0

/-- Source `write_image(g, width, height, img)`. -/
def write_image (lzw_compress_gif : Nat → List Nat → List Nat) (g : gif_writer)
    (width height : Nat) (img : List Nat) : gif_writer :=
  let indexed_img := quantize g width height img
  let compr := lzw_compress_gif g.code_size indexed_img
  write_compressed g compr

/-- Source `gifw_init(g, code_size, palette, width, height)`; a null `palette` is `none`. -/
def gifw_init (code_size : Nat) (palette : Option (List Nat)) (width height : Nat) :
    gif_writer :=
  let g : gif_writer :=
    match palette with
    | some p =>
      { dst := [], width := width, height := height,
        n_colors := (1 <<< code_size) % 4294967296, code_size := code_size, palette := p }
    | none =>
      { dst := [], width := width, height := height,
        n_colors := 256, code_size := 8, palette := DEFAULT_PALETTE }
  let g := header g
  let g := logical_screen g
  netscape_loop g

/-- Source `gifw_push(g, opts, left, top, width, height, img)`; a null `opts` is `none`. -/
def gifw_push (lzw_compress_gif : Nat → List Nat → List Nat) (g : gif_writer)
    (opts : Option gif_opts) (left top width height : Nat) (img : List Nat) : gif_writer :=
  let g := match opts with
    | some o => graphic_control g o
    | none => g
  let g := image_descriptor g left top width height
  write_image lzw_compress_gif g width height img

/-- Source `gifw_end(g, out_len, out_img)`: the pair `(*out_len, *out_img)`. -/
def gifw_end (g : gif_writer) : Nat × List Nat :=
  let g := write_byte g TAG_TRAILER
  (g.dst.length, g.dst)

end Writer

/-! ## gif_reader.c -/

namespace Reader

/-- The function a `dispose` pointer can hold (all four have an empty body). -/
inductive dispose_fn where
  | dispose_null
  | dispose_no_disposal
  | dispose_bg_color
  | dispose_previous
  deriving DecidableEq, Repr

/-- The `struct gif_reader` with a buffer source: `src` is `meta.src.ptr` and `start` is
`meta.start.ptr`, each given by the bytes from the pointer to the end of the buffer;
`dispose` is `none` for a null function pointer. -/
structure gif_reader where
  src : List Nat
  start : List Nat
  version : gif_version
  width : Nat
  height : Nat
  n_frames : Nat
  delay : Nat
  n_colors : Nat
  aspect : Nat
  bg_color_index : Nat
  has_global_clut : Nat
  global_clut : List Nat
  image : List Nat
  has_local_clut : Nat
  local_clut : List Nat
  has_trans : Nat
  trans_index : Nat
  dispose : Option dispose_fn
  deriving DecidableEq, Repr

/-- The contents of the three buffers `gifr_init` obtains from `malloc`, by offset. -/
structure Uninit where
  global_clut : Nat → Nat
  local_clut : Nat → Nat
  image : Nat → Nat

/-- The value stored by the `READ2BYTES(dst, src)` macro. -/
def READ2BYTES (src : List Nat) : Nat :=
  (((src.getD 1 0) <<< 8) ||| (src.getD 0 0)) &&& 0xffff

def GRAPHIC_CONTROL_HEADER_SIZE : Nat := 6
def APPLICATION_HEADER_SIZE : Nat := 12
def PLAIN_TEXT_HEADER_SIZE : Nat := 13
def IMAGE_DESCRIPTOR_HEADER_SIZE : Nat := 9

/-- Source `advance_read(g, size, dst)` on a buffer source: the bytes copied to `dst` and the
advanced pointer; `none` when fewer than `size` bytes are left in the buffer. -/
def advance_read (p : List Nat) (size : Nat) : Option (List Nat × List Nat) :=
  if size ≤ p.length then some (p.take size, p.drop size) else none

/-- Source `advance(g, size)` on a buffer source. -/
def advance (p : List Nat) (size : Nat) : List Nat :=
  p.drop size

/-- The loop of `skip_data`. -/
def skip_data_loop : Nat → List Nat → Option (List Nat)
  | 0, _ => none
  | fuel + 1, p =>
    match advance_read p 1 with
    | none => none
    | some (b, p) =>
      let size := b.getD 0 0
      let p := advance p size
      if size ≠ 0 then skip_data_loop fuel p else some p

/-- Source `skip_data(g)`: the pointer after the chain of sub-blocks. -/
def skip_data (p : List Nat) : Option (List Nat) :=
  skip_data_loop (p.length + 1) p

/-- C `strcmp` on two zero-terminated byte arrays (the sign of the result is kept). -/
def strcmp : List Nat → List Nat → Int
  | a :: as, b :: bs => if a ≠ b then (a : Int) - (b : Int) else if a = 0 then 0 else strcmp as bs
  | a :: _, [] => (a : Int)
  | [], b :: _ => - (b : Int)
  | [], [] => 0

/-- Source `header(g)`: the return value and the reader. -/
def header (g : gif_reader) : Option (Int × gif_reader) :=
  match advance_read g.src 6 with
  | none => none
  | some (signature, p) =>
    let g := { g with src := p }
    let signature := signature ++ [0]
    let st : Nat × gif_reader := (0, g)
    let st : Nat × gif_reader :=
      if strcmp signature [0x47, 0x49, 0x46, 0x38, 0x37, 0x61, 0] = 0 then
        (1, { st.2 with version := gif_version.GIF_87a })
      else st
    let st : Nat × gif_reader :=
      if strcmp signature [0x47, 0x49, 0x46, 0x38, 0x39, 0x61, 0] = 0 then
        (1, { st.2 with version := gif_version.GIF_89a })
      else st
    if st.1 = 0 then some (-1, st.2) else some (0, st.2)

/-- Source `logical_screen(g)`: the return value and the reader. -/
def logical_screen (g : gif_reader) : Option (Int × gif_reader) :=
  match advance_read g.src 7 with
  | none => none
  | some (lsd, p) =>
    let flags := lsd.getD 4 0
    let g := { g with
      src := p
      width := READ2BYTES lsd
      height := READ2BYTES (lsd.drop 2)
      bg_color_index := lsd.getD 5 0
      aspect := lsd.getD 6 0 }
    if flags &&& 0x80 ≠ 0 then
      let n_colors := 1 <<< ((flags &&& 0x07) + 1)
      let size := 3 * n_colors
      match advance_read g.src size with
      | none => none
      | some (bytes, p) =>
        some (0, { g with
          n_colors := n_colors
          src := p
          global_clut := bytes ++ g.global_clut.drop size
          has_global_clut := 1 })
    else some (0, g)

/-- Source `choose_disposal(disposal)`. -/
def choose_disposal (disposal : Nat) : dispose_fn :=
  if disposal = 0 then dispose_fn.dispose_null
  else if disposal = 1 then dispose_fn.dispose_no_disposal
  else if disposal = 2 then dispose_fn.dispose_bg_color
  else if disposal = 3 then dispose_fn.dispose_previous
  else dispose_fn.dispose_null

def skip_graphic_control (p : List Nat) : List Nat :=
  advance p GRAPHIC_CONTROL_HEADER_SIZE

def skip_comment (p : List Nat) : Option (List Nat) :=
  skip_data p

def skip_application (p : List Nat) : Option (List Nat) :=
  skip_data (advance p APPLICATION_HEADER_SIZE)

def skip_plain_text (p : List Nat) : Option (List Nat) :=
  skip_data (advance p PLAIN_TEXT_HEADER_SIZE)

/-- Source `local_color_table_size(size)`. -/
def local_color_table_size (size : Nat) : Nat :=
  (3 * (0x01 <<< (size + 1))) % 4294967296

/-- Source `skip_section(g, tag)`: the return value and the pointer. -/
def skip_section (p : List Nat) (tag : Nat) : Option (Int × List Nat) :=
  if tag = TAG_GRAPHIC_EXTENSION then some (0, p)
  else if tag = TAG_GRAPHIC_CONTROL_LABEL then some (0, skip_graphic_control p)
  else if tag = TAG_COMMENT_LABEL then (skip_comment p).map fun p => (0, p)
  else if tag = TAG_APPLICATION_LABEL then (skip_application p).map fun p => (0, p)
  else if tag = TAG_PLAIN_TEXT_LABEL then (skip_plain_text p).map fun p => (0, p)
  else if tag = TAG_IMAGE_DESCRIPTOR then
    match advance_read p IMAGE_DESCRIPTOR_HEADER_SIZE with
    | none => none
    | some (header, p) =>
      let p :=
        if header.getD 8 0 &&& 0x80 ≠ 0 then
          advance p (local_color_table_size (header.getD 8 0 &&& 0x07))
        else p
      let p := advance p 1
      (skip_data p).map fun p => (0, p)
  else some (-1, p)

/-- The loop of `count_images`. -/
def count_images_loop : Nat → gif_reader → Option gif_reader
  | 0, _ => none
  | fuel + 1, g =>
    match advance_read g.src 1 with
    | none => none
    | some (b, p) =>
      let tag := b.getD 0 0
      let n_frames :=
        if tag = TAG_IMAGE_DESCRIPTOR then (g.n_frames + 1) % 4294967296 else g.n_frames
      match skip_section p tag with
      | none => none
      | some (_, p) =>
        let g := { g with src := p, n_frames := n_frames }
        if tag ≠ TAG_TRAILER then count_images_loop fuel g else some g

/-- Source `count_images(g)`. -/
def count_images (g : gif_reader) : Option gif_reader :=
  count_images_loop (g.src.length + 1) g

/-- Source `graphic_control(g)`. -/
def graphic_control (g : gif_reader) : Option gif_reader :=
  match advance_read g.src GRAPHIC_CONTROL_HEADER_SIZE with
  | none => none
  | some (header, p) =>
    let dispose := choose_disposal ((header.getD 1 0 &&& 0x1c) >>> 2)
    let delay := READ2BYTES (header.drop 2)
    if header.getD 1 0 &&& 0x01 ≠ 0 then
      some { g with
        src := p, dispose := some dispose, delay := delay
        has_trans := 1, trans_index := header.getD 4 0 }
    else
      some { g with src := p, dispose := some dispose, delay := delay, has_trans := 0 }

/-- The loop of `get_data_size` (buffer branch): the running `total`. -/
def get_data_size_loop : Nat → List Nat → Nat → Option Nat
  | 0, _, _ => none
  | fuel + 1, p, total =>
    match p with
    | [] => none
    | size :: p =>
      let total := total + size
      let p := p.drop size
      if size ≠ 0 then get_data_size_loop fuel p total else some total

/-- Source `get_data_size(g)` (buffer branch): the total and the pointer, which is put back to
where it started. -/
def get_data_size (p : List Nat) : Option (Nat × List Nat) :=
  let start := p
  match get_data_size_loop (p.length + 1) p 0 with
  | none => none
  | some total => some (total, start)

/-- Source `parse_image_descriptor(g, &left, &top, &width, &height)`. -/
def parse_image_descriptor (g : gif_reader) : Option (gif_reader × Nat × Nat × Nat × Nat) :=
  match advance_read g.src IMAGE_DESCRIPTOR_HEADER_SIZE with
  | none => none
  | some (header, p) =>
    let left := READ2BYTES header
    let top := READ2BYTES (header.drop 2)
    let width := READ2BYTES (header.drop 4)
    let height := READ2BYTES (header.drop 6)
    if header.getD 8 0 &&& 0x80 ≠ 0 then
      let size := local_color_table_size (header.getD 8 0 &&& 0x07)
      match advance_read p size with
      | none => none
      | some (bytes, p) =>
        some ({ g with
          src := p, has_local_clut := 1
          local_clut := bytes ++ g.local_clut.drop size }, left, top, width, height)
    else some ({ g with src := p }, left, top, width, height)

/-- The re-read loop of `decompress_image`: `acc` is what has been stored in
`img_compressed` so far. -/
def decompress_image_loop : Nat → List Nat → List Nat → Option (List Nat × List Nat)
  | 0, _, _ => none
  | fuel + 1, p, acc =>
    match advance_read p 1 with
    | none => none
    | some (b, p) =>
      let size := b.getD 0 0
      match advance_read p size with
      | none => none
      | some (bytes, p) =>
        let acc := acc ++ bytes
        if size ≠ 0 then decompress_image_loop fuel p acc else some (acc, p)

/-- Source `decompress_image(g, &len, &img)`: the return value, the reader and the decoded
bytes (`len` is their number). -/
def decompress_image (lzw_decompress : Nat → List Nat → List Nat) (g : gif_reader) :
    Option (Int × gif_reader × List Nat) :=
  match advance_read g.src 1 with
  | none => none
  | some (b, p) =>
    let code_size := b.getD 0 0
    match get_data_size p with
    | none => none
    | some (_, p) =>
      match decompress_image_loop (p.length + 1) p [] with
      | none => none
      | some (img_compressed, p) =>
        let img := lzw_decompress code_size img_compressed
        some (0, { g with src := p }, img)

/-- The inner loop `while (w--)` of `write_image` when `has_trans` is set: `src` and `dst`
are offsets into `img` and into the canvas `image`.  A store outside the canvas is dropped
and a load outside a buffer gives 0. -/
def write_row_trans (pal : List Nat) (trans_index : Nat) (img : List Nat) :
    Nat → Nat → Nat → List Nat → List Nat
  | 0, _, _, image => image
  | w + 1, src, dst, image =>
    if img.getD src 0 ≠ trans_index then
      let index := img.getD src 0 * 3
      let image := image.set dst (pal.getD (index + 0) 0)
      let image := image.set (dst + 1) (pal.getD (index + 1) 0)
      let image := image.set (dst + 2) (pal.getD (index + 2) 0)
      write_row_trans pal trans_index img w (src + 1) (dst + 3) image
    else
      write_row_trans pal trans_index img w (src + 1) (dst + 3) image

/-- The inner loop `while (w--)` of `write_image` when `has_trans` is clear. -/
def write_row (pal : List Nat) (img : List Nat) : Nat → Nat → Nat → List Nat → List Nat
  | 0, _, _, image => image
  | w + 1, src, dst, image =>
    let index := img.getD src 0 * 3
    let image := image.set dst (pal.getD (index + 0) 0)
    let image := image.set (dst + 1) (pal.getD (index + 1) 0)
    let image := image.set (dst + 2) (pal.getD (index + 2) 0)
    write_row pal img w (src + 1) (dst + 3) image

/-- The offset `i * width` of `write_image`, an `unsigned int`. -/
def row_src (width i : Nat) : Nat :=
  (i * width) % 4294967296

/-- The offset `3 * (((i + top) * g->width) + left)` of `write_image`, an `unsigned int`. -/
def row_dst (gwidth left top i : Nat) : Nat :=
  (3 * (((((i + top) % 4294967296) * gwidth) % 4294967296 + left) % 4294967296)) % 4294967296

/-- Source `write_image(g, left, top, width, height, len, img)`. -/
def write_image (g : gif_reader) (left top width height : Nat) (_len : Nat)
    (img : List Nat) : gif_reader :=
  let pal := if g.has_local_clut ≠ 0 then g.local_clut else g.global_clut
  if g.has_trans ≠ 0 then
    let image := List.foldl
      (fun image i =>
        write_row_trans pal g.trans_index img width (row_src width i)
          (row_dst g.width left top i) image)
      g.image (List.range height)
    { g with image := image }
  else
    let image := List.foldl
      (fun image i =>
        write_row pal img width (row_src width i) (row_dst g.width left top i) image)
      g.image (List.range height)
    { g with image := image }

/-- Source `gifr_head(g)` (buffer branch). -/
def gifr_head (g : gif_reader) : gif_reader :=
  { g with src := g.start }

/-- The part of `gifr_next` after the label `gif_next_process_image`. -/
def gif_next_process_image (lzw_decompress : Nat → List Nat → List Nat) (g : gif_reader) :
    Option (Int × gif_reader) :=
  match parse_image_descriptor g with
  | none => none
  | some (g, left, top, width, height) =>
    match decompress_image lzw_decompress g with
    | none => none
    | some (r, g, image) =>
      if r ≠ 0 then some (0, g)
      else some (1, write_image g left top width height image.length image)

/-- The loop `for (;;)` of `gifr_next`. -/
def gifr_next_loop (lzw_decompress : Nat → List Nat → List Nat) :
    Nat → gif_reader → Option (Int × gif_reader)
  | 0, _ => none
  | fuel + 1, g =>
    match advance_read g.src 1 with
    | none => none
    | some (b, p) =>
      let tag := b.getD 0 0
      let g := { g with src := p }
      if tag = TAG_GRAPHIC_CONTROL_LABEL then
        match graphic_control g with
        | none => none
        | some g => gifr_next_loop lzw_decompress fuel g
      else if tag = TAG_IMAGE_DESCRIPTOR then
        gif_next_process_image lzw_decompress g
      else
        match skip_section g.src tag with
        | none => none
        | some (r, p) =>
          let g := { g with src := p }
          if r ≠ 0 then some (0, g) else gifr_next_loop lzw_decompress fuel g

/-- Source `gifr_next(g)`: the return value and the reader. -/
def gifr_next (lzw_decompress : Nat → List Nat → List Nat) (g : gif_reader) :
    Option (Int × gif_reader) :=
  gifr_next_loop lzw_decompress (g.src.length + 1) g

/-- The reader at the start of `gifr_init`, after `memset`, the assignment of the source
pointer and the two `malloc(3 * 256)`. -/
def init_state (u : Uninit) (src : List Nat) : gif_reader :=
  { src := src, start := [], version := gif_version.GIF_87a, width := 0, height := 0,
    n_frames := 0, delay := 0, n_colors := 0, aspect := 0, bg_color_index := 0,
    has_global_clut := 0, global_clut := (List.range (3 * 256)).map u.global_clut,
    image := [], has_local_clut := 0,
    local_clut := (List.range (3 * 256)).map u.local_clut,
    has_trans := 0, trans_index := 0, dispose := none }

/-- Source `gifr_init(g, GIF_BUFFER, src)`: the return value and the reader. -/
def gifr_init (u : Uninit) (src : List Nat) : Option (Int × gif_reader) :=
  let g := init_state u src
  match header g with
  | none => none
  | some (r, g) =>
    if r ≠ 0 then some (-1, g)
    else
      match logical_screen g with
      | none => none
      | some (r, g) =>
        if r ≠ 0 then some (-1, g)
        else
          let g := { g with
            image := (List.range ((g.width * g.height * 3) % 4294967296)).map u.image }
          let g := { g with start := g.src }
          match count_images g with
          | none => none
          | some g => some (0, gifr_head g)

/-- The first `n` calls of `gifr_next` in a row: the return values in order and the
reader after the last call. -/
def gifr_next_n (lzw_decompress : Nat → List Nat → List Nat) :
    Nat → gif_reader → Option (List Int × gif_reader)
  | 0, g => some ([], g)
  | n + 1, g =>
    match gifr_next lzw_decompress g with
    | none => none
    | some (r, g) =>
      match gifr_next_n lzw_decompress n g with
      | none => none
      | some (rs, g) => some (r :: rs, g)

end Reader

/-! ## Notions used to state the properties -/

/-- The bytes `gifw_init` has to produce for code size `c`, canvas `W` × `H` and palette
`P`: signature, logical screen descriptor, palette, Netscape loop extension. -/
def init_bytes (c W H : Nat) (P : List Nat) : List Nat :=
  [0x47, 0x49, 0x46, 0x38, 0x39, 0x61] ++
  [W % 256, W / 256, H % 256, H / 256, 0x80 ||| (c - 1), 0, 0] ++ P ++
  [0x21, 0xff, 0x0b, 0x4e, 0x45, 0x54, 0x53, 0x43, 0x41, 0x50, 0x45, 0x32, 0x2e, 0x30,
    0x03, 0x01, 0x00, 0x00, 0x00]

/-- The bytes `write_image` of the writer appends after the LZW code size byte when the
compressor returned `compr`. -/
def emitted_sub_blocks (g : Writer.gif_writer) (compr : List Nat) : List Nat :=
  (Writer.write_compressed g compr).dst.drop (g.dst.length + 1)

/-- A chain of sub-blocks: every chunk preceded by its length byte, then one zero byte. -/
def chain (chunks : List (List Nat)) : List Nat :=
  chunks.flatMap (fun ch => ch.length :: ch) ++ [0]

/-- The structure the sub-block chain `emitted` of a payload has to show: `⌈L/255⌉` chunks
that make up the payload in order, all but the last of length 255, the last of length
`L - 255 * (⌈L/255⌉ - 1)` in `1..255`, and exactly one terminator. -/
def chunking_holds (emitted payload : List Nat) : Prop :=
  ∃ chunks : List (List Nat),
    emitted = chain chunks ∧
    chunks.length = (payload.length + 254) / 255 ∧
    chunks.flatten = payload ∧
    (∀ i, i + 1 < chunks.length → (chunks.getD i []).length = 255) ∧
    (∀ last, chunks.getLast? = some last →
      last.length = payload.length - 255 * ((payload.length + 254) / 255 - 1) ∧
      1 ≤ last.length ∧ last.length ≤ 255)

/-- The exact squared Euclidean distance between palette entry `i` and `(r, g, b)`. -/
def sq_dist (palette : List Nat) (r g b : Nat) (i : Nat) : Int :=
  ((palette.getD (3 * i + 0) 0 : Int) - r) ^ 2 + ((palette.getD (3 * i + 1) 0 : Int) - g) ^ 2 +
    ((palette.getD (3 * i + 2) 0 : Int) - b) ^ 2

/-- The arguments of one call of `gifw_push`. -/
structure push_args where
  opts : Option gif_opts
  left : Nat
  top : Nat
  width : Nat
  height : Nat
  img : List Nat

/-- The calls `gifw_push` for `pushes`, in order. -/
def push_all (lzw_compress_gif : Nat → List Nat → List Nat) (g : Writer.gif_writer)
    (pushes : List push_args) : Writer.gif_writer :=
  pushes.foldl
    (fun g a => Writer.gifw_push lzw_compress_gif g a.opts a.left a.top a.width a.height a.img) g

/-- The byte stream handed out by `gifw_end` after `gifw_init` with a supplied palette and the
calls `gifw_push` for `pushes`. -/
def gif_stream (lzw_compress_gif : Nat → List Nat → List Nat) (c : Nat) (P : List Nat)
    (W H : Nat) (pushes : List push_args) : List Nat :=
  (Writer.gifw_end (push_all lzw_compress_gif (Writer.gifw_init c (some P) W H) pushes)).2

/-- The bytes one call of `gifw_push` appends. -/
def frame_bytes (lzw_compress_gif : Nat → List Nat → List Nat) (g : Writer.gif_writer)
    (a : push_args) : List Nat :=
  (Writer.gifw_push lzw_compress_gif g a.opts a.left a.top a.width a.height a.img).dst.drop
    g.dst.length

/-- The bytes of the graphic control extension `gifw_push` emits for `opts` (none for a null
`opts`). -/
def gce_bytes : Option gif_opts → List Nat
  | some o =>
    [0x21, 0xf9, 0x04, o.flags, o.delay % 256, (o.delay / 256) % 256, o.trans_index, 0x00]
  | none => []

/-- The image descriptor for a region: the tag, four little-endian 16-bit values and the
flags byte 0. -/
def descriptor_bytes (left top width height : Nat) : List Nat :=
  [0x2c, left % 256, (left / 256) % 256, top % 256, (top / 256) % 256, width % 256,
    (width / 256) % 256, height % 256, (height / 256) % 256, 0]

/-- The Netscape loop extension `gifw_init` emits. -/
def netscape_bytes : List Nat :=
  [0x21, 0xff, 0x0b, 0x4e, 0x45, 0x54, 0x53, 0x43, 0x41, 0x50, 0x45, 0x32, 0x2e, 0x30,
    0x03, 0x01, 0x00, 0x00, 0x00]

/-- The reader `gifr_init` has to leave for a stream of the writer: canvas `W` × `H`, global
table `P` of `2 ^ c` entries, `n` frames counted, cursor and frame-stream start at `body`. -/
def opened_reader (u : Reader.Uninit) (c W H : Nat) (P body : List Nat) (n : Nat) :
    Reader.gif_reader :=
  { src := body, start := body, version := gif_version.GIF_89a, width := W, height := H,
    n_frames := n, delay := 0, n_colors := 2 ^ c, aspect := 0, bg_color_index := 0,
    has_global_clut := 1,
    global_clut := P ++ ((List.range (3 * 256)).map u.global_clut).drop (3 * 2 ^ c),
    image := (List.range ((W * H * 3) % 4294967296)).map u.image, has_local_clut := 0,
    local_clut := (List.range (3 * 256)).map u.local_clut,
    has_trans := 0, trans_index := 0, dispose := none }

/-- The graphic control state the reader has to hold after the extension emitted for `opts`
(unchanged when no extension was emitted). -/
def apply_opts (g : Reader.gif_reader) : Option gif_opts → Reader.gif_reader
  | none => g
  | some o =>
    if o.flags &&& 0x01 ≠ 0 then
      { g with
        dispose := some (Reader.choose_disposal ((o.flags &&& 0x1c) >>> 2))
        delay := o.delay % 65536, has_trans := 1, trans_index := o.trans_index }
    else
      { g with
        dispose := some (Reader.choose_disposal ((o.flags &&& 0x1c) >>> 2))
        delay := o.delay % 65536, has_trans := 0 }

/-- The reader after the frame pushed with arguments `a` by the writer `wg` has been decoded
by a reader that was in state `g`, the cursor ending at `rest`. -/
def frame_decoded (lzw_compress_gif lzw_decompress : Nat → List Nat → List Nat)
    (wg : Writer.gif_writer) (g : Reader.gif_reader) (a : push_args) (rest : List Nat) :
    Reader.gif_reader :=
  let img := lzw_decompress wg.code_size
    (lzw_compress_gif wg.code_size (Writer.quantize wg a.width a.height a.img))
  Reader.write_image { apply_opts g a.opts with src := rest }
    (a.left % 65536) (a.top % 65536) (a.width % 65536) (a.height % 65536) img.length img

/-- The colour table `write_image` of the reader resolves indices with. -/
def active_table (g : Reader.gif_reader) : List Nat :=
  if g.has_local_clut ≠ 0 then g.local_clut else g.global_clut

/-- The compositing rule for the frame `(left, top, width, height)` with decoded indices
`img`, as a relation between the reader `g` before `write_image` and the canvas after it:
the three bytes of each pixel of the frame hold the entry of the active table, or are
unchanged where the index is the transparent one. -/
def compositing_holds (g : Reader.gif_reader) (left top width height : Nat) (img : List Nat)
    (canvas : List Nat) : Prop :=
  ∀ row, row < height → ∀ col, col < width → ∀ k, k < 3 →
    canvas[3 * ((row + top) * g.width + (col + left)) + k]? =
      if g.has_trans ≠ 0 ∧ img.getD (row * width + col) 0 = g.trans_index then
        g.image[3 * ((row + top) * g.width + (col + left)) + k]?
      else some ((active_table g).getD (img.getD (row * width + col) 0 * 3 + k) 0)

/-- Memory contents that are zero everywhere. -/
def zero_uninit : Reader.Uninit :=
  { global_clut := fun _ => 0, local_clut := fun _ => 0, image := fun _ => 0 }

/-- The transparency property end to end: the stream holds a frame `imgA` pushed without
options and a frame `imgB` pushed over the same region `(l, t, w, h)` with options `o`;
after `gifr_init` and two calls of `gifr_next`, a pixel of the region whose quantised index
in `imgB` is `o.trans_index` holds the palette colour of its quantised index in `imgA`, and
every other pixel of the region holds the palette colour of its quantised index in
`imgB`. -/
def transparency_holds (lzw_compress_gif lzw_decompress : Nat → List Nat → List Nat)
    (u : Reader.Uninit) (c : Nat) (P : List Nat) (W H l t w h : Nat) (imgA imgB : List Nat)
    (o : gif_opts) : Prop :=
  ∃ g0 rs g2,
    Reader.gifr_init u (gif_stream lzw_compress_gif c P W H
      [⟨none, l, t, w, h, imgA⟩, ⟨some o, l, t, w, h, imgB⟩]) = some (0, g0) ∧
    Reader.gifr_next_n lzw_decompress 2 g0 = some (rs, g2) ∧
    ∀ row, row < h → ∀ col, col < w → ∀ k, k < 3 →
      g2.image[3 * ((row + t) * W + (col + l)) + k]? =
        if (Writer.quantize (Writer.gifw_init c (some P) W H) w h imgB).getD (row * w + col) 0
            = o.trans_index then
          some (P.getD ((Writer.quantize (Writer.gifw_init c (some P) W H) w h imgA).getD
            (row * w + col) 0 * 3 + k) 0)
        else
          some (P.getD ((Writer.quantize (Writer.gifw_init c (some P) W H) w h imgB).getD
            (row * w + col) 0 * 3 + k) 0)

/-- A lossless coder pair whose compressor returns no byte at all for the input `[0]`. -/
def empty_payload_compress (_cs : Nat) (d : List Nat) : List Nat :=
  if d = [0] then [] else 9 :: d

/-- The decompressor that inverts `empty_payload_compress`. -/
def empty_payload_decompress (_cs : Nat) (x : List Nat) : List Nat :=
  match x with
  | [] => [0]
  | _ :: d => d

/-- A lossless coder pair that returns at least one byte: the input behind a zero byte. -/
def stub_compress (_cs : Nat) (d : List Nat) : List Nat :=
  0 :: d

/-- The decompressor that inverts `stub_compress`. -/
def stub_decompress (_cs : Nat) (x : List Nat) : List Nat :=
  x.tail

/-- The measure and re-read property of the reader on the sub-block chain `emitted` of a
payload, followed in the buffer by `rest`: `get_data_size` returns the payload length and
puts the cursor back, and the re-read loop yields the payload and stops at `rest`. -/
def measure_reread_holds (emitted payload rest : List Nat) : Prop :=
  Reader.get_data_size (emitted ++ rest) = some (payload.length, emitted ++ rest) ∧
  Reader.decompress_image_loop ((emitted ++ rest).length + 1) (emitted ++ rest) [] =
    some (payload, rest)

/-! ## Notions used to state the properties of the reader on arbitrary streams -/

/-- A stream with a global table of two colours and no frame: signature `GIF89a`, a 2 × 1
logical screen with flags `0x80`, background index 5, aspect 9, the table
`(1,2,3), (4,5,6)`, the trailer. -/
def screen_stream : List Nat :=
  [0x47, 0x49, 0x46, 0x38, 0x39, 0x61, 2, 0, 1, 0, 0x80, 5, 9, 1, 2, 3, 4, 5, 6, 0x3b]

/-- A section that the loop of `gifr_next` passes in one turn without returning: the
extension introducer `0x21` alone, or a label with what the reader takes for its body. -/
inductive ext_section where
  | introducer : ext_section
  | graphic_control (body : List Nat) : ext_section
  | comment (chunks : List (List Nat)) : ext_section
  | application (hdr : List Nat) (chunks : List (List Nat)) : ext_section
  | plain_text (hdr : List Nat) (chunks : List (List Nat)) : ext_section

/-- The bytes of a section: the tag, the fixed-size part and the chain of sub-blocks. -/
def ext_section.bytes : ext_section → List Nat
  | ext_section.introducer => [0x21]
  | ext_section.graphic_control body => 0xf9 :: body
  | ext_section.comment chunks => 0xfe :: chain chunks
  | ext_section.application hdr chunks => 0xff :: (hdr ++ chain chunks)
  | ext_section.plain_text hdr chunks => 0x01 :: (hdr ++ chain chunks)

/-- The sizes the reader expects: 6 bytes after the label `0xf9`, 12 after `0xff`, 13 after
`0x01`, and sub-blocks of 1 to 255 bytes. -/
def ext_section.wf : ext_section → Prop
  | ext_section.introducer => True
  | ext_section.graphic_control body => body.length = 6
  | ext_section.comment chunks => ∀ ch ∈ chunks, 1 ≤ ch.length ∧ ch.length ≤ 255
  | ext_section.application hdr chunks =>
    hdr.length = 12 ∧ ∀ ch ∈ chunks, 1 ≤ ch.length ∧ ch.length ≤ 255
  | ext_section.plain_text hdr chunks =>
    hdr.length = 13 ∧ ∀ ch ∈ chunks, 1 ≤ ch.length ∧ ch.length ≤ 255

/-- The first `n` calls of `gifr_next` in a row: for each call its return value and the
canvas after it, and the reader after the last call. -/
def gifr_next_pass (lzw_decompress : Nat → List Nat → List Nat) :
    Nat → Reader.gif_reader → Option (List (Int × List Nat) × Reader.gif_reader)
  | 0, g => some ([], g)
  | n + 1, g =>
    match Reader.gifr_next lzw_decompress g with
    | none => none
    | some (r, g) =>
      match gifr_next_pass lzw_decompress n g with
      | none => none
      | some (rs, g') => some ((r, g.image) :: rs, g')

/-- Rewind idempotence for the reader `g0` and `n` frames: a pass of `n` calls of
`gifr_next`, then `gifr_head` and a second pass of `n` calls; every call returns 1 and the
canvas after the k-th call of the second pass is the canvas after the k-th call of the
first pass. -/
def rewind_idempotent (lzw_decompress : Nat → List Nat → List Nat) (g0 : Reader.gif_reader)
    (n : Nat) : Prop :=
  ∃ p1 g1 p2 g2,
    gifr_next_pass lzw_decompress n g0 = some (p1, g1) ∧
    gifr_next_pass lzw_decompress n (Reader.gifr_head g1) = some (p2, g2) ∧
    (∀ x ∈ p1, x.1 = 1) ∧ (∀ x ∈ p2, x.1 = 1) ∧
    p2.map Prod.snd = p1.map Prod.snd

/-- The frame covers the whole `W` × `H` canvas and is pushed without the transparency
bit. -/
def covers_canvas (W H : Nat) (a : push_args) : Prop :=
  a.left = 0 ∧ a.top = 0 ∧ a.width = W ∧ a.height = H ∧
    ∀ o, a.opts = some o → o.flags &&& 0x01 = 0

/-- The reader has a `W` × `H` canvas of `W * H * 3` bytes, no transparent index active
and no local table in use. -/
def plain_state (W H : Nat) (g : Reader.gif_reader) : Prop :=
  g.width = W ∧ g.height = H ∧ g.image.length = W * H * 3 ∧ g.has_trans = 0 ∧
    g.has_local_clut = 0

/-- Two frames of one pixel each on a 2 × 1 canvas: the left pixel white, then the right
pixel white, written with the palette black, white. -/
def two_pixel_stream : List Nat :=
  gif_stream stub_compress 1 [0, 0, 0, 255, 255, 255] 2 1
    [⟨none, 0, 0, 1, 1, [255, 255, 255]⟩, ⟨none, 1, 0, 1, 1, [255, 255, 255]⟩]

/-- A stream with a 1 × 1 logical screen and the global table `(10,20,30), (40,50,60)`; a
1 × 1 image whose descriptor declares a local table, `(1,2,3), (4,5,6)`, with the one
pixel index 0; then a 1 × 1 image whose descriptor declares no local table, with the one
pixel index 0; the trailer.  The payload `9, 0` stands for the index 0 under
`stub_decompress`. -/
def local_table_stream : List Nat :=
  [0x47, 0x49, 0x46, 0x38, 0x39, 0x61, 1, 0, 1, 0, 0x80, 0, 0] ++
  [10, 20, 30, 40, 50, 60] ++
  [0x2c, 0, 0, 0, 0, 1, 0, 1, 0, 0x80] ++ [1, 2, 3, 4, 5, 6] ++ [2, 2, 9, 0, 0] ++
  [0x2c, 0, 0, 0, 0, 1, 0, 1, 0, 0x00] ++ [2, 2, 9, 0, 0] ++
  [0x3b]

/-- The stream of the writer for a 1 × 1 canvas with the palette `(9,9,9), (255,255,255)`:
a frame of colour `(9,9,9)` pushed with the transparency bit set and transparent index 1,
then a frame of colour `(255,255,255)`, which is index 1, pushed without options. -/
def sticky_trans_stream : List Nat :=
  gif_stream stub_compress 1 [9, 9, 9, 255, 255, 255] 1 1
    [⟨some ⟨0, 1, 1⟩, 0, 0, 1, 1, [9, 9, 9]⟩, ⟨none, 0, 0, 1, 1, [255, 255, 255]⟩]

/-- A stream with a 1 × 1 logical screen and the global table `(10,20,30), (40,50,60)`; a
1 × 1 image with the pixel index 0; the byte `0x00`, which is no tag; a 1 × 1 image with the
pixel index 1; the trailer. -/
def stray_tag_stream : List Nat :=
  [0x47, 0x49, 0x46, 0x38, 0x39, 0x61, 1, 0, 1, 0, 0x80, 0, 0] ++
  [10, 20, 30, 40, 50, 60] ++
  [0x2c, 0, 0, 0, 0, 1, 0, 1, 0, 0x00] ++ [2, 2, 9, 0, 0] ++
  [0x00] ++
  [0x2c, 0, 0, 0, 0, 1, 0, 1, 0, 0x00] ++ [2, 2, 9, 1, 0] ++
  [0x3b]

/-- A section of the frame stream, as one turn of the loop of `gifr_next` takes it: an
extension section, an image (descriptor of 9 bytes, local table, code size byte, chain of
sub-blocks), or a single byte that is no tag the reader knows. -/
inductive stream_section where
  | ext (e : ext_section) : stream_section
  | image (desc lct : List Nat) (cs : Nat) (chunks : List (List Nat)) : stream_section
  | other (tag : Nat) : stream_section

/-- The bytes of a section of the frame stream. -/
def stream_section.bytes : stream_section → List Nat
  | stream_section.ext e => e.bytes
  | stream_section.image desc lct cs chunks => 0x2c :: (desc ++ (lct ++ cs :: chain chunks))
  | stream_section.other tag => [tag]

/-- The sizes the reader expects: the local table is there, with the size the flags byte of
the descriptor gives, exactly when bit 7 of that byte is set. -/
def stream_section.wf : stream_section → Prop
  | stream_section.ext e => e.wf
  | stream_section.image desc lct _ chunks =>
    desc.length = 9 ∧
    lct.length = (if desc.getD 8 0 &&& 0x80 ≠ 0 then
      Reader.local_color_table_size (desc.getD 8 0 &&& 0x07) else 0) ∧
    ∀ ch ∈ chunks, 1 ≤ ch.length ∧ ch.length ≤ 255
  | stream_section.other tag =>
    tag ≠ 0x21 ∧ tag ≠ 0xf9 ∧ tag ≠ 0xfe ∧ tag ≠ 0xff ∧ tag ≠ 0x01 ∧ tag ≠ 0x2c

/-- Whether `gifr_next` returns at the section: at an image and at an unknown tag. -/
def stream_section.returns : stream_section → Bool
  | stream_section.ext _ => false
  | stream_section.image _ _ _ _ => true
  | stream_section.other _ => true

/-- A reader whose cursor stands at the graphic control extension the writer emits for the
delay 3, the flags `0x15` (transparency bit set, disposal bits 5) and the transparent index
7, followed by the trailer. -/
def gce_state : Reader.gif_reader :=
  Reader.init_state zero_uninit [0x21, 0xf9, 0x04, 0x15, 3, 0, 7, 0x00, 0x3b]

/-- The colour-table size invariant for the writer `g`, read off the stream it holds after
`gifw_init`: the number of palette entries is a power of two in 2..256 and equals
`2 ^ (k + 1)` for the size field `k`, bits 0-2 of the flags byte of the logical screen
descriptor (byte 10 of the stream), and bits 3-6 of that byte are 0. -/
def table_size_invariant (g : Writer.gif_writer) : Prop :=
  (∃ e, g.n_colors = 2 ^ e) ∧ 2 ≤ g.n_colors ∧ g.n_colors ≤ 256 ∧
  g.n_colors = 2 ^ ((g.dst.getD 10 0 &&& 0x07) + 1) ∧ g.dst.getD 10 0 &&& 0x78 = 0

/-- The frame condition of the reader's `write_image` for the frame
`(left, top, width, height)`, as a relation between the reader `g` before the call and the
canvas after it: the three bytes of every pixel `(x, y)` of the canvas that lies outside the
frame rectangle are what they were. -/
def frame_condition_holds (g : Reader.gif_reader) (left top width height : Nat)
    (canvas : List Nat) : Prop :=
  ∀ x y, x < g.width → y < g.height →
    (x < left ∨ left + width ≤ x ∨ y < top ∨ top + height ≤ y) →
    ∀ k, k < 3 → canvas[3 * (y * g.width + x) + k]? = g.image[3 * (y * g.width + x) + k]?

/-- A memory access of the reader's `write_image`: a load `*src` from the decoded image, a
load `pal[index + k]` from the colour table, or a store `*dst++ = val` to the canvas
`g->image`.  `off` is the byte offset from the start of the buffer. -/
inductive access where
  | img_load (off : Nat)
  | pal_load (off : Nat)
  | canvas_store (off val : Nat)
  deriving DecidableEq, Repr

/-- The accesses of the inner loop `while (w--)` of `write_image` when `has_trans` is clear,
in program order; the arguments are those of `write_row`. -/
def write_row_accesses (pal : List Nat) (img : List Nat) : Nat → Nat → Nat → List access
  | 0, _, _ => []
  | w + 1, src, dst =>
    let index := img.getD src 0 * 3
    [access.img_load src,
     access.pal_load (index + 0), access.canvas_store dst (pal.getD (index + 0) 0),
     access.pal_load (index + 1), access.canvas_store (dst + 1) (pal.getD (index + 1) 0),
     access.pal_load (index + 2), access.canvas_store (dst + 2) (pal.getD (index + 2) 0)] ++
    write_row_accesses pal img w (src + 1) (dst + 3)

/-- The accesses of the inner loop `while (w--)` of `write_image` when `has_trans` is set:
`*src` is loaded for the comparison with `g->trans_index` and, where they differ, once more
for `index`. -/
def write_row_trans_accesses (pal : List Nat) (trans_index : Nat) (img : List Nat) :
    Nat → Nat → Nat → List access
  | 0, _, _ => []
  | w + 1, src, dst =>
    if img.getD src 0 ≠ trans_index then
      let index := img.getD src 0 * 3
      [access.img_load src, access.img_load src,
       access.pal_load (index + 0), access.canvas_store dst (pal.getD (index + 0) 0),
       access.pal_load (index + 1), access.canvas_store (dst + 1) (pal.getD (index + 1) 0),
       access.pal_load (index + 2), access.canvas_store (dst + 2) (pal.getD (index + 2) 0)] ++
      write_row_trans_accesses pal trans_index img w (src + 1) (dst + 3)
    else
      access.img_load src :: write_row_trans_accesses pal trans_index img w (src + 1) (dst + 3)

/-- The accesses of `write_image(g, left, top, width, height, len, img)` in program order:
for each row `i` the accesses of its inner loop, from `src = img + i * width` and
`dst = g->image + 3 * (((i + top) * g->width) + left)`. -/
def write_image_accesses (g : Reader.gif_reader) (left top width height : Nat)
    (img : List Nat) : List access :=
  let pal := if g.has_local_clut ≠ 0 then g.local_clut else g.global_clut
  if g.has_trans ≠ 0 then
    (List.range height).flatMap fun i =>
      write_row_trans_accesses pal g.trans_index img width (Reader.row_src width i)
        (Reader.row_dst g.width left top i)
  else
    (List.range height).flatMap fun i =>
      write_row_accesses pal img width (Reader.row_src width i)
        (Reader.row_dst g.width left top i)

/-- Whether an access stays inside its buffer: the decoded image of `img_len` bytes, a
colour table of `3 * 256` bytes (`malloc(3 * 256)` in `gifr_init`), the canvas of
`canvas_len` bytes. -/
def access.in_bounds (img_len canvas_len : Nat) : access → Prop
  | access.img_load off => off < img_len
  | access.pal_load off => off < 3 * 256
  | access.canvas_store off _ => off < canvas_len

/-- The canvas after the stores of a list of accesses, in order. -/
def replay_stores (canvas : List Nat) (accesses : List access) : List Nat :=
  accesses.foldl
    (fun image a =>
      match a with
      | access.canvas_store off val => image.set off val
      | _ => image)
    canvas

/-- The reader `gifr_init` has to leave for the stream of `gifw_init(1, P, 2, 2)` with the
palette `(10,20,30), (40,50,60)` followed by `gifw_end`: a 2 × 2 canvas of zero bytes. -/
def small_canvas_reader : Reader.gif_reader :=
  opened_reader zero_uninit 1 2 2 [10, 20, 30, 40, 50, 60] (netscape_bytes ++ [0x3b]) 0

/-- The reader `gifr_init` has to leave for a 65535 × 21846 logical screen with the global
table `(1,2,3), (4,5,6)`: the canvas has `65535 * 21846 * 3 mod 2^32 = 65534` zero bytes. -/
def wrapped_canvas_reader : Reader.gif_reader :=
  opened_reader zero_uninit 1 65535 21846 [1, 2, 3, 4, 5, 6] (netscape_bytes ++ [0x3b]) 0

/-- A reader whose cursor stands behind the tag of an image section: a descriptor for a
1 × 1 frame with the flags `0x80` (local table of two entries), the table, the code size 2,
one sub-block `9, 0` and the terminator; then the trailer. -/
def image_section_reader : Reader.gif_reader :=
  Reader.init_state zero_uninit
    ([0, 0, 0, 0, 1, 0, 1, 0, 0x80] ++ ([1, 2, 3, 4, 5, 6] ++ 2 :: (chain [[9, 0]] ++ [0x3b])))

/-! ## Notions used to state the rewind property on arbitrary streams -/

/-- The reader `h` draws as the reader `g` does: it is `g` but for the delay, the disposal
handler and the transparent index, and the transparent index is the same too when
`has_trans` is set.  Cursor, start, canvas, tables, `has_trans` and `has_local_clut` are
equal. -/
def same_drawing (g h : Reader.gif_reader) : Prop :=
  h = { g with delay := h.delay, dispose := h.dispose, trans_index := h.trans_index } ∧
  (g.has_trans ≠ 0 → h.trans_index = g.trans_index)

/-- The value of `has_trans` after the graphic control extensions of the sections, from the
value `ht`: each graphic control extension sets it to bit 0 of its flags byte. -/
def trans_after : List stream_section → Nat → Nat
  | [], ht => ht
  | stream_section.ext (ext_section.graphic_control body) :: ss, _ =>
    trans_after ss (if body.getD 1 0 &&& 0x01 ≠ 0 then 1 else 0)
  | _ :: ss, ht => trans_after ss ht

/-- An image section lies inside a `W` × `H` canvas and the decoder returns for it at
least `width * height` bytes, so that `write_image` stays inside its buffers. -/
def stream_section.in_canvas (lzw_decompress : Nat → List Nat → List Nat) (W H : Nat) :
    stream_section → Prop
  | stream_section.image desc _ cs chunks =>
    Reader.READ2BYTES desc + Reader.READ2BYTES (desc.drop 4) ≤ W ∧
    Reader.READ2BYTES (desc.drop 2) + Reader.READ2BYTES (desc.drop 6) ≤ H ∧
    Reader.READ2BYTES (desc.drop 4) * Reader.READ2BYTES (desc.drop 6) ≤
      (lzw_decompress cs chunks.flatten).length ∧
    ∀ b ∈ lzw_decompress cs chunks.flatten, b < 256
  | _ => True

/-- An image section whose frame is the whole `W` × `H` canvas: left 0, top 0, width `W`,
height `H`. -/
def stream_section.covers (W H : Nat) : stream_section → Prop
  | stream_section.image desc _ _ _ =>
    Reader.READ2BYTES desc = 0 ∧ Reader.READ2BYTES (desc.drop 2) = 0 ∧
    Reader.READ2BYTES (desc.drop 4) = W ∧ Reader.READ2BYTES (desc.drop 6) = H
  | _ => False

/-- The number of images in the stream before the first byte that is no tag: the number of
calls of `gifr_next` that return 1 before one returns 0. -/
def leading_images : List stream_section → Nat
  | [] => 0
  | stream_section.ext _ :: ss => leading_images ss
  | stream_section.image _ _ _ _ :: ss => leading_images ss + 1
  | stream_section.other _ :: _ => 0

/-- The reader `h` is the reader `g` but for the canvas and the graphic control state
(`has_trans`, the transparent index, the delay, the disposal handler): what a pass of
`gifr_next` over a stream with no local table and a rewind leave changed. -/
def same_but_canvas (g h : Reader.gif_reader) : Prop :=
  h = { g with
    dispose := h.dispose, delay := h.delay, has_trans := h.has_trans,
    trans_index := h.trans_index, image := h.image }

/-- The section declares no local colour table: bit 7 of the flags byte of an image
descriptor is clear. -/
def stream_section.no_local_table : stream_section → Prop
  | stream_section.image desc _ _ _ => desc.getD 8 0 &&& 0x80 = 0
  | _ => True

/-- A reader with a 2 × 1 canvas of zero bytes and the global table
`(10,20,30), (40,50,60)`, whose cursor and frame-stream start stand at the sections `secs`,
as `gifr_init` leaves them. -/
def section_reader (secs : List stream_section) : Reader.gif_reader :=
  { Reader.init_state zero_uninit (secs.flatMap stream_section.bytes) with
    start := secs.flatMap stream_section.bytes, width := 2, height := 1,
    image := [0, 0, 0, 0, 0, 0], has_global_clut := 1, n_colors := 2,
    global_clut := [10, 20, 30, 40, 50, 60] }

/-- The extension sections before the first image of `rewind_sections`: the introducer and
a graphic control extension with the transparency bit clear. -/
def rewind_exts : List ext_section :=
  [ext_section.introducer, ext_section.graphic_control [4, 0, 0, 0, 0, 0]]

/-- The sections after the first image of `rewind_sections`: a graphic control extension
with the transparency bit set and the transparent index 1, a 1 × 1 image at `(1, 0)` with
the pixel index 0, and the trailer. -/
def rewind_post : List stream_section :=
  [stream_section.ext ext_section.introducer,
   stream_section.ext (ext_section.graphic_control [4, 1, 0, 0, 1, 0]),
   stream_section.image [1, 0, 0, 0, 1, 0, 1, 0, 0] [] 2 [[9, 0]],
   stream_section.other 0x3b]

/-- A frame stream whose first frame covers the 2 × 1 canvas, with the pixel indices 0 and
1, behind a graphic control extension with the transparency bit clear, and whose second
frame paints one pixel with transparency on.  The first byte of a payload is dropped by
`stub_decompress`. -/
def rewind_sections : List stream_section :=
  rewind_exts.map stream_section.ext ++
    stream_section.image [0, 0, 0, 0, 2, 0, 1, 0, 0] [] 2 [[9, 0, 1]] :: rewind_post

/-- A frame stream whose first frame covers the 2 × 1 canvas, with the pixel indices 0 and
1, and has no graphic control extension; the second frame, behind a graphic control
extension with the transparency bit set and the transparent index 1, paints the pixel
`(1, 0)` with index 0. -/
def stale_trans_sections : List stream_section :=
  stream_section.image [0, 0, 0, 0, 2, 0, 1, 0, 0] [] 2 [[9, 0, 1]] :: rewind_post

/-- A frame stream whose first frame covers the 2 × 1 canvas, with the pixel indices 0 and
1, and declares no local table; the second frame, a 1 × 1 image at `(1, 0)` with the pixel
index 1, declares the local table `(1,2,3), (4,5,6)`. -/
def stale_table_sections : List stream_section :=
  [stream_section.image [0, 0, 0, 0, 2, 0, 1, 0, 0] [] 2 [[9, 0, 1]],
   stream_section.image [1, 0, 0, 0, 1, 0, 1, 0, 0x80] [1, 2, 3, 4, 5, 6] 2 [[9, 1]],
   stream_section.other 0x3b]

/-! # Theorems -/

section

open Writer

/-! ## Bytes -/

theorem and_ff (v : Nat) : v &&& 0xff = v % 256 := by
  simpa using Nat.and_pow_two_sub_one_eq_mod v 8

theorem shr8_and_ff (v : Nat) : (v >>> 8) &&& 0xff = (v / 256) % 256 := by
  rw [Nat.shiftRight_eq_div_pow]
  simpa using Nat.and_pow_two_sub_one_eq_mod (v / 2 ^ 8) 8

theorem WRITE2BYTES_eq (v : Nat) : WRITE2BYTES v = [v % 256, (v / 256) % 256] := by
  rw [WRITE2BYTES, shr8_and_ff, and_ff]

theorem read2_eq (a b : Nat) (ha : a < 256) (hb : b < 256) :
    ((b <<< 8) ||| a) &&& 0xffff = a + 256 * b := by
  rw [Nat.shiftLeft_eq, Nat.mul_comm b, ← Nat.mul_add_lt_is_or (by simpa using ha) b]
  have h := Nat.and_pow_two_sub_one_eq_mod (2 ^ 8 * b + a) 16
  simp at h
  rw [h]; omega

theorem READ2BYTES_WRITE2BYTES (v : Nat) (rest : List Nat) :
    Reader.READ2BYTES (WRITE2BYTES v ++ rest) = v % 65536 := by
  rw [WRITE2BYTES_eq]
  simp only [Reader.READ2BYTES, List.cons_append, List.nil_append, List.getD_cons_succ,
    List.getD_cons_zero]
  rw [read2_eq _ _ (Nat.mod_lt _ (by decide)) (Nat.mod_lt _ (by decide))]
  omega

/-! ## Writer: what each operation appends -/

@[simp] theorem write_bytes_dst (g : gif_writer) (n : Nat) (b : List Nat) :
    (write_bytes g n b).dst = g.dst ++ b.take n := rfl
@[simp] theorem write_bytes_code_size (g : gif_writer) (n : Nat) (b : List Nat) :
    (write_bytes g n b).code_size = g.code_size := rfl
@[simp] theorem write_bytes_palette (g : gif_writer) (n : Nat) (b : List Nat) :
    (write_bytes g n b).palette = g.palette := rfl
@[simp] theorem write_bytes_n_colors (g : gif_writer) (n : Nat) (b : List Nat) :
    (write_bytes g n b).n_colors = g.n_colors := rfl
@[simp] theorem write_bytes_width (g : gif_writer) (n : Nat) (b : List Nat) :
    (write_bytes g n b).width = g.width := rfl
@[simp] theorem write_bytes_height (g : gif_writer) (n : Nat) (b : List Nat) :
    (write_bytes g n b).height = g.height := rfl

theorem write_byte_eq (g : gif_writer) (b : Nat) :
    write_byte g b = { g with dst := g.dst ++ [b] } := rfl

theorem write_bytes_eq (g : gif_writer) (n : Nat) (b : List Nat) :
    write_bytes g n b = { g with dst := g.dst ++ b.take n } := rfl

theorem shl_code_size (c : Nat) (hc8 : c ≤ 8) : (1 <<< c) % 4294967296 = 2 ^ c := by
  interval_cases c <;> decide

theorem gifw_init_eq (c W H : Nat) (P : List Nat) (hc1 : 1 ≤ c) (hc8 : c ≤ 8)
    (hP : P.length = 3 * 2 ^ c) (hW : W < 65536) (hH : H < 65536) :
    gifw_init c (some P) W H =
      { dst := init_bytes c W H P, width := W, height := H, n_colors := 2 ^ c,
        code_size := c, palette := P } := by
  have h1 : (W / 256) % 256 = W / 256 := by omega
  have h2 : (H / 256) % 256 = H / 256 := by omega
  have h3 : (c + 255) % 256 = c - 1 := by omega
  have h4 : (2 ^ c * 3) % 4294967296 = P.length := by
    rw [hP]; interval_cases c <;> decide
  simp only [gifw_init, header, logical_screen, netscape_loop, write_byte_eq, write_bytes_eq,
    WRITE2BYTES_eq, shl_code_size c hc8, h1, h2, h3, h4, init_bytes, TAG_GRAPHIC_EXTENSION,
    TAG_APPLICATION_LABEL, List.take_length]
  simp

/-! ## Writer: sub-blocks -/

theorem write_image_loop_spec : ∀ (fuel : Nat) (tmp : List Nat),
    tmp.length ≤ 255 * fuel + 255 →
    ∃ (chunks : List (List Nat)) (last : List Nat),
      (∀ g : gif_writer, write_image_loop fuel g tmp tmp.length =
        ({ g with dst := g.dst ++ chunks.flatMap (fun ch => ch.length :: ch) }, last,
          last.length)) ∧
      (∀ ch ∈ chunks, ch.length = 255) ∧ chunks.flatten ++ last = tmp ∧
      tmp.length = 255 * chunks.length + last.length ∧
      last.length ≤ 255 ∧ (0 < tmp.length → 0 < last.length) := by
  intro fuel
  induction fuel with
  | zero =>
    intro tmp h
    refine ⟨[], tmp, ?_, ?_, ?_, ?_, ?_, ?_⟩ <;> first | omega | simp [write_image_loop]
  | succ fuel ih =>
    intro tmp h
    by_cases hlen : tmp.length > 255
    · have hd : (tmp.drop 255).length = tmp.length - 255 := by simp
      obtain ⟨chunks, last, h1, h2, h3, h4, h5, h6⟩ :=
        ih (tmp.drop 255) (by rw [hd]; omega)
      refine ⟨tmp.take 255 :: chunks, last, ?_, ?_, ?_, ?_, h5, ?_⟩
      · intro g
        rw [write_image_loop, if_pos hlen]
        simp only []
        rw [← hd, h1]
        have ht : (tmp.take 255).length = 255 := by simp; omega
        simp [write_byte_eq, write_bytes_eq, ht]
      · intro ch hch
        rcases List.mem_cons.1 hch with rfl | hch
        · simp; omega
        · exact h2 ch hch
      · simp only [List.flatten_cons, List.append_assoc, h3, List.take_append_drop]
      · simp only [List.length_cons]; omega
      · intro _; apply h6; omega
    · refine ⟨[], tmp, ?_, ?_, ?_, ?_, ?_, ?_⟩ <;>
        first | omega | simp [write_image_loop, hlen]

theorem write_compressed_spec (compr : List Nat) :
    ∃ (chunks : List (List Nat)) (last : List Nat),
      (∀ g : gif_writer, write_compressed g compr =
        { g with dst := g.dst ++ g.code_size ::
            (chunks.flatMap (fun ch => ch.length :: ch) ++ last.length :: (last ++ [0])) }) ∧
      (∀ ch ∈ chunks, ch.length = 255) ∧ chunks.flatten ++ last = compr ∧
      compr.length = 255 * chunks.length + last.length ∧
      last.length ≤ 255 ∧ (0 < compr.length → 0 < last.length) := by
  obtain ⟨chunks, last, h1, h2, h3, h4, h5, h6⟩ :=
    write_image_loop_spec compr.length compr (by omega)
  refine ⟨chunks, last, ?_, h2, h3, h4, h5, h6⟩
  intro g
  unfold write_compressed
  simp only [h1]
  have : last.length % 256 = last.length := by omega
  simp [write_byte_eq, write_bytes_eq, this]

theorem emitted_sub_blocks_nil (g : gif_writer) : emitted_sub_blocks g [] = [0, 0] := by
  simp [emitted_sub_blocks, write_compressed, write_image_loop, write_byte_eq, write_bytes_eq]

theorem emitted_sub_blocks_indep (g g' : gif_writer) (compr : List Nat) :
    emitted_sub_blocks g compr = emitted_sub_blocks g' compr := by
  obtain ⟨chunks, last, h1, -⟩ := write_compressed_spec compr
  simp [emitted_sub_blocks, h1]

/-- For a non-empty payload the writer emits a chain of chunks of length `1..255`. -/
theorem emitted_sub_blocks_chain (g : gif_writer) (compr : List Nat) (hL : 1 ≤ compr.length) :
    ∃ (chunks : List (List Nat)) (last : List Nat),
      emitted_sub_blocks g compr = chain (chunks ++ [last]) ∧
      (∀ ch ∈ chunks, ch.length = 255) ∧ chunks.flatten ++ last = compr ∧
      compr.length = 255 * chunks.length + last.length ∧
      1 ≤ last.length ∧ last.length ≤ 255 := by
  obtain ⟨chunks, last, h1, h2, h3, h4, h5, h6⟩ := write_compressed_spec compr
  refine ⟨chunks, last, ?_, h2, h3, h4, h6 hL, h5⟩
  simp [emitted_sub_blocks, h1, chain]

theorem write_compressed_eq (g : gif_writer) (compr : List Nat) :
    write_compressed g compr =
      { g with dst := g.dst ++ g.code_size :: emitted_sub_blocks g compr } := by
  obtain ⟨chunks, last, h1, -⟩ := write_compressed_spec compr
  simp [emitted_sub_blocks, h1]

/-! ## Writer: one push -/

/-- The bytes of a graphic control extension for `opts`. -/
theorem graphic_control_eq (g : gif_writer) (o : gif_opts) :
    graphic_control g o =
      { g with dst := g.dst ++
          [0x21, 0xf9, 0x04, o.flags, o.delay % 256, (o.delay / 256) % 256, o.trans_index,
            0x00] } := by
  simp [graphic_control, write_byte_eq, write_bytes_eq, WRITE2BYTES_eq, TAG_GRAPHIC_EXTENSION,
    TAG_GRAPHIC_CONTROL_LABEL]

theorem image_descriptor_eq (g : gif_writer) (l t w h : Nat) :
    image_descriptor g l t w h =
      { g with dst := g.dst ++
          [0x2c, l % 256, (l / 256) % 256, t % 256, (t / 256) % 256, w % 256, (w / 256) % 256,
            h % 256, (h / 256) % 256, 0] } := by
  simp [image_descriptor, write_byte_eq, write_bytes_eq, WRITE2BYTES_eq, TAG_IMAGE_DESCRIPTOR]

theorem quantize_dst (g : gif_writer) (d : List Nat) (w h : Nat) (img : List Nat) :
    quantize { g with dst := d } w h img = quantize g w h img := rfl

theorem gifw_push_eq (lzwc : Nat → List Nat → List Nat) (g : gif_writer)
    (opts : Option gif_opts) (l t w h : Nat) (img : List Nat) :
    gifw_push lzwc g opts l t w h img =
      { g with dst := g.dst ++
          ((match opts with
            | some o => [0x21, 0xf9, 0x04, o.flags, o.delay % 256, (o.delay / 256) % 256,
                o.trans_index, 0x00]
            | none => []) ++
          [0x2c, l % 256, (l / 256) % 256, t % 256, (t / 256) % 256, w % 256, (w / 256) % 256,
            h % 256, (h / 256) % 256, 0] ++
          g.code_size :: emitted_sub_blocks g (lzwc g.code_size (quantize g w h img))) } := by
  cases opts with
  | none =>
    simp only [gifw_push, write_image, image_descriptor_eq, write_compressed_eq, quantize_dst]
    rw [emitted_sub_blocks_indep _ g]
    simp
  | some o =>
    simp only [gifw_push, write_image, image_descriptor_eq, write_compressed_eq, quantize_dst,
      graphic_control_eq]
    rw [emitted_sub_blocks_indep _ g]
    simp

end

section

open Writer

theorem getD_lt_256 (l : List Nat) (h : ∀ x ∈ l, x < 256) (i : Nat) : l.getD i 0 < 256 := by
  rw [List.getD_eq_getElem?_getD]
  by_cases hi : i < l.length
  · rw [List.getElem?_eq_getElem hi]
    exact h _ (List.getElem_mem _)
  · rw [List.getElem?_eq_none (by omega)]
    decide

theorem sq_byte (a b : Nat) (ha : a < 256) (hb : b < 256) :
    ∃ s : Nat, Int.toNat ((((a : Int) - b) * ((a : Int) - b)) % 4294967296) = s ∧
      (s : Int) = ((a : Int) - b) ^ 2 ∧ s ≤ 65025 := by
  have h0 : (0 : Int) ≤ ((a : Int) - b) * ((a : Int) - b) := mul_self_nonneg _
  have h1 : ((a : Int) - b) * ((a : Int) - b) ≤ 65025 := by
    have hx : (a : Int) - b ≤ 255 := by omega
    have hy : -255 ≤ (a : Int) - b := by omega
    nlinarith
  have h2 : (((a : Int) - b) * ((a : Int) - b)) % 4294967296 = ((a : Int) - b) * ((a : Int) - b) :=
    Int.emod_eq_of_lt h0 (by omega)
  refine ⟨Int.toNat (((a : Int) - b) * ((a : Int) - b)), by rw [h2], ?_, ?_⟩
  · rw [Int.toNat_of_nonneg h0]; ring
  · omega

theorem calc_delta_exact (palette : List Nat) (r g b i : Nat) (hp : ∀ x ∈ palette, x < 256)
    (hr : r < 256) (hg : g < 256) (hb : b < 256) (hi : i < 256) :
    (calc_delta palette r g b i : Int) = sq_dist palette r g b i ∧
      calc_delta palette r g b i < 4294967296 := by
  obtain ⟨s1, e1, q1, b1⟩ := sq_byte _ r (getD_lt_256 palette hp (3 * i + 0)) hr
  obtain ⟨s2, e2, q2, b2⟩ := sq_byte _ g (getD_lt_256 palette hp (3 * i + 1)) hg
  obtain ⟨s3, e3, q3, b3⟩ := sq_byte _ b (getD_lt_256 palette hp (3 * i + 2)) hb
  have hm : (3 * i) % 4294967296 = 3 * i := by omega
  have hd : calc_delta palette r g b i = s1 + s2 + s3 := by
    simp only [calc_delta, hm, e1, e2, e3]
    omega
  rw [hd, sq_dist, ← q1, ← q2, ← q3]
  constructor
  · push_cast; ring
  · omega

theorem argmin_fold (d : Nat → Nat) (M : Nat) (hd : ∀ i, i < 256 → d i < M) :
    ∀ n, n ≤ 256 →
      (n = 0 → (List.range n).foldl
          (fun (res : Nat × Nat) i => if d i < res.1 then (d i, i % 256) else res) (M, 0)
            = (M, 0)) ∧
      (0 < n →
        ((List.range n).foldl
          (fun (res : Nat × Nat) i => if d i < res.1 then (d i, i % 256) else res) (M, 0)).2 < n ∧
        ((List.range n).foldl
          (fun (res : Nat × Nat) i => if d i < res.1 then (d i, i % 256) else res) (M, 0)).1 =
          d ((List.range n).foldl
          (fun (res : Nat × Nat) i => if d i < res.1 then (d i, i % 256) else res) (M, 0)).2 ∧
        (∀ j < n, ((List.range n).foldl
          (fun (res : Nat × Nat) i => if d i < res.1 then (d i, i % 256) else res) (M, 0)).1
            ≤ d j) ∧
        ∀ j < ((List.range n).foldl
          (fun (res : Nat × Nat) i => if d i < res.1 then (d i, i % 256) else res) (M, 0)).2,
          ((List.range n).foldl
          (fun (res : Nat × Nat) i => if d i < res.1 then (d i, i % 256) else res) (M, 0)).1
            < d j) := by
  intro n
  induction n with
  | zero => intro _; simp
  | succ n ih =>
    intro hn
    obtain ⟨ih0, ih1⟩ := ih (by omega)
    refine ⟨by omega, fun _ => ?_⟩
    rw [List.range_succ, List.foldl_append]
    simp only [List.foldl_cons, List.foldl_nil]
    have hnm : n % 256 = n := by omega
    rcases Nat.eq_zero_or_pos n with h0 | hpos
    · subst h0
      simp only [List.range_zero, List.foldl_nil, hd 0 (by decide), if_true]
      refine ⟨by decide, by first | rfl | trivial, ?_, ?_⟩
      · intro j hj; have : j = 0 := by omega
        subst this; exact le_refl _
      · intro j hj; simp at hj
    · obtain ⟨a1, a2, a3, a4⟩ := ih1 hpos
      generalize (List.range n).foldl
          (fun (res : Nat × Nat) i => if d i < res.1 then (d i, i % 256) else res) (M, 0) = st
        at a1 a2 a3 a4 ⊢
      by_cases hlt : d n < st.1
      · simp only [hlt, if_true, hnm]
        refine ⟨by omega, by first | rfl | trivial, ?_, ?_⟩
        · intro j hj
          rcases Nat.lt_succ_iff_lt_or_eq.1 hj with hj | rfl
          · have := a3 j hj; omega
          · exact le_refl _
        · intro j hj
          have := a3 j hj; omega
      · simp only [hlt, if_false]
        refine ⟨by omega, a2, ?_, a4⟩
        intro j hj
        rcases Nat.lt_succ_iff_lt_or_eq.1 hj with hj | rfl
        · exact a3 j hj
        · omega

end

section

open Reader

theorem strcmp_eq_zero_iff : ∀ (a b : List Nat), a.length = b.length → (∀ x ∈ b, x ≠ 0) →
    (strcmp (a ++ [0]) (b ++ [0]) = 0 ↔ a = b) := by
  intro a
  induction a with
  | nil =>
    intro b hl _
    have : b = [] := List.length_eq_zero.1 hl.symm
    subst this
    simp [strcmp]
  | cons x xs ih =>
    intro b hl hb
    cases b with
    | nil => simp at hl
    | cons y ys =>
      have hy : y ≠ 0 := hb y (List.mem_cons_self _ _)
      simp only [List.cons_append, strcmp]
      by_cases hxy : x = y
      · subst hxy
        simp only [ne_eq, not_true_eq_false, if_false, hy, List.cons.injEq, true_and]
        exact ih ys (by simpa using hl) (fun z hz => hb z (List.mem_cons_of_mem _ hz))
      · simp only [ne_eq, hxy, not_false_eq_true, if_true, List.cons.injEq, false_and,
          iff_false]
        omega

theorem header_eq (g : gif_reader) (h6 : 6 ≤ g.src.length) :
    (g.src.take 6 = [0x47, 0x49, 0x46, 0x38, 0x39, 0x61] →
      header g = some (0, { g with src := g.src.drop 6, version := gif_version.GIF_89a })) ∧
    (g.src.take 6 = [0x47, 0x49, 0x46, 0x38, 0x37, 0x61] →
      header g = some (0, { g with src := g.src.drop 6, version := gif_version.GIF_87a })) ∧
    (g.src.take 6 ≠ [0x47, 0x49, 0x46, 0x38, 0x39, 0x61] →
      g.src.take 6 ≠ [0x47, 0x49, 0x46, 0x38, 0x37, 0x61] →
      header g = some (-1, { g with src := g.src.drop 6 })) := by
  have hlen : (g.src.take 6).length = 6 := by simp; omega
  have e87 := strcmp_eq_zero_iff (g.src.take 6) [0x47, 0x49, 0x46, 0x38, 0x37, 0x61]
    (by simp [hlen]) (by decide)
  have e89 := strcmp_eq_zero_iff (g.src.take 6) [0x47, 0x49, 0x46, 0x38, 0x39, 0x61]
    (by simp [hlen]) (by decide)
  simp only [List.cons_append, List.nil_append] at e87 e89
  refine ⟨?_, ?_, ?_⟩
  · intro h89
    have c89 := e89.2 h89
    have c87 : ¬ strcmp (List.take 6 g.src ++ [0]) [71, 73, 70, 56, 55, 97, 0] = 0 := by
      intro h; have := e87.1 h; rw [h89] at this; revert this; decide
    simp only [header, advance_read, h6, if_true, c87, c89, if_false]
    simp
  · intro h87
    have c87 := e87.2 h87
    have c89 : ¬ strcmp (List.take 6 g.src ++ [0]) [71, 73, 70, 56, 57, 97, 0] = 0 := by
      intro h; have := e89.1 h; rw [h87] at this; revert this; decide
    simp only [header, advance_read, h6, if_true, c87, c89, if_false]
    simp
  · intro h89 h87
    have c87 : ¬ strcmp (List.take 6 g.src ++ [0]) [71, 73, 70, 56, 55, 97, 0] = 0 :=
      fun h => h87 (e87.1 h)
    have c89 : ¬ strcmp (List.take 6 g.src ++ [0]) [71, 73, 70, 56, 57, 97, 0] = 0 :=
      fun h => h89 (e89.1 h)
    simp only [header, advance_read, h6, if_true, c87, c89, if_false]

theorem logical_screen_ret (g : gif_reader) (r : Int) (g' : gif_reader)
    (h : logical_screen g = some (r, g')) : r = 0 ∧ g'.version = g.version := by
  unfold logical_screen at h
  split at h
  · simp at h
  · simp only [] at h
    split at h
    · split at h
      · simp at h
      · simp only [Option.some.injEq, Prod.mk.injEq] at h
        obtain ⟨h1, h2⟩ := h
        subst h2; exact ⟨h1.symm, rfl⟩
    · simp only [Option.some.injEq, Prod.mk.injEq] at h
      obtain ⟨h1, h2⟩ := h
      subst h2; exact ⟨h1.symm, rfl⟩

theorem count_images_loop_version : ∀ (fuel : Nat) (g g' : gif_reader),
    count_images_loop fuel g = some g' → g'.version = g.version := by
  intro fuel
  induction fuel with
  | zero => intro g g' h; simp [count_images_loop] at h
  | succ fuel ih =>
    intro g g' h
    unfold count_images_loop at h
    split at h
    · simp at h
    · simp only [] at h
      split at h
      · simp at h
      · split at h
        · have := ih _ _ h
          simpa using this
        · simp only [Option.some.injEq] at h
          subst h; rfl

theorem gifr_init_of_header (u : Uninit) (src : List Nat) (g1 : gif_reader)
    (hh : header (init_state u src) = some (0, g1)) :
    gifr_init u src = none ∨
      ∃ g, gifr_init u src = some (0, g) ∧ g.version = g1.version := by
  simp only [gifr_init, hh]
  cases hls : logical_screen g1 with
  | none => left; simp
  | some rg =>
    obtain ⟨r, g2⟩ := rg
    obtain ⟨hr, hv⟩ := logical_screen_ret _ _ _ hls
    subst hr
    simp only [ne_eq, not_true_eq_false, if_false]
    cases hc : count_images _ with
    | none => left; simp
    | some g3 =>
      right
      refine ⟨gifr_head g3, by simp, ?_⟩
      have := count_images_loop_version _ _ _ hc
      simp only [gifr_head, this, hv]

theorem gifr_init_cases (u : Uninit) (src : List Nat) (h6 : 6 ≤ src.length) :
    (src.take 6 ≠ [0x47, 0x49, 0x46, 0x38, 0x37, 0x61] →
      src.take 6 ≠ [0x47, 0x49, 0x46, 0x38, 0x39, 0x61] →
      ∃ g, gifr_init u src = some (-1, g)) ∧
    (src.take 6 = [0x47, 0x49, 0x46, 0x38, 0x37, 0x61] →
      gifr_init u src = none ∨
        ∃ g, gifr_init u src = some (0, g) ∧ g.version = gif_version.GIF_87a) ∧
    (src.take 6 = [0x47, 0x49, 0x46, 0x38, 0x39, 0x61] →
      gifr_init u src = none ∨
        ∃ g, gifr_init u src = some (0, g) ∧ g.version = gif_version.GIF_89a) := by
  obtain ⟨hh89, hh87, hhbad⟩ := header_eq (init_state u src) h6
  have hsrc : (init_state u src).src = src := rfl
  rw [hsrc] at hh89 hh87 hhbad
  refine ⟨?_, ?_, ?_⟩
  · intro h87 h89
    simp [gifr_init, hhbad h89 h87]
  · intro h87
    exact gifr_init_of_header u src _ (hh87 h87)
  · intro h89
    exact gifr_init_of_header u src _ (hh89 h89)

end

section

open Reader

/-! ## Reader: reading from a cursor -/

theorem advance_read_cons (x : Nat) (p : List Nat) :
    advance_read (x :: p) 1 = some ([x], p) := by
  simp [advance_read]

theorem advance_read_append (a p : List Nat) (n : Nat) (h : a.length = n) :
    advance_read (a ++ p) n = some (a, p) := by
  subst h
  simp [advance_read]

theorem chain_nil : chain [] = [0] := rfl

theorem chain_cons (ch : List Nat) (chunks : List (List Nat)) :
    chain (ch :: chunks) = ch.length :: (ch ++ chain chunks) := by
  simp [chain]

theorem skip_data_loop_chain : ∀ (chunks : List (List Nat)) (rest : List Nat) (fuel : Nat),
    (∀ ch ∈ chunks, 1 ≤ ch.length) → chunks.length < fuel →
    skip_data_loop fuel (chain chunks ++ rest) = some rest := by
  intro chunks
  induction chunks with
  | nil =>
    intro rest fuel _ hf
    obtain ⟨f, rfl⟩ : ∃ f, fuel = f + 1 := ⟨fuel - 1, by simp at hf; omega⟩
    simp [chain_nil, skip_data_loop, advance_read_cons, advance]
  | cons ch chunks ih =>
    intro rest fuel hch hf
    obtain ⟨f, rfl⟩ : ∃ f, fuel = f + 1 := ⟨fuel - 1, by simp at hf; omega⟩
    have h1 : 1 ≤ ch.length := hch ch (List.mem_cons_self _ _)
    have h0 : ch.length ≠ 0 := by omega
    rw [chain_cons]
    simp only [List.cons_append, skip_data_loop, advance_read_cons, List.getD_cons_zero, advance,
      List.append_assoc, List.drop_left, ne_eq, h0, not_false_eq_true, if_true]
    exact ih rest f (fun c hc => hch c (List.mem_cons_of_mem _ hc)) (by simp at hf; omega)

theorem chain_length (chunks : List (List Nat)) : chunks.length < (chain chunks).length := by
  induction chunks with
  | nil => simp [chain_nil]
  | cons ch chunks ih => rw [chain_cons]; simp; omega

theorem skip_data_chain (chunks : List (List Nat)) (rest : List Nat)
    (h : ∀ ch ∈ chunks, 1 ≤ ch.length) : skip_data (chain chunks ++ rest) = some rest := by
  unfold skip_data
  apply skip_data_loop_chain chunks rest _ h
  have := chain_length chunks
  simp; omega

theorem get_data_size_loop_chain : ∀ (chunks : List (List Nat)) (rest : List Nat)
    (fuel total : Nat), (∀ ch ∈ chunks, 1 ≤ ch.length) → chunks.length < fuel →
    get_data_size_loop fuel (chain chunks ++ rest) total =
      some (total + chunks.flatten.length) := by
  intro chunks
  induction chunks with
  | nil =>
    intro rest fuel total _ hf
    obtain ⟨f, rfl⟩ : ∃ f, fuel = f + 1 := ⟨fuel - 1, by simp at hf; omega⟩
    simp [chain_nil, get_data_size_loop]
  | cons ch chunks ih =>
    intro rest fuel total hch hf
    obtain ⟨f, rfl⟩ : ∃ f, fuel = f + 1 := ⟨fuel - 1, by simp at hf; omega⟩
    have h1 : 1 ≤ ch.length := hch ch (List.mem_cons_self _ _)
    have h0 : ch.length ≠ 0 := by omega
    rw [chain_cons]
    simp only [List.cons_append, get_data_size_loop, List.append_assoc, List.drop_left, ne_eq,
      h0, not_false_eq_true, if_true]
    rw [ih rest f _ (fun c hc => hch c (List.mem_cons_of_mem _ hc)) (by simp at hf; omega)]
    simp [Nat.add_assoc]

theorem decompress_image_loop_chain : ∀ (chunks : List (List Nat)) (rest : List Nat)
    (fuel : Nat) (acc : List Nat), (∀ ch ∈ chunks, 1 ≤ ch.length) → chunks.length < fuel →
    decompress_image_loop fuel (chain chunks ++ rest) acc =
      some (acc ++ chunks.flatten, rest) := by
  intro chunks
  induction chunks with
  | nil =>
    intro rest fuel acc _ hf
    obtain ⟨f, rfl⟩ : ∃ f, fuel = f + 1 := ⟨fuel - 1, by simp at hf; omega⟩
    simp [chain_nil, decompress_image_loop, advance_read_cons, advance_read]
  | cons ch chunks ih =>
    intro rest fuel acc hch hf
    obtain ⟨f, rfl⟩ : ∃ f, fuel = f + 1 := ⟨fuel - 1, by simp at hf; omega⟩
    have h1 : 1 ≤ ch.length := hch ch (List.mem_cons_self _ _)
    have h0 : ch.length ≠ 0 := by omega
    rw [chain_cons]
    simp only [List.cons_append, decompress_image_loop, advance_read_cons, List.getD_cons_zero,
      List.append_assoc, advance_read_append ch _ _ rfl, ne_eq, h0, not_false_eq_true, if_true]
    rw [ih rest f _ (fun c hc => hch c (List.mem_cons_of_mem _ hc)) (by simp at hf; omega)]
    simp

/-- What the reader finds in the sub-blocks the writer emitted for `compr`. -/
theorem reader_on_emitted (g : Writer.gif_writer) (compr rest : List Nat) :
    get_data_size (emitted_sub_blocks g compr ++ rest) =
      some (compr.length, emitted_sub_blocks g compr ++ rest) ∧
    decompress_image_loop ((emitted_sub_blocks g compr ++ rest).length + 1)
      (emitted_sub_blocks g compr ++ rest) [] =
      some (compr, if compr.length = 0 then 0 :: rest else rest) ∧
    skip_data (emitted_sub_blocks g compr ++ rest) =
      some (if compr.length = 0 then 0 :: rest else rest) := by
  rcases Nat.eq_zero_or_pos compr.length with h0 | hpos
  · have : compr = [] := List.length_eq_zero.1 h0
    subst this
    rw [emitted_sub_blocks_nil]
    simp [get_data_size, get_data_size_loop, decompress_image_loop, advance_read_cons,
      advance_read, skip_data, skip_data_loop, advance]
  · obtain ⟨chunks, last, h1, h2, h3, h4, h5, h6⟩ := emitted_sub_blocks_chain g compr hpos
    have hall : ∀ ch ∈ chunks ++ [last], 1 ≤ ch.length := by
      intro ch hch
      rcases List.mem_append.1 hch with h | h
      · rw [h2 ch h]; decide
      · simp at h; subst h; exact h5
    have hfl : (chunks ++ [last]).flatten = compr := by simpa using h3
    have hne : compr.length ≠ 0 := by omega
    have hlen := chain_length (chunks ++ [last])
    rw [h1]
    refine ⟨?_, ?_, ?_⟩
    · unfold get_data_size
      rw [get_data_size_loop_chain _ _ _ _ hall (by simp at hlen ⊢; omega)]
      simp [hfl]
    · rw [decompress_image_loop_chain _ _ _ _ hall (by simp at hlen ⊢; omega)]
      simp [hfl, hne]
    · rw [skip_data_chain _ _ hall]
      simp [hne]

end

section

open Reader

/-! ## The stream the writer produces -/

theorem frame_bytes_eq (lzwc : Nat → List Nat → List Nat) (g : Writer.gif_writer)
    (a : push_args) :
    frame_bytes lzwc g a =
      gce_bytes a.opts ++ descriptor_bytes a.left a.top a.width a.height ++
        g.code_size ::
          emitted_sub_blocks g (lzwc g.code_size (Writer.quantize g a.width a.height a.img)) := by
  rw [frame_bytes, gifw_push_eq]
  cases a.opts <;> simp [gce_bytes, descriptor_bytes]

theorem frame_bytes_dst (lzwc : Nat → List Nat → List Nat) (g : Writer.gif_writer)
    (d : List Nat) (a : push_args) :
    frame_bytes lzwc { g with dst := d } a = frame_bytes lzwc g a := by
  rw [frame_bytes_eq, frame_bytes_eq, quantize_dst, emitted_sub_blocks_indep _ g]

theorem gifw_push_frame (lzwc : Nat → List Nat → List Nat) (g : Writer.gif_writer)
    (a : push_args) :
    Writer.gifw_push lzwc g a.opts a.left a.top a.width a.height a.img =
      { g with dst := g.dst ++ frame_bytes lzwc g a } := by
  rw [frame_bytes_eq, gifw_push_eq]
  cases a.opts <;> simp [gce_bytes, descriptor_bytes]

theorem push_all_eq (lzwc : Nat → List Nat → List Nat) (pushes : List push_args) :
    ∀ g : Writer.gif_writer,
      push_all lzwc g pushes = { g with dst := g.dst ++ pushes.flatMap (frame_bytes lzwc g) } := by
  induction pushes with
  | nil => intro g; simp [push_all]
  | cons a pushes ih =>
    intro g
    have h := ih (Writer.gifw_push lzwc g a.opts a.left a.top a.width a.height a.img)
    simp only [push_all, List.foldl_cons] at h ⊢
    rw [h, gifw_push_frame]
    simp only [List.flatMap_cons, List.append_assoc]
    have hf : frame_bytes lzwc { g with dst := g.dst ++ frame_bytes lzwc g a } =
        frame_bytes lzwc g := funext (frame_bytes_dst lzwc g _)
    rw [hf]

theorem gif_stream_eq (lzwc : Nat → List Nat → List Nat) (c W H : Nat) (P : List Nat)
    (pushes : List push_args) (hc1 : 1 ≤ c) (hc8 : c ≤ 8)
    (hP : P.length = 3 * 2 ^ c) (hW : W < 65536) (hH : H < 65536) :
    gif_stream lzwc c P W H pushes =
      init_bytes c W H P ++
        (pushes.flatMap (frame_bytes lzwc (Writer.gifw_init c (some P) W H)) ++ [0x3b]) := by
  rw [gif_stream, push_all_eq]
  simp only [Writer.gifw_end, write_byte_eq]
  rw [gifw_init_eq c W H P hc1 hc8 hP hW hH]
  simp [TAG_TRAILER]

/-! ## Reader: the prescan over the writer's stream -/

theorem descriptor_bytes_eq (l t w h : Nat) :
    descriptor_bytes l t w h = 0x2c ::
      ([l % 256, (l / 256) % 256, t % 256, (t / 256) % 256, w % 256, (w / 256) % 256,
        h % 256, (h / 256) % 256, 0] ++ []) := rfl

theorem skip_section_image (l t w h cs : Nat) (E p p' : List Nat)
    (hE : skip_data (E ++ p) = some p') :
    skip_section
      ([l % 256, (l / 256) % 256, t % 256, (t / 256) % 256, w % 256, (w / 256) % 256,
        h % 256, (h / 256) % 256, 0] ++ cs :: (E ++ p)) 0x2c = some (0, p') := by
  simp [skip_section, TAG_IMAGE_DESCRIPTOR, TAG_GRAPHIC_EXTENSION, TAG_GRAPHIC_CONTROL_LABEL,
    TAG_COMMENT_LABEL, TAG_APPLICATION_LABEL, TAG_PLAIN_TEXT_LABEL,
    IMAGE_DESCRIPTOR_HEADER_SIZE, advance_read, advance, hE]

theorem skip_section_ext (p : List Nat) : skip_section p 33 = some (0, p) := by
  simp [skip_section, TAG_GRAPHIC_EXTENSION]

theorem skip_section_gce (p : List Nat) : skip_section p 249 = some (0, p.drop 6) := by
  simp [skip_section, TAG_GRAPHIC_EXTENSION, TAG_GRAPHIC_CONTROL_LABEL, skip_graphic_control,
    advance, GRAPHIC_CONTROL_HEADER_SIZE]

theorem skip_section_trailer (p : List Nat) : skip_section p 59 = some (-1, p) := by
  simp [skip_section, TAG_IMAGE_DESCRIPTOR, TAG_GRAPHIC_EXTENSION, TAG_GRAPHIC_CONTROL_LABEL,
    TAG_COMMENT_LABEL, TAG_APPLICATION_LABEL, TAG_PLAIN_TEXT_LABEL]

theorem skip_section_netscape (p : List Nat) :
    skip_section ([0x0b, 0x4e, 0x45, 0x54, 0x53, 0x43, 0x41, 0x50, 0x45, 0x32, 0x2e, 0x30,
      0x03, 0x01, 0x00, 0x00, 0x00] ++ p) 255 = some (0, p) := by
  simp [skip_section, TAG_GRAPHIC_EXTENSION, TAG_GRAPHIC_CONTROL_LABEL,
    TAG_COMMENT_LABEL, TAG_APPLICATION_LABEL, skip_application, advance,
    APPLICATION_HEADER_SIZE, skip_data, skip_data_loop, advance_read]

theorem count_images_loop_frame (lzwc : Nat → List Nat → List Nat) (wg : Writer.gif_writer)
    (a : push_args) (g : gif_reader) (rest : List Nat) (f : Nat)
    (hs : g.src = frame_bytes lzwc wg a ++ rest)
    (hL : 1 ≤ (lzwc wg.code_size (Writer.quantize wg a.width a.height a.img)).length) :
    count_images_loop (f + 3) g =
      count_images_loop (f + (if a.opts.isSome then 0 else 2))
        { g with src := rest, n_frames := (g.n_frames + 1) % 4294967296 } := by
  have hsk := (reader_on_emitted wg
    (lzwc wg.code_size (Writer.quantize wg a.width a.height a.img)) rest).2.2
  have hne : (lzwc wg.code_size (Writer.quantize wg a.width a.height a.img)).length ≠ 0 := by
    omega
  simp only [hne, if_false] at hsk
  rw [frame_bytes_eq] at hs
  have himg := skip_section_image a.left a.top a.width a.height wg.code_size _ rest rest hsk
  cases ho : a.opts with
  | none =>
    simp only [ho, gce_bytes, List.nil_append, descriptor_bytes, List.cons_append] at hs
    simp only [List.cons_append, List.nil_append] at himg
    simp only [Option.isSome_none, Bool.false_eq_true, if_false]
    rw [count_images_loop.eq_2, hs, advance_read_cons]
    simp only [List.getD_cons_zero, himg, if_true]
    simp [TAG_IMAGE_DESCRIPTOR, TAG_TRAILER]
  | some o =>
    simp only [ho, gce_bytes, descriptor_bytes, List.cons_append, List.nil_append] at hs
    simp only [List.cons_append, List.nil_append] at himg
    simp only [Option.isSome_some, if_true]
    rw [count_images_loop.eq_2, hs, advance_read_cons]
    simp only [List.getD_cons_zero]
    rw [skip_section_ext]
    simp only [TAG_IMAGE_DESCRIPTOR, TAG_TRAILER, Nat.reduceEqDiff, if_false, ne_eq,
      not_false_eq_true, if_true]
    rw [count_images_loop.eq_2]
    simp only [advance_read_cons, List.getD_cons_zero]
    rw [skip_section_gce]
    simp only [TAG_IMAGE_DESCRIPTOR, TAG_TRAILER, List.drop_succ_cons,
      List.drop_zero, Nat.reduceEqDiff, if_false, ne_eq, not_false_eq_true, if_true]
    rw [count_images_loop.eq_2]
    simp only [advance_read_cons, List.getD_cons_zero]
    rw [himg]
    simp [TAG_IMAGE_DESCRIPTOR, TAG_TRAILER]

theorem count_images_loop_trailer (g : gif_reader) (p : List Nat) (f : Nat)
    (hs : g.src = 0x3b :: p) :
    count_images_loop (f + 1) g = some { g with src := p } := by
  rw [count_images_loop.eq_2, hs, advance_read_cons]
  simp only [List.getD_cons_zero, skip_section_trailer]
  simp [TAG_IMAGE_DESCRIPTOR, TAG_TRAILER]

theorem count_images_loop_netscape (g : gif_reader) (p : List Nat) (f : Nat)
    (hs : g.src = netscape_bytes ++ p) :
    count_images_loop (f + 2) g = count_images_loop f { g with src := p } := by
  simp only [netscape_bytes, List.cons_append, List.nil_append] at hs
  rw [count_images_loop.eq_2, hs, advance_read_cons]
  simp only [List.getD_cons_zero, skip_section_ext]
  simp only [TAG_IMAGE_DESCRIPTOR, TAG_TRAILER, Nat.reduceEqDiff, if_false, ne_eq,
    not_false_eq_true, if_true]
  rw [count_images_loop.eq_2]
  simp only [advance_read_cons, List.getD_cons_zero]
  have h := skip_section_netscape p
  simp only [List.cons_append, List.nil_append] at h
  rw [h]
  simp [TAG_IMAGE_DESCRIPTOR, TAG_TRAILER]

theorem count_images_loop_frames (lzwc : Nat → List Nat → List Nat) (wg : Writer.gif_writer) :
    ∀ (pushes : List push_args) (g : gif_reader) (f : Nat) (tail : List Nat),
      g.src = pushes.flatMap (frame_bytes lzwc wg) ++ 0x3b :: tail →
      (∀ a ∈ pushes,
        1 ≤ (lzwc wg.code_size (Writer.quantize wg a.width a.height a.img)).length) →
      3 * pushes.length < f → g.n_frames < 4294967296 →
      count_images_loop f g =
        some { g with src := tail, n_frames := (g.n_frames + pushes.length) % 4294967296 } := by
  intro pushes
  induction pushes with
  | nil =>
    intro g f tail hs _ hf hn
    obtain ⟨f', rfl⟩ : ∃ f', f = f' + 1 := ⟨f - 1, by omega⟩
    simp only [List.flatMap_nil, List.nil_append] at hs
    rw [count_images_loop_trailer g tail f' hs]
    simp [Nat.mod_eq_of_lt hn]
  | cons a ps ih =>
    intro g f tail hs hL hf hn
    simp only [List.length_cons] at hf
    obtain ⟨f', rfl⟩ : ∃ f', f = f' + 3 := ⟨f - 3, by omega⟩
    simp only [List.flatMap_cons, List.append_assoc] at hs
    rw [count_images_loop_frame lzwc wg a g _ f' hs (hL a (List.mem_cons_self _ _))]
    rw [ih _ _ tail rfl (fun b hb => hL b (List.mem_cons_of_mem _ hb))
      (by split <;> omega) (Nat.mod_lt _ (by decide))]
    simp only [List.length_cons]
    congr 2
    omega

/-! ## Reader: `gifr_init` on the writer's stream -/

theorem READ2BYTES_cons (a b : Nat) (rest : List Nat) (ha : a < 256) (hb : b < 256) :
    READ2BYTES (a :: b :: rest) = a + 256 * b := by
  simp only [READ2BYTES, List.getD_cons_succ, List.getD_cons_zero]
  exact read2_eq a b ha hb

theorem flags_bit (c : Nat) (hc1 : 1 ≤ c) (hc8 : c ≤ 8) :
    (0x80 ||| (c - 1)) &&& 0x80 ≠ 0 ∧ 1 <<< (((0x80 ||| (c - 1)) &&& 0x07) + 1) = 2 ^ c := by
  interval_cases c <;> decide

theorem logical_screen_writer (g : gif_reader) (c W H : Nat) (P rest : List Nat)
    (hc1 : 1 ≤ c) (hc8 : c ≤ 8) (hP : P.length = 3 * 2 ^ c) (hW : W < 65536) (hH : H < 65536)
    (hs : g.src = [W % 256, W / 256, H % 256, H / 256, 0x80 ||| (c - 1), 0, 0] ++ (P ++ rest)) :
    logical_screen g = some (0, { g with
      src := rest, width := W, height := H, bg_color_index := 0, aspect := 0,
      n_colors := 2 ^ c, global_clut := P ++ g.global_clut.drop (3 * 2 ^ c),
      has_global_clut := 1 }) := by
  obtain ⟨hb, hn⟩ := flags_bit c hc1 hc8
  have hw : READ2BYTES [W % 256, W / 256, H % 256, H / 256, 0x80 ||| (c - 1), 0, 0] = W := by
    rw [READ2BYTES_cons _ _ _ (Nat.mod_lt _ (by decide)) (by omega)]; omega
  have hh : READ2BYTES [H % 256, H / 256, 0x80 ||| (c - 1), 0, 0] = H := by
    rw [READ2BYTES_cons _ _ _ (Nat.mod_lt _ (by decide)) (by omega)]; omega
  unfold logical_screen
  rw [hs, advance_read_append [W % 256, W / 256, H % 256, H / 256, 0x80 ||| (c - 1), 0, 0] _ 7 rfl]
  simp only [List.getD_cons_succ, List.getD_cons_zero, hb, ne_eq, not_false_eq_true, if_true,
    hn, List.drop_succ_cons, List.drop_zero, hw, hh]
  rw [advance_read_append P rest _ hP]

theorem frames_length (lzwc : Nat → List Nat → List Nat) (wg : Writer.gif_writer)
    (pushes : List push_args) :
    3 * pushes.length ≤ (pushes.flatMap (frame_bytes lzwc wg)).length := by
  induction pushes with
  | nil => simp
  | cons a ps ih =>
    simp only [List.flatMap_cons, List.length_append, List.length_cons, frame_bytes_eq,
      descriptor_bytes]
    omega

theorem init_bytes_eq (c W H : Nat) (P : List Nat) :
    init_bytes c W H P = [0x47, 0x49, 0x46, 0x38, 0x39, 0x61] ++
      ([W % 256, W / 256, H % 256, H / 256, 0x80 ||| (c - 1), 0, 0] ++ (P ++ netscape_bytes)) := by
  simp [init_bytes, netscape_bytes]

theorem init_state_src (u : Uninit) (s : List Nat) : (init_state u s).src = s := rfl

theorem gifr_init_steps (u : Uninit) (s : List Nat) (g1 g2 g3 : gif_reader)
    (h1 : header (init_state u s) = some (0, g1))
    (h2 : logical_screen g1 = some (0, g2))
    (h3 : count_images { g2 with
      image := (List.range ((g2.width * g2.height * 3) % 4294967296)).map u.image
      start := g2.src } = some g3) :
    gifr_init u s = some (0, gifr_head g3) := by
  unfold gifr_init
  simp only [h1, h2, ne_eq, not_true_eq_false, if_false, h3]

theorem gifr_init_stream (lzwc : Nat → List Nat → List Nat) (u : Uninit) (c W H : Nat)
    (P : List Nat) (pushes : List push_args) (hc1 : 1 ≤ c) (hc8 : c ≤ 8)
    (hP : P.length = 3 * 2 ^ c) (hW : W < 65536) (hH : H < 65536)
    (hL : ∀ a ∈ pushes, 1 ≤ (lzwc c (Writer.quantize (Writer.gifw_init c (some P) W H)
      a.width a.height a.img)).length) :
    gifr_init u (gif_stream lzwc c P W H pushes) =
      some (0, opened_reader u c W H P
        (netscape_bytes ++
          (pushes.flatMap (frame_bytes lzwc (Writer.gifw_init c (some P) W H)) ++ [0x3b]))
        (pushes.length % 4294967296)) := by
  have hcs : (Writer.gifw_init c (some P) W H).code_size = c := by
    rw [gifw_init_eq c W H P hc1 hc8 hP hW hH]
  rw [gif_stream_eq lzwc c W H P pushes hc1 hc8 hP hW hH, init_bytes_eq]
  generalize hfr : pushes.flatMap (frame_bytes lzwc (Writer.gifw_init c (some P) W H)) = frames
  have hlen := frames_length lzwc (Writer.gifw_init c (some P) W H) pushes
  rw [hfr] at hlen
  have h1 := (header_eq (init_state u
    ([0x47, 0x49, 0x46, 0x38, 0x39, 0x61] ++
      ([W % 256, W / 256, H % 256, H / 256, 0x80 ||| (c - 1), 0, 0] ++ (P ++ netscape_bytes)) ++
      (frames ++ [0x3b]))) (by simp [init_state_src])).1 (by simp [init_state_src])
  have h2 := logical_screen_writer _ c W H P (netscape_bytes ++ (frames ++ [0x3b])) hc1 hc8 hP hW hH
    (show ({ init_state u
    ([0x47, 0x49, 0x46, 0x38, 0x39, 0x61] ++
      ([W % 256, W / 256, H % 256, H / 256, 0x80 ||| (c - 1), 0, 0] ++ (P ++ netscape_bytes)) ++
      (frames ++ [0x3b])) with src := List.drop 6 (init_state u
    ([0x47, 0x49, 0x46, 0x38, 0x39, 0x61] ++
      ([W % 256, W / 256, H % 256, H / 256, 0x80 ||| (c - 1), 0, 0] ++ (P ++ netscape_bytes)) ++
      (frames ++ [0x3b]))).src, version := gif_version.GIF_89a } : gif_reader).src = _ from by
        simp [init_state_src])
  obtain ⟨f, hf⟩ : ∃ f, (netscape_bytes ++ (frames ++ [0x3b])).length + 1 = f + 2 :=
    ⟨(netscape_bytes ++ (frames ++ [0x3b])).length - 1, by simp [netscape_bytes]⟩
  rw [gifr_init_steps u _ _ _ _ h1 h2 (by
    unfold count_images
    simp only []
    rw [hf, count_images_loop_netscape _ (frames ++ [0x3b]) f rfl]
    rw [count_images_loop_frames lzwc (Writer.gifw_init c (some P) W H) pushes _ f []
      (by simp [hfr]) (by rw [hcs]; exact hL)
      (by simp [netscape_bytes] at hf; omega) (by show (0 : Nat) < 4294967296; decide)])]
  simp only [gifr_head, opened_reader, init_state, Nat.zero_add]

end

section

open Reader

/-! ## Reader: decoding the frames of the writer's stream -/

theorem READ2BYTES_le (v : Nat) (rest : List Nat) :
    READ2BYTES (v % 256 :: (v / 256) % 256 :: rest) = v % 65536 := by
  rw [READ2BYTES_cons _ _ _ (Nat.mod_lt _ (by decide)) (Nat.mod_lt _ (by decide))]
  omega

theorem graphic_control_writer (g : gif_reader) (o : gif_opts) (p : List Nat)
    (hs : g.src = [0x04, o.flags, o.delay % 256, (o.delay / 256) % 256, o.trans_index, 0x00] ++ p) :
    graphic_control g = some { apply_opts g (some o) with src := p } := by
  unfold graphic_control
  rw [hs, advance_read_append
    [0x04, o.flags, o.delay % 256, (o.delay / 256) % 256, o.trans_index, 0x00] p
    GRAPHIC_CONTROL_HEADER_SIZE rfl]
  simp only [List.getD_cons_succ, List.getD_cons_zero, List.drop_succ_cons, List.drop_zero,
    READ2BYTES_le, apply_opts]
  by_cases hb : o.flags &&& 0x01 ≠ 0
  · rw [if_pos hb, if_pos hb]
  · rw [if_neg hb, if_neg hb]

theorem parse_image_descriptor_writer (g : gif_reader) (l t w h : Nat) (p : List Nat)
    (hs : g.src = [l % 256, (l / 256) % 256, t % 256, (t / 256) % 256, w % 256, (w / 256) % 256,
        h % 256, (h / 256) % 256, 0] ++ p) :
    parse_image_descriptor g =
      some ({ g with src := p }, l % 65536, t % 65536, w % 65536, h % 65536) := by
  unfold parse_image_descriptor
  rw [hs, advance_read_append
    [l % 256, (l / 256) % 256, t % 256, (t / 256) % 256, w % 256, (w / 256) % 256,
        h % 256, (h / 256) % 256, 0] p IMAGE_DESCRIPTOR_HEADER_SIZE rfl]
  simp only [List.getD_cons_succ, List.getD_cons_zero, List.drop_succ_cons, List.drop_zero,
    READ2BYTES_le]
  simp

theorem decompress_image_writer (lzwd : Nat → List Nat → List Nat) (wg : Writer.gif_writer)
    (g : gif_reader) (cs : Nat) (compr rest : List Nat)
    (hs : g.src = cs :: (emitted_sub_blocks wg compr ++ rest)) :
    decompress_image lzwd g =
      some (0, { g with src := if compr.length = 0 then 0 :: rest else rest },
        lzwd cs compr) := by
  obtain ⟨h1, h2, -⟩ := reader_on_emitted wg compr rest
  unfold decompress_image
  rw [hs, advance_read_cons]
  simp only [List.getD_cons_zero, h1, h2]

theorem gif_next_process_image_writer (lzwc lzwd : Nat → List Nat → List Nat)
    (wg : Writer.gif_writer) (g : gif_reader) (a : push_args) (rest : List Nat)
    (hs : g.src = (descriptor_bytes a.left a.top a.width a.height).tail ++
      wg.code_size :: (emitted_sub_blocks wg
        (lzwc wg.code_size (Writer.quantize wg a.width a.height a.img)) ++ rest)) :
    gif_next_process_image lzwd g =
      some (1, frame_decoded lzwc lzwd wg g { a with opts := none }
        (if (lzwc wg.code_size (Writer.quantize wg a.width a.height a.img)).length = 0
          then 0 :: rest else rest)) := by
  unfold gif_next_process_image
  rw [parse_image_descriptor_writer g a.left a.top a.width a.height _ hs]
  simp only []
  rw [decompress_image_writer lzwd wg _ wg.code_size _ rest rfl]
  simp [frame_decoded, apply_opts]

theorem gifr_next_loop_frame (lzwc lzwd : Nat → List Nat → List Nat) (wg : Writer.gif_writer)
    (a : push_args) (g : gif_reader) (rest : List Nat) (f : Nat)
    (hs : g.src = frame_bytes lzwc wg a ++ rest) :
    gifr_next_loop lzwd (f + 3) g =
      some (1, frame_decoded lzwc lzwd wg g a
        (if (lzwc wg.code_size (Writer.quantize wg a.width a.height a.img)).length = 0
          then 0 :: rest else rest)) := by
  rw [frame_bytes_eq] at hs
  cases ho : a.opts with
  | none =>
    simp only [ho, gce_bytes, List.nil_append, descriptor_bytes, List.cons_append] at hs
    rw [gifr_next_loop.eq_2, hs, advance_read_cons]
    simp only [List.getD_cons_zero, TAG_GRAPHIC_CONTROL_LABEL, TAG_IMAGE_DESCRIPTOR,
      Nat.reduceEqDiff, if_false, if_true]
    rw [gif_next_process_image_writer lzwc lzwd wg _ a rest (by simp [descriptor_bytes])]
    simp [frame_decoded, apply_opts, ho]
  | some o =>
    simp only [ho, gce_bytes, descriptor_bytes, List.cons_append, List.nil_append] at hs
    rw [gifr_next_loop.eq_2, hs, advance_read_cons]
    simp only [List.getD_cons_zero, TAG_GRAPHIC_CONTROL_LABEL, TAG_IMAGE_DESCRIPTOR,
      Nat.reduceEqDiff, if_false, if_true, skip_section_ext, ne_eq, not_true_eq_false]
    rw [gifr_next_loop.eq_2]
    simp only [advance_read_cons, List.getD_cons_zero, TAG_GRAPHIC_CONTROL_LABEL, if_true]
    rw [graphic_control_writer _ o _ rfl]
    simp only []
    rw [gifr_next_loop.eq_2]
    simp only [advance_read_cons, List.getD_cons_zero, TAG_GRAPHIC_CONTROL_LABEL,
      TAG_IMAGE_DESCRIPTOR, Nat.reduceEqDiff, if_false, if_true]
    rw [gif_next_process_image_writer lzwc lzwd wg _ a rest (by simp [descriptor_bytes])]
    by_cases hb : o.flags % 2 = 1 <;> simp [frame_decoded, apply_opts, ho, hb]

theorem gifr_next_loop_trailer (lzwd : Nat → List Nat → List Nat) (g : gif_reader)
    (p : List Nat) (f : Nat) (hs : g.src = 0x3b :: p) :
    gifr_next_loop lzwd (f + 1) g = some (0, { g with src := p }) := by
  rw [gifr_next_loop.eq_2, hs, advance_read_cons]
  simp [TAG_GRAPHIC_CONTROL_LABEL, TAG_IMAGE_DESCRIPTOR, skip_section_trailer]

theorem gifr_next_loop_netscape (lzwd : Nat → List Nat → List Nat) (g : gif_reader)
    (p : List Nat) (f : Nat) (hs : g.src = netscape_bytes ++ p) :
    gifr_next_loop lzwd (f + 2) g = gifr_next_loop lzwd f { g with src := p } := by
  simp only [netscape_bytes, List.cons_append, List.nil_append] at hs
  rw [gifr_next_loop.eq_2, hs, advance_read_cons]
  simp only [List.getD_cons_zero, TAG_GRAPHIC_CONTROL_LABEL, TAG_IMAGE_DESCRIPTOR,
    Nat.reduceEqDiff, if_false, skip_section_ext, ne_eq, not_true_eq_false]
  rw [gifr_next_loop.eq_2]
  simp only [advance_read_cons, List.getD_cons_zero, TAG_GRAPHIC_CONTROL_LABEL,
    TAG_IMAGE_DESCRIPTOR, Nat.reduceEqDiff, if_false]
  have h := skip_section_netscape p
  simp only [List.cons_append, List.nil_append] at h
  rw [h]
  simp

theorem write_image_src (g : gif_reader) (l t w h len : Nat) (img : List Nat) :
    (write_image g l t w h len img).src = g.src := by
  unfold write_image
  by_cases h : g.has_trans ≠ 0
  · simp only []; rw [if_pos h]
  · simp only []; rw [if_neg h]

theorem frame_decoded_src (lzwc lzwd : Nat → List Nat → List Nat) (wg : Writer.gif_writer)
    (g : gif_reader) (a : push_args) (rest : List Nat) :
    (frame_decoded lzwc lzwd wg g a rest).src = rest := by
  simp [frame_decoded, write_image_src]

/-- One call of the decoding loop at the head of the frames of the writer. -/
theorem gifr_next_loop_frames (lzwc lzwd : Nat → List Nat → List Nat) (wg : Writer.gif_writer)
    (hL : ∀ cs d, 1 ≤ (lzwc cs d).length) (pushes : List push_args) (g : gif_reader)
    (tail : List Nat) (f : Nat)
    (hs : g.src = pushes.flatMap (frame_bytes lzwc wg) ++ 0x3b :: tail)
    (hf : 3 ≤ f ∨ (pushes = [] ∧ 1 ≤ f)) :
    ∃ r g1, gifr_next_loop lzwd f g = some (r, g1) ∧
      ((pushes = [] ∧ r = 0) ∨
        ∃ a ps, pushes = a :: ps ∧ r = 1 ∧
          g1 = frame_decoded lzwc lzwd wg g a (ps.flatMap (frame_bytes lzwc wg) ++ 0x3b :: tail)) := by
  cases pushes with
  | nil =>
    obtain ⟨f', rfl⟩ : ∃ f', f = f' + 1 := ⟨f - 1, by omega⟩
    simp only [List.flatMap_nil, List.nil_append] at hs
    exact ⟨0, _, gifr_next_loop_trailer lzwd g tail f' hs, Or.inl ⟨rfl, rfl⟩⟩
  | cons a ps =>
    obtain ⟨f', rfl⟩ : ∃ f', f = f' + 3 := ⟨f - 3, by
      rcases hf with h | ⟨h, -⟩
      · omega
      · simp at h⟩
    simp only [List.flatMap_cons, List.append_assoc] at hs
    have hne : (lzwc wg.code_size (Writer.quantize wg a.width a.height a.img)).length ≠ 0 := by
      have := hL wg.code_size (Writer.quantize wg a.width a.height a.img); omega
    have h := gifr_next_loop_frame lzwc lzwd wg a g _ f' hs
    simp only [hne, if_false] at h
    exact ⟨1, _, h, Or.inr ⟨a, ps, rfl, rfl, rfl⟩⟩

theorem gifr_next_n_frames (lzwc lzwd : Nat → List Nat → List Nat) (wg : Writer.gif_writer)
    (hL : ∀ cs d, 1 ≤ (lzwc cs d).length) :
    ∀ (pushes : List push_args) (g : gif_reader) (tail : List Nat),
      g.src = pushes.flatMap (frame_bytes lzwc wg) ++ 0x3b :: tail →
      ∃ g', gifr_next_n lzwd (pushes.length + 1) g =
        some (List.replicate pushes.length 1 ++ [0], g') := by
  intro pushes
  induction pushes with
  | nil =>
    intro g tail hs
    obtain ⟨r, g1, h1, h2⟩ := gifr_next_loop_frames lzwc lzwd wg hL [] g tail (g.src.length + 1) hs
      (Or.inr ⟨rfl, by omega⟩)
    rcases h2 with ⟨-, rfl⟩ | ⟨a, ps, h, -⟩
    · exact ⟨g1, by simp [gifr_next_n, gifr_next, h1]⟩
    · simp at h
  | cons a ps ih =>
    intro g tail hs
    have hlen : 3 ≤ g.src.length + 1 := by
      rw [hs]; simp only [List.flatMap_cons, frame_bytes_eq, descriptor_bytes,
        List.length_append, List.length_cons]; omega
    obtain ⟨r, g1, h1, h2⟩ := gifr_next_loop_frames lzwc lzwd wg hL (a :: ps) g tail
      (g.src.length + 1) hs (Or.inl hlen)
    rcases h2 with ⟨h, -⟩ | ⟨a', ps', h, rfl, hg⟩
    · simp at h
    · simp only [List.cons.injEq] at h
      obtain ⟨rfl, rfl⟩ := h
      obtain ⟨g', hg'⟩ := ih g1 tail (by rw [hg, frame_decoded_src])
      refine ⟨g', ?_⟩
      rw [List.length_cons, gifr_next_n, gifr_next, h1]
      simp only [hg', List.replicate_succ, List.cons_append]

theorem gifr_next_n_stream (lzwc lzwd : Nat → List Nat → List Nat) (wg : Writer.gif_writer)
    (hL : ∀ cs d, 1 ≤ (lzwc cs d).length) (pushes : List push_args) (g : gif_reader)
    (tail : List Nat)
    (hs : g.src = netscape_bytes ++ (pushes.flatMap (frame_bytes lzwc wg) ++ 0x3b :: tail)) :
    ∃ g', gifr_next_n lzwd (pushes.length + 1) g =
      some (List.replicate pushes.length 1 ++ [0], g') := by
  obtain ⟨f, hf⟩ : ∃ f, g.src.length + 1 = f + 2 ∧ 3 ≤ f := ⟨g.src.length - 1, by
    rw [hs]; simp [netscape_bytes]⟩
  have hn : gifr_next lzwd g = gifr_next_loop lzwd f
      { g with src := pushes.flatMap (frame_bytes lzwc wg) ++ 0x3b :: tail } := by
    rw [gifr_next, hf.1, gifr_next_loop_netscape lzwd g _ f hs]
  obtain ⟨r, g1, h1, h2⟩ := gifr_next_loop_frames lzwc lzwd wg hL pushes
    { g with src := pushes.flatMap (frame_bytes lzwc wg) ++ 0x3b :: tail } tail f rfl
    (Or.inl hf.2)
  rcases h2 with ⟨rfl, rfl⟩ | ⟨a, ps, rfl, rfl, hg⟩
  · refine ⟨g1, ?_⟩
    rw [List.length_nil, gifr_next_n, hn, h1]
    rfl
  · obtain ⟨g', hg'⟩ := gifr_next_n_frames lzwc lzwd wg hL ps g1 tail
      (by rw [hg, frame_decoded_src])
    refine ⟨g', ?_⟩
    rw [List.length_cons, gifr_next_n, hn, h1]
    simp only [hg', List.replicate_succ, List.cons_append]

end

section

open Reader

/-! ## Reader: compositing -/

theorem set3_getElem? (image : List Nat) (dst a b c q : Nat) :
    (((image.set dst a).set (dst + 1) b).set (dst + 2) c)[q]? =
      if q < image.length then
        (if q = dst then some a else if q = dst + 1 then some b
          else if q = dst + 2 then some c else image[q]?)
      else none := by
  simp only [List.getElem?_set, List.length_set]
  by_cases hq : q < image.length
  · simp only [hq, if_true]
    by_cases h0 : q = dst
    · subst h0; simp [hq]
    · by_cases h1 : q = dst + 1
      · subst h1
        have : dst + 1 < image.length := hq
        simp [this]
      · by_cases h2 : q = dst + 2
        · subst h2; simp [hq]
        · have e0 : ¬ dst = q := fun h => h0 h.symm
          have e1 : ¬ dst + 1 = q := fun h => h1 h.symm
          have e2 : ¬ dst + 2 = q := fun h => h2 h.symm
          simp [h0, h1, h2, e0, e1, e2]
  · have hn : image[q]? = none := List.getElem?_eq_none (by omega)
    simp only [hq, if_false, hn]
    split_ifs <;> first | rfl | omega

theorem write_row_length (pal img : List Nat) : ∀ (w src dst : Nat) (image : List Nat),
    (write_row pal img w src dst image).length = image.length := by
  intro w
  induction w with
  | zero => intro src dst image; rfl
  | succ w ih =>
    intro src dst image
    simp only [write_row, ih, List.length_set]

theorem write_row_trans_length (pal : List Nat) (ti : Nat) (img : List Nat) :
    ∀ (w src dst : Nat) (image : List Nat),
    (write_row_trans pal ti img w src dst image).length = image.length := by
  intro w
  induction w with
  | zero => intro src dst image; rfl
  | succ w ih =>
    intro src dst image
    simp only [write_row_trans]
    split <;> simp only [ih, List.length_set]

theorem write_row_getElem? (pal img : List Nat) : ∀ (w src dst : Nat) (image : List Nat) (q : Nat),
    (write_row pal img w src dst image)[q]? =
      if dst ≤ q ∧ q < dst + 3 * w ∧ q < image.length then
        some (pal.getD (img.getD (src + (q - dst) / 3) 0 * 3 + (q - dst) % 3) 0)
      else image[q]? := by
  intro w
  induction w with
  | zero =>
    intro src dst image q
    have : ¬ (dst ≤ q ∧ q < dst + 3 * 0 ∧ q < image.length) := by omega
    simp only [write_row, this, if_false]
  | succ w ih =>
    intro src dst image q
    simp only [write_row]
    rw [ih, set3_getElem?]
    simp only [List.length_set]
    by_cases hq : q < image.length
    · by_cases h3 : dst + 3 ≤ q
      · by_cases hw : q < dst + 3 + 3 * w
        · have c1 : dst + 3 ≤ q ∧ q < dst + 3 + 3 * w ∧ q < image.length := ⟨h3, hw, hq⟩
          have c2 : dst ≤ q ∧ q < dst + 3 * (w + 1) ∧ q < image.length := ⟨by omega, by omega, hq⟩
          rw [if_pos c1, if_pos c2]
          have e1 : src + 1 + (q - (dst + 3)) / 3 = src + (q - dst) / 3 := by omega
          have e2 : (q - (dst + 3)) % 3 = (q - dst) % 3 := by omega
          rw [e1, e2]
        · have c1 : ¬ (dst + 3 ≤ q ∧ q < dst + 3 + 3 * w ∧ q < image.length) := by omega
          have c2 : ¬ (dst ≤ q ∧ q < dst + 3 * (w + 1) ∧ q < image.length) := by omega
          rw [if_neg c1, if_neg c2, if_pos hq]
          rw [if_neg (by omega), if_neg (by omega), if_neg (by omega)]
      · have c1 : ¬ (dst + 3 ≤ q ∧ q < dst + 3 + 3 * w ∧ q < image.length) := by omega
        rw [if_neg c1, if_pos hq]
        by_cases hd : dst ≤ q
        · have c2 : dst ≤ q ∧ q < dst + 3 * (w + 1) ∧ q < image.length := ⟨hd, by omega, hq⟩
          rw [if_pos c2]
          have e1 : (q - dst) / 3 = 0 := by omega
          rw [e1]
          by_cases h0 : q = dst
          · subst h0; simp
          · by_cases h1 : q = dst + 1
            · subst h1; simp
            · have h2 : q = dst + 2 := by omega
              subst h2; simp
        · have c2 : ¬ (dst ≤ q ∧ q < dst + 3 * (w + 1) ∧ q < image.length) := by omega
          rw [if_neg c2, if_neg (by omega), if_neg (by omega), if_neg (by omega)]
    · have c1 : ¬ (dst + 3 ≤ q ∧ q < dst + 3 + 3 * w ∧ q < image.length) := by omega
      have c2 : ¬ (dst ≤ q ∧ q < dst + 3 * (w + 1) ∧ q < image.length) := by omega
      rw [if_neg c1, if_neg c2, if_neg hq]
      exact (List.getElem?_eq_none (by omega)).symm

theorem write_row_trans_getElem? (pal : List Nat) (ti : Nat) (img : List Nat) :
    ∀ (w src dst : Nat) (image : List Nat) (q : Nat),
    (write_row_trans pal ti img w src dst image)[q]? =
      if dst ≤ q ∧ q < dst + 3 * w ∧ q < image.length ∧
          img.getD (src + (q - dst) / 3) 0 ≠ ti then
        some (pal.getD (img.getD (src + (q - dst) / 3) 0 * 3 + (q - dst) % 3) 0)
      else image[q]? := by
  intro w
  induction w with
  | zero =>
    intro src dst image q
    have : ¬ (dst ≤ q ∧ q < dst + 3 * 0 ∧ q < image.length ∧
        img.getD (src + (q - dst) / 3) 0 ≠ ti) := by omega
    simp only [write_row_trans, this, if_false]
  | succ w ih =>
    intro src dst image q
    by_cases h3 : dst + 3 ≤ q
    · -- the pixel written first is before `q`
      have e1 : src + 1 + (q - (dst + 3)) / 3 = src + (q - dst) / 3 := by omega
      have e2 : (q - (dst + 3)) % 3 = (q - dst) % 3 := by omega
      have hcond : (dst + 3 ≤ q ∧ q < dst + 3 + 3 * w ∧ q < image.length ∧
          img.getD (src + (q - dst) / 3) 0 ≠ ti) ↔
          (dst ≤ q ∧ q < dst + 3 * (w + 1) ∧ q < image.length ∧
          img.getD (src + (q - dst) / 3) 0 ≠ ti) := by
        constructor
        · rintro ⟨a, b, c, d⟩; exact ⟨by omega, by omega, c, d⟩
        · rintro ⟨a, b, c, d⟩; exact ⟨h3, by omega, c, d⟩
      simp only [write_row_trans]
      split
      · rw [ih, set3_getElem?]
        simp only [List.length_set, e1, e2]
        by_cases hc : dst ≤ q ∧ q < dst + 3 * (w + 1) ∧ q < image.length ∧
            img.getD (src + (q - dst) / 3) 0 ≠ ti
        · rw [if_pos (hcond.2 hc), if_pos hc]
        · rw [if_neg (fun h => hc (hcond.1 h)), if_neg hc]
          by_cases hq : q < image.length
          · rw [if_pos hq, if_neg (by omega), if_neg (by omega), if_neg (by omega)]
          · rw [if_neg hq]; exact (List.getElem?_eq_none (by omega)).symm
      · rw [ih]
        simp only [e1, e2]
        by_cases hc : dst ≤ q ∧ q < dst + 3 * (w + 1) ∧ q < image.length ∧
            img.getD (src + (q - dst) / 3) 0 ≠ ti
        · rw [if_pos (hcond.2 hc), if_pos hc]
        · rw [if_neg (fun h => hc (hcond.1 h)), if_neg hc]
    · -- `q` is not after the pixel written first
      have hz : (q - dst) / 3 = 0 := by omega
      simp only [write_row_trans]
      split
      · rename_i hne
        rw [ih, set3_getElem?]
        simp only [List.length_set]
        have c1 : ¬ (dst + 3 ≤ q ∧ q < dst + 3 + 3 * w ∧ q < image.length ∧
            img.getD (src + 1 + (q - (dst + 3)) / 3) 0 ≠ ti) := fun h => h3 h.1
        rw [if_neg c1]
        by_cases hq : q < image.length
        · rw [if_pos hq]
          by_cases hd : dst ≤ q
          · have c2 : dst ≤ q ∧ q < dst + 3 * (w + 1) ∧ q < image.length ∧
                img.getD (src + (q - dst) / 3) 0 ≠ ti := ⟨hd, by omega, hq, by rw [hz]; exact hne⟩
            rw [if_pos c2, hz]
            by_cases h0 : q = dst
            · subst h0; simp
            · by_cases h1 : q = dst + 1
              · subst h1; simp
              · have h2 : q = dst + 2 := by omega
                subst h2; simp
          · have c2 : ¬ (dst ≤ q ∧ q < dst + 3 * (w + 1) ∧ q < image.length ∧
                img.getD (src + (q - dst) / 3) 0 ≠ ti) := fun h => hd h.1
            rw [if_neg c2, if_neg (by omega), if_neg (by omega), if_neg (by omega)]
        · have c2 : ¬ (dst ≤ q ∧ q < dst + 3 * (w + 1) ∧ q < image.length ∧
              img.getD (src + (q - dst) / 3) 0 ≠ ti) := fun h => hq h.2.2.1
          rw [if_neg hq, if_neg c2]
          exact (List.getElem?_eq_none (by omega)).symm
      · rename_i heq
        rw [ih]
        have c1 : ¬ (dst + 3 ≤ q ∧ q < dst + 3 + 3 * w ∧ q < image.length ∧
            img.getD (src + 1 + (q - (dst + 3)) / 3) 0 ≠ ti) := fun h => h3 h.1
        have c2 : ¬ (dst ≤ q ∧ q < dst + 3 * (w + 1) ∧ q < image.length ∧
            img.getD (src + (q - dst) / 3) 0 ≠ ti) := by
          rintro ⟨_, _, _, d⟩
          rw [hz] at d
          exact heq d
        rw [if_neg c1, if_neg c2]

/-- Rows written one after the other into disjoint ranges of the canvas. -/
theorem fold_rows (R : Nat → List Nat → List Nat) (D : Nat → Nat) (w : Nat)
    (opq : Nat → Nat → Prop) [∀ i c, Decidable (opq i c)] (val : Nat → Nat → Nat)
    (hlen : ∀ i image, (R i image).length = image.length)
    (hR : ∀ i image q, (R i image)[q]? =
      if D i ≤ q ∧ q < D i + 3 * w ∧ q < image.length ∧ opq i ((q - D i) / 3) then
        some (val i (q - D i)) else image[q]?)
    (image : List Nat) :
    ∀ n, (∀ i j, i < j → j < n → D i + 3 * w ≤ D j) →
      ((List.range n).foldl (fun im i => R i im) image).length = image.length ∧
      (∀ i, i < n → ∀ q, D i ≤ q → q < D i + 3 * w →
        ((List.range n).foldl (fun im i => R i im) image)[q]? =
          if q < image.length ∧ opq i ((q - D i) / 3) then some (val i (q - D i))
          else image[q]?) ∧
      (∀ q, (∀ i, i < n → ¬ (D i ≤ q ∧ q < D i + 3 * w)) →
        ((List.range n).foldl (fun im i => R i im) image)[q]? = image[q]?) := by
  intro n
  induction n with
  | zero =>
    intro _
    refine ⟨rfl, ?_, ?_⟩
    · intro i hi; omega
    · intro q _; rfl
  | succ n ih =>
    intro hdisj
    obtain ⟨ihl, iha, ihb⟩ := ih (fun i j hij hj => hdisj i j hij (by omega))
    rw [List.range_succ, List.foldl_append]
    simp only [List.foldl_cons, List.foldl_nil]
    refine ⟨by rw [hlen, ihl], ?_, ?_⟩
    · intro i hi q hq1 hq2
      rw [hR, ihl]
      rcases Nat.lt_succ_iff_lt_or_eq.1 hi with hlt | rfl
      · have hd := hdisj i n hlt (by omega)
        have c : ¬ (D n ≤ q ∧ q < D n + 3 * w ∧ q < image.length ∧ opq n ((q - D n) / 3)) := by
          intro h; omega
        rw [if_neg c]
        exact iha i hlt q hq1 hq2
      · have hb := ihb q (fun j hj h => by have := hdisj j i hj (by omega); omega)
        by_cases c : q < image.length ∧ opq i ((q - D i) / 3)
        · rw [if_pos ⟨hq1, hq2, c.1, c.2⟩, if_pos c]
        · rw [if_neg (fun h => c ⟨h.2.2.1, h.2.2.2⟩), if_neg c, hb]
    · intro q hq
      rw [hR, ihl]
      have c : ¬ (D n ≤ q ∧ q < D n + 3 * w ∧ q < image.length ∧ opq n ((q - D n) / 3)) :=
        fun h => hq n (by omega) ⟨h.1, h.2.1⟩
      rw [if_neg c]
      exact ihb q (fun i hi => hq i (by omega))

theorem row_offsets (gw gh left top width height i : Nat)
    (hx : left + width ≤ gw) (hy : top + height ≤ gh)
    (hsz : gw * gh * 3 < 4294967296) (hi : i < height) (hw : 0 < width) :
    row_src width i = i * width ∧
      row_dst gw left top i = 3 * ((i + top) * gw + left) ∧
      3 * ((i + top) * gw + left) + 3 * width ≤ gw * gh * 3 := by
  have h1 : (i + top) * gw + gw ≤ gh * gw := by
    have : (i + top + 1) * gw ≤ gh * gw := Nat.mul_le_mul_right gw (by omega)
    rw [Nat.add_mul, Nat.one_mul] at this
    exact this
  have h2 : gh * gw = gw * gh := Nat.mul_comm _ _
  have h3 : i * width ≤ (i + top) * gw :=
    Nat.mul_le_mul (by omega) (by omega)
  have hgw : 0 < gw := by omega
  have hgh : gh ≤ gh * gw := Nat.le_mul_of_pos_right gh hgw
  refine ⟨?_, ?_, ?_⟩
  · rw [row_src]; exact Nat.mod_eq_of_lt (by omega)
  · rw [row_dst, Nat.mod_eq_of_lt (a := i + top) (by omega),
      Nat.mod_eq_of_lt (a := (i + top) * gw) (by omega),
      Nat.mod_eq_of_lt (a := (i + top) * gw + left) (by omega)]
    exact Nat.mod_eq_of_lt (by omega)
  · omega

theorem write_image_image (g : gif_reader) (l t w h len : Nat) (img : List Nat) :
    (write_image g l t w h len img).image =
      if g.has_trans ≠ 0 then
        (List.range h).foldl (fun im i =>
          write_row_trans (active_table g) g.trans_index img w (row_src w i)
            (row_dst g.width l t i) im) g.image
      else
        (List.range h).foldl (fun im i =>
          write_row (active_table g) img w (row_src w i) (row_dst g.width l t i) im) g.image := by
  unfold write_image active_table
  by_cases h : g.has_trans ≠ 0
  · simp only []; rw [if_pos h, if_pos h]
  · simp only []; rw [if_neg h, if_neg h]

theorem foldl_length_preserved (R : Nat → List Nat → List Nat)
    (hlen : ∀ i image, (R i image).length = image.length) :
    ∀ (l : List Nat) (image : List Nat),
      (l.foldl (fun im i => R i im) image).length = image.length := by
  intro l
  induction l with
  | nil => intro image; rfl
  | cons i l ih => intro image; rw [List.foldl_cons, ih, hlen]

theorem write_image_length (g : gif_reader) (l t w h len : Nat) (img : List Nat) :
    (write_image g l t w h len img).image.length = g.image.length := by
  rw [write_image_image]
  split
  · exact foldl_length_preserved (fun i im => write_row_trans (active_table g) g.trans_index img w
      (row_src w i) (row_dst g.width l t i) im)
      (fun i im => write_row_trans_length _ _ _ _ _ _ _) _ _
  · exact foldl_length_preserved (fun i im => write_row (active_table g) img w
      (row_src w i) (row_dst g.width l t i) im)
      (fun i im => write_row_length _ _ _ _ _ _) _ _

/-- The compositing rule holds when the frame lies inside the canvas and the byte size of
the canvas fits in 32 bits. -/
theorem write_image_pixels (g : gif_reader) (left top width height len : Nat) (img : List Nat)
    (hx : left + width ≤ g.width) (hy : top + height ≤ g.height)
    (hsz : g.width * g.height * 3 < 4294967296)
    (hcan : g.image.length = g.width * g.height * 3) :
    compositing_holds g left top width height img
      (write_image g left top width height len img).image := by
  intro row hrow col hcol k hk
  have hw : 0 < width := by omega
  have hoff := fun i (hi : i < height) =>
    row_offsets g.width g.height left top width height i hx hy hsz hi hw
  have hdisj : ∀ i j, i < j → j < height →
      row_dst g.width left top i + 3 * width ≤ row_dst g.width left top j := by
    intro i j hij hj
    rw [(hoff i (by omega)).2.1, (hoff j hj).2.1]
    have : (i + top) * g.width + g.width ≤ (j + top) * g.width := by
      have : (i + top + 1) * g.width ≤ (j + top) * g.width :=
        Nat.mul_le_mul_right g.width (by omega)
      rw [Nat.add_mul, Nat.one_mul] at this
      exact this
    omega
  obtain ⟨hs, hd, hb⟩ := hoff row hrow
  have hq1 : row_dst g.width left top row ≤ 3 * ((row + top) * g.width + (col + left)) + k := by
    rw [hd]; omega
  have hq2 : 3 * ((row + top) * g.width + (col + left)) + k <
      row_dst g.width left top row + 3 * width := by
    rw [hd]; omega
  have hqlen : 3 * ((row + top) * g.width + (col + left)) + k < g.image.length := by
    rw [hcan]; omega
  have e1 : (3 * ((row + top) * g.width + (col + left)) + k - row_dst g.width left top row) / 3
      = col := by
    rw [hd]; omega
  have e2 : (3 * ((row + top) * g.width + (col + left)) + k - row_dst g.width left top row) % 3
      = k := by
    rw [hd]; omega
  rw [write_image_image]
  by_cases ht : g.has_trans ≠ 0
  · rw [if_pos ht]
    have h := (fold_rows (fun i im => write_row_trans (active_table g) g.trans_index img width
      (row_src width i) (row_dst g.width left top i) im) (row_dst g.width left top) width
      (fun i c => img.getD (row_src width i + c) 0 ≠ g.trans_index)
      (fun i d => (active_table g).getD (img.getD (row_src width i + d / 3) 0 * 3 + d % 3) 0)
      (fun i im => write_row_trans_length _ _ _ _ _ _ _)
      (fun i im q => write_row_trans_getElem? _ _ _ _ _ _ _ _) g.image height hdisj).2.1
      row hrow _ hq1 hq2
    rw [h, e1, e2, hs]
    by_cases hti : img.getD (row * width + col) 0 = g.trans_index
    · rw [if_neg (fun hc => hc.2 hti), if_pos ⟨ht, hti⟩]
    · rw [if_pos ⟨hqlen, hti⟩, if_neg (fun hc => hti hc.2)]
  · rw [if_neg ht]
    have h := (fold_rows (fun i im => write_row (active_table g) img width
      (row_src width i) (row_dst g.width left top i) im) (row_dst g.width left top) width
      (fun _ _ => True)
      (fun i d => (active_table g).getD (img.getD (row_src width i + d / 3) 0 * 3 + d % 3) 0)
      (fun i im => write_row_length _ _ _ _ _ _)
      (fun i im q => by
        rw [write_row_getElem?]
        simp only [and_true]) g.image height hdisj).2.1
      row hrow _ hq1 hq2
    rw [h, e1, e2, hs]
    rw [if_pos ⟨hqlen, trivial⟩, if_neg (fun hc => ht hc.1)]

theorem opened_reader_image_length (u : Uninit) (c W H : Nat) (P body : List Nat) (n : Nat) :
    (opened_reader u c W H P body n).image.length = (W * H * 3) % 4294967296 := by
  simp only [opened_reader, List.length_map, List.length_range]

end

section

open Reader

/-! ## Decoding a frame of the writer: the canvas -/

theorem calc_delta_lt (palette : List Nat) (r g b i : Nat) :
    Writer.calc_delta palette r g b i < 4294967296 := by
  unfold Writer.calc_delta
  exact Nat.mod_lt _ (by decide)

theorem calc_color_lt (gw : Writer.gif_writer) (r g b : Nat)
    (hn1 : 1 ≤ gw.n_colors) (hn : gw.n_colors ≤ 256) :
    Writer.calc_color gw r g b < gw.n_colors := by
  have hM : ∀ i, i < 256 → Writer.calc_delta gw.palette r g b i < 18446744073709551615 := by
    intro i _; have := calc_delta_lt gw.palette r g b i; omega
  exact ((argmin_fold (Writer.calc_delta gw.palette r g b) _ hM gw.n_colors hn).2 (by omega)).1

theorem quantize_getD_lt (gw : Writer.gif_writer) (w h : Nat) (img : List Nat) (i : Nat)
    (hn1 : 1 ≤ gw.n_colors) (hn : gw.n_colors ≤ 256) :
    (Writer.quantize gw w h img).getD i 0 < gw.n_colors := by
  rw [List.getD_eq_getElem?_getD]
  by_cases hi : i < (Writer.quantize gw w h img).length
  · rw [List.getElem?_eq_getElem hi]
    have hmem := List.getElem_mem hi
    simp only [Writer.quantize, List.mem_flatMap, List.mem_map] at hmem
    obtain ⟨_, _, _, _, he⟩ := hmem
    simp only [Option.getD_some]
    have he' : (Writer.quantize gw w h img)[i] = Writer.calc_color gw _ _ _ := he.symm
    rw [he']
    exact calc_color_lt gw _ _ _ hn1 hn
  · rw [List.getElem?_eq_none (by omega)]
    exact hn1

theorem apply_opts_fields (g : gif_reader) (opts : Option gif_opts) :
    (apply_opts g opts).width = g.width ∧ (apply_opts g opts).height = g.height ∧
    (apply_opts g opts).image = g.image ∧ (apply_opts g opts).global_clut = g.global_clut ∧
    (apply_opts g opts).local_clut = g.local_clut ∧
    (apply_opts g opts).has_local_clut = g.has_local_clut := by
  cases opts with
  | none => exact ⟨rfl, rfl, rfl, rfl, rfl, rfl⟩
  | some o =>
    simp only [apply_opts]
    by_cases hb : o.flags &&& 0x01 ≠ 0
    · rw [if_pos hb]; exact ⟨rfl, rfl, rfl, rfl, rfl, rfl⟩
    · rw [if_neg hb]; exact ⟨rfl, rfl, rfl, rfl, rfl, rfl⟩

theorem write_image_fields (g : gif_reader) (l t w h len : Nat) (img : List Nat) :
    (write_image g l t w h len img).width = g.width ∧
    (write_image g l t w h len img).height = g.height ∧
    (write_image g l t w h len img).global_clut = g.global_clut ∧
    (write_image g l t w h len img).local_clut = g.local_clut ∧
    (write_image g l t w h len img).has_local_clut = g.has_local_clut ∧
    (write_image g l t w h len img).has_trans = g.has_trans ∧
    (write_image g l t w h len img).trans_index = g.trans_index := by
  unfold write_image
  by_cases h : g.has_trans ≠ 0
  · simp only []; rw [if_pos h]; exact ⟨rfl, rfl, rfl, rfl, rfl, rfl, rfl⟩
  · simp only []; rw [if_neg h]; exact ⟨rfl, rfl, rfl, rfl, rfl, rfl, rfl⟩

/-- The canvas after a frame of the writer has been decoded, for a lossless coder, a frame
inside the canvas and a canvas whose byte size fits in 32 bits. -/
theorem frame_decoded_pixels (lzwc lzwd : Nat → List Nat → List Nat)
    (wg : Writer.gif_writer) (g : gif_reader) (a : push_args) (rest : List Nat)
    (hinv : ∀ cs d, lzwd cs (lzwc cs d) = d)
    (hx : a.left + a.width ≤ g.width) (hy : a.top + a.height ≤ g.height)
    (hgw : g.width ≤ 65535) (hgh : g.height ≤ 65535)
    (hsz : g.width * g.height * 3 < 4294967296)
    (hcan : g.image.length = g.width * g.height * 3) :
    compositing_holds { apply_opts g a.opts with src := rest } a.left a.top a.width a.height
      (Writer.quantize wg a.width a.height a.img)
      (frame_decoded lzwc lzwd wg g a rest).image := by
  obtain ⟨f1, f2, f3, -⟩ := apply_opts_fields g a.opts
  have e1 : a.left % 65536 = a.left := by omega
  have e2 : a.top % 65536 = a.top := by omega
  have e3 : a.width % 65536 = a.width := by omega
  have e4 : a.height % 65536 = a.height := by omega
  unfold frame_decoded
  simp only [hinv, e1, e2, e3, e4]
  exact write_image_pixels { apply_opts g a.opts with src := rest } a.left a.top a.width
    a.height _ _ (by simpa [f1] using hx) (by simpa [f2] using hy)
    (by simpa [f1, f2] using hsz) (by simpa [f1, f2, f3] using hcan)

theorem frame_decoded_fields (lzwc lzwd : Nat → List Nat → List Nat)
    (wg : Writer.gif_writer) (g : gif_reader) (a : push_args) (rest : List Nat) :
    (frame_decoded lzwc lzwd wg g a rest).width = g.width ∧
    (frame_decoded lzwc lzwd wg g a rest).height = g.height ∧
    (frame_decoded lzwc lzwd wg g a rest).image.length = g.image.length ∧
    (frame_decoded lzwc lzwd wg g a rest).global_clut = g.global_clut ∧
    (frame_decoded lzwc lzwd wg g a rest).has_local_clut = g.has_local_clut ∧
    (frame_decoded lzwc lzwd wg g a rest).has_trans = (apply_opts g a.opts).has_trans ∧
    (frame_decoded lzwc lzwd wg g a rest).trans_index = (apply_opts g a.opts).trans_index := by
  obtain ⟨f1, f2, f3, f4, f5, f6⟩ := apply_opts_fields g a.opts
  unfold frame_decoded
  simp only []
  obtain ⟨w1, w2, w3, w4, w5, w6, w7⟩ := write_image_fields
    { apply_opts g a.opts with src := rest } (a.left % 65536) (a.top % 65536)
    (a.width % 65536) (a.height % 65536)
    (lzwd wg.code_size (lzwc wg.code_size (Writer.quantize wg a.width a.height a.img))).length
    (lzwd wg.code_size (lzwc wg.code_size (Writer.quantize wg a.width a.height a.img)))
  refine ⟨by rw [w1]; exact f1, by rw [w2]; exact f2, ?_, by rw [w3]; exact f4,
    by rw [w5]; exact f6, by rw [w6], by rw [w7]⟩
  rw [write_image_length]
  exact congrArg List.length f3

theorem frame_decoded_src_irrel (lzwc lzwd : Nat → List Nat → List Nat)
    (wg : Writer.gif_writer) (g : gif_reader) (a : push_args) (p rest : List Nat) :
    frame_decoded lzwc lzwd wg { g with src := p } a rest =
      frame_decoded lzwc lzwd wg g a rest := by
  unfold frame_decoded
  cases a.opts with
  | none => rfl
  | some o =>
    simp only [apply_opts]
    by_cases hb : o.flags &&& 0x01 ≠ 0
    · rw [if_pos hb, if_pos hb]
    · rw [if_neg hb, if_neg hb]

/-- One call of `gifr_next` at the head of a frame of the writer. -/
theorem gifr_next_frame (lzwc lzwd : Nat → List Nat → List Nat) (wg : Writer.gif_writer)
    (a : push_args) (g : gif_reader) (rest : List Nat)
    (hs : g.src = frame_bytes lzwc wg a ++ rest)
    (hL : 1 ≤ (lzwc wg.code_size (Writer.quantize wg a.width a.height a.img)).length) :
    gifr_next lzwd g = some (1, frame_decoded lzwc lzwd wg g a rest) := by
  obtain ⟨f, hf⟩ : ∃ f, g.src.length + 1 = f + 3 := ⟨g.src.length - 2, by
    rw [hs, frame_bytes_eq]
    simp only [descriptor_bytes, List.length_append, List.length_cons]; omega⟩
  rw [gifr_next, hf, gifr_next_loop_frame lzwc lzwd wg a g rest f hs, if_neg (by omega)]

/-- The first call of `gifr_next` after `gifr_init`: the loop extension is skipped. -/
theorem gifr_next_first_frame (lzwc lzwd : Nat → List Nat → List Nat) (wg : Writer.gif_writer)
    (a : push_args) (g : gif_reader) (rest : List Nat)
    (hs : g.src = netscape_bytes ++ (frame_bytes lzwc wg a ++ rest))
    (hL : 1 ≤ (lzwc wg.code_size (Writer.quantize wg a.width a.height a.img)).length) :
    gifr_next lzwd g = some (1, frame_decoded lzwc lzwd wg g a rest) := by
  obtain ⟨f, hf⟩ : ∃ f, g.src.length + 1 = f + 3 + 2 := ⟨g.src.length - 4, by
    rw [hs]; simp [netscape_bytes]⟩
  rw [gifr_next, hf, gifr_next_loop_netscape lzwd g _ (f + 3) hs,
    gifr_next_loop_frame lzwc lzwd wg a _ rest f rfl, if_neg (by omega),
    frame_decoded_src_irrel]

end

section

open Reader

/-! ## Two frames, the second with a transparent index -/

theorem getD_append_palette (P X : List Nat) (i : Nat) (h : i < P.length) :
    (P ++ X).getD i 0 = P.getD i 0 := by
  rw [List.getD_eq_getElem?_getD, List.getD_eq_getElem?_getD, List.getElem?_append_left h]

theorem gifw_init_fields (c W H : Nat) (P : List Nat) (hc1 : 1 ≤ c) (hc8 : c ≤ 8)
    (hP : P.length = 3 * 2 ^ c) (hW : W < 65536) (hH : H < 65536) :
    (Writer.gifw_init c (some P) W H).code_size = c ∧
    (Writer.gifw_init c (some P) W H).n_colors = 2 ^ c ∧
    1 ≤ (Writer.gifw_init c (some P) W H).n_colors ∧
    (Writer.gifw_init c (some P) W H).n_colors ≤ 256 := by
  rw [gifw_init_eq c W H P hc1 hc8 hP hW hH]
  refine ⟨rfl, rfl, ?_, ?_⟩
  · exact Nat.one_le_two_pow
  · show 2 ^ c ≤ 256
    interval_cases c <;> decide

theorem transparency_after_two (lzwc lzwd : Nat → List Nat → List Nat) (u : Uninit)
    (c : Nat) (P : List Nat) (W H l t w h : Nat) (imgA imgB : List Nat) (o : gif_opts)
    (hc1 : 1 ≤ c) (hc8 : c ≤ 8) (hP : P.length = 3 * 2 ^ c)
    (hW : W ≤ 65535) (hH : H ≤ 65535) (hsz : W * H * 3 < 4294967296)
    (hx : l + w ≤ W) (hy : t + h ≤ H)
    (hinv : ∀ cs d, lzwd cs (lzwc cs d) = d) (hL : ∀ cs d, 1 ≤ (lzwc cs d).length)
    (hbit : o.flags &&& 0x01 ≠ 0) :
    ∃ g0 g2,
      gifr_init u (gif_stream lzwc c P W H
        [⟨none, l, t, w, h, imgA⟩, ⟨some o, l, t, w, h, imgB⟩]) = some (0, g0) ∧
      gifr_next_n lzwd 2 g0 = some ([1, 1], g2) ∧
      ∀ row, row < h → ∀ col, col < w → ∀ k, k < 3 →
        g2.image[3 * ((row + t) * W + (col + l)) + k]? =
          if (Writer.quantize (Writer.gifw_init c (some P) W H) w h imgB).getD (row * w + col) 0
              = o.trans_index then
            some (P.getD ((Writer.quantize (Writer.gifw_init c (some P) W H) w h imgA).getD
              (row * w + col) 0 * 3 + k) 0)
          else
            some (P.getD ((Writer.quantize (Writer.gifw_init c (some P) W H) w h imgB).getD
              (row * w + col) 0 * 3 + k) 0) := by
  obtain ⟨wcs, wn, wn1, wn256⟩ := gifw_init_fields c W H P hc1 hc8 hP (by omega) (by omega)
  have hi := gifr_init_stream lzwc u c W H P
    [⟨none, l, t, w, h, imgA⟩, ⟨some o, l, t, w, h, imgB⟩] hc1 hc8 hP (by omega) (by omega)
    (fun a _ => hL _ _)
  simp only [List.flatMap_cons, List.flatMap_nil, List.append_nil, List.append_assoc] at hi
  generalize hwg : Writer.gifw_init c (some P) W H = wg at *
  generalize hg0 : opened_reader u c W H P
    (netscape_bytes ++ (frame_bytes lzwc wg ⟨none, l, t, w, h, imgA⟩ ++
      (frame_bytes lzwc wg ⟨some o, l, t, w, h, imgB⟩ ++ [0x3b])))
    ([(⟨none, l, t, w, h, imgA⟩ : push_args), ⟨some o, l, t, w, h, imgB⟩].length % 4294967296)
    = g0 at hi
  have g0w : g0.width = W := by rw [← hg0]; rfl
  have g0h : g0.height = H := by rw [← hg0]; rfl
  have g0t : g0.has_trans = 0 := by rw [← hg0]; rfl
  have g0l : g0.has_local_clut = 0 := by rw [← hg0]; rfl
  have g0c : g0.global_clut = P ++ ((List.range (3 * 256)).map u.global_clut).drop (3 * 2 ^ c) := by
    rw [← hg0]; rfl
  have g0i : g0.image.length = W * H * 3 := by
    rw [← hg0, opened_reader_image_length, Nat.mod_eq_of_lt hsz]
  have g0s : g0.src = netscape_bytes ++ (frame_bytes lzwc wg ⟨none, l, t, w, h, imgA⟩ ++
      (frame_bytes lzwc wg ⟨some o, l, t, w, h, imgB⟩ ++ [0x3b])) := by rw [← hg0]; rfl
  -- the two calls of `gifr_next`
  have n1 := gifr_next_first_frame lzwc lzwd wg ⟨none, l, t, w, h, imgA⟩ g0 _ g0s (hL _ _)
  generalize hg1 : frame_decoded lzwc lzwd wg g0 ⟨none, l, t, w, h, imgA⟩
    (frame_bytes lzwc wg ⟨some o, l, t, w, h, imgB⟩ ++ [0x3b]) = g1 at n1
  have g1s : g1.src = frame_bytes lzwc wg ⟨some o, l, t, w, h, imgB⟩ ++ [0x3b] := by
    rw [← hg1, frame_decoded_src]
  have n2 := gifr_next_frame lzwc lzwd wg ⟨some o, l, t, w, h, imgB⟩ g1 _ g1s (hL _ _)
  obtain ⟨a1, a2, a3, a4, a5, a6, a7⟩ := frame_decoded_fields lzwc lzwd wg g0
    ⟨none, l, t, w, h, imgA⟩ (frame_bytes lzwc wg ⟨some o, l, t, w, h, imgB⟩ ++ [0x3b])
  rw [hg1] at a1 a2 a3 a4 a5 a6 a7
  -- the pixels after the first frame
  have cA := frame_decoded_pixels lzwc lzwd wg g0 ⟨none, l, t, w, h, imgA⟩
    (frame_bytes lzwc wg ⟨some o, l, t, w, h, imgB⟩ ++ [0x3b]) hinv
    (by rw [g0w]; exact hx) (by rw [g0h]; exact hy) (by rw [g0w]; exact hW)
    (by rw [g0h]; exact hH) (by rw [g0w, g0h]; exact hsz) (by rw [g0w, g0h]; exact g0i)
  rw [hg1] at cA
  -- the pixels after the second frame
  have cB := frame_decoded_pixels lzwc lzwd wg g1 ⟨some o, l, t, w, h, imgB⟩ [0x3b] hinv
    (by rw [a1, g0w]; exact hx) (by rw [a2, g0h]; exact hy) (by rw [a1, g0w]; exact hW)
    (by rw [a2, g0h]; exact hH) (by rw [a1, a2, g0w, g0h]; exact hsz)
    (by rw [a1, a2, a3, g0w, g0h]; exact g0i)
  generalize hg2 : frame_decoded lzwc lzwd wg g1 ⟨some o, l, t, w, h, imgB⟩ [0x3b] = g2
    at n2 cB
  refine ⟨g0, g2, hi, ?_, ?_⟩
  · simp only [gifr_next_n, n1, n2]
  · intro row hrow col hcol k hk
    have hA := cA row hrow col hcol k hk
    have hB := cB row hrow col hcol k hk
    simp only [apply_opts, if_pos hbit] at hA hB
    have tA : active_table
        ({ g0 with src := frame_bytes lzwc wg ⟨some o, l, t, w, h, imgB⟩ ++ [0x3b] } : gif_reader)
        = g0.global_clut := by
      simp only [active_table]
      rw [if_neg (by rw [g0l]; decide)]
    have tB : active_table
        ({ g1 with
          src := [0x3b]
          dispose := some (choose_disposal ((o.flags &&& 0x1c) >>> 2))
          delay := o.delay % 65536, has_trans := 1, trans_index := o.trans_index } : gif_reader)
        = g0.global_clut := by
      simp only [active_table]
      rw [if_neg (by rw [a5, g0l]; decide), a4]
    have iA := quantize_getD_lt wg w h imgA (row * w + col) wn1 wn256
    have iB := quantize_getD_lt wg w h imgB (row * w + col) wn1 wn256
    rw [wn] at iA iB
    rw [tA, g0c, getD_append_palette P _ _ (by rw [hP]; omega)] at hA
    rw [tB, g0c, getD_append_palette P _ _ (by rw [hP]; omega)] at hB
    simp only [g0w, g0t, a1] at hA hB
    rw [hB]
    by_cases hti : (Writer.quantize wg w h imgB).getD (row * w + col) 0 = o.trans_index
    · rw [if_pos ⟨by decide, hti⟩, if_pos hti, hA, if_neg (fun hc => hc.1 rfl)]
    · rw [if_neg (fun hc => hti hc.2), if_neg hti]

/-! ## One frame -/

/-- The stream with one pushed frame: `gifr_init` succeeds and the first `gifr_next`
returns 1, leaving the canvas with as many bytes as `gifr_init` allocated. -/
theorem single_frame_decoded (lzwc lzwd : Nat → List Nat → List Nat) (u : Uninit)
    (c : Nat) (P : List Nat) (W H : Nat) (a : push_args)
    (hc1 : 1 ≤ c) (hc8 : c ≤ 8) (hP : P.length = 3 * 2 ^ c)
    (hW : W ≤ 65535) (hH : H ≤ 65535) (hL : ∀ cs d, 1 ≤ (lzwc cs d).length) :
    gifr_init u (gif_stream lzwc c P W H [a]) =
      some (0, opened_reader u c W H P
        (netscape_bytes ++ (frame_bytes lzwc (Writer.gifw_init c (some P) W H) a ++ [0x3b])) 1) ∧
    gifr_next lzwd (opened_reader u c W H P
        (netscape_bytes ++ (frame_bytes lzwc (Writer.gifw_init c (some P) W H) a ++ [0x3b])) 1) =
      some (1, frame_decoded lzwc lzwd (Writer.gifw_init c (some P) W H)
        (opened_reader u c W H P
          (netscape_bytes ++ (frame_bytes lzwc (Writer.gifw_init c (some P) W H) a ++ [0x3b])) 1)
        a [0x3b]) ∧
    (frame_decoded lzwc lzwd (Writer.gifw_init c (some P) W H)
        (opened_reader u c W H P
          (netscape_bytes ++ (frame_bytes lzwc (Writer.gifw_init c (some P) W H) a ++ [0x3b])) 1)
        a [0x3b]).image.length = (W * H * 3) % 4294967296 := by
  have hi := gifr_init_stream lzwc u c W H P [a] hc1 hc8 hP (by omega) (by omega)
    (fun a _ => hL _ _)
  simp only [List.flatMap_cons, List.flatMap_nil, List.append_nil, List.length_singleton,
    Nat.one_mod] at hi
  generalize hwg : Writer.gifw_init c (some P) W H = wg at *
  refine ⟨hi, ?_, ?_⟩
  · exact gifr_next_first_frame lzwc lzwd wg a _ [0x3b] rfl (hL _ _)
  · rw [(frame_decoded_fields lzwc lzwd wg _ a [0x3b]).2.2.1, opened_reader_image_length]

end

section

open Reader

/-! ## One frame without options on a canvas below 2^32 bytes: the round trip -/

theorem range_flatMap_length {α : Type} (f : Nat → Nat → α) (w : Nat) :
    ∀ h, ((List.range h).flatMap fun i => (List.range w).map (f i)).length = h * w := by
  intro h
  induction h with
  | zero => simp
  | succ h ih =>
    rw [List.range_succ, List.flatMap_append, List.length_append, ih]
    simp [Nat.succ_mul]

theorem range_flatMap_getElem? {α : Type} (f : Nat → Nat → α) (w : Nat) :
    ∀ h row col, row < h → col < w →
      ((List.range h).flatMap fun i => (List.range w).map (f i))[row * w + col]? =
        some (f row col) := by
  intro h
  induction h with
  | zero => intro row col hr; omega
  | succ h ih =>
    intro row col hr hc
    rw [List.range_succ, List.flatMap_append]
    rcases Nat.lt_succ_iff_lt_or_eq.1 hr with hlt | rfl
    · have hb : row * w + col < h * w := by
        have : (row + 1) * w ≤ h * w := Nat.mul_le_mul_right w hlt
        rw [Nat.succ_mul] at this
        omega
      rw [List.getElem?_append_left (by rw [range_flatMap_length]; exact hb)]
      exact ih row col hlt hc
    · rw [List.getElem?_append_right (by rw [range_flatMap_length]; omega),
        range_flatMap_length]
      simp [hc]

/-- The index `write_image` of the writer stores for the pixel in row `row` and column
`col`. -/
theorem quantize_getD (gw : Writer.gif_writer) (w h : Nat) (img : List Nat) (row col : Nat)
    (hr : row < h) (hc : col < w) (hsz : w * h < 4294967296) :
    (Writer.quantize gw w h img).getD (row * w + col) 0 =
      Writer.calc_color gw (img.getD (3 * (row * w + col) + 0) 0)
        (img.getD (3 * (row * w + col) + 1) 0) (img.getD (3 * (row * w + col) + 2) 0) := by
  have hb : row * w + col < w * h := by
    have : (row + 1) * w ≤ h * w := Nat.mul_le_mul_right w hr
    rw [Nat.succ_mul] at this
    rw [Nat.mul_comm w h]
    omega
  have hm : (row * w + col) % 4294967296 = row * w + col := Nat.mod_eq_of_lt (by omega)
  rw [List.getD_eq_getElem?_getD]
  unfold Writer.quantize
  rw [range_flatMap_getElem? _ w h row col hr hc]
  simp only [Option.getD_some, hm]

theorem three_sq_zero (a b c : Int) (h : a ^ 2 + b ^ 2 + c ^ 2 = 0) :
    a = 0 ∧ b = 0 ∧ c = 0 := by
  have ha := sq_nonneg a
  have hb := sq_nonneg b
  have hc := sq_nonneg c
  have ha0 : a ^ 2 = 0 := by linarith
  have hb0 : b ^ 2 = 0 := by linarith
  have hc0 : c ^ 2 = 0 := by linarith
  exact ⟨(pow_eq_zero_iff two_ne_zero).1 ha0, (pow_eq_zero_iff two_ne_zero).1 hb0,
    (pow_eq_zero_iff two_ne_zero).1 hc0⟩

/-- A pixel whose colour is an entry of the palette is quantised to an entry of that very
colour. -/
theorem calc_color_exact (gw : Writer.gif_writer) (r g b : Nat)
    (hn1 : 1 ≤ gw.n_colors) (hn : gw.n_colors ≤ 256) (hp : ∀ x ∈ gw.palette, x < 256)
    (hr : r < 256) (hg : g < 256) (hb : b < 256) (j : Nat) (hj : j < gw.n_colors)
    (e0 : gw.palette.getD (3 * j + 0) 0 = r) (e1 : gw.palette.getD (3 * j + 1) 0 = g)
    (e2 : gw.palette.getD (3 * j + 2) 0 = b) :
    gw.palette.getD (3 * Writer.calc_color gw r g b + 0) 0 = r ∧
    gw.palette.getD (3 * Writer.calc_color gw r g b + 1) 0 = g ∧
    gw.palette.getD (3 * Writer.calc_color gw r g b + 2) 0 = b := by
  have hex := fun i hi => calc_delta_exact gw.palette r g b i hp hr hg hb hi
  have hM : ∀ i, i < 256 → Writer.calc_delta gw.palette r g b i < 18446744073709551615 := by
    intro i hi; have := (hex i hi).2; omega
  obtain ⟨-, h⟩ := argmin_fold (Writer.calc_delta gw.palette r g b) _ hM gw.n_colors hn
  obtain ⟨a1, a2, a3, -⟩ := h (by omega)
  have hk : Writer.calc_color gw r g b = ((List.range gw.n_colors).foldl
      (fun (res : Nat × Nat) i =>
        if Writer.calc_delta gw.palette r g b i < res.1 then
          (Writer.calc_delta gw.palette r g b i, i % 256)
        else res) (18446744073709551615, 0)).2 := rfl
  rw [← hk] at a1 a2
  have hle : Writer.calc_delta gw.palette r g b (Writer.calc_color gw r g b) ≤
      Writer.calc_delta gw.palette r g b j := by
    rw [← a2]; exact a3 j hj
  have hj0 : sq_dist gw.palette r g b j = 0 := by
    simp only [sq_dist, e0, e1, e2]; ring
  have hdj : Writer.calc_delta gw.palette r g b j = 0 := by
    have := (hex j (by omega)).1
    rw [hj0] at this
    exact_mod_cast this
  have hc0 : sq_dist gw.palette r g b (Writer.calc_color gw r g b) = 0 := by
    rw [← (hex _ (by omega)).1]
    have : Writer.calc_delta gw.palette r g b (Writer.calc_color gw r g b) = 0 := by omega
    rw [this]; rfl
  simp only [sq_dist] at hc0
  generalize gw.palette.getD (3 * Writer.calc_color gw r g b + 0) 0 = x at hc0 ⊢
  generalize gw.palette.getD (3 * Writer.calc_color gw r g b + 1) 0 = y at hc0 ⊢
  generalize gw.palette.getD (3 * Writer.calc_color gw r g b + 2) 0 = z at hc0 ⊢
  obtain ⟨hx, hy, hz⟩ := three_sq_zero _ _ _ hc0
  omega

/-! ### The prescan of `gifr_init` does not need a non-empty payload -/

theorem skip_section_zero (p : List Nat) : skip_section p 0 = some (-1, p) := by
  simp [skip_section, TAG_IMAGE_DESCRIPTOR, TAG_GRAPHIC_EXTENSION, TAG_GRAPHIC_CONTROL_LABEL,
    TAG_COMMENT_LABEL, TAG_APPLICATION_LABEL, TAG_PLAIN_TEXT_LABEL]

theorem count_images_loop_zero (g : gif_reader) (p : List Nat) (f : Nat)
    (hs : g.src = 0 :: p) :
    count_images_loop (f + 1) g = count_images_loop f { g with src := p } := by
  rw [count_images_loop.eq_2, hs, advance_read_cons]
  simp only [List.getD_cons_zero, skip_section_zero]
  simp [TAG_IMAGE_DESCRIPTOR, TAG_TRAILER]

/-- The prescan over one frame pushed without options, followed by the trailer, whatever
the length of the compressed payload. -/
theorem count_images_loop_single (lzwc : Nat → List Nat → List Nat) (wg : Writer.gif_writer)
    (a : push_args) (g : gif_reader) (tail : List Nat) (f : Nat) (ho : a.opts = none)
    (hs : g.src = frame_bytes lzwc wg a ++ 0x3b :: tail) :
    count_images_loop (f + 3) g =
      some { g with src := tail, n_frames := (g.n_frames + 1) % 4294967296 } := by
  rcases Nat.eq_zero_or_pos
    (lzwc wg.code_size (Writer.quantize wg a.width a.height a.img)).length with h0 | hpos
  · have hsk := (reader_on_emitted wg
      (lzwc wg.code_size (Writer.quantize wg a.width a.height a.img)) (0x3b :: tail)).2.2
    simp only [h0, if_true] at hsk
    rw [frame_bytes_eq] at hs
    have himg := skip_section_image a.left a.top a.width a.height wg.code_size _
      (0x3b :: tail) (0 :: 0x3b :: tail) hsk
    simp only [ho, gce_bytes, List.nil_append, descriptor_bytes, List.cons_append] at hs
    simp only [List.cons_append, List.nil_append] at himg
    rw [count_images_loop.eq_2, hs, advance_read_cons]
    simp only [List.getD_cons_zero, himg, if_true]
    simp only [TAG_IMAGE_DESCRIPTOR, TAG_TRAILER, Nat.reduceEqDiff, ne_eq, not_false_eq_true,
      if_true]
    rw [count_images_loop_zero _ (0x3b :: tail) (f + 1) rfl,
      count_images_loop_trailer _ tail f rfl]
  · rw [count_images_loop_frame lzwc wg a g _ f hs hpos]
    simp only [ho, Option.isSome_none, Bool.false_eq_true, if_false]
    rw [count_images_loop_trailer _ tail (f + 1) rfl]

/-- The reader `gifr_init` leaves on the stream with one frame pushed without options,
whatever the length of the compressed payload. -/
theorem gifr_init_single (lzwc : Nat → List Nat → List Nat) (u : Uninit) (c W H : Nat)
    (P : List Nat) (a : push_args) (hc1 : 1 ≤ c) (hc8 : c ≤ 8)
    (hP : P.length = 3 * 2 ^ c) (hW : W < 65536) (hH : H < 65536) (ho : a.opts = none) :
    gifr_init u (gif_stream lzwc c P W H [a]) =
      some (0, opened_reader u c W H P
        (netscape_bytes ++ (frame_bytes lzwc (Writer.gifw_init c (some P) W H) a ++ [0x3b]))
        1) := by
  rw [gif_stream_eq lzwc c W H P [a] hc1 hc8 hP hW hH, init_bytes_eq]
  simp only [List.flatMap_cons, List.flatMap_nil, List.append_nil]
  generalize hwg : Writer.gifw_init c (some P) W H = wg
  generalize hfr : frame_bytes lzwc wg a = frame
  have hlen : 3 ≤ frame.length := by
    rw [← hfr, frame_bytes_eq]
    simp only [descriptor_bytes, List.length_append, List.length_cons]; omega
  have h1 := (header_eq (init_state u
    ([0x47, 0x49, 0x46, 0x38, 0x39, 0x61] ++
      ([W % 256, W / 256, H % 256, H / 256, 0x80 ||| (c - 1), 0, 0] ++ (P ++ netscape_bytes)) ++
      (frame ++ [0x3b]))) (by simp [init_state_src])).1 (by simp [init_state_src])
  have h2 := logical_screen_writer _ c W H P (netscape_bytes ++ (frame ++ [0x3b])) hc1 hc8 hP hW hH
    (show ({ init_state u
    ([0x47, 0x49, 0x46, 0x38, 0x39, 0x61] ++
      ([W % 256, W / 256, H % 256, H / 256, 0x80 ||| (c - 1), 0, 0] ++ (P ++ netscape_bytes)) ++
      (frame ++ [0x3b])) with src := List.drop 6 (init_state u
    ([0x47, 0x49, 0x46, 0x38, 0x39, 0x61] ++
      ([W % 256, W / 256, H % 256, H / 256, 0x80 ||| (c - 1), 0, 0] ++ (P ++ netscape_bytes)) ++
      (frame ++ [0x3b]))).src, version := gif_version.GIF_89a } : gif_reader).src = _ from by
        simp [init_state_src])
  obtain ⟨f, hf⟩ : ∃ f, (netscape_bytes ++ (frame ++ [0x3b])).length + 1 = f + 3 + 2 :=
    ⟨(netscape_bytes ++ (frame ++ [0x3b])).length - 4, by simp [netscape_bytes]⟩
  rw [gifr_init_steps u _ _ _ _ h1 h2 (by
    unfold count_images
    simp only []
    rw [hf, count_images_loop_netscape _ (frame ++ [0x3b]) (f + 3) rfl]
    rw [count_images_loop_single lzwc wg a _ [] f ho (by rw [hfr])])]
  simp only [gifr_head, opened_reader, init_state, Nat.zero_add]

/-- The round trip of one frame that covers a canvas of fewer than 2^32 bytes, for a
lossless coder and an image of bytes all of whose colours occur in the palette: `gifr_init`
succeeds, `gifr_next` returns 1 and the canvas is the source image. -/
theorem round_trip_small_canvas (lzwc lzwd : Nat → List Nat → List Nat) (u : Uninit)
    (c : Nat) (P : List Nat) (W H : Nat) (img : List Nat)
    (hc1 : 1 ≤ c) (hc8 : c ≤ 8) (hP : P.length = 3 * 2 ^ c) (hPb : ∀ x ∈ P, x < 256)
    (hW : W ≤ 65535) (hH : H ≤ 65535) (hsz : W * H * 3 < 4294967296)
    (himg : img.length = W * H * 3) (himgb : ∀ x ∈ img, x < 256)
    (hocc : ∀ p, p < W * H → ∃ j, j < 2 ^ c ∧ P.getD (3 * j + 0) 0 = img.getD (3 * p + 0) 0 ∧
      P.getD (3 * j + 1) 0 = img.getD (3 * p + 1) 0 ∧
      P.getD (3 * j + 2) 0 = img.getD (3 * p + 2) 0)
    (hinv : ∀ cs d, lzwd cs (lzwc cs d) = d) :
    ∃ g0 g1,
      gifr_init u (gif_stream lzwc c P W H [⟨none, 0, 0, W, H, img⟩]) = some (0, g0) ∧
      gifr_next lzwd g0 = some (1, g1) ∧ g1.image = img := by
  have hi := gifr_init_single lzwc u c W H P ⟨none, 0, 0, W, H, img⟩ hc1 hc8 hP
    (by omega) (by omega) rfl
  have hwe := gifw_init_eq c W H P hc1 hc8 hP (by omega) (by omega)
  obtain ⟨-, wn, wn1, wn256⟩ := gifw_init_fields c W H P hc1 hc8 hP (by omega) (by omega)
  have wp : (Writer.gifw_init c (some P) W H).palette = P := by rw [hwe]
  generalize hwg : Writer.gifw_init c (some P) W H = wg at *
  generalize hg0 : opened_reader u c W H P
    (netscape_bytes ++ (frame_bytes lzwc wg ⟨none, 0, 0, W, H, img⟩ ++ [0x3b])) 1 = g0 at hi
  have g0w : g0.width = W := by rw [← hg0]; rfl
  have g0h : g0.height = H := by rw [← hg0]; rfl
  have g0t : g0.has_trans = 0 := by rw [← hg0]; rfl
  have g0l : g0.has_local_clut = 0 := by rw [← hg0]; rfl
  have g0c : g0.global_clut = P ++ ((List.range (3 * 256)).map u.global_clut).drop (3 * 2 ^ c) := by
    rw [← hg0]; rfl
  have g0i : g0.image.length = W * H * 3 := by
    rw [← hg0, opened_reader_image_length, Nat.mod_eq_of_lt hsz]
  have g0s : g0.src = netscape_bytes ++
      (frame_bytes lzwc wg ⟨none, 0, 0, W, H, img⟩ ++ [0x3b]) := by rw [← hg0]; rfl
  -- the call of `gifr_next`
  obtain ⟨f, hf⟩ : ∃ f, g0.src.length + 1 = f + 3 + 2 := ⟨g0.src.length - 4, by
    rw [g0s]; simp [netscape_bytes]⟩
  have n1 : gifr_next lzwd g0 = some (1, frame_decoded lzwc lzwd wg g0 ⟨none, 0, 0, W, H, img⟩
      (if (lzwc wg.code_size (Writer.quantize wg W H img)).length = 0
        then 0 :: [0x3b] else [0x3b])) := by
    rw [gifr_next, hf, gifr_next_loop_netscape lzwd g0 _ (f + 3) g0s,
      gifr_next_loop_frame lzwc lzwd wg ⟨none, 0, 0, W, H, img⟩ _ [0x3b] f rfl,
      frame_decoded_src_irrel]
  generalize hrest : (if (lzwc wg.code_size (Writer.quantize wg W H img)).length = 0
        then 0 :: [0x3b] else [0x3b]) = rest at n1
  have cA := frame_decoded_pixels lzwc lzwd wg g0 ⟨none, 0, 0, W, H, img⟩ rest hinv
    (by rw [g0w]; exact Nat.le_of_eq (Nat.zero_add W))
    (by rw [g0h]; exact Nat.le_of_eq (Nat.zero_add H)) (by rw [g0w]; exact hW)
    (by rw [g0h]; exact hH) (by rw [g0w, g0h]; exact hsz) (by rw [g0w, g0h]; exact g0i)
  have hlen := (frame_decoded_fields lzwc lzwd wg g0 ⟨none, 0, 0, W, H, img⟩ rest).2.2.1
  generalize hg1 : frame_decoded lzwc lzwd wg g0 ⟨none, 0, 0, W, H, img⟩ rest = g1
    at n1 cA hlen
  refine ⟨g0, g1, hi, n1, ?_⟩
  apply List.ext_getElem?
  intro i
  by_cases hi3 : i < W * H * 3
  · have hWpos : 0 < W := by
      rcases Nat.eq_zero_or_pos W with h | h
      · subst h; simp at hi3
      · exact h
    have hp : i / 3 < W * H := by omega
    have hrow : i / 3 / W < H := by
      rw [Nat.div_lt_iff_lt_mul hWpos, Nat.mul_comm H W]; exact hp
    have hcol : i / 3 % W < W := Nat.mod_lt _ hWpos
    have hk : i % 3 < 3 := Nat.mod_lt _ (by decide)
    have hpe : i / 3 / W * W + i / 3 % W = i / 3 := by
      rw [Nat.mul_comm]; exact Nat.div_add_mod _ _
    have hidx : 3 * (i / 3) + i % 3 = i := Nat.div_add_mod _ _
    have h := cA (i / 3 / W) hrow (i / 3 % W) hcol (i % 3) hk
    have tA : active_table ({ g0 with src := rest } : gif_reader) = g0.global_clut := by
      simp only [active_table]
      rw [if_neg (by rw [g0l]; decide)]
    simp only [apply_opts] at h
    rw [tA] at h
    simp only [Nat.add_zero, g0w, g0t, ne_eq, not_true_eq_false, false_and,
      if_false, hpe, hidx] at h
    have hq := quantize_getD wg W H img (i / 3 / W) (i / 3 % W) hrow hcol (by omega)
    rw [hpe] at hq
    have iq := quantize_getD_lt wg W H img (i / 3) wn1 wn256
    rw [wn] at iq
    obtain ⟨j, hj, e0, e1, e2⟩ := hocc (i / 3) hp
    have hb : ∀ m, img.getD m 0 < 256 := getD_lt_256 img himgb
    obtain ⟨x0, x1, x2⟩ := calc_color_exact wg _ _ _ wn1 wn256 (by rw [wp]; exact hPb)
      (hb _) (hb _) (hb _) j (by rw [wn]; exact hj) (by rw [wp]; exact e0)
      (by rw [wp]; exact e1) (by rw [wp]; exact e2)
    rw [← hq, wp] at x0 x1 x2
    rw [h, g0c, getD_append_palette P _ ((Writer.quantize wg W H img).getD (i / 3) 0 * 3 + i % 3)
      (by rw [hP]; omega),
      List.getElem?_eq_getElem (show i < img.length by omega)]
    congr 1
    have hget : img[i] = img.getD i 0 := by
      have hlt : i < img.length := by omega
      simp [List.getD_eq_getElem?_getD, List.getElem?_eq_getElem hlt]
    rw [hget, Nat.mul_comm _ 3]
    have hcases : i % 3 = 0 ∨ i % 3 = 1 ∨ i % 3 = 2 := by omega
    rcases hcases with hk0 | hk1 | hk2
    · rw [hk0, x0]; congr 1; omega
    · rw [hk1, x1]; congr 1; omega
    · rw [hk2, x2]; congr 1; omega
  · rw [List.getElem?_eq_none (by omega), List.getElem?_eq_none (by omega)]

/-- The round trip at a concrete input: a 2 × 1 canvas, the palette `(7,7,7), (9,9,9)` and
the image `(9,9,9), (7,7,7)`. -/
theorem round_trip_small_canvas_example :
    ∃ g0 g1,
      gifr_init zero_uninit (gif_stream stub_compress 1 [7, 7, 7, 9, 9, 9] 2 1
        [⟨none, 0, 0, 2, 1, [9, 9, 9, 7, 7, 7]⟩]) = some (0, g0) ∧
      gifr_next stub_decompress g0 = some (1, g1) ∧ g1.image = [9, 9, 9, 7, 7, 7] :=
  round_trip_small_canvas stub_compress stub_decompress zero_uninit 1 [7, 7, 7, 9, 9, 9] 2 1
    [9, 9, 9, 7, 7, 7] (by decide) (by decide) (by decide) (by decide) (by decide) (by decide)
    (by decide) (by decide) (by decide) (by decide) (fun _ _ => rfl)

end

section

open Reader

/-! ## `gifr_init`: the logical screen -/

theorem getD_take (s : List Nat) (n i : Nat) (h : i < n) : (s.take n).getD i 0 = s.getD i 0 := by
  rw [List.getD_eq_getElem?_getD, List.getD_eq_getElem?_getD, List.getElem?_take, if_pos h]

theorem getD_drop (s : List Nat) (n i : Nat) : (s.drop n).getD i 0 = s.getD (n + i) 0 := by
  rw [List.getD_eq_getElem?_getD, List.getD_eq_getElem?_getD, List.getElem?_drop]

theorem READ2BYTES_getD (s : List Nat) (hb : ∀ x ∈ s, x < 256) :
    READ2BYTES s = s.getD 0 0 + 256 * s.getD 1 0 := by
  unfold READ2BYTES
  exact read2_eq _ _ (getD_lt_256 s hb 0) (getD_lt_256 s hb 1)

theorem shl_flags (f : Nat) : 1 <<< ((f &&& 0x07) + 1) = 2 ^ ((f &&& 7) + 1) ∧
    2 ≤ 2 ^ ((f &&& 7) + 1) ∧ 2 ^ ((f &&& 7) + 1) ≤ 256 := by
  have h7 : f &&& 7 ≤ 7 := Nat.and_le_right
  refine ⟨by rw [Nat.one_shiftLeft], ?_, ?_⟩
  · calc 2 = 2 ^ 1 := rfl
      _ ≤ 2 ^ ((f &&& 7) + 1) := Nat.pow_le_pow_right (by decide) (by omega)
  · calc 2 ^ ((f &&& 7) + 1) ≤ 2 ^ 8 := Nat.pow_le_pow_right (by decide) (by omega)
      _ = 256 := rfl

/-- What `logical_screen` leaves when it returns, in terms of the bytes at the cursor. -/
theorem logical_screen_spec (g : gif_reader) (r : Int) (g' : gif_reader)
    (h : logical_screen g = some (r, g')) (hb : ∀ x ∈ g.src, x < 256) :
    r = 0 ∧ 7 ≤ g.src.length ∧
    g'.width = g.src.getD 0 0 + 256 * g.src.getD 1 0 ∧
    g'.height = g.src.getD 2 0 + 256 * g.src.getD 3 0 ∧
    g'.bg_color_index = g.src.getD 5 0 ∧ g'.aspect = g.src.getD 6 0 ∧
    (g.src.getD 4 0 &&& 0x80 ≠ 0 →
      g'.has_global_clut = 1 ∧ g'.n_colors = 2 ^ ((g.src.getD 4 0 &&& 7) + 1) ∧
      7 + 3 * g'.n_colors ≤ g.src.length ∧
      g'.global_clut = (g.src.drop 7).take (3 * g'.n_colors) ++
        g.global_clut.drop (3 * g'.n_colors) ∧
      g'.src = g.src.drop (7 + 3 * g'.n_colors)) ∧
    (g.src.getD 4 0 &&& 0x80 = 0 →
      g'.has_global_clut = g.has_global_clut ∧ g'.n_colors = g.n_colors ∧
      g'.global_clut = g.global_clut ∧ g'.src = g.src.drop 7) := by
  have hw : READ2BYTES (g.src.take 7) = g.src.getD 0 0 + 256 * g.src.getD 1 0 := by
    rw [READ2BYTES_getD _ (fun x hx => hb x (List.mem_of_mem_take hx)),
      getD_take _ _ _ (by decide), getD_take _ _ _ (by decide)]
  have hh : READ2BYTES ((g.src.take 7).drop 2) = g.src.getD 2 0 + 256 * g.src.getD 3 0 := by
    rw [READ2BYTES_getD _ (fun x hx => hb x (List.mem_of_mem_take (List.mem_of_mem_drop hx))),
      getD_drop, getD_drop, getD_take _ _ _ (by decide), getD_take _ _ _ (by decide)]
  have h4 : (g.src.take 7).getD 4 0 = g.src.getD 4 0 := getD_take _ _ _ (by decide)
  have h5 : (g.src.take 7).getD 5 0 = g.src.getD 5 0 := getD_take _ _ _ (by decide)
  have h6 : (g.src.take 7).getD 6 0 = g.src.getD 6 0 := getD_take _ _ _ (by decide)
  obtain ⟨hs1, -, -⟩ := shl_flags (g.src.getD 4 0)
  unfold logical_screen advance_read at h
  by_cases h7 : 7 ≤ g.src.length
  · simp only [h7, if_true, h4, h5, h6, hw, hh, hs1] at h
    by_cases hf : g.src.getD 4 0 &&& 0x80 ≠ 0
    · simp only [hf, ne_eq, not_false_eq_true, if_true, List.length_drop] at h
      by_cases hsz : 3 * 2 ^ ((g.src.getD 4 0 &&& 7) + 1) ≤ g.src.length - 7
      · simp only [hsz, if_true, Option.some.injEq, Prod.mk.injEq] at h
        obtain ⟨rfl, rfl⟩ := h
        refine ⟨rfl, h7, rfl, rfl, rfl, rfl, fun _ => ⟨rfl, rfl, ?_, rfl, ?_⟩,
          fun hc => absurd hc hf⟩
        · show 7 + 3 * 2 ^ ((g.src.getD 4 0 &&& 7) + 1) ≤ g.src.length
          omega
        · show List.drop _ (List.drop 7 g.src) = _
          rw [List.drop_drop]
      · rw [if_neg hsz] at h
        exact Option.noConfusion h
    · simp only [hf, if_false, Option.some.injEq, Prod.mk.injEq] at h
      obtain ⟨rfl, rfl⟩ := h
      exact ⟨rfl, h7, rfl, rfl, rfl, rfl, fun hc => absurd hc hf, fun _ => ⟨rfl, rfl, rfl, rfl⟩⟩
  · simp [h7] at h

/-- The prescan changes the cursor and the frame count only. -/
theorem count_images_loop_fields : ∀ (fuel : Nat) (g g' : gif_reader),
    count_images_loop fuel g = some g' →
      g' = { g with src := g'.src, n_frames := g'.n_frames } := by
  intro fuel
  induction fuel with
  | zero => intro g g' h; simp [count_images_loop] at h
  | succ fuel ih =>
    intro g g' h
    unfold count_images_loop at h
    split at h
    · simp at h
    · simp only [] at h
      split at h
      · simp at h
      · split at h
        · have := ih _ _ h
          simpa using this
        · simp only [Option.some.injEq] at h
          subst h; rfl

theorem init_state_fields (u : Uninit) (src : List Nat) :
    (init_state u src).global_clut = (List.range (3 * 256)).map u.global_clut ∧
    (init_state u src).has_global_clut = 0 ∧ (init_state u src).n_colors = 0 := by
  refine ⟨?_, ?_, ?_⟩
  · simp only [init_state]
  · simp only [init_state]
  · simp only [init_state]

theorem header_ret_unique (g a b : gif_reader) (r1 r2 : Int)
    (h1 : header g = some (r1, a)) (h2 : header g = some (r2, b)) : r1 = r2 := by
  rw [h1] at h2
  exact congrArg Prod.fst (Option.some.inj h2)

theorem header_inv (g : gif_reader) (r : Int) (g' : gif_reader)
    (h : header g = some (r, g')) : 6 ≤ g.src.length ∧ (r = 0 ∨ r = -1) := by
  have key : ∀ (c : Prop) [Decidable c] (a b : gif_reader),
      (if c then some ((-1 : Int), a) else some (0, b)) = some (r, g') → r = 0 ∨ r = -1 := by
    intro c _ a b h
    by_cases hc : c
    · rw [if_pos hc] at h
      simp only [Option.some.injEq, Prod.mk.injEq] at h
      exact Or.inr h.1.symm
    · rw [if_neg hc] at h
      simp only [Option.some.injEq, Prod.mk.injEq] at h
      exact Or.inl h.1.symm
  unfold header advance_read at h
  by_cases h6 : 6 ≤ g.src.length
  · refine ⟨h6, ?_⟩
    rw [if_pos h6] at h
    exact key _ _ _ h
  · rw [if_neg h6] at h
    exact Option.noConfusion h

/-- The steps of a call of `gifr_init` that returns. -/
theorem gifr_init_inv (u : Uninit) (src : List Nat) (r : Int) (g : gif_reader)
    (h : gifr_init u src = some (r, g)) :
    (r = -1 ∧ header (init_state u src) = some (-1, g)) ∨
    (r = 0 ∧ ∃ g1 g2 g3, header (init_state u src) = some (0, g1) ∧
      logical_screen g1 = some (0, g2) ∧
      count_images { g2 with
        image := (List.range ((g2.width * g2.height * 3) % 4294967296)).map u.image
        start := g2.src } = some g3 ∧
      g = gifr_head g3) := by
  unfold gifr_init at h
  simp only [] at h
  cases hh : header (init_state u src) with
  | none => simp [hh] at h
  | some rg1 =>
    obtain ⟨r1, g1⟩ := rg1
    simp only [hh] at h
    rcases (header_inv _ _ _ hh).2 with rfl | rfl
    · right
      simp only [ne_eq, not_true_eq_false, if_false] at h
      cases hl : logical_screen g1 with
      | none => simp [hl] at h
      | some rg2 =>
        obtain ⟨r2, g2⟩ := rg2
        have hr2 := (logical_screen_ret _ _ _ hl).1
        subst hr2
        simp only [hl, ne_eq, not_true_eq_false, if_false] at h
        cases hc : count_images { g2 with
            image := (List.range ((g2.width * g2.height * 3) % 4294967296)).map u.image
            start := g2.src } with
        | none => simp [hc] at h
        | some g3 =>
          simp only [hc, Option.some.injEq, Prod.mk.injEq] at h
          exact ⟨h.1.symm, g1, g2, g3, rfl, hl, hc, h.2.symm⟩
    · left
      simp only [ne_eq, Int.reduceNeg, neg_eq_zero, one_ne_zero, not_false_eq_true, if_true,
        Option.some.injEq, Prod.mk.injEq] at h
      exact ⟨h.1.symm, by rw [h.2]⟩

end

section

open Reader

/-! ## `gifr_next`: what a call may change -/

theorem graphic_control_fields (g g' : gif_reader) (h : graphic_control g = some g') :
    g' = { g with src := g'.src, dispose := g'.dispose, delay := g'.delay,
                  has_trans := g'.has_trans, trans_index := g'.trans_index } := by
  unfold graphic_control at h
  split at h
  · exact Option.noConfusion h
  · simp only [] at h
    split at h
    · simp only [Option.some.injEq] at h
      subst h; rfl
    · simp only [Option.some.injEq] at h
      subst h; rfl

theorem parse_image_descriptor_fields (g g' : gif_reader) (l t w h : Nat)
    (hp : parse_image_descriptor g = some (g', l, t, w, h)) :
    g' = { g with src := g'.src, has_local_clut := g'.has_local_clut,
                  local_clut := g'.local_clut } := by
  unfold parse_image_descriptor at hp
  split at hp
  · exact Option.noConfusion hp
  · simp only [] at hp
    split at hp
    · split at hp
      · exact Option.noConfusion hp
      · simp only [Option.some.injEq, Prod.mk.injEq] at hp
        obtain ⟨rfl, -⟩ := hp
        rfl
    · simp only [Option.some.injEq, Prod.mk.injEq] at hp
      obtain ⟨rfl, -⟩ := hp
      rfl

theorem decompress_image_fields (lzwd : Nat → List Nat → List Nat) (g g' : gif_reader)
    (r : Int) (img : List Nat) (hd : decompress_image lzwd g = some (r, g', img)) :
    r = 0 ∧ g' = { g with src := g'.src } := by
  unfold decompress_image at hd
  split at hd
  · exact Option.noConfusion hd
  · simp only [] at hd
    split at hd
    · exact Option.noConfusion hd
    · split at hd
      · exact Option.noConfusion hd
      · simp only [Option.some.injEq, Prod.mk.injEq] at hd
        obtain ⟨rfl, rfl, -⟩ := hd
        exact ⟨rfl, rfl⟩

theorem write_image_eq (g : gif_reader) (l t w h len : Nat) (img : List Nat) :
    write_image g l t w h len img =
      { g with image := (write_image g l t w h len img).image } := by
  unfold write_image
  by_cases ht : g.has_trans ≠ 0
  · simp only []; rw [if_pos ht]
  · simp only []; rw [if_neg ht]

theorem gif_next_process_image_fields (lzwd : Nat → List Nat → List Nat) (g g' : gif_reader)
    (r : Int) (hn : gif_next_process_image lzwd g = some (r, g')) :
    r = 1 ∧ g'.image.length = g.image.length ∧
    g' = { g with src := g'.src, has_local_clut := g'.has_local_clut,
                  local_clut := g'.local_clut, image := g'.image } := by
  unfold gif_next_process_image at hn
  cases hp : parse_image_descriptor g with
  | none => rw [hp] at hn; exact Option.noConfusion hn
  | some x =>
    obtain ⟨g1, l, t, w, h⟩ := x
    have e1 := parse_image_descriptor_fields g g1 l t w h hp
    rw [hp] at hn
    simp only [] at hn
    cases hd : decompress_image lzwd g1 with
    | none => rw [hd] at hn; exact Option.noConfusion hn
    | some y =>
      obtain ⟨r2, g2, img⟩ := y
      obtain ⟨hr2, e2⟩ := decompress_image_fields lzwd g1 g2 r2 img hd
      subst hr2
      rw [hd] at hn
      simp only [ne_eq, not_true_eq_false, if_false, Option.some.injEq, Prod.mk.injEq] at hn
      obtain ⟨rfl, rfl⟩ := hn
      refine ⟨rfl, ?_, ?_⟩
      · rw [write_image_length, e2, e1]
      · rw [write_image_eq, e2, e1]

/-- A call of `gifr_next` that returns gives 0 or 1, changes nothing but the cursor, the
graphic control state, the local table and the canvas, keeps the size of the canvas, and
leaves the canvas as it was when it gives 0. -/
theorem gifr_next_loop_fields (lzwd : Nat → List Nat → List Nat) :
    ∀ (fuel : Nat) (g g' : gif_reader) (r : Int),
      gifr_next_loop lzwd fuel g = some (r, g') →
      (r = 0 ∨ r = 1) ∧ (r = 0 → g'.image = g.image) ∧
      g'.image.length = g.image.length ∧
      g' = { g with src := g'.src, dispose := g'.dispose, delay := g'.delay,
                    has_trans := g'.has_trans, trans_index := g'.trans_index,
                    has_local_clut := g'.has_local_clut, local_clut := g'.local_clut,
                    image := g'.image } := by
  intro fuel
  induction fuel with
  | zero => intro g g' r h; simp [gifr_next_loop] at h
  | succ fuel ih =>
    intro g g' r h
    unfold gifr_next_loop at h
    split at h
    · exact Option.noConfusion h
    · next b p hb =>
      simp only [] at h
      split at h
      · -- graphic control extension
        cases hg : graphic_control { g with src := p } with
        | none => rw [hg] at h; exact Option.noConfusion h
        | some g1 =>
          rw [hg] at h
          simp only [] at h
          have e1 := graphic_control_fields _ _ hg
          obtain ⟨a1, a2, a3, a4⟩ := ih g1 g' r h
          refine ⟨a1, ?_, ?_, ?_⟩
          · intro hr; rw [a2 hr, e1]
          · rw [a3, e1]
          · rw [a4, e1]
      · split at h
        · -- image
          obtain ⟨a1, a2, a3⟩ := gif_next_process_image_fields lzwd _ _ _ h
          refine ⟨Or.inr a1, ?_, a2, ?_⟩
          · intro hr; rw [a1] at hr; exact absurd hr (by decide)
          · rw [a3]
        · -- any other tag
          cases hs : skip_section p (b.getD 0 0) with
          | none => simp only [hs] at h; exact Option.noConfusion h
          | some x =>
            obtain ⟨r1, p1⟩ := x
            simp only [hs] at h
            by_cases hr1 : r1 ≠ 0
            · rw [if_pos hr1] at h
              simp only [Option.some.injEq, Prod.mk.injEq] at h
              obtain ⟨rfl, rfl⟩ := h
              exact ⟨Or.inl rfl, fun _ => rfl, rfl, rfl⟩
            · rw [if_neg hr1] at h
              obtain ⟨a1, a2, a3, a4⟩ := ih _ g' r h
              refine ⟨a1, ?_, ?_, ?_⟩
              · intro hr; rw [a2 hr]
              · rw [a3]
              · rw [a4]

end

section

open Reader

/-! ## `gifr_next`: the walk over extension sections -/

theorem skip_section_comment (p p' : List Nat) (h : skip_data p = some p') :
    skip_section p 0xfe = some (0, p') := by
  simp [skip_section, TAG_GRAPHIC_EXTENSION, TAG_GRAPHIC_CONTROL_LABEL, TAG_COMMENT_LABEL,
    skip_comment, h]

theorem skip_section_application (hdr p p' : List Nat) (hl : hdr.length = 12)
    (h : skip_data p = some p') :
    skip_section (hdr ++ p) 0xff = some (0, p') := by
  simp [skip_section, TAG_GRAPHIC_EXTENSION, TAG_GRAPHIC_CONTROL_LABEL, TAG_COMMENT_LABEL,
    TAG_APPLICATION_LABEL, skip_application, advance, APPLICATION_HEADER_SIZE, ← hl, h]

theorem skip_section_plain_text (hdr p p' : List Nat) (hl : hdr.length = 13)
    (h : skip_data p = some p') :
    skip_section (hdr ++ p) 0x01 = some (0, p') := by
  simp [skip_section, TAG_GRAPHIC_EXTENSION, TAG_GRAPHIC_CONTROL_LABEL, TAG_COMMENT_LABEL,
    TAG_APPLICATION_LABEL, TAG_PLAIN_TEXT_LABEL, skip_plain_text, advance,
    PLAIN_TEXT_HEADER_SIZE, ← hl, h]

theorem skip_section_unknown (p : List Nat) (tag : Nat) (h1 : tag ≠ 0x21) (h2 : tag ≠ 0xf9)
    (h3 : tag ≠ 0xfe) (h4 : tag ≠ 0xff) (h5 : tag ≠ 0x01) (h6 : tag ≠ 0x2c) :
    skip_section p tag = some (-1, p) := by
  simp [skip_section, TAG_GRAPHIC_EXTENSION, TAG_GRAPHIC_CONTROL_LABEL, TAG_COMMENT_LABEL,
    TAG_APPLICATION_LABEL, TAG_PLAIN_TEXT_LABEL, TAG_IMAGE_DESCRIPTOR, h1, h2, h3, h4, h5, h6]

/-- At a tag outside the recognised set `gifr_next` returns 0 with the cursor behind it. -/
theorem gifr_next_loop_unknown (lzwd : Nat → List Nat → List Nat) (g : gif_reader)
    (tag : Nat) (rest : List Nat) (f : Nat) (hs : g.src = tag :: rest)
    (h1 : tag ≠ 0x21) (h2 : tag ≠ 0xf9) (h3 : tag ≠ 0xfe) (h4 : tag ≠ 0xff) (h5 : tag ≠ 0x01)
    (h6 : tag ≠ 0x2c) :
    gifr_next_loop lzwd (f + 1) g = some (0, { g with src := rest }) := by
  rw [gifr_next_loop.eq_2, hs, advance_read_cons]
  simp only [List.getD_cons_zero, TAG_GRAPHIC_CONTROL_LABEL, TAG_IMAGE_DESCRIPTOR, h2, h6,
    if_false, skip_section_unknown rest tag h1 h2 h3 h4 h5 h6]
  simp

end

section

open Reader

/-! ## Several calls of `gifr_next`, and the rewind -/

theorem gifr_next_start (lzwd : Nat → List Nat → List Nat) (g g' : gif_reader) (r : Int)
    (h : gifr_next lzwd g = some (r, g')) :
    g'.start = g.start ∧ g'.width = g.width ∧ g'.height = g.height ∧
    g'.n_frames = g.n_frames ∧ g'.n_colors = g.n_colors ∧ g'.global_clut = g.global_clut ∧
    g'.image.length = g.image.length := by
  obtain ⟨-, -, a3, a4⟩ := gifr_next_loop_fields lzwd _ g g' r h
  refine ⟨?_, ?_, ?_, ?_, ?_, ?_, a3⟩ <;> rw [a4]

theorem gifr_next_n_start (lzwd : Nat → List Nat → List Nat) :
    ∀ (n : Nat) (g g' : gif_reader) (rs : List Int),
      gifr_next_n lzwd n g = some (rs, g') →
      g'.start = g.start ∧ g'.width = g.width ∧ g'.height = g.height ∧
      g'.n_frames = g.n_frames ∧ g'.n_colors = g.n_colors ∧ g'.global_clut = g.global_clut ∧
      g'.image.length = g.image.length := by
  intro n
  induction n with
  | zero =>
    intro g g' rs h
    simp only [gifr_next_n, Option.some.injEq, Prod.mk.injEq] at h
    obtain ⟨-, rfl⟩ := h
    exact ⟨rfl, rfl, rfl, rfl, rfl, rfl, rfl⟩
  | succ n ih =>
    intro g g' rs h
    rw [gifr_next_n] at h
    cases h1 : gifr_next lzwd g with
    | none => rw [h1] at h; exact Option.noConfusion h
    | some x =>
      obtain ⟨r, g1⟩ := x
      rw [h1] at h
      simp only [] at h
      cases h2 : gifr_next_n lzwd n g1 with
      | none => rw [h2] at h; exact Option.noConfusion h
      | some y =>
        obtain ⟨rs', g2⟩ := y
        rw [h2] at h
        simp only [Option.some.injEq, Prod.mk.injEq] at h
        obtain ⟨-, rfl⟩ := h
        obtain ⟨a1, a2, a3, a4, a5, a6, a7⟩ := gifr_next_start lzwd g g1 r h1
        obtain ⟨b1, b2, b3, b4, b5, b6, b7⟩ := ih g1 g2 rs' h2
        exact ⟨b1.trans a1, b2.trans a2, b3.trans a3, b4.trans a4, b5.trans a5, b6.trans a6,
          b7.trans a7⟩

theorem gifr_next_pass_start (lzwd : Nat → List Nat → List Nat) :
    ∀ (n : Nat) (g g' : gif_reader) (ps : List (Int × List Nat)),
      gifr_next_pass lzwd n g = some (ps, g') →
      g'.start = g.start ∧ g'.width = g.width ∧ g'.height = g.height ∧
      g'.global_clut = g.global_clut ∧ g'.image.length = g.image.length := by
  intro n
  induction n with
  | zero =>
    intro g g' ps h
    simp only [gifr_next_pass, Option.some.injEq, Prod.mk.injEq] at h
    obtain ⟨-, rfl⟩ := h
    exact ⟨rfl, rfl, rfl, rfl, rfl⟩
  | succ n ih =>
    intro g g' ps h
    rw [gifr_next_pass] at h
    cases h1 : gifr_next lzwd g with
    | none => rw [h1] at h; exact Option.noConfusion h
    | some x =>
      obtain ⟨r, g1⟩ := x
      rw [h1] at h
      simp only [] at h
      cases h2 : gifr_next_pass lzwd n g1 with
      | none => rw [h2] at h; exact Option.noConfusion h
      | some y =>
        obtain ⟨rs', g2⟩ := y
        rw [h2] at h
        simp only [Option.some.injEq, Prod.mk.injEq] at h
        obtain ⟨-, rfl⟩ := h
        obtain ⟨a1, a2, a3, -, -, a6, a7⟩ := gifr_next_start lzwd g g1 r h1
        obtain ⟨b1, b2, b3, b6, b7⟩ := ih g1 g2 rs' h2
        exact ⟨b1.trans a1, b2.trans a2, b3.trans a3, b6.trans a6, b7.trans a7⟩

/-- The cursor `gifr_init` leaves is the frame-stream start it remembers. -/
theorem gifr_init_src_start (u : Uninit) (src : List Nat) (g : gif_reader)
    (h : gifr_init u src = some (0, g)) : g.src = g.start := by
  rcases gifr_init_inv u src 0 g h with ⟨hr, -⟩ | ⟨-, g1, g2, g3, -, -, -, hg⟩
  · exact absurd hr (by decide)
  · rw [hg]; rfl

/-! ### Frames that cover the canvas -/

/-- A frame that covers the whole canvas and is composited with no transparent index
leaves a canvas that does not depend on the canvas before. -/
theorem write_image_full_canvas (g h : gif_reader) (W H len : Nat) (img : List Nat)
    (gw : g.width = W) (hw : h.width = W) (gh : g.height = H) (hh : h.height = H)
    (hsz : W * H * 3 < 4294967296)
    (gi : g.image.length = W * H * 3) (hi : h.image.length = W * H * 3)
    (gt : g.has_trans = 0) (ht : h.has_trans = 0)
    (gl : g.has_local_clut = 0) (hl : h.has_local_clut = 0)
    (hc : g.global_clut = h.global_clut) :
    (write_image g 0 0 W H len img).image = (write_image h 0 0 W H len img).image := by
  have cg := write_image_pixels g 0 0 W H len img (by omega) (by omega)
    (by rw [gw, gh]; exact hsz) (by rw [gw, gh]; exact gi)
  have ch := write_image_pixels h 0 0 W H len img (by omega) (by omega)
    (by rw [hw, hh]; exact hsz) (by rw [hw, hh]; exact hi)
  have tg : active_table g = g.global_clut := by
    simp only [active_table]; rw [if_neg (by rw [gl]; decide)]
  have th : active_table h = h.global_clut := by
    simp only [active_table]; rw [if_neg (by rw [hl]; decide)]
  apply List.ext_getElem?
  intro i
  by_cases hi3 : i < W * H * 3
  · have hWpos : 0 < W := by
      rcases Nat.eq_zero_or_pos W with hz | hz
      · subst hz; simp at hi3
      · exact hz
    have hp : i / 3 < W * H := by omega
    have hrow : i / 3 / W < H := by
      rw [Nat.div_lt_iff_lt_mul hWpos, Nat.mul_comm H W]; exact hp
    have hcol : i / 3 % W < W := Nat.mod_lt _ hWpos
    have hk : i % 3 < 3 := Nat.mod_lt _ (by decide)
    have hpe : i / 3 / W * W + i / 3 % W = i / 3 := by
      rw [Nat.mul_comm]; exact Nat.div_add_mod _ _
    have hidx : 3 * (i / 3) + i % 3 = i := Nat.div_add_mod _ _
    have a := cg (i / 3 / W) hrow (i / 3 % W) hcol (i % 3) hk
    have b := ch (i / 3 / W) hrow (i / 3 % W) hcol (i % 3) hk
    rw [tg, if_neg (fun hc => hc.1 gt)] at a
    rw [th, if_neg (fun hc => hc.1 ht)] at b
    simp only [Nat.add_zero, gw, hw, hpe, hidx] at a b
    rw [a, b, hc]
  · rw [List.getElem?_eq_none (by rw [write_image_length, gi]; omega),
      List.getElem?_eq_none (by rw [write_image_length, hi]; omega)]

theorem apply_opts_plain (W H : Nat) (g : gif_reader) (a : push_args)
    (hg : plain_state W H g) (ha : covers_canvas W H a) :
    plain_state W H (apply_opts g a.opts) ∧
      (apply_opts g a.opts).global_clut = g.global_clut := by
  obtain ⟨g1, g2, g3, g4, g5⟩ := hg
  obtain ⟨-, -, -, -, hbit⟩ := ha
  cases ho : a.opts with
  | none => exact ⟨⟨g1, g2, g3, g4, g5⟩, rfl⟩
  | some o =>
    have hb : ¬ (o.flags &&& 0x01 ≠ 0) := fun hc => hc (hbit o ho)
    simp only [apply_opts]
    rw [if_neg hb]
    exact ⟨⟨g1, g2, g3, rfl, g5⟩, rfl⟩

/-- Decoding a frame that covers the canvas, from two readers in a plain state with the same
global table: both are left in a plain state, with the same canvas. -/
theorem frame_decoded_cover (lzwc lzwd : Nat → List Nat → List Nat) (wg : Writer.gif_writer)
    (g h : gif_reader) (a : push_args) (rest : List Nat) (W H : Nat)
    (hW : W ≤ 65535) (hH : H ≤ 65535) (hsz : W * H * 3 < 4294967296)
    (hg : plain_state W H g) (hh : plain_state W H h) (hc : g.global_clut = h.global_clut)
    (ha : covers_canvas W H a) :
    (frame_decoded lzwc lzwd wg g a rest).image = (frame_decoded lzwc lzwd wg h a rest).image ∧
    plain_state W H (frame_decoded lzwc lzwd wg g a rest) ∧
    plain_state W H (frame_decoded lzwc lzwd wg h a rest) ∧
    (frame_decoded lzwc lzwd wg g a rest).global_clut = g.global_clut ∧
    (frame_decoded lzwc lzwd wg h a rest).global_clut = h.global_clut := by
  obtain ⟨⟨g1, g2, g3, g4, g5⟩, g6⟩ := apply_opts_plain W H g a hg ha
  obtain ⟨⟨h1, h2, h3, h4, h5⟩, h6⟩ := apply_opts_plain W H h a hh ha
  obtain ⟨fg1, fg2, fg3, fg4, fg5, fg6, -⟩ := frame_decoded_fields lzwc lzwd wg g a rest
  obtain ⟨fh1, fh2, fh3, fh4, fh5, fh6, -⟩ := frame_decoded_fields lzwc lzwd wg h a rest
  refine ⟨?_, ⟨fg1.trans hg.1, fg2.trans hg.2.1, fg3.trans hg.2.2.1, fg6.trans g4,
    fg5.trans hg.2.2.2.2⟩, ⟨fh1.trans hh.1, fh2.trans hh.2.1, fh3.trans hh.2.2.1,
    fh6.trans h4, fh5.trans hh.2.2.2.2⟩, fg4, fh4⟩
  obtain ⟨al, at_, aw, ah, -⟩ := ha
  unfold frame_decoded
  simp only [al, at_, aw, ah, Nat.zero_mod, Nat.mod_eq_of_lt (show W < 65536 by omega),
    Nat.mod_eq_of_lt (show H < 65536 by omega)]
  exact write_image_full_canvas _ _ W H _ _ g1 h1 g2 h2 hsz g3 h3 g4 h4 g5 h5
    (g6.trans (hc.trans h6.symm))

/-- A pass over frames that cover the canvas, from two readers in a plain state with the
same global table: every call returns 1 and the canvases after each call agree. -/
theorem pass_frames_cover (lzwc lzwd : Nat → List Nat → List Nat) (wg : Writer.gif_writer)
    (hL : ∀ cs d, 1 ≤ (lzwc cs d).length) (W H : Nat)
    (hW : W ≤ 65535) (hH : H ≤ 65535) (hsz : W * H * 3 < 4294967296) :
    ∀ (pushes : List push_args) (g h : gif_reader) (tail : List Nat),
      g.src = pushes.flatMap (frame_bytes lzwc wg) ++ 0x3b :: tail →
      h.src = pushes.flatMap (frame_bytes lzwc wg) ++ 0x3b :: tail →
      plain_state W H g → plain_state W H h → g.global_clut = h.global_clut →
      (∀ a ∈ pushes, covers_canvas W H a) →
      ∃ ps gN hN, gifr_next_pass lzwd pushes.length g = some (ps, gN) ∧
        gifr_next_pass lzwd pushes.length h = some (ps, hN) ∧
        (∀ x ∈ ps, x.1 = 1) ∧ plain_state W H gN ∧ plain_state W H hN := by
  intro pushes
  induction pushes with
  | nil =>
    intro g h tail _ _ pg ph _ _
    exact ⟨[], g, h, rfl, rfl, fun x hx => absurd hx (List.not_mem_nil _), pg, ph⟩
  | cons a ps ih =>
    intro g h tail gs hs pg ph hc hcov
    simp only [List.flatMap_cons, List.append_assoc] at gs hs
    have n1 := gifr_next_frame lzwc lzwd wg a g _ gs (hL _ _)
    have n2 := gifr_next_frame lzwc lzwd wg a h _ hs (hL _ _)
    obtain ⟨e1, e2, e3, e4, e5⟩ := frame_decoded_cover lzwc lzwd wg g h a
      (ps.flatMap (frame_bytes lzwc wg) ++ 0x3b :: tail) W H hW hH hsz pg ph hc
      (hcov a (List.mem_cons_self _ _))
    obtain ⟨qs, gN, hN, b1, b2, b3, b4, b5⟩ := ih _ _ tail
      (frame_decoded_src lzwc lzwd wg g a _) (frame_decoded_src lzwc lzwd wg h a _) e2 e3
      (e4.trans (hc.trans e5.symm)) (fun x hx => hcov x (List.mem_cons_of_mem _ hx))
    refine ⟨(1, (frame_decoded lzwc lzwd wg g a
      (ps.flatMap (frame_bytes lzwc wg) ++ 0x3b :: tail)).image) :: qs, gN, hN, ?_, ?_, ?_,
      b4, b5⟩
    · rw [List.length_cons, gifr_next_pass, n1]
      simp only [b1]
    · rw [List.length_cons, gifr_next_pass, n2]
      simp only [b2, e1]
    · intro x hx
      rcases List.mem_cons.1 hx with rfl | hx
      · rfl
      · exact b3 x hx

theorem opened_reader_plain (u : Uninit) (c W H : Nat) (P body : List Nat) (n : Nat)
    (hsz : W * H * 3 < 4294967296) : plain_state W H (opened_reader u c W H P body n) :=
  ⟨rfl, rfl, by rw [opened_reader_image_length, Nat.mod_eq_of_lt hsz], rfl, rfl⟩

/-- Rewind idempotence on the streams of the writer all of whose frames cover the canvas
and carry no transparency bit. -/
theorem rewind_cover_stream (lzwc lzwd : Nat → List Nat → List Nat) (u : Uninit)
    (c : Nat) (P : List Nat) (W H : Nat) (pushes : List push_args)
    (hc1 : 1 ≤ c) (hc8 : c ≤ 8) (hP : P.length = 3 * 2 ^ c)
    (hW : W ≤ 65535) (hH : H ≤ 65535) (hsz : W * H * 3 < 4294967296)
    (hL : ∀ cs d, 1 ≤ (lzwc cs d).length)
    (hcov : ∀ a ∈ pushes, covers_canvas W H a) :
    ∃ g0, gifr_init u (gif_stream lzwc c P W H pushes) = some (0, g0) ∧
      g0.n_frames = pushes.length % 4294967296 ∧
      rewind_idempotent lzwd g0 pushes.length := by
  have hi := gifr_init_stream lzwc u c W H P pushes hc1 hc8 hP (by omega) (by omega)
    (fun a _ => hL _ _)
  generalize hwg : Writer.gifw_init c (some P) W H = wg at *
  generalize hg0 : opened_reader u c W H P
    (netscape_bytes ++ (pushes.flatMap (frame_bytes lzwc wg) ++ [0x3b]))
    (pushes.length % 4294967296) = g0 at hi
  have p0 : plain_state W H g0 := by rw [← hg0]; exact opened_reader_plain u c W H P _ _ hsz
  have s0 : g0.src = netscape_bytes ++ (pushes.flatMap (frame_bytes lzwc wg) ++ [0x3b]) := by
    rw [← hg0]; rfl
  have t0 : g0.start = g0.src := by rw [← hg0]; rfl
  refine ⟨g0, hi, by rw [← hg0]; rfl, ?_⟩
  cases pushes with
  | nil =>
    exact ⟨[], g0, [], gifr_head g0, rfl, rfl, fun x hx => absurd hx (List.not_mem_nil _),
      fun x hx => absurd hx (List.not_mem_nil _), rfl⟩
  | cons a ps =>
    simp only [List.flatMap_cons, List.append_assoc] at s0
    -- the first pass
    have n1 := gifr_next_first_frame lzwc lzwd wg a g0 _ s0 (hL _ _)
    obtain ⟨e1, e2, -, e4, -⟩ := frame_decoded_cover lzwc lzwd wg g0 g0 a
      (ps.flatMap (frame_bytes lzwc wg) ++ [0x3b]) W H hW hH hsz p0 p0 rfl
      (hcov a (List.mem_cons_self _ _))
    generalize hg1 : frame_decoded lzwc lzwd wg g0 a
      (ps.flatMap (frame_bytes lzwc wg) ++ [0x3b]) = g1 at n1 e1 e2 e4
    have s1 : g1.src = ps.flatMap (frame_bytes lzwc wg) ++ 0x3b :: [] := by
      rw [← hg1, frame_decoded_src]
    obtain ⟨qs, gN, -, b1, -, b3, b4, -⟩ := pass_frames_cover lzwc lzwd wg hL W H hW hH hsz
      ps g1 g1 [] s1 s1 e2 e2 rfl (fun x hx => hcov x (List.mem_cons_of_mem _ hx))
    have pass1 : gifr_next_pass lzwd (a :: ps).length g0 = some ((1, g1.image) :: qs, gN) := by
      rw [List.length_cons, gifr_next_pass, n1]
      simp only [b1]
    obtain ⟨c1, -, -, c4, -⟩ := gifr_next_pass_start lzwd _ _ _ _ pass1
    -- the second pass
    have ph : plain_state W H (gifr_head gN) := b4
    have sh : (gifr_head gN).src = netscape_bytes ++ (frame_bytes lzwc wg a ++
        (ps.flatMap (frame_bytes lzwc wg) ++ [0x3b])) := by
      show gN.start = _
      rw [c1, t0, s0]
    have m1 := gifr_next_first_frame lzwc lzwd wg a (gifr_head gN) _ sh (hL _ _)
    obtain ⟨d1, -, d3, -, d5⟩ := frame_decoded_cover lzwc lzwd wg g0 (gifr_head gN) a
      (ps.flatMap (frame_bytes lzwc wg) ++ [0x3b]) W H hW hH hsz p0 ph
      (show g0.global_clut = gN.global_clut from c4.symm)
      (hcov a (List.mem_cons_self _ _))
    rw [hg1] at d1
    generalize hh1 : frame_decoded lzwc lzwd wg (gifr_head gN) a
      (ps.flatMap (frame_bytes lzwc wg) ++ [0x3b]) = h1 at m1 d1 d3 d5
    have sh1 : h1.src = ps.flatMap (frame_bytes lzwc wg) ++ 0x3b :: [] := by
      rw [← hh1, frame_decoded_src]
    obtain ⟨qs', gN', hN, f1, f2, f3, -, -⟩ := pass_frames_cover lzwc lzwd wg hL W H hW hH hsz
      ps g1 h1 [] s1 sh1 e2 d3
      (show g1.global_clut = h1.global_clut by
        rw [e4, d5]; exact c4.symm)
      (fun x hx => hcov x (List.mem_cons_of_mem _ hx))
    rw [b1] at f1
    simp only [Option.some.injEq, Prod.mk.injEq] at f1
    obtain ⟨rfl, -⟩ := f1
    have pass2 : gifr_next_pass lzwd (a :: ps).length (gifr_head gN) =
        some ((1, h1.image) :: qs, hN) := by
      rw [List.length_cons, gifr_next_pass, m1]
      simp only [f2]
    refine ⟨_, gN, _, hN, pass1, pass2, ?_, ?_, ?_⟩
    · intro x hx
      rcases List.mem_cons.1 hx with rfl | hx
      · rfl
      · exact b3 x hx
    · intro x hx
      rcases List.mem_cons.1 hx with rfl | hx
      · rfl
      · exact b3 x hx
    · simp only [List.map_cons, d1]

end

section

open Reader

/-! ## The size of the canvas -/

/-- The canvas `gifr_init` allocates has `width * height * 3` bytes modulo 2^32. -/
theorem gifr_init_canvas_size (u : Uninit) (src : List Nat) (g : gif_reader)
    (h : gifr_init u src = some (0, g)) :
    g.image.length = (g.width * g.height * 3) % 4294967296 := by
  rcases gifr_init_inv u src 0 g h with ⟨hr, -⟩ | ⟨-, g1, g2, g3, -, -, hc, hg⟩
  · exact absurd hr (by decide)
  · have hf := count_images_loop_fields _ _ _ hc
    rw [hg, hf]
    simp only [gifr_head, List.length_map, List.length_range]

/-! ## The graphic control extension, written and read back -/

theorem disposal_bits (f : Nat) : (f &&& 0x1c) >>> 2 = (f / 4) % 8 := by
  have h4 : ∀ n : Nat, n / 4 = n / 2 / 2 := fun n => by rw [Nat.div_div_eq_div_mul]
  rw [Nat.shiftRight_eq_div_pow]
  show (f &&& 28) / 4 = f / 4 % 8
  rw [h4, Nat.and_div_two, Nat.and_div_two, ← h4]
  exact Nat.and_pow_two_sub_one_eq_mod (f / 4) 3

/-- Two turns of the loop of `gifr_next` over the bytes the writer emits for `opts`. -/
theorem gifr_next_loop_gce (lzwd : Nat → List Nat → List Nat) (g : gif_reader) (o : gif_opts)
    (rest : List Nat) (f : Nat) (hs : g.src = gce_bytes (some o) ++ rest) :
    gifr_next_loop lzwd (f + 2) g =
      gifr_next_loop lzwd f { apply_opts g (some o) with src := rest } := by
  simp only [gce_bytes, List.cons_append, List.nil_append] at hs
  rw [gifr_next_loop.eq_2, hs, advance_read_cons]
  simp only [List.getD_cons_zero, TAG_GRAPHIC_CONTROL_LABEL, TAG_IMAGE_DESCRIPTOR,
    Nat.reduceEqDiff, if_false, if_true, skip_section_ext, ne_eq, not_true_eq_false]
  rw [gifr_next_loop.eq_2]
  simp only [advance_read_cons, List.getD_cons_zero, TAG_GRAPHIC_CONTROL_LABEL, if_true]
  rw [graphic_control_writer _ o _ rfl]
  simp only [apply_opts]
  by_cases hb : o.flags &&& 0x01 ≠ 0
  · rw [if_pos hb, if_pos hb]
  · rw [if_neg hb, if_neg hb]

theorem writer_graphic_control_bytes (wg : Writer.gif_writer) (o : gif_opts) :
    (Writer.graphic_control wg o).dst.drop wg.dst.length = gce_bytes (some o) := by
  rw [graphic_control_eq]
  simp [gce_bytes]

end

section

open Reader

/-! ## The disposal bits do not reach the canvas -/

theorem write_image_dispose (g : gif_reader) (l t w h len : Nat) (img : List Nat) :
    (write_image g l t w h len img).dispose = g.dispose := by
  rw [write_image_eq]

theorem decompress_image_chain (lzwd : Nat → List Nat → List Nat) (g : gif_reader)
    (cs : Nat) (chunks : List (List Nat)) (rest : List Nat)
    (hc : ∀ ch ∈ chunks, 1 ≤ ch.length) (hs : g.src = cs :: (chain chunks ++ rest)) :
    decompress_image lzwd g = some (0, { g with src := rest }, lzwd cs chunks.flatten) := by
  have hlen := chain_length chunks
  unfold decompress_image
  rw [hs, advance_read_cons]
  simp only [List.getD_cons_zero]
  unfold get_data_size
  simp only []
  rw [get_data_size_loop_chain _ _ _ _ hc (by simp only [List.length_append]; omega)]
  simp only []
  rw [decompress_image_loop_chain _ _ _ _ hc (by simp only [List.length_append]; omega)]
  simp

/-- One turn of the loop of `gifr_next` at an image: the descriptor, the local table if
the descriptor declares one, the code size byte and the chain of sub-blocks. -/
theorem gifr_next_loop_image (lzwd : Nat → List Nat → List Nat) (g : gif_reader)
    (desc lct : List Nat) (cs : Nat) (chunks : List (List Nat)) (rest : List Nat) (f : Nat)
    (hwf : (stream_section.image desc lct cs chunks).wf)
    (hs : g.src = (stream_section.image desc lct cs chunks).bytes ++ rest) :
    gifr_next_loop lzwd (f + 1) g = some (1, write_image
      { g with
        src := rest
        has_local_clut := if desc.getD 8 0 &&& 0x80 ≠ 0 then 1 else g.has_local_clut
        local_clut := if desc.getD 8 0 &&& 0x80 ≠ 0 then
          lct ++ g.local_clut.drop (local_color_table_size (desc.getD 8 0 &&& 0x07))
          else g.local_clut }
      (READ2BYTES desc) (READ2BYTES (desc.drop 2)) (READ2BYTES (desc.drop 4))
      (READ2BYTES (desc.drop 6)) (lzwd cs chunks.flatten).length (lzwd cs chunks.flatten)) := by
  obtain ⟨hd, hl, hc⟩ := hwf
  simp only [stream_section.bytes, List.cons_append, List.append_assoc] at hs
  rw [gifr_next_loop.eq_2, hs, advance_read_cons]
  simp only [List.getD_cons_zero, TAG_GRAPHIC_CONTROL_LABEL, TAG_IMAGE_DESCRIPTOR,
    Nat.reduceEqDiff, if_false, if_true]
  unfold gif_next_process_image parse_image_descriptor
  simp only []
  rw [advance_read_append desc _ IMAGE_DESCRIPTOR_HEADER_SIZE hd]
  simp only []
  by_cases hb : desc.getD 8 0 &&& 0x80 ≠ 0
  · rw [if_pos hb] at hl
    simp only [if_pos hb]
    rw [advance_read_append lct _ _ hl]
    simp only []
    rw [decompress_image_chain lzwd _ cs chunks rest (fun ch h => (hc ch h).1) rfl]
    simp
  · rw [if_neg hb] at hl
    have hnil : lct = [] := List.length_eq_zero.1 hl
    subst hnil
    simp only [if_neg hb, List.nil_append]
    rw [decompress_image_chain lzwd _ cs chunks rest (fun ch h => (hc ch h).1) rfl]
    simp

/-- One turn of the loop of `gifr_next` at a graphic control extension. -/
theorem gifr_next_loop_gc (lzwd : Nat → List Nat → List Nat) (g : gif_reader)
    (body rest : List Nat) (hb : body.length = 6) (hs : g.src = 0xf9 :: (body ++ rest))
    (f : Nat) :
    gifr_next_loop lzwd (f + 1) g = gifr_next_loop lzwd f
      (if body.getD 1 0 &&& 0x01 ≠ 0 then
        { g with
          src := rest, dispose := some (choose_disposal ((body.getD 1 0 &&& 0x1c) >>> 2))
          delay := READ2BYTES (body.drop 2), has_trans := 1, trans_index := body.getD 4 0 }
      else
        { g with
          src := rest, dispose := some (choose_disposal ((body.getD 1 0 &&& 0x1c) >>> 2))
          delay := READ2BYTES (body.drop 2), has_trans := 0 }) := by
  rw [gifr_next_loop.eq_2, hs, advance_read_cons]
  simp only [List.getD_cons_zero, TAG_GRAPHIC_CONTROL_LABEL, if_true]
  unfold graphic_control
  simp only []
  rw [advance_read_append body rest GRAPHIC_CONTROL_HEADER_SIZE hb]
  simp only []
  by_cases hbit : body.getD 1 0 &&& 0x01 ≠ 0
  · rw [if_pos hbit, if_pos hbit]
  · rw [if_neg hbit, if_neg hbit]

/-- One turn of the loop of `gifr_next` at an extension section other than a graphic
control extension: only the cursor moves. -/
theorem gifr_next_loop_ext_plain (lzwd : Nat → List Nat → List Nat) (e : ext_section)
    (he : e.wf) (hne : ∀ body, e ≠ ext_section.graphic_control body) (g : gif_reader)
    (rest : List Nat) (hs : g.src = e.bytes ++ rest) (f : Nat) :
    gifr_next_loop lzwd (f + 1) g = gifr_next_loop lzwd f { g with src := rest } := by
  cases e with
  | introducer =>
    simp only [ext_section.bytes, List.cons_append, List.nil_append] at hs
    rw [gifr_next_loop.eq_2, hs, advance_read_cons]
    simp only [List.getD_cons_zero, TAG_GRAPHIC_CONTROL_LABEL, TAG_IMAGE_DESCRIPTOR,
      Nat.reduceEqDiff, if_false, skip_section_ext, ne_eq, not_true_eq_false]
  | graphic_control body => exact absurd rfl (hne body)
  | comment chunks =>
    simp only [ext_section.wf] at he
    simp only [ext_section.bytes, List.cons_append] at hs
    rw [gifr_next_loop.eq_2, hs, advance_read_cons]
    simp only [List.getD_cons_zero, TAG_GRAPHIC_CONTROL_LABEL, TAG_IMAGE_DESCRIPTOR,
      Nat.reduceEqDiff, if_false,
      skip_section_comment _ rest (skip_data_chain chunks rest (fun ch hc => (he ch hc).1)),
      ne_eq, not_true_eq_false]
  | application hdr chunks =>
    simp only [ext_section.wf] at he
    simp only [ext_section.bytes, List.cons_append, List.append_assoc] at hs
    rw [gifr_next_loop.eq_2, hs, advance_read_cons]
    simp only [List.getD_cons_zero, TAG_GRAPHIC_CONTROL_LABEL, TAG_IMAGE_DESCRIPTOR,
      Nat.reduceEqDiff, if_false,
      skip_section_application hdr _ rest he.1
        (skip_data_chain chunks rest (fun ch hc => (he.2 ch hc).1)),
      ne_eq, not_true_eq_false]
  | plain_text hdr chunks =>
    simp only [ext_section.wf] at he
    simp only [ext_section.bytes, List.cons_append, List.append_assoc] at hs
    rw [gifr_next_loop.eq_2, hs, advance_read_cons]
    simp only [List.getD_cons_zero, TAG_GRAPHIC_CONTROL_LABEL, TAG_IMAGE_DESCRIPTOR,
      Nat.reduceEqDiff, if_false,
      skip_section_plain_text hdr _ rest he.1
        (skip_data_chain chunks rest (fun ch hc => (he.2 ch hc).1)),
      ne_eq, not_true_eq_false]

theorem stream_sections_length (secs : List stream_section) :
    secs.length ≤ (secs.flatMap stream_section.bytes).length := by
  induction secs with
  | nil => simp
  | cons e es ih =>
    simp only [List.flatMap_cons, List.length_append, List.length_cons]
    have : 1 ≤ e.bytes.length := by
      cases e with
      | ext e => cases e <;> simp [stream_section.bytes, ext_section.bytes]
      | image _ _ _ _ => simp [stream_section.bytes]
      | other _ => simp [stream_section.bytes]
    omega

theorem gifr_next_pass_succ (lzwd : Nat → List Nat → List Nat) (n : Nat) (g g' : gif_reader)
    (r : Int) (h : gifr_next lzwd g = some (r, g')) :
    (gifr_next_pass lzwd (n + 1) g).map Prod.fst =
      ((gifr_next_pass lzwd n g').map Prod.fst).map (fun rs => (r, g'.image) :: rs) ∧
    (gifr_next_pass lzwd (n + 1) g).isSome = (gifr_next_pass lzwd n g').isSome := by
  rw [gifr_next_pass, h]
  simp only []
  cases gifr_next_pass lzwd n g' with
  | none => exact ⟨rfl, rfl⟩
  | some x => exact ⟨rfl, rfl⟩

theorem gifr_next_pass_none (lzwd : Nat → List Nat → List Nat) (n : Nat) (g : gif_reader)
    (h : gifr_next lzwd g = none) : gifr_next_pass lzwd (n + 1) g = none := by
  rw [gifr_next_pass, h]

end

section

open Reader

/-! ## The prescan over two streams that differ in the disposal bits -/

theorem skip_section_image_gen (desc lct : List Nat) (cs : Nat) (chunks : List (List Nat))
    (rest : List Nat) (hwf : (stream_section.image desc lct cs chunks).wf) :
    skip_section (desc ++ (lct ++ cs :: (chain chunks ++ rest))) 0x2c = some (0, rest) := by
  obtain ⟨hd, hl, hc⟩ := hwf
  have hsk := skip_data_chain chunks rest (fun ch h => (hc ch h).1)
  unfold skip_section
  simp only [TAG_IMAGE_DESCRIPTOR, TAG_GRAPHIC_EXTENSION, TAG_GRAPHIC_CONTROL_LABEL,
    TAG_COMMENT_LABEL, TAG_APPLICATION_LABEL, TAG_PLAIN_TEXT_LABEL, Nat.reduceEqDiff,
    if_false, if_true]
  rw [advance_read_append desc _ IMAGE_DESCRIPTOR_HEADER_SIZE hd]
  simp only []
  by_cases hb : desc.getD 8 0 &&& 0x80 ≠ 0
  · rw [if_pos hb] at hl
    rw [if_pos hb]
    simp only [advance, ← hl, List.drop_left, List.drop_succ_cons, List.drop_zero, hsk,
      Option.map_some']
  · rw [if_neg hb] at hl
    have hnil : lct = [] := List.length_eq_zero.1 hl
    subst hnil
    rw [if_neg hb]
    simp only [advance, List.nil_append, List.drop_succ_cons, List.drop_zero, hsk,
      Option.map_some']

end

section

open Writer

/-! ## Writer: the size of the colour table -/

/-- The writer `gifw_init` leaves for any code size byte and any supplied palette. -/
theorem gifw_init_any (c W H : Nat) (P : List Nat) :
    gifw_init c (some P) W H =
      { dst := [0x47, 0x49, 0x46, 0x38, 0x39, 0x61] ++
          ([W % 256, (W / 256) % 256, H % 256, (H / 256) % 256,
              0x80 ||| ((c + 255) % 256), 0, 0] ++
            (P.take ((((1 <<< c) % 4294967296) * 3) % 4294967296) ++ netscape_bytes)),
        width := W, height := H, n_colors := (1 <<< c) % 4294967296,
        code_size := c, palette := P } := by
  simp only [gifw_init, header, logical_screen, netscape_loop, write_byte_eq, write_bytes_eq,
    WRITE2BYTES_eq, netscape_bytes, TAG_GRAPHIC_EXTENSION, TAG_APPLICATION_LABEL]
  simp

theorem gifw_init_flags (c W H : Nat) (P : List Nat) :
    (gifw_init c (some P) W H).dst.getD 10 0 = 0x80 ||| ((c + 255) % 256) := by
  rw [gifw_init_any]
  rfl

theorem gifw_init_n_colors (c W H : Nat) (P : List Nat) :
    (gifw_init c (some P) W H).n_colors = (1 <<< c) % 4294967296 := by
  rw [gifw_init_any]

/-- For a code size in 1..8 the writer keeps the colour-table size invariant. -/
theorem table_size_of_code_size (c W H : Nat) (P : List Nat) (hc1 : 1 ≤ c) (hc8 : c ≤ 8) :
    table_size_invariant (gifw_init c (some P) W H) := by
  unfold table_size_invariant
  rw [gifw_init_flags, gifw_init_n_colors, shl_code_size c hc8]
  refine ⟨⟨c, rfl⟩, ?_, ?_, ?_, ?_⟩ <;> interval_cases c <;> decide

/-- The palette bytes in the stream of `gifw_init`: `3 * n_colors` bytes of the supplied
palette after the 13 bytes of signature and logical screen descriptor, then the 19 bytes of
the loop extension. -/
theorem gifw_init_palette (c W H : Nat) (P : List Nat) (hc8 : c ≤ 8)
    (hP : 3 * 2 ^ c ≤ P.length) :
    (gifw_init c (some P) W H).dst.length =
        13 + 3 * (gifw_init c (some P) W H).n_colors + 19 ∧
      ((gifw_init c (some P) W H).dst.drop 13).take
          (3 * (gifw_init c (some P) W H).n_colors) =
        P.take (3 * (gifw_init c (some P) W H).n_colors) := by
  rw [gifw_init_n_colors, shl_code_size c hc8]
  have h4 : (2 ^ c * 3) % 4294967296 = 3 * 2 ^ c := by
    interval_cases c <;> decide
  have hl : (P.take (3 * 2 ^ c)).length = 3 * 2 ^ c := by
    rw [List.length_take]; omega
  rw [gifw_init_any, shl_code_size c hc8, h4]
  constructor
  · simp only [List.length_append, hl, netscape_bytes, List.length_cons, List.length_nil]
    omega
  · show (([W % 256, (W / 256) % 256, H % 256, (H / 256) % 256,
        0x80 ||| ((c + 255) % 256), 0, 0].drop 7 ++
      (P.take (3 * 2 ^ c) ++ netscape_bytes))).take (3 * 2 ^ c) = _
    rw [List.drop_eq_nil_of_le (by simp), List.nil_append]
    have e := @List.take_left _ (P.take (3 * 2 ^ c)) netscape_bytes
    rw [hl] at e
    rw [e]

end

section

open Reader

/-! ## Reader on the stream of `gifw_init` and `gifw_end` -/

/-- The stream of `gifw_init` followed by `gifw_end`: 13 bytes of signature and logical screen
descriptor, the palette, the loop extension and the trailer. -/
theorem init_end_stream (c W H : Nat) (P : List Nat) (hc1 : 1 ≤ c) (hc8 : c ≤ 8)
    (hP : P.length = 3 * 2 ^ c) (hW : W < 65536) (hH : H < 65536) :
    (Writer.gifw_end (Writer.gifw_init c (some P) W H)).2 =
      [0x47, 0x49, 0x46, 0x38, 0x39, 0x61] ++
        ([W % 256, W / 256, H % 256, H / 256, 0x80 ||| (c - 1), 0, 0] ++
          (P ++ (netscape_bytes ++ [0x3b]))) := by
  rw [gifw_init_eq c W H P hc1 hc8 hP hW hH]
  show init_bytes c W H P ++ [0x3b] = _
  rw [init_bytes_eq]
  simp only [List.append_assoc]

/-- The reader `gifr_init` leaves on the stream of `gifw_init` followed by `gifw_end`. -/
theorem gifr_init_init_end (u : Uninit) (c W H : Nat) (P : List Nat) (hc1 : 1 ≤ c)
    (hc8 : c ≤ 8) (hP : P.length = 3 * 2 ^ c) (hW : W < 65536) (hH : H < 65536) :
    gifr_init u (Writer.gifw_end (Writer.gifw_init c (some P) W H)).2 =
      some (0, opened_reader u c W H P (netscape_bytes ++ [0x3b]) 0) := by
  have h := gifr_init_stream (fun _ x => x) u c W H P [] hc1 hc8 hP hW hH
    (fun a ha => absurd ha (List.not_mem_nil a))
  exact h

end

section

open Reader

/-! ## Reader: the frame condition of `write_image` -/

theorem foldl_rows_id (R : Nat → List Nat → List Nat) (hR : ∀ i image, R i image = image)
    (image : List Nat) : ∀ rows : List Nat, rows.foldl (fun im i => R i im) image = image := by
  intro rows
  induction rows with
  | nil => rfl
  | cons i rows ih => rw [List.foldl_cons, hR, ih]

/-- A frame of width 0 leaves the canvas as it is. -/
theorem write_image_width_zero (g : gif_reader) (l t h len : Nat) (img : List Nat) :
    (write_image g l t 0 h len img).image = g.image := by
  rw [write_image_image]
  split
  · exact foldl_rows_id
      (fun i im => write_row_trans (active_table g) g.trans_index img 0 (row_src 0 i)
        (row_dst g.width l t i) im) (fun _ _ => rfl) g.image (List.range h)
  · exact foldl_rows_id
      (fun i im => write_row (active_table g) img 0 (row_src 0 i)
        (row_dst g.width l t i) im) (fun _ _ => rfl) g.image (List.range h)

/-- A byte of a pixel outside the frame rectangle lies in no row of the frame. -/
theorem outside_rows (gw left top width height x y k i : Nat)
    (hx : left + width ≤ gw) (hxw : x < gw) (hk : k < 3) (hi : i < height)
    (hout : x < left ∨ left + width ≤ x ∨ y < top ∨ top + height ≤ y) :
    ¬ (3 * ((i + top) * gw + left) ≤ 3 * (y * gw + x) + k ∧
      3 * (y * gw + x) + k < 3 * ((i + top) * gw + left) + 3 * width) := by
  rintro ⟨h1, h2⟩
  have a1 : (i + top) * gw + left ≤ y * gw + x := by omega
  have a2 : y * gw + x < (i + top) * gw + left + width := by omega
  have hy : y = i + top := by
    rcases Nat.lt_trichotomy y (i + top) with hlt | heq | hgt
    · have : (y + 1) * gw ≤ (i + top) * gw := Nat.mul_le_mul_right gw (by omega)
      rw [Nat.add_mul, Nat.one_mul] at this
      omega
    · exact heq
    · have : (i + top + 1) * gw ≤ y * gw := Nat.mul_le_mul_right gw (by omega)
      rw [Nat.add_mul, Nat.one_mul] at this
      omega
  subst hy
  omega

/-- The frame condition of `write_image` for a frame inside a canvas of fewer than `2^32`
bytes: no byte of a pixel outside the frame rectangle changes. -/
theorem write_image_frame (g : gif_reader) (left top width height len : Nat) (img : List Nat)
    (hx : left + width ≤ g.width) (hy : top + height ≤ g.height)
    (hsz : g.width * g.height * 3 < 4294967296) :
    frame_condition_holds g left top width height
      (write_image g left top width height len img).image := by
  intro x y hxw _ hout k hk
  rcases Nat.eq_zero_or_pos width with hw0 | hw
  · subst hw0
    rw [write_image_width_zero]
  have hoff := fun i (hi : i < height) =>
    row_offsets g.width g.height left top width height i hx hy hsz hi hw
  have hdisj : ∀ i j, i < j → j < height →
      row_dst g.width left top i + 3 * width ≤ row_dst g.width left top j := by
    intro i j hij hj
    rw [(hoff i (by omega)).2.1, (hoff j hj).2.1]
    have : (i + top) * g.width + g.width ≤ (j + top) * g.width := by
      have : (i + top + 1) * g.width ≤ (j + top) * g.width :=
        Nat.mul_le_mul_right g.width (by omega)
      rw [Nat.add_mul, Nat.one_mul] at this
      exact this
    omega
  have hno : ∀ i, i < height → ¬ (row_dst g.width left top i ≤ 3 * (y * g.width + x) + k ∧
      3 * (y * g.width + x) + k < row_dst g.width left top i + 3 * width) := by
    intro i hi
    rw [(hoff i hi).2.1]
    exact outside_rows g.width left top width height x y k i hx hxw hk hi hout
  rw [write_image_image]
  by_cases ht : g.has_trans ≠ 0
  · rw [if_pos ht]
    exact (fold_rows (fun i im => write_row_trans (active_table g) g.trans_index img width
      (row_src width i) (row_dst g.width left top i) im) (row_dst g.width left top) width
      (fun i c => img.getD (row_src width i + c) 0 ≠ g.trans_index)
      (fun i d => (active_table g).getD (img.getD (row_src width i + d / 3) 0 * 3 + d % 3) 0)
      (fun i im => write_row_trans_length _ _ _ _ _ _ _)
      (fun i im q => write_row_trans_getElem? _ _ _ _ _ _ _ _) g.image height hdisj).2.2
      _ hno
  · rw [if_neg ht]
    exact (fold_rows (fun i im => write_row (active_table g) img width
      (row_src width i) (row_dst g.width left top i) im) (row_dst g.width left top) width
      (fun _ _ => True)
      (fun i d => (active_table g).getD (img.getD (row_src width i + d / 3) 0 * 3 + d % 3) 0)
      (fun i im => write_row_length _ _ _ _ _ _)
      (fun i im q => by
        rw [write_row_getElem?]
        simp only [and_true]) g.image height hdisj).2.2
      _ hno

/-- What `write_image` leaves alone: every field of the reader but the canvas. -/
theorem write_image_keeps (g : gif_reader) (l t w h len : Nat) (img : List Nat) :
    (write_image g l t w h len img).width = g.width ∧
    (write_image g l t w h len img).height = g.height ∧
    (write_image g l t w h len img).n_frames = g.n_frames ∧
    (write_image g l t w h len img).n_colors = g.n_colors ∧
    (write_image g l t w h len img).has_global_clut = g.has_global_clut ∧
    (write_image g l t w h len img).global_clut = g.global_clut ∧
    (write_image g l t w h len img).has_local_clut = g.has_local_clut ∧
    (write_image g l t w h len img).local_clut = g.local_clut := by
  rw [write_image_eq]
  exact ⟨rfl, rfl, rfl, rfl, rfl, rfl, rfl, rfl⟩

/-- On the canvas `gifr_init` leaves for a 65535 × 21846 screen, the frame of one pixel at
the last row and column is stored at the wrapped offset 65531: byte 65531 of the canvas, the
third byte of the pixel `(21843, 0)`, changes from 0 to 1. -/
theorem wrapped_store :
    wrapped_canvas_reader.image[65531]? = some 0 ∧
    (write_image wrapped_canvas_reader 65534 21845 1 1 1 [0]).image[65531]? = some 1 := by
  have hg : wrapped_canvas_reader.image.length = 65534 := by
    unfold wrapped_canvas_reader
    rw [opened_reader_image_length]
  have himg0 : wrapped_canvas_reader.image =
      (List.range ((65535 * 21846 * 3) % 4294967296)).map zero_uninit.image := by
    simp only [wrapped_canvas_reader, opened_reader]
  have hdst : row_dst 65535 65534 21845 0 = 65531 := by decide
  have himg : (write_image wrapped_canvas_reader 65534 21845 1 1 1 [0]).image =
      write_row (active_table wrapped_canvas_reader) [0] 1 0 65531
        wrapped_canvas_reader.image := by
    rw [write_image_image, if_neg (by decide)]
    simp only [List.range_succ, List.range_zero, List.nil_append, List.foldl_cons,
      List.foldl_nil]
    have hw : wrapped_canvas_reader.width = 65535 := rfl
    have hs : row_src 1 0 = 0 := by decide
    rw [hw, hdst, hs]
  constructor
  · rw [himg0, List.getElem?_map, List.getElem?_range (by decide)]
    rfl
  · rw [himg, write_row_getElem?, if_pos ⟨by decide, by decide, by rw [hg]; decide⟩]
    rfl

end

section

open Reader

/-! ## Reader: the memory accesses of `write_image` -/

theorem replay_stores_append (canvas : List Nat) (a b : List access) :
    replay_stores canvas (a ++ b) = replay_stores (replay_stores canvas a) b := by
  unfold replay_stores
  rw [List.foldl_append]

theorem replay_stores_load (canvas : List Nat) (off : Nat) (rest : List access) :
    replay_stores canvas (access.img_load off :: rest) = replay_stores canvas rest ∧
    replay_stores canvas (access.pal_load off :: rest) = replay_stores canvas rest :=
  ⟨rfl, rfl⟩

theorem replay_stores_store (canvas : List Nat) (off val : Nat) (rest : List access) :
    replay_stores canvas (access.canvas_store off val :: rest) =
      replay_stores (canvas.set off val) rest := rfl

/-- The stores in the trace of a row are the stores of `write_row`. -/
theorem replay_write_row (pal img : List Nat) : ∀ (w src dst : Nat) (image : List Nat),
    replay_stores image (write_row_accesses pal img w src dst) =
      write_row pal img w src dst image := by
  intro w
  induction w with
  | zero => intro src dst image; rfl
  | succ w ih =>
    intro src dst image
    rw [write_row_accesses, write_row]
    simp only [List.cons_append, List.nil_append, replay_stores_load, replay_stores_store]
    rw [ih]

/-- The stores in the trace of a row with transparency are the stores of `write_row_trans`. -/
theorem replay_write_row_trans (pal : List Nat) (ti : Nat) (img : List Nat) :
    ∀ (w src dst : Nat) (image : List Nat),
    replay_stores image (write_row_trans_accesses pal ti img w src dst) =
      write_row_trans pal ti img w src dst image := by
  intro w
  induction w with
  | zero => intro src dst image; rfl
  | succ w ih =>
    intro src dst image
    rw [write_row_trans_accesses, write_row_trans]
    by_cases h : img.getD src 0 ≠ ti
    · rw [if_pos h, if_pos h]
      simp only [List.cons_append, List.nil_append, replay_stores_load, replay_stores_store]
      rw [ih]
    · rw [if_neg h, if_neg h]
      rw [(replay_stores_load _ _ _).1, ih]

theorem replay_rows (R : Nat → List Nat → List Nat) (T : Nat → List access)
    (h : ∀ i image, replay_stores image (T i) = R i image) :
    ∀ (rows : List Nat) (image : List Nat),
      replay_stores image (rows.flatMap T) = rows.foldl (fun im i => R i im) image := by
  intro rows
  induction rows with
  | nil => intro image; rfl
  | cons i rows ih =>
    intro image
    rw [List.flatMap_cons, replay_stores_append, h, ih, List.foldl_cons]

/-- The canvas `write_image` leaves is the canvas after the stores of its trace. -/
theorem write_image_replay (g : gif_reader) (l t w h len : Nat) (img : List Nat) :
    (write_image g l t w h len img).image =
      replay_stores g.image (write_image_accesses g l t w h img) := by
  rw [write_image_image]
  unfold write_image_accesses
  by_cases ht : g.has_trans ≠ 0
  · rw [if_pos ht]
    simp only [ht, ne_eq, not_false_eq_true, if_true]
    exact (replay_rows
      (fun i im => write_row_trans (active_table g) g.trans_index img w (row_src w i)
        (row_dst g.width l t i) im)
      (fun i => write_row_trans_accesses (active_table g) g.trans_index img w (row_src w i)
        (row_dst g.width l t i))
      (fun i image => replay_write_row_trans _ _ _ _ _ _ _) (List.range h) g.image).symm
  · rw [if_neg ht]
    simp only [ht, if_false]
    exact (replay_rows
      (fun i im => write_row (active_table g) img w (row_src w i) (row_dst g.width l t i) im)
      (fun i => write_row_accesses (active_table g) img w (row_src w i)
        (row_dst g.width l t i))
      (fun i image => replay_write_row _ _ _ _ _ _) (List.range h) g.image).symm

/-- The accesses of a row stay in bounds when the row of `w` indices lies in the decoded
image and its `3 * w` bytes lie in the canvas. -/
theorem write_row_accesses_bounds (pal img : List Nat) (L C : Nat)
    (hb : ∀ b ∈ img, b < 256) : ∀ (w src dst : Nat), src + w ≤ L → dst + 3 * w ≤ C →
    ∀ a ∈ write_row_accesses pal img w src dst, a.in_bounds L C := by
  intro w
  induction w with
  | zero => intro src dst _ _ a ha; exact absurd ha (List.not_mem_nil a)
  | succ w ih =>
    intro src dst hs hd a ha
    have hi := getD_lt_256 img hb src
    rw [write_row_accesses] at ha
    simp only [List.cons_append, List.nil_append, List.mem_cons] at ha
    rcases ha with rfl | rfl | rfl | rfl | rfl | rfl | rfl | ha
    · show src < L
      omega
    · show img.getD src 0 * 3 + 0 < 3 * 256
      omega
    · show dst < C
      omega
    · show img.getD src 0 * 3 + 1 < 3 * 256
      omega
    · show dst + 1 < C
      omega
    · show img.getD src 0 * 3 + 2 < 3 * 256
      omega
    · show dst + 2 < C
      omega
    · exact ih (src + 1) (dst + 3) (by omega) (by omega) a ha

theorem write_row_trans_accesses_bounds (pal : List Nat) (ti : Nat) (img : List Nat)
    (L C : Nat) (hb : ∀ b ∈ img, b < 256) :
    ∀ (w src dst : Nat), src + w ≤ L → dst + 3 * w ≤ C →
    ∀ a ∈ write_row_trans_accesses pal ti img w src dst, a.in_bounds L C := by
  intro w
  induction w with
  | zero => intro src dst _ _ a ha; exact absurd ha (List.not_mem_nil a)
  | succ w ih =>
    intro src dst hs hd a ha
    have hi := getD_lt_256 img hb src
    rw [write_row_trans_accesses] at ha
    by_cases h : img.getD src 0 ≠ ti
    · rw [if_pos h] at ha
      simp only [List.cons_append, List.nil_append, List.mem_cons] at ha
      rcases ha with rfl | rfl | rfl | rfl | rfl | rfl | rfl | rfl | ha
      · show src < L
        omega
      · show src < L
        omega
      · show img.getD src 0 * 3 + 0 < 3 * 256
        omega
      · show dst < C
        omega
      · show img.getD src 0 * 3 + 1 < 3 * 256
        omega
      · show dst + 1 < C
        omega
      · show img.getD src 0 * 3 + 2 < 3 * 256
        omega
      · show dst + 2 < C
        omega
      · exact ih (src + 1) (dst + 3) (by omega) (by omega) a ha
    · rw [if_neg h] at ha
      rcases List.mem_cons.mp ha with rfl | ha
      · show src < L
        omega
      · exact ih (src + 1) (dst + 3) (by omega) (by omega) a ha

/-- Every access of `write_image` stays in bounds for a frame inside a canvas of fewer than
`2^32` bytes and a decoded image of at least `width * height` bytes. -/
theorem write_image_accesses_bounds (g : gif_reader) (left top width height : Nat)
    (img : List Nat) (hx : left + width ≤ g.width) (hy : top + height ≤ g.height)
    (hsz : g.width * g.height * 3 < 4294967296) (hlen : width * height ≤ img.length)
    (hb : ∀ b ∈ img, b < 256) :
    ∀ a ∈ write_image_accesses g left top width height img,
      a.in_bounds img.length (g.width * g.height * 3) := by
  intro a ha
  rcases Nat.eq_zero_or_pos width with hw0 | hw
  · subst hw0
    exfalso
    unfold write_image_accesses at ha
    simp only [] at ha
    split at ha
    · obtain ⟨i, _, hi⟩ := List.mem_flatMap.mp ha
      exact absurd hi (List.not_mem_nil a)
    · obtain ⟨i, _, hi⟩ := List.mem_flatMap.mp ha
      exact absurd hi (List.not_mem_nil a)
  have hrow : ∀ i, i < height → row_src width i + width ≤ img.length ∧
      row_dst g.width left top i + 3 * width ≤ g.width * g.height * 3 := by
    intro i hi
    obtain ⟨e1, e2, e3⟩ := row_offsets g.width g.height left top width height i hx hy hsz hi hw
    rw [e1, e2]
    refine ⟨?_, e3⟩
    have : (i + 1) * width ≤ height * width := Nat.mul_le_mul_right width (by omega)
    rw [Nat.add_mul, Nat.one_mul, Nat.mul_comm height width] at this
    omega
  unfold write_image_accesses at ha
  simp only [] at ha
  split at ha
  · obtain ⟨i, hi, hm⟩ := List.mem_flatMap.mp ha
    have hi := List.mem_range.mp hi
    exact write_row_trans_accesses_bounds _ _ img _ _ hb width _ _ (hrow i hi).1 (hrow i hi).2
      a hm
  · obtain ⟨i, hi, hm⟩ := List.mem_flatMap.mp ha
    have hi := List.mem_range.mp hi
    exact write_row_accesses_bounds _ img _ _ hb width _ _ (hrow i hi).1 (hrow i hi).2 a hm

end

section

open Reader

/-! ## Reader: the colour tables keep their 768 bytes -/

theorem table_size_le (flags : Nat) : 3 * (1 <<< ((flags &&& 0x07) + 1)) ≤ 768 := by
  have h : flags &&& 0x07 ≤ 7 := Nat.and_le_right
  generalize flags &&& 0x07 = k at h
  interval_cases k <;> decide

theorem local_color_table_size_le (flags : Nat) :
    local_color_table_size (flags &&& 0x07) ≤ 768 := by
  have h : flags &&& 0x07 ≤ 7 := Nat.and_le_right
  generalize flags &&& 0x07 = k at h
  interval_cases k <;> decide

theorem advance_read_length (p : List Nat) (n : Nat) (a b : List Nat)
    (h : advance_read p n = some (a, b)) : a.length = n := by
  unfold advance_read at h
  split at h
  · next hn =>
    simp only [Option.some.injEq, Prod.mk.injEq] at h
    rw [← h.1, List.length_take]
    omega
  · exact Option.noConfusion h

theorem table_refill_length (bytes table : List Nat) (n : Nat) (hb : bytes.length = n)
    (hn : n ≤ 768) (ht : table.length = 768) : (bytes ++ table.drop n).length = 768 := by
  rw [List.length_append, List.length_drop, hb, ht]
  omega

theorem header_tables (g g' : gif_reader) (r : Int) (h : header g = some (r, g')) :
    g'.global_clut = g.global_clut ∧ g'.local_clut = g.local_clut := by
  have h6 := (header_inv g r g' h).1
  obtain ⟨e89, e87, eno⟩ := header_eq g h6
  by_cases a : g.src.take 6 = [0x47, 0x49, 0x46, 0x38, 0x39, 0x61]
  · rw [e89 a] at h
    simp only [Option.some.injEq, Prod.mk.injEq] at h
    rw [← h.2]
    exact ⟨rfl, rfl⟩
  · by_cases b : g.src.take 6 = [0x47, 0x49, 0x46, 0x38, 0x37, 0x61]
    · rw [e87 b] at h
      simp only [Option.some.injEq, Prod.mk.injEq] at h
      rw [← h.2]
      exact ⟨rfl, rfl⟩
    · rw [eno a b] at h
      simp only [Option.some.injEq, Prod.mk.injEq] at h
      rw [← h.2]
      exact ⟨rfl, rfl⟩

theorem logical_screen_tables (g g' : gif_reader) (r : Int)
    (h : logical_screen g = some (r, g')) (ht : g.global_clut.length = 768) :
    g'.global_clut.length = 768 ∧ g'.local_clut = g.local_clut := by
  unfold logical_screen at h
  split at h
  · exact Option.noConfusion h
  · next lsd p hl =>
    simp only [] at h
    split at h
    · split at h
      · exact Option.noConfusion h
      · next bytes p2 hb =>
        simp only [Option.some.injEq, Prod.mk.injEq] at h
        rw [← h.2]
        exact ⟨table_refill_length _ _ _ (advance_read_length _ _ _ _ hb)
          (table_size_le _) ht, rfl⟩
    · simp only [Option.some.injEq, Prod.mk.injEq] at h
      rw [← h.2]
      exact ⟨ht, rfl⟩

theorem parse_image_descriptor_tables (g g' : gif_reader) (l t w h : Nat)
    (hp : parse_image_descriptor g = some (g', l, t, w, h))
    (ht : g.local_clut.length = 768) : g'.local_clut.length = 768 := by
  unfold parse_image_descriptor at hp
  split at hp
  · exact Option.noConfusion hp
  · simp only [] at hp
    split at hp
    · split at hp
      · exact Option.noConfusion hp
      · next bytes p2 hb =>
        simp only [Option.some.injEq, Prod.mk.injEq] at hp
        rw [← hp.1]
        exact table_refill_length _ _ _ (advance_read_length _ _ _ _ hb)
          (local_color_table_size_le _) ht
    · simp only [Option.some.injEq, Prod.mk.injEq] at hp
      rw [← hp.1]
      exact ht

/-- After a `gifr_init` that returned 0 both colour tables hold `3 * 256` bytes, whatever
table size the logical screen descriptor declared. -/
theorem gifr_init_tables (u : Uninit) (src : List Nat) (g : gif_reader)
    (h : gifr_init u src = some (0, g)) :
    g.global_clut.length = 3 * 256 ∧ g.local_clut.length = 3 * 256 := by
  rcases gifr_init_inv u src 0 g h with ⟨hr, _⟩ | ⟨_, g1, g2, g3, h1, h2, h3, rfl⟩
  · exact absurd hr (by decide)
  · obtain ⟨a1, a2⟩ := header_tables _ _ _ h1
    have i1 : (init_state u src).global_clut.length = 768 := by
      simp only [init_state, List.length_map, List.length_range]
    have i2 : (init_state u src).local_clut.length = 768 := by
      simp only [init_state, List.length_map, List.length_range]
    obtain ⟨b1, b2⟩ := logical_screen_tables _ _ _ h2 (by rw [a1]; exact i1)
    have e3 := count_images_loop_fields _ _ _ h3
    rw [e3]
    exact ⟨b1, by show g2.local_clut.length = 768; rw [b2, a2]; exact i2⟩

theorem gif_next_process_image_tables (lzwd : Nat → List Nat → List Nat) (g g' : gif_reader)
    (r : Int) (hn : gif_next_process_image lzwd g = some (r, g'))
    (ht : g.local_clut.length = 768) : g'.local_clut.length = 768 := by
  unfold gif_next_process_image at hn
  cases hp : parse_image_descriptor g with
  | none => rw [hp] at hn; exact Option.noConfusion hn
  | some x =>
    obtain ⟨g1, l, t, w, h⟩ := x
    have e1 := parse_image_descriptor_tables g g1 l t w h hp ht
    rw [hp] at hn
    simp only [] at hn
    cases hd : decompress_image lzwd g1 with
    | none => rw [hd] at hn; exact Option.noConfusion hn
    | some y =>
      obtain ⟨r2, g2, img⟩ := y
      obtain ⟨hr2, e2⟩ := decompress_image_fields lzwd g1 g2 r2 img hd
      subst hr2
      rw [hd] at hn
      simp only [ne_eq, not_true_eq_false, if_false, Option.some.injEq, Prod.mk.injEq] at hn
      obtain ⟨-, rfl⟩ := hn
      rw [write_image_eq, e2]
      exact e1

theorem gifr_next_loop_tables (lzwd : Nat → List Nat → List Nat) :
    ∀ (fuel : Nat) (g g' : gif_reader) (r : Int),
      gifr_next_loop lzwd fuel g = some (r, g') →
      g.local_clut.length = 768 → g'.local_clut.length = 768 := by
  intro fuel
  induction fuel with
  | zero => intro g g' r h; simp [gifr_next_loop] at h
  | succ fuel ih =>
    intro g g' r h ht
    unfold gifr_next_loop at h
    split at h
    · exact Option.noConfusion h
    · next b p hb =>
      simp only [] at h
      split at h
      · cases hg : graphic_control { g with src := p } with
        | none => rw [hg] at h; exact Option.noConfusion h
        | some g1 =>
          rw [hg] at h
          simp only [] at h
          have e1 := graphic_control_fields _ _ hg
          exact ih g1 g' r h (by rw [e1]; exact ht)
      · split at h
        · exact gif_next_process_image_tables lzwd _ _ _ h ht
        · cases hs : skip_section p (b.getD 0 0) with
          | none => rw [hs] at h; exact Option.noConfusion h
          | some x =>
            obtain ⟨r1, p1⟩ := x
            rw [hs] at h
            simp only [] at h
            split at h
            · simp only [Option.some.injEq, Prod.mk.injEq] at h
              rw [← h.2]
              exact ht
            · exact ih _ g' r h ht

/-- A call of `gifr_next` that returns keeps the `3 * 256` bytes of both colour tables,
whatever table size an image descriptor declared. -/
theorem gifr_next_tables (lzwd : Nat → List Nat → List Nat) (g g' : gif_reader) (r : Int)
    (h : gifr_next lzwd g = some (r, g'))
    (ht : g.global_clut.length = 3 * 256 ∧ g.local_clut.length = 3 * 256) :
    g'.global_clut.length = 3 * 256 ∧ g'.local_clut.length = 3 * 256 := by
  refine ⟨?_, gifr_next_loop_tables lzwd _ g g' r h ht.2⟩
  have e := (gifr_next_loop_fields lzwd _ g g' r h).2.2.2
  rw [e]
  exact ht.1

end

section

open Reader

/-! ## Reader: the two ways over an image section -/

theorem local_color_table_size_eq (flags : Nat) :
    local_color_table_size (flags &&& 0x07) = 3 * 2 ^ ((flags &&& 0x07) + 1) := by
  have h : flags &&& 0x07 ≤ 7 := Nat.and_le_right
  generalize flags &&& 0x07 = k at h
  interval_cases k <;> decide

/-- The decode path over the image descriptor and the local table it declares. -/
theorem parse_image_descriptor_section (g : gif_reader) (desc lct rest : List Nat)
    (hd : desc.length = 9)
    (hl : lct.length = if desc.getD 8 0 &&& 0x80 ≠ 0 then
      local_color_table_size (desc.getD 8 0 &&& 0x07) else 0)
    (hs : g.src = desc ++ (lct ++ rest)) :
    parse_image_descriptor g = some
      ({ g with
          src := rest
          has_local_clut := if desc.getD 8 0 &&& 0x80 ≠ 0 then 1 else g.has_local_clut
          local_clut := if desc.getD 8 0 &&& 0x80 ≠ 0 then
            lct ++ g.local_clut.drop (local_color_table_size (desc.getD 8 0 &&& 0x07))
            else g.local_clut },
        READ2BYTES desc, READ2BYTES (desc.drop 2), READ2BYTES (desc.drop 4),
        READ2BYTES (desc.drop 6)) := by
  unfold parse_image_descriptor
  rw [hs, advance_read_append desc _ IMAGE_DESCRIPTOR_HEADER_SIZE hd]
  simp only []
  by_cases hb : desc.getD 8 0 &&& 0x80 ≠ 0
  · rw [if_pos hb] at hl
    simp only [if_pos hb]
    rw [advance_read_append lct _ _ hl]
  · rw [if_neg hb] at hl
    have hnil : lct = [] := List.length_eq_zero.1 hl
    subst hnil
    simp only [if_neg hb, List.nil_append]

/-- The number of bytes of an image section after its tag. -/
theorem image_section_length (desc lct : List Nat) (cs : Nat) (chunks : List (List Nat))
    (rest : List Nat) (hwf : (stream_section.image desc lct cs chunks).wf) :
    (desc ++ (lct ++ cs :: (chain chunks ++ rest))).length - rest.length =
      9 + (if desc.getD 8 0 &&& 0x80 ≠ 0 then 3 * 2 ^ ((desc.getD 8 0 &&& 0x07) + 1) else 0)
        + 1 + (chain chunks).length := by
  obtain ⟨hd, hl, -⟩ := hwf
  rw [local_color_table_size_eq] at hl
  simp only [List.length_append, List.length_cons, hd, hl]
  omega

/-- The length of a chain of sub-blocks: a length byte and the bytes of each chunk, and the
zero terminator. -/
theorem chain_length_eq (chunks : List (List Nat)) :
    (chain chunks).length = (chunks.map fun ch => 1 + ch.length).sum + 1 := by
  induction chunks with
  | nil => rfl
  | cons ch chunks ih =>
    rw [chain_cons]
    simp only [List.length_cons, List.length_append, ih, List.map_cons, List.sum_cons]
    omega

end

section

open Reader

/-! ## Readers that draw alike -/

theorem same_drawing_elim (g h : gif_reader) (he : same_drawing g h) :
    ∃ dl d ti, h = { g with delay := dl, dispose := d, trans_index := ti } ∧
      (g.has_trans ≠ 0 → ti = g.trans_index) :=
  ⟨h.delay, h.dispose, h.trans_index, he.1, he.2⟩

theorem same_drawing_intro (g : gif_reader) (dl : Nat) (d : Option dispose_fn) (ti : Nat)
    (hti : g.has_trans ≠ 0 → ti = g.trans_index) :
    same_drawing g { g with delay := dl, dispose := d, trans_index := ti } :=
  ⟨rfl, hti⟩

theorem same_drawing_image (g h : gif_reader) (he : same_drawing g h) :
    h.image = g.image := by
  rw [he.1]

theorem same_drawing_src (g h : gif_reader) (he : same_drawing g h) : h.src = g.src := by
  rw [he.1]

/-- The transparent index reaches `write_image` only when `has_trans` is set; the delay and
the disposal handler never do. -/
theorem write_image_same (g : gif_reader) (dl : Nat) (d : Option dispose_fn) (ti : Nat)
    (hti : g.has_trans ≠ 0 → ti = g.trans_index) (l t w h len : Nat) (img : List Nat) :
    write_image { g with delay := dl, dispose := d, trans_index := ti } l t w h len img =
      { write_image g l t w h len img with delay := dl, dispose := d, trans_index := ti } := by
  unfold write_image
  by_cases ht : g.has_trans ≠ 0
  · have e := hti ht
    subst e
    simp only []
    rw [if_pos ht, if_pos ht]
  · simp only []
    rw [if_neg ht, if_neg ht]

theorem write_image_delay (g : gif_reader) (l t w h len : Nat) (img : List Nat) :
    (write_image g l t w h len img).delay = g.delay := by
  rw [write_image_eq]

theorem write_image_has_trans (g : gif_reader) (l t w h len : Nat) (img : List Nat) :
    (write_image g l t w h len img).has_trans = g.has_trans ∧
    (write_image g l t w h len img).trans_index = g.trans_index := by
  rw [write_image_eq]
  exact ⟨rfl, rfl⟩

/-- One turn of the loop of `gifr_next` at an extension section, from two readers that draw
alike: they still draw alike. -/
theorem turn_ext_same (lzwd : Nat → List Nat → List Nat) (g h : gif_reader)
    (e : ext_section) (rest : List Nat) (he : same_drawing g h) (hwf : e.wf)
    (hg : g.src = e.bytes ++ rest) :
    ∃ g1 h1, same_drawing g1 h1 ∧ g1.src = rest ∧
      ∀ f, gifr_next_loop lzwd (f + 1) g = gifr_next_loop lzwd f g1 ∧
        gifr_next_loop lzwd (f + 1) h = gifr_next_loop lzwd f h1 := by
  obtain ⟨dl, d, ti, rfl, hti⟩ := same_drawing_elim g h he
  have hh : ({ g with delay := dl, dispose := d, trans_index := ti } : gif_reader).src =
      e.bytes ++ rest := hg
  by_cases hgc : ∃ body, e = ext_section.graphic_control body
  · obtain ⟨body, rfl⟩ := hgc
    simp only [ext_section.wf] at hwf
    simp only [ext_section.bytes, List.cons_append] at hg hh
    have a := gifr_next_loop_gc lzwd g body rest hwf hg
    have b := gifr_next_loop_gc lzwd { g with delay := dl, dispose := d, trans_index := ti }
      body rest hwf hh
    by_cases hbit : body.getD 1 0 &&& 0x01 ≠ 0
    · simp only [if_pos hbit] at a b
      exact ⟨_, _, ⟨rfl, fun _ => rfl⟩, rfl, fun f => ⟨a f, b f⟩⟩
    · simp only [if_neg hbit] at a b
      exact ⟨_, _, ⟨rfl, fun hc => absurd rfl hc⟩, rfl, fun f => ⟨a f, b f⟩⟩
  · have hne : ∀ body, e ≠ ext_section.graphic_control body := fun body hc => hgc ⟨body, hc⟩
    exact ⟨_, _, ⟨rfl, hti⟩, rfl, fun f =>
      ⟨gifr_next_loop_ext_plain lzwd e hwf hne g rest hg f,
        gifr_next_loop_ext_plain lzwd e hwf hne _ rest hh f⟩⟩

/-- One turn of the loop of `gifr_next` at an image, from two readers that draw alike:
both return 1, with the same canvas, and still draw alike. -/
theorem turn_image_same (lzwd : Nat → List Nat → List Nat) (g h : gif_reader)
    (desc lct : List Nat) (cs : Nat) (chunks : List (List Nat)) (rest : List Nat)
    (he : same_drawing g h) (hwf : (stream_section.image desc lct cs chunks).wf)
    (hg : g.src = (stream_section.image desc lct cs chunks).bytes ++ rest) :
    ∃ g1 h1, same_drawing g1 h1 ∧ g1.src = rest ∧
      ∀ f, gifr_next_loop lzwd (f + 1) g = some (1, g1) ∧
        gifr_next_loop lzwd (f + 1) h = some (1, h1) := by
  obtain ⟨dl, d, ti, rfl, hti⟩ := same_drawing_elim g h he
  have a := gifr_next_loop_image lzwd g desc lct cs chunks rest
  have b := gifr_next_loop_image lzwd { g with delay := dl, dispose := d, trans_index := ti }
    desc lct cs chunks rest
  refine ⟨_, _, ?_, ?_, fun f => ⟨a f hwf hg, b f hwf hg⟩⟩
  · have hc := write_image_same
      { g with
        src := rest
        has_local_clut := if desc.getD 8 0 &&& 0x80 ≠ 0 then 1 else g.has_local_clut
        local_clut := if desc.getD 8 0 &&& 0x80 ≠ 0 then
          lct ++ g.local_clut.drop (local_color_table_size (desc.getD 8 0 &&& 0x07))
          else g.local_clut } dl d ti hti
      (READ2BYTES desc) (READ2BYTES (desc.drop 2)) (READ2BYTES (desc.drop 4))
      (READ2BYTES (desc.drop 6)) (lzwd cs chunks.flatten).length (lzwd cs chunks.flatten)
    constructor
    · refine Eq.trans hc ?_
      rw [write_image_delay, write_image_dispose, (write_image_has_trans _ _ _ _ _ _ _).2]
    · intro hne
      rw [(write_image_has_trans _ _ _ _ _ _ _).1] at hne
      rw [(write_image_has_trans _ _ _ _ _ _ _).2, (write_image_has_trans _ _ _ _ _ _ _).2]
      exact hti hne
  · rw [write_image_src]

/-- One turn of the loop of `gifr_next` at a byte that is no tag: both readers return 0. -/
theorem turn_other_same (lzwd : Nat → List Nat → List Nat) (g h : gif_reader)
    (tag : Nat) (rest : List Nat) (he : same_drawing g h)
    (hwf : (stream_section.other tag).wf)
    (hg : g.src = (stream_section.other tag).bytes ++ rest) :
    ∃ g1 h1, same_drawing g1 h1 ∧ g1.src = rest ∧
      ∀ f, gifr_next_loop lzwd (f + 1) g = some (0, g1) ∧
        gifr_next_loop lzwd (f + 1) h = some (0, h1) := by
  obtain ⟨dl, d, ti, rfl, hti⟩ := same_drawing_elim g h he
  obtain ⟨h1, h2, h3, h4, h5, h6⟩ := hwf
  simp only [stream_section.bytes, List.cons_append, List.nil_append] at hg
  exact ⟨_, _, ⟨rfl, hti⟩, rfl, fun f =>
    ⟨gifr_next_loop_unknown lzwd g tag rest f hg h1 h2 h3 h4 h5 h6,
      gifr_next_loop_unknown lzwd _ tag rest f hg h1 h2 h3 h4 h5 h6⟩⟩

/-- A call of the loop of `gifr_next` from two readers that draw alike, at the same sections:
both run off the end of the sections, or both return the same value at the same section
and still draw alike.  Where an image comes before any byte that is no tag, the value is
1. -/
theorem loop_same (lzwd : Nat → List Nat → List Nat) :
    ∀ (secs : List stream_section), (∀ s ∈ secs, s.wf) →
    ∀ (f1 f2 : Nat) (g h : gif_reader), same_drawing g h →
    g.src = secs.flatMap stream_section.bytes → secs.length < f1 → secs.length < f2 →
    (gifr_next_loop lzwd f1 g = none ∧ gifr_next_loop lzwd f2 h = none ∧
      secs.filter stream_section.returns = [] ∧ leading_images secs = 0) ∨
    ∃ r g' h' t, gifr_next_loop lzwd f1 g = some (r, g') ∧
      gifr_next_loop lzwd f2 h = some (r, h') ∧ same_drawing g' h' ∧
      (∀ s ∈ t, s.wf) ∧ g'.src = t.flatMap stream_section.bytes ∧
      (secs.filter stream_section.returns).length =
        (t.filter stream_section.returns).length + 1 ∧
      (leading_images secs ≠ 0 → r = 1 ∧ leading_images secs = leading_images t + 1) := by
  intro secs
  induction secs with
  | nil =>
    intro _ f1 f2 g h he hg hf1 hf2
    left
    have hh := (same_drawing_src g h he).trans hg
    obtain ⟨f1', rfl⟩ : ∃ f, f1 = f + 1 := ⟨f1 - 1, by simp at hf1; omega⟩
    obtain ⟨f2', rfl⟩ : ∃ f, f2 = f + 1 := ⟨f2 - 1, by simp at hf2; omega⟩
    simp only [List.flatMap_nil] at hg hh
    refine ⟨?_, ?_, rfl, rfl⟩
    · rw [gifr_next_loop.eq_2, hg]; rfl
    · rw [gifr_next_loop.eq_2, hh]; rfl
  | cons a l ih =>
    intro hwf f1 f2 g h he hg hf1 hf2
    simp only [List.length_cons] at hf1 hf2
    obtain ⟨f1', rfl⟩ : ∃ f, f1 = f + 1 := ⟨f1 - 1, by omega⟩
    obtain ⟨f2', rfl⟩ : ∃ f, f2 = f + 1 := ⟨f2 - 1, by omega⟩
    simp only [List.flatMap_cons] at hg
    have hwa := hwf a (List.mem_cons_self _ _)
    have hwl : ∀ s ∈ l, s.wf := fun s hs => hwf s (List.mem_cons_of_mem _ hs)
    cases a with
    | ext e1 =>
      obtain ⟨g1, h1, e1', e2', e4'⟩ := turn_ext_same lzwd g h e1 _ he hwa hg
      rw [(e4' f1').1, (e4' f2').2]
      have := ih hwl f1' f2' g1 h1 e1' e2' (by omega) (by omega)
      simpa [List.filter_cons, stream_section.returns, leading_images] using this
    | image desc lct cs chunks =>
      obtain ⟨g1, h1, e1', e2', e4'⟩ :=
        turn_image_same lzwd g h desc lct cs chunks _ he hwa hg
      right
      exact ⟨1, g1, h1, l, (e4' f1').1, (e4' f2').2, e1', hwl, e2', by
        simp [List.filter_cons, stream_section.returns], fun _ => ⟨rfl, rfl⟩⟩
    | other tag =>
      obtain ⟨g1, h1, e1', e2', e4'⟩ := turn_other_same lzwd g h tag _ he hwa hg
      right
      exact ⟨0, g1, h1, l, (e4' f1').1, (e4' f2').2, e1', hwl, e2', by
        simp [List.filter_cons, stream_section.returns], fun hc => absurd rfl hc⟩

theorem leading_le_returns (secs : List stream_section) :
    leading_images secs ≤ (secs.filter stream_section.returns).length := by
  induction secs with
  | nil => simp [leading_images]
  | cons a l ih =>
    cases a with
    | ext e => simpa [List.filter_cons, stream_section.returns, leading_images] using ih
    | image desc lct cs chunks =>
      simp only [List.filter_cons, stream_section.returns, leading_images, if_true,
        List.length_cons]
      omega
    | other tag => simp [leading_images]

/-- Passes of `gifr_next` from two readers that draw alike, at the same sections: the
return values and the canvases after each call are the same, the pass returns as long as
there are sections left at which `gifr_next` returns, and the calls return 1 as long as
there are images left before the first byte that is no tag. -/
theorem pass_same (lzwd : Nat → List Nat → List Nat) :
    ∀ (n : Nat) (secs : List stream_section) (g h : gif_reader),
      (∀ s ∈ secs, s.wf) → same_drawing g h →
      g.src = secs.flatMap stream_section.bytes →
      (gifr_next_pass lzwd n g).map Prod.fst = (gifr_next_pass lzwd n h).map Prod.fst ∧
      (n ≤ (secs.filter stream_section.returns).length →
        (gifr_next_pass lzwd n g).isSome = true) ∧
      (n ≤ leading_images secs → ∀ p g', gifr_next_pass lzwd n g = some (p, g') →
        ∀ x ∈ p, x.1 = 1) := by
  intro n
  induction n with
  | zero =>
    intro secs g h _ _ _
    refine ⟨rfl, fun _ => rfl, fun _ p g' hp x hx => ?_⟩
    simp only [gifr_next_pass, Option.some.injEq, Prod.mk.injEq] at hp
    rw [← hp.1] at hx
    exact absurd hx (List.not_mem_nil x)
  | succ n ih =>
    intro secs g h hwf he hg
    have l1 := stream_sections_length secs
    have hh := (same_drawing_src g h he).trans hg
    rcases loop_same lzwd secs hwf (g.src.length + 1) (h.src.length + 1) g h he hg
      (by rw [hg]; omega) (by rw [hh]; omega) with
      ⟨a1, a2, a3, a4⟩ | ⟨r, g', h', t, a1, a2, a3, a5, a6, a8, a9⟩
    · rw [gifr_next_pass_none lzwd n g a1, gifr_next_pass_none lzwd n h a2]
      refine ⟨rfl, fun hn => ?_, fun hn => ?_⟩
      · rw [a3] at hn
        exact absurd hn (by simp)
      · rw [a4] at hn
        exact absurd hn (by simp)
    · obtain ⟨b1, b2⟩ := gifr_next_pass_succ lzwd n g g' r a1
      obtain ⟨c1, -⟩ := gifr_next_pass_succ lzwd n h h' r a2
      obtain ⟨d1, d2, d3⟩ := ih t g' h' a5 a3 a6
      refine ⟨?_, fun hn => ?_, fun hn p gN hp x hx => ?_⟩
      · rw [b1, c1, d1, same_drawing_image g' h' a3]
      · rw [b2]
        exact d2 (by omega)
      · obtain ⟨hr, hl⟩ := a9 (by omega)
        have a1' : gifr_next lzwd g = some (r, g') := a1
        rw [gifr_next_pass, a1'] at hp
        simp only [] at hp
        cases hq : gifr_next_pass lzwd n g' with
        | none => rw [hq] at hp; exact Option.noConfusion hp
        | some y =>
          obtain ⟨rs, gq⟩ := y
          rw [hq] at hp
          simp only [Option.some.injEq, Prod.mk.injEq] at hp
          rw [← hp.1] at hx
          rcases List.mem_cons.mp hx with rfl | hx'
          · exact hr
          · exact d3 (by omega) rs gq hq x hx'

end

section

open Reader

/-! ## The rewind after a frame that covers the canvas -/

/-- What a pass of `gifr_next` may change: the cursor, the graphic control state, the local
table and the canvas, whose size it keeps. -/
theorem gifr_next_pass_fields (lzwd : Nat → List Nat → List Nat) :
    ∀ (n : Nat) (g g' : gif_reader) (ps : List (Int × List Nat)),
      gifr_next_pass lzwd n g = some (ps, g') →
      g'.image.length = g.image.length ∧
      g' = { g with src := g'.src, dispose := g'.dispose, delay := g'.delay,
                    has_trans := g'.has_trans, trans_index := g'.trans_index,
                    has_local_clut := g'.has_local_clut, local_clut := g'.local_clut,
                    image := g'.image } := by
  intro n
  induction n with
  | zero =>
    intro g g' ps h
    simp only [gifr_next_pass, Option.some.injEq, Prod.mk.injEq] at h
    rw [← h.2]
    exact ⟨rfl, rfl⟩
  | succ n ih =>
    intro g g' ps h
    rw [gifr_next_pass] at h
    cases h1 : gifr_next lzwd g with
    | none => rw [h1] at h; exact Option.noConfusion h
    | some x =>
      obtain ⟨r, g1⟩ := x
      rw [h1] at h
      simp only [] at h
      cases h2 : gifr_next_pass lzwd n g1 with
      | none => rw [h2] at h; exact Option.noConfusion h
      | some y =>
        obtain ⟨rs, g2⟩ := y
        rw [h2] at h
        simp only [Option.some.injEq, Prod.mk.injEq] at h
        obtain ⟨-, rfl⟩ := h
        obtain ⟨-, -, a3, a4⟩ := gifr_next_loop_fields lzwd _ g g1 r h1
        obtain ⟨b1, b2⟩ := ih g1 g2 rs h2
        refine ⟨b1.trans a3, ?_⟩
        rw [b2, a4]

theorem same_but_canvas_elim (g h : gif_reader) (he : same_but_canvas g h) :
    ∃ d dl ht ti im, h = { g with
      dispose := d, delay := dl, has_trans := ht, trans_index := ti, image := im } :=
  ⟨h.dispose, h.delay, h.has_trans, h.trans_index, h.image, he⟩

theorem trans_after_plain (e : ext_section) (hne : ∀ body, e ≠ ext_section.graphic_control body)
    (ss : List stream_section) (ht : Nat) :
    trans_after (stream_section.ext e :: ss) ht = trans_after ss ht := by
  cases e with
  | introducer => rfl
  | graphic_control body => exact absurd rfl (hne body)
  | comment chunks => rfl
  | application hdr chunks => rfl
  | plain_text hdr chunks => rfl

/-- One turn of the loop of `gifr_next` at an extension section, from two readers that
differ in the canvas and the graphic control state only: the canvases stay, `has_trans`
becomes what the section makes of it, and nothing else but the cursor changes. -/
theorem turn_ext_canvas (lzwd : Nat → List Nat → List Nat) (x y : gif_reader)
    (e : ext_section) (rest : List Nat) (hq : same_but_canvas x y) (hwf : e.wf)
    (hx : x.src = e.bytes ++ rest) :
    ∃ x1 y1, same_but_canvas x1 y1 ∧ x1.src = rest ∧
      x1.image = x.image ∧ y1.image = y.image ∧
      (∀ ss ht, trans_after (stream_section.ext e :: ss) x.has_trans = ht →
        trans_after ss x1.has_trans = ht) ∧
      (∀ ss ht, trans_after (stream_section.ext e :: ss) y.has_trans = ht →
        trans_after ss y1.has_trans = ht) ∧
      x1 = { x with src := x1.src, dispose := x1.dispose, delay := x1.delay,
                    has_trans := x1.has_trans, trans_index := x1.trans_index } ∧
      ∀ f, gifr_next_loop lzwd (f + 1) x = gifr_next_loop lzwd f x1 ∧
        gifr_next_loop lzwd (f + 1) y = gifr_next_loop lzwd f y1 := by
  obtain ⟨d, dl, ht, ti, im, rfl⟩ := same_but_canvas_elim x y hq
  have hy : ({ x with
      dispose := d, delay := dl, has_trans := ht, trans_index := ti, image := im } :
      gif_reader).src = e.bytes ++ rest := hx
  by_cases hgc : ∃ body, e = ext_section.graphic_control body
  · obtain ⟨body, rfl⟩ := hgc
    simp only [ext_section.wf] at hwf
    simp only [ext_section.bytes, List.cons_append] at hx hy
    have a := gifr_next_loop_gc lzwd x body rest hwf hx
    have b := gifr_next_loop_gc lzwd
      ({ x with
          dispose := d, delay := dl, has_trans := ht, trans_index := ti, image := im } :
        gif_reader) body rest hwf hy
    by_cases hbit : body.getD 1 0 &&& 0x01 ≠ 0
    · simp only [if_pos hbit] at a b
      refine ⟨_, _, ?_, ?_, ?_, ?_, ?_, ?_, ?_, fun f => ⟨a f, b f⟩⟩
      · exact rfl
      · exact rfl
      · exact rfl
      · exact rfl
      · intro ss r hr
        simp only [trans_after, if_pos hbit] at hr
        exact hr
      · intro ss r hr
        simp only [trans_after, if_pos hbit] at hr
        exact hr
      · exact rfl
    · simp only [if_neg hbit] at a b
      refine ⟨_, _, ?_, ?_, ?_, ?_, ?_, ?_, ?_, fun f => ⟨a f, b f⟩⟩
      · exact rfl
      · exact rfl
      · exact rfl
      · exact rfl
      · intro ss r hr
        simp only [trans_after, if_neg hbit] at hr
        exact hr
      · intro ss r hr
        simp only [trans_after, if_neg hbit] at hr
        exact hr
      · exact rfl
  · have hne : ∀ body, e ≠ ext_section.graphic_control body := fun body hc => hgc ⟨body, hc⟩
    refine ⟨_, _, ?_, ?_, ?_, ?_, ?_, ?_, ?_, fun f =>
      ⟨gifr_next_loop_ext_plain lzwd e hwf hne x rest hx f,
        gifr_next_loop_ext_plain lzwd e hwf hne _ rest hy f⟩⟩
    · exact rfl
    · exact rfl
    · exact rfl
    · exact rfl
    · intro ss r hr
      rw [trans_after_plain e hne] at hr
      exact hr
    · intro ss r hr
      rw [trans_after_plain e hne] at hr
      exact hr
    · exact rfl

/-- The turns of the loop of `gifr_next` over extension sections, from two readers that
differ in the canvas and the graphic control state only. -/
theorem exts_canvas (lzwd : Nat → List Nat → List Nat) :
    ∀ (exts : List ext_section), (∀ e ∈ exts, e.wf) →
    ∀ (x y : gif_reader) (rest : List Nat), same_but_canvas x y →
    x.src = (exts.map stream_section.ext).flatMap stream_section.bytes ++ rest →
    ∃ x1 y1, same_but_canvas x1 y1 ∧ x1.src = rest ∧
      x1.image = x.image ∧ y1.image = y.image ∧
      (∀ ss ht, trans_after (exts.map stream_section.ext ++ ss) x.has_trans = ht →
        trans_after ss x1.has_trans = ht) ∧
      (∀ ss ht, trans_after (exts.map stream_section.ext ++ ss) y.has_trans = ht →
        trans_after ss y1.has_trans = ht) ∧
      x1 = { x with src := x1.src, dispose := x1.dispose, delay := x1.delay,
                    has_trans := x1.has_trans, trans_index := x1.trans_index } ∧
      ∀ f, gifr_next_loop lzwd (f + exts.length) x = gifr_next_loop lzwd f x1 ∧
        gifr_next_loop lzwd (f + exts.length) y = gifr_next_loop lzwd f y1 := by
  intro exts
  induction exts with
  | nil =>
    intro _ x y rest hq hx
    simp only [List.map_nil, List.flatMap_nil, List.nil_append] at hx
    exact ⟨x, y, hq, hx, rfl, rfl, fun ss ht h => h, fun ss ht h => h, rfl,
      fun f => ⟨rfl, rfl⟩⟩
  | cons e es ih =>
    intro hwf x y rest hq hx
    simp only [List.map_cons, List.flatMap_cons, List.append_assoc] at hx
    have hwe := hwf e (List.mem_cons_self _ _)
    have hws : ∀ e' ∈ es, e'.wf := fun e' h' => hwf e' (List.mem_cons_of_mem _ h')
    obtain ⟨x1, y1, q1, s1, i1, j1, t1, u1, e1, l1⟩ :=
      turn_ext_canvas lzwd x y e _ hq hwe hx
    obtain ⟨x2, y2, q2, s2, i2, j2, t2, u2, e2, l2⟩ := ih hws x1 y1 rest q1 s1
    refine ⟨x2, y2, q2, s2, i2.trans i1, j2.trans j1, ?_, ?_, ?_, fun f => ?_⟩
    · intro ss ht h
      exact t2 ss ht (t1 _ ht h)
    · intro ss ht h
      exact u2 ss ht (u1 _ ht h)
    · rw [e2, e1]
    · rw [List.length_cons, ← Nat.add_assoc, (l1 (f + es.length)).1, (l1 (f + es.length)).2]
      exact l2 f

/-- A frame that covers the whole canvas and is composited with no transparent index, from
two readers that resolve indices with the same table, leaves a canvas that does not depend
on the canvas before. -/
theorem write_image_cover (g h : gif_reader) (W H len : Nat) (img : List Nat)
    (gw : g.width = W) (hw : h.width = W) (gh : g.height = H) (hh : h.height = H)
    (hsz : W * H * 3 < 4294967296)
    (gi : g.image.length = W * H * 3) (hi : h.image.length = W * H * 3)
    (gt : g.has_trans = 0) (ht : h.has_trans = 0)
    (hc : active_table g = active_table h) :
    (write_image g 0 0 W H len img).image = (write_image h 0 0 W H len img).image := by
  have cg := write_image_pixels g 0 0 W H len img (by omega) (by omega)
    (by rw [gw, gh]; exact hsz) (by rw [gw, gh]; exact gi)
  have ch := write_image_pixels h 0 0 W H len img (by omega) (by omega)
    (by rw [hw, hh]; exact hsz) (by rw [hw, hh]; exact hi)
  apply List.ext_getElem?
  intro i
  by_cases hi3 : i < W * H * 3
  · have hWpos : 0 < W := by
      rcases Nat.eq_zero_or_pos W with hz | hz
      · subst hz; simp at hi3
      · exact hz
    have hp : i / 3 < W * H := by omega
    have hrow : i / 3 / W < H := by
      rw [Nat.div_lt_iff_lt_mul hWpos, Nat.mul_comm H W]; exact hp
    have hcol : i / 3 % W < W := Nat.mod_lt _ hWpos
    have hk : i % 3 < 3 := Nat.mod_lt _ (by decide)
    have hpe : i / 3 / W * W + i / 3 % W = i / 3 := by
      rw [Nat.mul_comm]; exact Nat.div_add_mod _ _
    have hidx : 3 * (i / 3) + i % 3 = i := Nat.div_add_mod _ _
    have a := cg (i / 3 / W) hrow (i / 3 % W) hcol (i % 3) hk
    have b := ch (i / 3 / W) hrow (i / 3 % W) hcol (i % 3) hk
    rw [if_neg (fun hc => hc.1 gt)] at a
    rw [if_neg (fun hc => hc.1 ht)] at b
    simp only [Nat.add_zero, gw, hw, hpe, hidx] at a b
    rw [a, b, hc]
  · rw [List.getElem?_eq_none (by rw [write_image_length, gi]; omega),
      List.getElem?_eq_none (by rw [write_image_length, hi]; omega)]

theorem write_image_cover_same (x1 : gif_reader) (d : Option dispose_fn) (dl ti : Nat)
    (im rest lc : List Nat) (hl W H len : Nat) (img : List Nat)
    (xw : x1.width = W) (xh : x1.height = H) (hsz : W * H * 3 < 4294967296)
    (xi : x1.image.length = W * H * 3) (yi : im.length = W * H * 3)
    (xt : x1.has_trans = 0) :
    same_drawing
      (write_image { x1 with src := rest, has_local_clut := hl, local_clut := lc }
        0 0 W H len img)
      (write_image
        { x1 with
          dispose := d, delay := dl, has_trans := 0, trans_index := ti, image := im,
          src := rest, has_local_clut := hl, local_clut := lc }
        0 0 W H len img) := by
  have hI := write_image_cover
    ({ x1 with src := rest, has_local_clut := hl, local_clut := lc } : gif_reader)
    ({ x1 with
        dispose := d, delay := dl, has_trans := 0, trans_index := ti, image := im,
        src := rest, has_local_clut := hl, local_clut := lc } : gif_reader)
    W H len img xw xw xh xh hsz xi yi xt rfl rfl
  constructor
  · rw [write_image_delay, write_image_dispose, (write_image_has_trans _ _ _ _ _ _ _).2]
    rw [write_image_eq
      ({ x1 with
        dispose := d, delay := dl, has_trans := 0, trans_index := ti, image := im,
        src := rest, has_local_clut := hl, local_clut := lc } : gif_reader), ← hI,
      write_image_eq
        ({ x1 with src := rest, has_local_clut := hl, local_clut := lc } : gif_reader)]
    cases x1
    simp only [] at xt
    subst xt
    rfl
  · intro hne
    rw [(write_image_has_trans _ _ _ _ _ _ _).1] at hne
    exact absurd xt hne

/-- The first call of `gifr_next` over extension sections and an image that covers the
canvas, from two readers that differ in the canvas and the graphic control state only,
with transparency off at the image in both: both return 1 and draw alike from then on. -/
theorem first_call_cover (lzwd : Nat → List Nat → List Nat) (x y : gif_reader)
    (exts : List ext_section) (desc lct : List Nat) (cs : Nat) (chunks : List (List Nat))
    (rest : List Nat) (W H : Nat)
    (hq : same_but_canvas x y) (hwe : ∀ e ∈ exts, e.wf)
    (hwi : (stream_section.image desc lct cs chunks).wf)
    (hx : x.src = (exts.map stream_section.ext).flatMap stream_section.bytes ++
      ((stream_section.image desc lct cs chunks).bytes ++ rest))
    (xw : x.width = W) (xh : x.height = H) (hsz : W * H * 3 < 4294967296)
    (xi : x.image.length = W * H * 3) (yi : y.image.length = W * H * 3)
    (hcov : (stream_section.image desc lct cs chunks).covers W H)
    (tx : trans_after (exts.map stream_section.ext) x.has_trans = 0)
    (ty : trans_after (exts.map stream_section.ext) y.has_trans = 0) :
    ∃ g1 h1, same_drawing g1 h1 ∧ g1.src = rest ∧
      ∀ f, gifr_next_loop lzwd (f + 1 + exts.length) x = some (1, g1) ∧
        gifr_next_loop lzwd (f + 1 + exts.length) y = some (1, h1) := by
  obtain ⟨x1, y1, q1, s1, i1, j1, t1, u1, e1, l1⟩ := exts_canvas lzwd exts hwe x y _ hq hx
  have x1t : x1.has_trans = 0 := t1 [] 0 (by rw [List.append_nil]; exact tx)
  have y1t : y1.has_trans = 0 := u1 [] 0 (by rw [List.append_nil]; exact ty)
  have x1w : x1.width = W := by rw [e1]; exact xw
  have x1h : x1.height = H := by rw [e1]; exact xh
  have x1i : x1.image.length = W * H * 3 := by rw [i1]; exact xi
  have y1i : y1.image.length = W * H * 3 := by rw [j1]; exact yi
  obtain ⟨d, dl, ht, ti, im, rfl⟩ := same_but_canvas_elim x1 y1 q1
  have hty : ht = 0 := y1t
  subst hty
  have hs1 : ({ x1 with
      dispose := d, delay := dl, has_trans := 0, trans_index := ti, image := im } :
      gif_reader).src = (stream_section.image desc lct cs chunks).bytes ++ rest := s1
  obtain ⟨c1, c2, c3, c4⟩ := hcov
  have a := fun f => gifr_next_loop_image lzwd x1 desc lct cs chunks rest f hwi s1
  have b := fun f => gifr_next_loop_image lzwd
    ({ x1 with
      dispose := d, delay := dl, has_trans := 0, trans_index := ti, image := im } :
      gif_reader) desc lct cs chunks rest f hwi hs1
  rw [c1, c2, c3, c4] at a b
  have a' := fun f => (l1 (f + 1)).1.trans (a f)
  have b' := fun f => (l1 (f + 1)).2.trans (b f)
  refine ⟨_, _, ?_, ?_, fun f => ⟨a' f, b' f⟩⟩
  · exact write_image_cover_same x1 d dl ti im rest _ _ W H _ _ x1w x1h hsz x1i y1i x1t
  · rw [write_image_src]

theorem leading_images_exts (exts : List ext_section) (ss : List stream_section) :
    leading_images (exts.map stream_section.ext ++ ss) = leading_images ss := by
  induction exts with
  | nil => rfl
  | cons e es ih => simpa [leading_images] using ih

theorem same_drawing_refl (g : gif_reader) : same_drawing g g := ⟨rfl, fun _ => rfl⟩

/-- The reader after a pass and a rewind is the reader before the pass but for the canvas
and the graphic control state, when the pass left the local table as it was. -/
theorem rewound_same_but_canvas (lzwd : Nat → List Nat → List Nat) (n : Nat)
    (g gN : gif_reader) (ps : List (Int × List Nat))
    (hp : gifr_next_pass lzwd n g = some (ps, gN)) (hst : g.start = g.src)
    (hL : gN.has_local_clut = g.has_local_clut ∧ gN.local_clut = g.local_clut) :
    same_but_canvas g (gifr_head gN) ∧ (gifr_head gN).image.length = g.image.length ∧
      (gifr_head gN).has_trans = gN.has_trans := by
  obtain ⟨b1, b2⟩ := gifr_next_pass_fields lzwd n g gN ps hp
  refine ⟨?_, b1, rfl⟩
  unfold same_but_canvas gifr_head
  rw [b2]
  simp only []
  rw [hL.1, hL.2, hst]

theorem pass_map_fst_some (lzwd : Nat → List Nat → List Nat) (n : Nat) (g : gif_reader)
    (p : List (Int × List Nat))
    (h : (gifr_next_pass lzwd n g).map Prod.fst = some p) :
    ∃ g', gifr_next_pass lzwd n g = some (p, g') := by
  cases hq : gifr_next_pass lzwd n g with
  | none => rw [hq] at h; exact Option.noConfusion h
  | some z =>
    obtain ⟨p', g'⟩ := z
    rw [hq] at h
    simp only [Option.map_some', Option.some.injEq] at h
    subst h
    exact ⟨g', rfl⟩

/-- Rewind idempotence after a first frame that covers the canvas: the stream is a run of
extension sections, an image that covers the canvas, and any sections; transparency is off
when the first frame is drawn in both passes, and the first pass leaves the local table as
it was.  Then the calls of both passes return 1 and the canvases after the k-th calls
agree. -/
theorem rewind_after_cover (lzwd : Nat → List Nat → List Nat) (g : gif_reader)
    (exts : List ext_section) (desc lct : List Nat) (cs : Nat) (chunks : List (List Nat))
    (post : List stream_section) (n : Nat)
    (hwe : ∀ e ∈ exts, e.wf) (hwi : (stream_section.image desc lct cs chunks).wf)
    (hwp : ∀ s ∈ post, s.wf)
    (hs : g.src = (exts.map stream_section.ext).flatMap stream_section.bytes ++
      ((stream_section.image desc lct cs chunks).bytes ++
        post.flatMap stream_section.bytes))
    (hst : g.start = g.src)
    (hcan : g.image.length = g.width * g.height * 3)
    (hsz : g.width * g.height * 3 < 4294967296)
    (hcov : (stream_section.image desc lct cs chunks).covers g.width g.height)
    (hn : n ≤ leading_images post + 1)
    (hT1 : trans_after (exts.map stream_section.ext) g.has_trans = 0)
    (hT2 : ∀ p1 g1, gifr_next_pass lzwd n g = some (p1, g1) →
      trans_after (exts.map stream_section.ext) g1.has_trans = 0)
    (hL : ∀ p1 g1, gifr_next_pass lzwd n g = some (p1, g1) →
      g1.has_local_clut = g.has_local_clut ∧ g1.local_clut = g.local_clut) :
    rewind_idempotent lzwd g n := by
  cases n with
  | zero =>
    exact ⟨[], g, [], gifr_head g, rfl, rfl, fun x hx => absurd hx (List.not_mem_nil x),
      fun x hx => absurd hx (List.not_mem_nil x), rfl⟩
  | succ m =>
    have hm : m ≤ leading_images post := by omega
    have hlen : exts.length ≤ g.src.length := by
      rw [hs, List.length_append]
      have := stream_sections_length (exts.map stream_section.ext)
      rw [List.length_map] at this
      omega
    -- the first call of the first pass, from `g` against itself
    obtain ⟨g1, g1', sd0, s0, c0⟩ := first_call_cover lzwd g g exts desc lct cs chunks _
      g.width g.height rfl hwe hwi hs rfl rfl hsz hcan hcan hcov hT1 hT1
    have c1 : gifr_next lzwd g = some (1, g1) := by
      have := (c0 (g.src.length - exts.length)).1
      rw [show g.src.length - exts.length + 1 + exts.length = g.src.length + 1 by omega] at this
      exact this
    obtain ⟨p1a, p1b, p1c⟩ := pass_same lzwd m post g1 g1 hwp (same_drawing_refl g1) s0
    have hsome : (gifr_next_pass lzwd m g1).isSome = true :=
      p1b (Nat.le_trans hm (leading_le_returns post))
    obtain ⟨z, hz⟩ := Option.isSome_iff_exists.mp hsome
    obtain ⟨rs, gN⟩ := z
    have hA : gifr_next_pass lzwd (m + 1) g = some ((1, g1.image) :: rs, gN) := by
      rw [gifr_next_pass, c1]
      simp only []
      rw [hz]
    have hrs : ∀ x ∈ rs, x.1 = 1 := p1c hm rs gN hz
    -- the reader after the rewind
    obtain ⟨q, qi, qt⟩ := rewound_same_but_canvas lzwd (m + 1) g gN _ hA hst (hL _ _ hA)
    have hT2' : trans_after (exts.map stream_section.ext) (gifr_head gN).has_trans = 0 := by
      rw [qt]; exact hT2 _ _ hA
    obtain ⟨g1b, h1, sd, s1, c2⟩ := first_call_cover lzwd g (gifr_head gN) exts desc lct cs
      chunks _ g.width g.height q hwe hwi hs rfl rfl hsz hcan (qi.trans hcan) hcov hT1 hT2'
    have e1 : g1b = g1 := by
      have := (c2 0).1
      rw [(c0 0).1] at this
      simp only [Option.some.injEq, Prod.mk.injEq, true_and] at this
      exact this.symm
    subst e1
    have hsrc : (gifr_head gN).src = g.src := by
      rw [q]
    have c3 : gifr_next lzwd (gifr_head gN) = some (1, h1) := by
      have := (c2 (g.src.length - exts.length)).2
      rw [show g.src.length - exts.length + 1 + exts.length = g.src.length + 1 by omega] at this
      unfold gifr_next
      rw [hsrc]
      exact this
    obtain ⟨d1, -, -⟩ := pass_same lzwd m post g1b h1 hwp sd s1
    rw [hz] at d1
    simp only [Option.map_some'] at d1
    obtain ⟨hN, hB'⟩ := pass_map_fst_some lzwd m h1 rs d1.symm
    have hB : gifr_next_pass lzwd (m + 1) (gifr_head gN) =
        some ((1, g1b.image) :: rs, hN) := by
      rw [gifr_next_pass, c3]
      simp only []
      rw [hB', same_drawing_image g1b h1 sd]
    have hall : ∀ x ∈ (1, g1b.image) :: rs, x.1 = 1 := by
      intro x hx
      rcases List.mem_cons.mp hx with rfl | hx'
      · rfl
      · exact hrs x hx'
    exact ⟨_, gN, _, hN, hA, hB, hall, hall, rfl⟩

end

section

open Reader

/-! ## When the stale state does not matter -/

/-- After a graphic control extension `has_trans` does not depend on what it was. -/
theorem trans_after_indep : ∀ (secs : List stream_section) (a b : Nat),
    (∃ body, stream_section.ext (ext_section.graphic_control body) ∈ secs) →
    trans_after secs a = trans_after secs b := by
  intro secs
  induction secs with
  | nil => intro a b h; obtain ⟨body, hb⟩ := h; exact absurd hb (List.not_mem_nil _)
  | cons s ss ih =>
    intro a b h
    by_cases hs : ∃ body, s = stream_section.ext (ext_section.graphic_control body)
    · obtain ⟨body, rfl⟩ := hs
      rfl
    · have hss : ∃ body, stream_section.ext (ext_section.graphic_control body) ∈ ss := by
        obtain ⟨body, hb⟩ := h
        rcases List.mem_cons.mp hb with heq | hm
        · exact absurd ⟨body, heq.symm⟩ hs
        · exact ⟨body, hm⟩
      have e : ∀ c, trans_after (s :: ss) c = trans_after ss c := by
        intro c
        cases s with
        | ext e =>
          exact trans_after_plain e (fun body hc => hs ⟨body, by rw [hc]⟩) ss c
        | image desc lct cs chunks => rfl
        | other tag => rfl
      rw [e a, e b]
      exact ih a b hss

/-- A call of the loop of `gifr_next` over sections that declare no local table leaves
`has_local_clut` and the local table as they were. -/
theorem loop_keeps_local_table (lzwd : Nat → List Nat → List Nat) :
    ∀ (secs : List stream_section), (∀ s ∈ secs, s.wf) → (∀ s ∈ secs, s.no_local_table) →
    ∀ (f : Nat) (g : gif_reader), g.src = secs.flatMap stream_section.bytes →
    ∀ (r : Int) (g' : gif_reader), gifr_next_loop lzwd f g = some (r, g') →
    g'.has_local_clut = g.has_local_clut ∧ g'.local_clut = g.local_clut ∧
      ∃ t : List stream_section, (∀ s ∈ t, s.wf) ∧ (∀ s ∈ t, s.no_local_table) ∧
        g'.src = t.flatMap stream_section.bytes := by
  intro secs
  induction secs with
  | nil =>
    intro _ _ f g hg r g' h
    simp only [List.flatMap_nil] at hg
    cases f with
    | zero => simp [gifr_next_loop] at h
    | succ f =>
      rw [gifr_next_loop.eq_2, hg] at h
      exact Option.noConfusion h
  | cons a l ih =>
    intro hwf hnl f g hg r g' h
    cases f with
    | zero => simp [gifr_next_loop] at h
    | succ f =>
      simp only [List.flatMap_cons] at hg
      have hwa := hwf a (List.mem_cons_self _ _)
      have hwl : ∀ s ∈ l, s.wf := fun s hs => hwf s (List.mem_cons_of_mem _ hs)
      have hna := hnl a (List.mem_cons_self _ _)
      have hnll : ∀ s ∈ l, s.no_local_table := fun s hs => hnl s (List.mem_cons_of_mem _ hs)
      cases a with
      | ext e =>
        obtain ⟨x1, y1, -, s1, -, -, -, -, e1, l1⟩ :=
          turn_ext_canvas lzwd g g e _ rfl hwa hg
        rw [(l1 f).1] at h
        obtain ⟨a1, a2, a3⟩ := ih hwl hnll f x1 s1 r g' h
        refine ⟨?_, ?_, a3⟩
        · rw [a1, e1]
        · rw [a2, e1]
      | image desc lct cs chunks =>
        have hflag : ¬ (desc.getD 8 0 &&& 0x80 ≠ 0) := fun hc => hc hna
        rw [gifr_next_loop_image lzwd g desc lct cs chunks _ f hwa hg] at h
        simp only [if_neg hflag, Option.some.injEq, Prod.mk.injEq] at h
        rw [← h.2, write_image_eq]
        exact ⟨rfl, rfl, l, hwl, hnll, rfl⟩
      | other tag =>
        obtain ⟨h1, h2, h3, h4, h5, h6⟩ := hwa
        simp only [stream_section.bytes, List.cons_append, List.nil_append] at hg
        rw [gifr_next_loop_unknown lzwd g tag _ f hg h1 h2 h3 h4 h5 h6] at h
        simp only [Option.some.injEq, Prod.mk.injEq] at h
        rw [← h.2]
        exact ⟨rfl, rfl, l, hwl, hnll, rfl⟩

/-- A pass of `gifr_next` over sections that declare no local table leaves `has_local_clut`
and the local table as they were. -/
theorem pass_keeps_local_table (lzwd : Nat → List Nat → List Nat) :
    ∀ (n : Nat) (secs : List stream_section) (g g' : gif_reader) (ps : List (Int × List Nat)),
      (∀ s ∈ secs, s.wf) → (∀ s ∈ secs, s.no_local_table) →
      g.src = secs.flatMap stream_section.bytes →
      gifr_next_pass lzwd n g = some (ps, g') →
      g'.has_local_clut = g.has_local_clut ∧ g'.local_clut = g.local_clut := by
  intro n
  induction n with
  | zero =>
    intro secs g g' ps _ _ _ h
    simp only [gifr_next_pass, Option.some.injEq, Prod.mk.injEq] at h
    rw [← h.2]
    exact ⟨rfl, rfl⟩
  | succ n ih =>
    intro secs g g' ps hwf hnl hg h
    rw [gifr_next_pass] at h
    cases h1 : gifr_next lzwd g with
    | none => rw [h1] at h; exact Option.noConfusion h
    | some x =>
      obtain ⟨r, g1⟩ := x
      rw [h1] at h
      simp only [] at h
      cases h2 : gifr_next_pass lzwd n g1 with
      | none => rw [h2] at h; exact Option.noConfusion h
      | some y =>
        obtain ⟨rs, g2⟩ := y
        rw [h2] at h
        simp only [Option.some.injEq, Prod.mk.injEq] at h
        obtain ⟨-, rfl⟩ := h
        obtain ⟨a1, a2, t, a3, a4, a5⟩ := loop_keeps_local_table lzwd secs hwf hnl _ g hg r g1 h1
        obtain ⟨b1, b2⟩ := ih t g1 g2 rs a3 a4 a5 h2
        exact ⟨b1.trans a1, b2.trans a2⟩

/-- A first frame that covers the canvas is not enough when transparency is stale: in
`stale_trans_sections` the first frame has no graphic control extension and the second sets
the transparency bit with index 1.  In the second pass the first frame is drawn with the
stale `has_trans`, its pixel of index 1 is skipped, and the canvas after the first call is
not the one of the first pass. -/
theorem rewind_stale_transparency :
    ((gifr_next_pass stub_decompress 2 (section_reader stale_trans_sections)).bind (fun y =>
      (gifr_next_pass stub_decompress 2 (gifr_head y.2)).map (fun z => (y.1, z.1)))) =
      some ([(1, [10, 20, 30, 40, 50, 60]), (1, [10, 20, 30, 10, 20, 30])],
        [(1, [10, 20, 30, 10, 20, 30]), (1, [10, 20, 30, 10, 20, 30])]) ∧
    ¬ rewind_idempotent stub_decompress (section_reader stale_trans_sections) 2 := by
  have h : ((gifr_next_pass stub_decompress 2 (section_reader stale_trans_sections)).bind
      (fun y => (gifr_next_pass stub_decompress 2 (gifr_head y.2)).map
        (fun z => (y.1, z.1)))) =
      some ([(1, [10, 20, 30, 40, 50, 60]), (1, [10, 20, 30, 10, 20, 30])],
        [(1, [10, 20, 30, 10, 20, 30]), (1, [10, 20, 30, 10, 20, 30])]) := by decide
  refine ⟨h, ?_⟩
  rintro ⟨p1, g1, p2, g2, h1, h2, -, -, h5⟩
  simp only [h1, Option.some_bind, h2, Option.map_some', Option.some.injEq,
    Prod.mk.injEq] at h
  obtain ⟨rfl, rfl⟩ := h
  revert h5
  decide

/-- A first frame that covers the canvas is not enough when the local table is stale: in
`stale_table_sections` the second frame declares a local table.  In the second pass the
first frame is drawn with that table, and the canvas after the first call is not the one of
the first pass. -/
theorem rewind_stale_local_table :
    ((gifr_next_pass stub_decompress 2 (section_reader stale_table_sections)).bind (fun y =>
      (gifr_next_pass stub_decompress 2 (gifr_head y.2)).map (fun z => (y.1, z.1)))) =
      some ([(1, [10, 20, 30, 40, 50, 60]), (1, [10, 20, 30, 4, 5, 6])],
        [(1, [1, 2, 3, 4, 5, 6]), (1, [1, 2, 3, 4, 5, 6])]) ∧
    ¬ rewind_idempotent stub_decompress (section_reader stale_table_sections) 2 := by
  have h : ((gifr_next_pass stub_decompress 2 (section_reader stale_table_sections)).bind
      (fun y => (gifr_next_pass stub_decompress 2 (gifr_head y.2)).map
        (fun z => (y.1, z.1)))) =
      some ([(1, [10, 20, 30, 40, 50, 60]), (1, [10, 20, 30, 4, 5, 6])],
        [(1, [1, 2, 3, 4, 5, 6]), (1, [1, 2, 3, 4, 5, 6])]) := by decide
  refine ⟨h, ?_⟩
  rintro ⟨p1, g1, p2, g2, h1, h2, -, -, h5⟩
  simp only [h1, Option.some_bind, h2, Option.map_some', Option.some.injEq,
    Prod.mk.injEq] at h
  obtain ⟨rfl, rfl⟩ := h
  revert h5
  decide

end

section

open Reader

/-! ## The claims -/

/-- C1, at an input where the code fails it: a 65535 × 21846 canvas, the palette
`(7,7,7), (7,7,7)` and an image all of whose pixels are `(7,7,7)`, coded with a lossless
coder.  `gifr_init` succeeds and `gifr_next` returns 1, but the canvas has
`65535 * 21846 * 3 mod 2^32 = 65534` bytes, whereas the source image has 4295032830: the
canvas is not equal to the source image. -/
theorem round_trip_canvas_wraps :
    (∀ cs d, stub_decompress cs (stub_compress cs d) = d) ∧
    (List.replicate 4295032830 7).length = 65535 * 21846 * 3 ∧
    ∃ g0 g1,
      gifr_init zero_uninit (gif_stream stub_compress 1 [7, 7, 7, 7, 7, 7] 65535 21846
        [⟨none, 0, 0, 65535, 21846, List.replicate 4295032830 7⟩]) = some (0, g0) ∧
      gifr_next stub_decompress g0 = some (1, g1) ∧
      g1.image.length = 65534 ∧
      g1.image ≠ List.replicate 4295032830 7 := by
  obtain ⟨h1, h2, h3⟩ := single_frame_decoded stub_compress stub_decompress zero_uninit 1
    [7, 7, 7, 7, 7, 7] 65535 21846 ⟨none, 0, 0, 65535, 21846, List.replicate 4295032830 7⟩
    (by decide) (by decide) (by decide) (by decide) (by decide)
    (fun _ _ => Nat.succ_le_succ (Nat.zero_le _))
  have hnum : (65535 * 21846 * 3) % 4294967296 = 65534 := by decide
  rw [hnum] at h3
  refine ⟨fun _ _ => rfl, List.length_replicate _ _, _, _, h1, h2, h3, ?_⟩
  intro h
  have hl := congrArg List.length h
  rw [h3, List.length_replicate] at hl
  exact absurd hl (by decide)

/-- C2, as stated, fails: after 2^32 pushes the frame count `gifr_init` computes in the
`unsigned int` field `n_frames` is 0, not the number of pushed frames. -/
theorem frame_count_wraps :
    (∀ cs d, 1 ≤ (stub_compress cs d).length) ∧
    (List.replicate 4294967296 (⟨none, 0, 0, 1, 1, [0, 0, 0]⟩ : push_args)).length
      = 4294967296 ∧
    (gifr_init zero_uninit (gif_stream stub_compress 1 [0, 0, 0, 255, 255, 255] 1 1
      (List.replicate 4294967296 ⟨none, 0, 0, 1, 1, [0, 0, 0]⟩))).map
        (fun r => (r.1, r.2.n_frames)) = some (0, 0) := by
  refine ⟨fun _ _ => by simp [stub_compress], by rw [List.length_replicate], ?_⟩
  rw [gifr_init_stream stub_compress zero_uninit 1 1 1 [0, 0, 0, 255, 255, 255]
    (List.replicate 4294967296 ⟨none, 0, 0, 1, 1, [0, 0, 0]⟩) (by decide) (by decide) (by decide)
    (by decide) (by decide) (fun a _ => by simp [stub_compress])]
  simp only [Option.map_some', opened_reader, List.length_replicate, Nat.mod_self]

/-- C2 (amended): for every number `N < 2^32` of pushes, every code size in `1..8`, every
canvas size in `1..65535` per side with `W * H * 3 < 2^32`, and every sequence of `N` calls
of `gifw_push` (with or without options) whose frames lie inside the canvas, the compressor
being any function that returns at least one byte and the decompressor any function that
returns, for the payload of each frame, at least `width * height` bytes: on the stream of
`gifw_init`, the pushes and `gifw_end`, `gifr_init` returns 0 with `n_frames = N` and a
canvas of `W * H * 3` bytes, and the next `N + 1` calls of `gifr_next` return 1 exactly `N`
times and then 0.  Under these hypotheses `write_image` stays inside its buffers: for each
frame and every reader with this canvas size, each load from the decoded image, each load
from the colour table and each store to the canvas is in bounds. -/
theorem frame_count_ok (lzwc lzwd : Nat → List Nat → List Nat) (u : Uninit) (c W H : Nat)
    (P : List Nat) (pushes : List push_args) (hc1 : 1 ≤ c) (hc8 : c ≤ 8)
    (hP : P.length = 3 * 2 ^ c) (hW1 : 1 ≤ W) (hW : W ≤ 65535) (hH1 : 1 ≤ H) (hH : H ≤ 65535)
    (hsz : W * H * 3 < 4294967296)
    (hin : ∀ a ∈ pushes, a.left + a.width ≤ W ∧ a.top + a.height ≤ H)
    (hL : ∀ cs d, 1 ≤ (lzwc cs d).length)
    (hdec : ∀ a ∈ pushes,
      a.width * a.height ≤ (lzwd c (lzwc c (Writer.quantize (Writer.gifw_init c (some P) W H)
        a.width a.height a.img))).length ∧
      ∀ b ∈ lzwd c (lzwc c (Writer.quantize (Writer.gifw_init c (some P) W H)
        a.width a.height a.img)), b < 256)
    (hN : pushes.length < 4294967296) :
    ∃ g0, gifr_init u (gif_stream lzwc c P W H pushes) = some (0, g0) ∧
      g0.n_frames = pushes.length ∧ g0.width = W ∧ g0.height = H ∧
      g0.image.length = W * H * 3 ∧
      (gifr_next_n lzwd (pushes.length + 1) g0).map Prod.fst =
        some (List.replicate pushes.length 1 ++ [0]) ∧
      ∀ a ∈ pushes, ∀ g : gif_reader, g.width = W → g.height = H →
        ∀ x ∈ write_image_accesses g (a.left % 65536) (a.top % 65536) (a.width % 65536)
            (a.height % 65536)
            (lzwd c (lzwc c (Writer.quantize (Writer.gifw_init c (some P) W H)
              a.width a.height a.img))),
          x.in_bounds
            (lzwd c (lzwc c (Writer.quantize (Writer.gifw_init c (some P) W H)
              a.width a.height a.img))).length (W * H * 3) := by
  have hi := gifr_init_stream lzwc u c W H P pushes hc1 hc8 hP (by omega) (by omega)
    (fun a _ => hL _ _)
  refine ⟨_, hi, ?_, rfl, rfl, ?_, ?_, ?_⟩
  · simp only [opened_reader]; omega
  · rw [opened_reader_image_length, Nat.mod_eq_of_lt hsz]
  · obtain ⟨g', hg'⟩ := gifr_next_n_stream lzwc lzwd (Writer.gifw_init c (some P) W H) hL pushes
      (opened_reader u c W H P
        (netscape_bytes ++
          (pushes.flatMap (frame_bytes lzwc (Writer.gifw_init c (some P) W H)) ++ [0x3b]))
        (pushes.length % 4294967296)) [] rfl
    rw [hg']; rfl
  · intro a ha g hgw hgh x hx
    obtain ⟨h1, h2⟩ := hin a ha
    obtain ⟨d1, d2⟩ := hdec a ha
    have e1 : a.left % 65536 = a.left := Nat.mod_eq_of_lt (by omega)
    have e2 : a.top % 65536 = a.top := Nat.mod_eq_of_lt (by omega)
    have e3 : a.width % 65536 = a.width := Nat.mod_eq_of_lt (by omega)
    have e4 : a.height % 65536 = a.height := Nat.mod_eq_of_lt (by omega)
    rw [e1, e2, e3, e4] at hx
    have hb := write_image_accesses_bounds g a.left a.top a.width a.height _
      (by rw [hgw]; exact h1) (by rw [hgh]; exact h2) (by rw [hgw, hgh]; exact hsz) d1 d2 x hx
    rw [hgw, hgh] at hb
    exact hb

theorem frame_count_ok_witness :
    (1 ≤ 1 ∧ 1 ≤ 8 ∧ [0, 0, 0, 255, 255, 255].length = 3 * 2 ^ 1 ∧ 2 * 1 * 3 < 4294967296) ∧
    (∀ a ∈ ([⟨none, 0, 0, 2, 1, [0, 0, 0, 255, 255, 255]⟩,
        ⟨some ⟨10, 1, 0⟩, 1, 0, 1, 1, [0, 0, 0]⟩] : List push_args),
      a.left + a.width ≤ 2 ∧ a.top + a.height ≤ 1) ∧
    ∃ g0, gifr_init zero_uninit (gif_stream stub_compress 1 [0, 0, 0, 255, 255, 255] 2 1
        [⟨none, 0, 0, 2, 1, [0, 0, 0, 255, 255, 255]⟩,
          ⟨some ⟨10, 1, 0⟩, 1, 0, 1, 1, [0, 0, 0]⟩]) = some (0, g0) ∧
      g0.n_frames = 2 ∧ g0.image.length = 2 * 1 * 3 ∧
      (gifr_next_n stub_decompress (2 + 1) g0).map Prod.fst = some (List.replicate 2 1 ++ [0]) := by
  have hin : ∀ a ∈ ([⟨none, 0, 0, 2, 1, [0, 0, 0, 255, 255, 255]⟩,
      ⟨some ⟨10, 1, 0⟩, 1, 0, 1, 1, [0, 0, 0]⟩] : List push_args),
      a.left + a.width ≤ 2 ∧ a.top + a.height ≤ 1 := by
    intro a ha
    simp only [List.mem_cons, List.mem_singleton, List.not_mem_nil, or_false] at ha
    rcases ha with rfl | rfl <;> decide
  have hdec : ∀ a ∈ ([⟨none, 0, 0, 2, 1, [0, 0, 0, 255, 255, 255]⟩,
      ⟨some ⟨10, 1, 0⟩, 1, 0, 1, 1, [0, 0, 0]⟩] : List push_args),
      a.width * a.height ≤ (stub_decompress 1 (stub_compress 1 (Writer.quantize
        (Writer.gifw_init 1 (some [0, 0, 0, 255, 255, 255]) 2 1)
        a.width a.height a.img))).length ∧
      ∀ b ∈ stub_decompress 1 (stub_compress 1 (Writer.quantize
        (Writer.gifw_init 1 (some [0, 0, 0, 255, 255, 255]) 2 1)
        a.width a.height a.img)), b < 256 := by
    intro a ha
    simp only [List.mem_cons, List.mem_singleton, List.not_mem_nil, or_false] at ha
    rcases ha with rfl | rfl <;> decide
  obtain ⟨g0, a1, a2, -, -, a5, a6, -⟩ :=
    frame_count_ok stub_compress stub_decompress zero_uninit 1 2 1 [0, 0, 0, 255, 255, 255]
      [⟨none, 0, 0, 2, 1, [0, 0, 0, 255, 255, 255]⟩, ⟨some ⟨10, 1, 0⟩, 1, 0, 1, 1, [0, 0, 0]⟩]
      (by decide) (by decide) (by decide) (by decide) (by decide) (by decide) (by decide)
      (by decide) hin (fun _ _ => by simp [stub_compress]) hdec (by decide)
  exact ⟨by decide, hin, g0, a1, a2, a5, a6⟩

/-- C3: for a buffer source of at least 6 bytes, `gifr_init` returns -1 exactly when the
first 6 bytes are neither `GIF87a` nor `GIF89a`; whenever it returns on a source that starts
with `GIF87a` (`GIF89a`) the return value is 0 and the version is `GIF_87a` (`GIF_89a`). -/
theorem gifr_init_signature_ok (u : Uninit) (src : List Nat) (h6 : 6 ≤ src.length) :
    ((gifr_init u src).map Prod.fst = some (-1) ↔
      (src.take 6 ≠ [0x47, 0x49, 0x46, 0x38, 0x37, 0x61] ∧
        src.take 6 ≠ [0x47, 0x49, 0x46, 0x38, 0x39, 0x61])) ∧
    (src.take 6 = [0x47, 0x49, 0x46, 0x38, 0x37, 0x61] →
      ∀ r g, gifr_init u src = some (r, g) → r = 0 ∧ g.version = gif_version.GIF_87a) ∧
    (src.take 6 = [0x47, 0x49, 0x46, 0x38, 0x39, 0x61] →
      ∀ r g, gifr_init u src = some (r, g) → r = 0 ∧ g.version = gif_version.GIF_89a) := by
  obtain ⟨hbad, h87, h89⟩ := gifr_init_cases u src h6
  refine ⟨⟨?_, ?_⟩, ?_, ?_⟩
  · intro h
    constructor
    · intro e
      rcases h87 e with hn | ⟨g, hg, -⟩
      · simp [hn] at h
      · simp [hg] at h
    · intro e
      rcases h89 e with hn | ⟨g, hg, -⟩
      · simp [hn] at h
      · simp [hg] at h
  · rintro ⟨a, b⟩
    obtain ⟨g, hg⟩ := hbad a b
    simp [hg]
  · intro e r g hrg
    rcases h87 e with hn | ⟨g', hg, hv⟩
    · simp [hn] at hrg
    · rw [hg] at hrg
      simp only [Option.some.injEq, Prod.mk.injEq] at hrg
      obtain ⟨rfl, rfl⟩ := hrg
      exact ⟨rfl, hv⟩
  · intro e r g hrg
    rcases h89 e with hn | ⟨g', hg, hv⟩
    · simp [hn] at hrg
    · rw [hg] at hrg
      simp only [Option.some.injEq, Prod.mk.injEq] at hrg
      obtain ⟨rfl, rfl⟩ := hrg
      exact ⟨rfl, hv⟩

/-- C4: for `1 ≤ n_colors ≤ 256` and bytes below 256, `calc_color` returns an index below
`n_colors` whose exact squared distance to the pixel is minimal over the palette and
strictly smaller than that of every entry of lower index, and the `unsigned int` value
`delta` the code computes is the exact squared distance for every entry. -/
theorem calc_color_nearest_ok (gw : Writer.gif_writer) (r g b : Nat)
    (hn1 : 1 ≤ gw.n_colors) (hn : gw.n_colors ≤ 256) (hp : ∀ x ∈ gw.palette, x < 256)
    (hr : r < 256) (hg : g < 256) (hb : b < 256) :
    Writer.calc_color gw r g b < gw.n_colors ∧
    (∀ j < gw.n_colors,
      sq_dist gw.palette r g b (Writer.calc_color gw r g b) ≤ sq_dist gw.palette r g b j) ∧
    (∀ j < Writer.calc_color gw r g b,
      sq_dist gw.palette r g b (Writer.calc_color gw r g b) < sq_dist gw.palette r g b j) ∧
    (∀ j < gw.n_colors,
      (Writer.calc_delta gw.palette r g b j : Int) = sq_dist gw.palette r g b j) := by
  have hex := fun i hi => calc_delta_exact gw.palette r g b i hp hr hg hb hi
  have hM : ∀ i, i < 256 → Writer.calc_delta gw.palette r g b i < 18446744073709551615 := by
    intro i hi; have := (hex i hi).2; omega
  obtain ⟨-, h⟩ := argmin_fold (Writer.calc_delta gw.palette r g b) _ hM gw.n_colors hn
  obtain ⟨a1, a2, a3, a4⟩ := h (by omega)
  have hk : Writer.calc_color gw r g b = ((List.range gw.n_colors).foldl
      (fun (res : Nat × Nat) i =>
        if Writer.calc_delta gw.palette r g b i < res.1 then
          (Writer.calc_delta gw.palette r g b i, i % 256)
        else res) (18446744073709551615, 0)).2 := rfl
  rw [← hk] at a1 a2 a4
  have a3' : ∀ j < gw.n_colors,
      Writer.calc_delta gw.palette r g b (Writer.calc_color gw r g b) ≤
      Writer.calc_delta gw.palette r g b j := by
    intro j hj; rw [← a2]; exact a3 j hj
  have a4' : ∀ j < Writer.calc_color gw r g b,
      Writer.calc_delta gw.palette r g b (Writer.calc_color gw r g b) <
      Writer.calc_delta gw.palette r g b j := by
    intro j hj; rw [← a2]; exact a4 j hj
  refine ⟨a1, ?_, ?_, fun j hj => (hex j (by omega)).1⟩
  · intro j hj
    rw [← (hex j (by omega)).1, ← (hex _ (by omega)).1]
    exact_mod_cast a3' j hj
  · intro j hj
    rw [← (hex j (by omega)).1, ← (hex _ (by omega)).1]
    exact_mod_cast a4' j hj

theorem calc_color_nearest_ok_witness :
    (1 ≤ 3 ∧ 3 ≤ 256 ∧ 10 < 256) ∧
    Writer.calc_color ⟨[], 1, 1, 3, 2, [0, 0, 0, 20, 0, 0, 0, 0, 0]⟩ 10 0 0 < 3 ∧
    (∀ j < 3,
      sq_dist [0, 0, 0, 20, 0, 0, 0, 0, 0] 10 0 0
          (Writer.calc_color ⟨[], 1, 1, 3, 2, [0, 0, 0, 20, 0, 0, 0, 0, 0]⟩ 10 0 0) ≤
        sq_dist [0, 0, 0, 20, 0, 0, 0, 0, 0] 10 0 0 j) ∧
    (∀ j < Writer.calc_color ⟨[], 1, 1, 3, 2, [0, 0, 0, 20, 0, 0, 0, 0, 0]⟩ 10 0 0,
      sq_dist [0, 0, 0, 20, 0, 0, 0, 0, 0] 10 0 0
          (Writer.calc_color ⟨[], 1, 1, 3, 2, [0, 0, 0, 20, 0, 0, 0, 0, 0]⟩ 10 0 0) <
        sq_dist [0, 0, 0, 20, 0, 0, 0, 0, 0] 10 0 0 j) ∧
    (∀ j < 3,
      (Writer.calc_delta [0, 0, 0, 20, 0, 0, 0, 0, 0] 10 0 0 j : Int) =
        sq_dist [0, 0, 0, 20, 0, 0, 0, 0, 0] 10 0 0 j) :=
  ⟨by decide,
    calc_color_nearest_ok ⟨[], 1, 1, 3, 2, [0, 0, 0, 20, 0, 0, 0, 0, 0]⟩ 10 0 0
      (by decide) (by decide) (by decide) (by decide) (by decide) (by decide)⟩

theorem gifr_init_signature_ok_witness :
    6 ≤ [0x47, 0x49, 0x46, 0x38, 0x37, 0x61, 1, 0, 1, 0, 0, 0, 0, 0x3b].length ∧
    (((gifr_init zero_uninit
        [0x47, 0x49, 0x46, 0x38, 0x37, 0x61, 1, 0, 1, 0, 0, 0, 0, 0x3b]).map Prod.fst = some (-1) ↔
      ([0x47, 0x49, 0x46, 0x38, 0x37, 0x61, 1, 0, 1, 0, 0, 0, 0, 0x3b].take 6
          ≠ [0x47, 0x49, 0x46, 0x38, 0x37, 0x61] ∧
        [0x47, 0x49, 0x46, 0x38, 0x37, 0x61, 1, 0, 1, 0, 0, 0, 0, 0x3b].take 6
          ≠ [0x47, 0x49, 0x46, 0x38, 0x39, 0x61])) ∧
    ([0x47, 0x49, 0x46, 0x38, 0x37, 0x61, 1, 0, 1, 0, 0, 0, 0, 0x3b].take 6
        = [0x47, 0x49, 0x46, 0x38, 0x37, 0x61] →
      ∀ r g, gifr_init zero_uninit
          [0x47, 0x49, 0x46, 0x38, 0x37, 0x61, 1, 0, 1, 0, 0, 0, 0, 0x3b] = some (r, g) →
        r = 0 ∧ g.version = gif_version.GIF_87a) ∧
    ([0x47, 0x49, 0x46, 0x38, 0x37, 0x61, 1, 0, 1, 0, 0, 0, 0, 0x3b].take 6
        = [0x47, 0x49, 0x46, 0x38, 0x39, 0x61] →
      ∀ r g, gifr_init zero_uninit
          [0x47, 0x49, 0x46, 0x38, 0x37, 0x61, 1, 0, 1, 0, 0, 0, 0, 0x3b] = some (r, g) →
        r = 0 ∧ g.version = gif_version.GIF_89a)) :=
  ⟨by decide,
    gifr_init_signature_ok zero_uninit
      [0x47, 0x49, 0x46, 0x38, 0x37, 0x61, 1, 0, 1, 0, 0, 0, 0, 0x3b] (by decide)⟩

/-- C5, at an input where the code fails it: the reader `gifr_init` leaves for a
65535 × 21846 canvas, and a frame of one pixel in the last row and column of the canvas.
The frame lies inside the canvas, yet the compositing rule fails: the 32-bit offset
`3 * (((i + top) * g->width) + left)` wraps to 65531, where the three bytes of the colour are
stored, and the canvas has only 65534 bytes. -/
theorem compositing_wraps :
    65534 + 1 ≤ (opened_reader zero_uninit 1 65535 21846 [1, 2, 3, 4, 5, 6] [0x3b] 0).width ∧
    21845 + 1 ≤ (opened_reader zero_uninit 1 65535 21846 [1, 2, 3, 4, 5, 6] [0x3b] 0).height ∧
    ¬ compositing_holds (opened_reader zero_uninit 1 65535 21846 [1, 2, 3, 4, 5, 6] [0x3b] 0)
        65534 21845 1 1 [0]
        (write_image (opened_reader zero_uninit 1 65535 21846 [1, 2, 3, 4, 5, 6] [0x3b] 0)
          65534 21845 1 1 1 [0]).image ∧
    (write_image (opened_reader zero_uninit 1 65535 21846 [1, 2, 3, 4, 5, 6] [0x3b] 0)
      65534 21845 1 1 1 [0]).image.length = 65534 ∧
    (write_image (opened_reader zero_uninit 1 65535 21846 [1, 2, 3, 4, 5, 6] [0x3b] 0)
      65534 21845 1 1 1 [0]).image[65531]? = some 1 ∧
    (write_image (opened_reader zero_uninit 1 65535 21846 [1, 2, 3, 4, 5, 6] [0x3b] 0)
      65534 21845 1 1 1 [0]).image[65532]? = some 2 ∧
    (write_image (opened_reader zero_uninit 1 65535 21846 [1, 2, 3, 4, 5, 6] [0x3b] 0)
      65534 21845 1 1 1 [0]).image[65533]? = some 3 := by
  have hlen : (write_image (opened_reader zero_uninit 1 65535 21846 [1, 2, 3, 4, 5, 6] [0x3b] 0)
      65534 21845 1 1 1 [0]).image.length = 65534 := by
    rw [write_image_length, opened_reader_image_length]
  have hg : (opened_reader zero_uninit 1 65535 21846 [1, 2, 3, 4, 5, 6] [0x3b] 0).image.length
      = 65534 := by
    rw [opened_reader_image_length]
  have hdst : row_dst 65535 65534 21845 0 = 65531 := by decide
  have himg : (write_image (opened_reader zero_uninit 1 65535 21846 [1, 2, 3, 4, 5, 6] [0x3b] 0)
      65534 21845 1 1 1 [0]).image =
      write_row (active_table (opened_reader zero_uninit 1 65535 21846 [1, 2, 3, 4, 5, 6] [0x3b] 0))
        [0] 1 0 65531
        (opened_reader zero_uninit 1 65535 21846 [1, 2, 3, 4, 5, 6] [0x3b] 0).image := by
    rw [write_image_image, if_neg (by decide)]
    simp only [List.range_succ, List.range_zero, List.nil_append, List.foldl_cons,
      List.foldl_nil]
    have hw : (opened_reader zero_uninit 1 65535 21846 [1, 2, 3, 4, 5, 6] [0x3b] 0).width
        = 65535 := rfl
    have hs : row_src 1 0 = 0 := by decide
    rw [hw, hdst, hs]
  refine ⟨by decide, by decide, ?_, hlen, ?_, ?_, ?_⟩
  · intro h
    have h0 := h 0 (by decide) 0 (by decide) 0 (by decide)
    rw [List.getElem?_eq_none (by rw [hlen]; decide), if_neg (fun hc => hc.1 rfl)] at h0
    exact Option.noConfusion h0
  · rw [himg, write_row_getElem?, if_pos ⟨by decide, by decide, by rw [hg]; decide⟩]; rfl
  · rw [himg, write_row_getElem?, if_pos ⟨by decide, by decide, by rw [hg]; decide⟩]; rfl
  · rw [himg, write_row_getElem?, if_pos ⟨by decide, by decide, by rw [hg]; decide⟩]; rfl

/-- C6, as stated, fails: with a lossless coder whose compressor returns no byte for the
indices of frame A, the writer emits two zero bytes for frame A, the second `gifr_next`
meets the second of them as a tag and returns 0, and the pixel keeps the colour of frame A
although its index in frame B is not the transparent one. -/
theorem transparency_fails :
    (∀ cs d, empty_payload_decompress cs (empty_payload_compress cs d) = d) ∧
    ¬ transparency_holds empty_payload_compress empty_payload_decompress zero_uninit
      1 [0, 0, 0, 255, 255, 255] 1 1 0 0 1 1 [0, 0, 0] [255, 255, 255] ⟨0, 1, 0⟩ := by
  constructor
  · intro cs d
    unfold empty_payload_compress
    split
    · next h => rw [h]; rfl
    · rfl
  · rintro ⟨g0, rs, g2, h1, h2, h3⟩
    have he : ((gifr_init zero_uninit (gif_stream empty_payload_compress 1
        [0, 0, 0, 255, 255, 255] 1 1
        [⟨none, 0, 0, 1, 1, [0, 0, 0]⟩, ⟨some ⟨0, 1, 0⟩, 0, 0, 1, 1, [255, 255, 255]⟩])).bind
        (fun x => gifr_next_n empty_payload_decompress 2 x.2)).map (fun x => x.2.image)
        = some [0, 0, 0] := by decide
    rw [h1] at he
    simp only [Option.some_bind, h2, Option.map_some', Option.some.injEq] at he
    have h0 := h3 0 (by decide) 0 (by decide) 0 (by decide)
    rw [he] at h0
    revert h0
    decide

/-- C6 (amended): for a code size in `1..8`, a palette of `2^c` entries, a canvas of at most
65535 per side whose byte size `W * H * 3` is below `2^32`, a region inside the canvas, a
lossless coder whose compressor returns at least one byte, a frame A pushed without options
and a frame B pushed over the same region with options whose flags have bit 0 set:
`gifr_init` succeeds, both calls of `gifr_next` return 1, and afterwards every pixel of the
region whose quantised index in B is `trans_index` holds the palette colour of its quantised
index in A, and every other pixel of the region holds the palette colour of its quantised
index in B. -/
theorem transparency_ok (lzwc lzwd : Nat → List Nat → List Nat) (u : Uninit)
    (c : Nat) (P : List Nat) (W H l t w h : Nat) (imgA imgB : List Nat) (o : gif_opts)
    (hc1 : 1 ≤ c) (hc8 : c ≤ 8) (hP : P.length = 3 * 2 ^ c)
    (hW : W ≤ 65535) (hH : H ≤ 65535) (hsz : W * H * 3 < 4294967296)
    (hx : l + w ≤ W) (hy : t + h ≤ H)
    (hinv : ∀ cs d, lzwd cs (lzwc cs d) = d) (hL : ∀ cs d, 1 ≤ (lzwc cs d).length)
    (hbit : o.flags &&& 0x01 ≠ 0) :
    transparency_holds lzwc lzwd u c P W H l t w h imgA imgB o ∧
    ∃ g0 g2,
      gifr_init u (gif_stream lzwc c P W H
        [⟨none, l, t, w, h, imgA⟩, ⟨some o, l, t, w, h, imgB⟩]) = some (0, g0) ∧
      gifr_next_n lzwd 2 g0 = some ([1, 1], g2) := by
  obtain ⟨g0, g2, h1, h2, h3⟩ := transparency_after_two lzwc lzwd u c P W H l t w h imgA imgB o
    hc1 hc8 hP hW hH hsz hx hy hinv hL hbit
  exact ⟨⟨g0, [1, 1], g2, h1, h2, h3⟩, g0, g2, h1, h2⟩

theorem transparency_ok_witness :
    (1 ≤ 1 ∧ 1 ≤ 8 ∧ 2 * 1 * 3 < 4294967296 ∧ 0 + 2 ≤ 2 ∧ 0 + 1 ≤ 1) ∧
    transparency_holds stub_compress stub_decompress zero_uninit 1 [0, 0, 0, 255, 255, 255]
      2 1 0 0 2 1 [0, 0, 0, 255, 255, 255] [255, 255, 255, 0, 0, 0] ⟨7, 1, 0⟩ ∧
    ∃ g0 g2,
      gifr_init zero_uninit (gif_stream stub_compress 1 [0, 0, 0, 255, 255, 255] 2 1
        [⟨none, 0, 0, 2, 1, [0, 0, 0, 255, 255, 255]⟩,
          ⟨some ⟨7, 1, 0⟩, 0, 0, 2, 1, [255, 255, 255, 0, 0, 0]⟩]) = some (0, g0) ∧
      gifr_next_n stub_decompress 2 g0 = some ([1, 1], g2) :=
  ⟨by decide,
    transparency_ok stub_compress stub_decompress zero_uninit 1 [0, 0, 0, 255, 255, 255]
      2 1 0 0 2 1 [0, 0, 0, 255, 255, 255] [255, 255, 255, 0, 0, 0] ⟨7, 1, 0⟩
      (by decide) (by decide) (by decide) (by decide) (by decide) (by decide) (by decide)
      (by decide) (fun _ _ => rfl) (fun _ _ => Nat.succ_le_succ (Nat.zero_le _)) (by decide)⟩

/-- C7, as stated, fails for the payload of length 0: the writer emits two zero bytes (an
empty last sub-block and the terminator), not the single terminator the structure
`⌈0/255⌉ = 0` sub-blocks asks for. -/
theorem sub_block_chunking_fails :
    emitted_sub_blocks (Writer.gifw_init 8 none 1 1) [] = [0, 0] ∧
    ¬ chunking_holds (emitted_sub_blocks (Writer.gifw_init 8 none 1 1) []) [] := by
  refine ⟨emitted_sub_blocks_nil _, ?_⟩
  rintro ⟨chunks, h1, h2, -⟩
  rw [emitted_sub_blocks_nil] at h1
  have : chunks = [] := List.length_eq_zero.1 (by simpa using h2)
  subst this
  simp [chain] at h1

/-- C7 (amended): for every compressed payload of length `L ≥ 1`, the bytes the writer's
`write_image` emits after the LZW code size byte are `⌈L/255⌉` sub-blocks, each a length
byte followed by that many payload bytes in order, all but the last of length 255 and the
last of length `L - 255 * (⌈L/255⌉ - 1)` in `1..255`, followed by exactly one zero byte; for
the payload of length 0 they are two zero bytes. -/
theorem sub_block_chunking_ok (g : Writer.gif_writer) (payload : List Nat)
    (hL : 1 ≤ payload.length) :
    chunking_holds (emitted_sub_blocks g payload) payload ∧
    emitted_sub_blocks g [] = [0, 0] := by
  refine ⟨?_, emitted_sub_blocks_nil g⟩
  obtain ⟨chunks, last, h1, h2, h3, h4, h5, h6⟩ := emitted_sub_blocks_chain g payload hL
  have hn : (payload.length + 254) / 255 = chunks.length + 1 := by omega
  refine ⟨chunks ++ [last], h1, ?_, ?_, ?_, ?_⟩
  · simp [hn]
  · simpa using h3
  · intro i hi
    simp only [List.length_append, List.length_singleton] at hi
    have hi' : i < chunks.length := by omega
    rw [List.getD_eq_getElem?_getD, List.getElem?_append_left hi',
      List.getElem?_eq_getElem hi']
    exact h2 _ (List.getElem_mem _)
  · intro l hl
    simp at hl
    subst hl
    rw [hn]
    refine ⟨?_, h5, h6⟩
    simp only [Nat.add_sub_cancel]; omega

theorem sub_block_chunking_ok_witness :
    1 ≤ [5, 6, 7].length ∧
    chunking_holds (emitted_sub_blocks (Writer.gifw_init 8 none 1 1) [5, 6, 7]) [5, 6, 7] ∧
    emitted_sub_blocks (Writer.gifw_init 8 none 1 1) [] = [0, 0] :=
  ⟨by decide, sub_block_chunking_ok (Writer.gifw_init 8 none 1 1) [5, 6, 7] (by decide)⟩

/-- C8, as stated, fails for the payload of length 0: the writer emitted two zero bytes, and
the re-read loop of `decompress_image` stops after the first of them, one byte before the
end of the chain. -/
theorem measure_reread_fails :
    decompress_image_loop ((emitted_sub_blocks (Writer.gifw_init 8 none 1 1) [] ++ [0x3b]).length + 1)
      (emitted_sub_blocks (Writer.gifw_init 8 none 1 1) [] ++ [0x3b]) [] = some ([], [0, 0x3b]) ∧
    ¬ measure_reread_holds (emitted_sub_blocks (Writer.gifw_init 8 none 1 1) []) [] [0x3b] := by
  have h := (reader_on_emitted (Writer.gifw_init 8 none 1 1) [] [0x3b]).2.1
  simp only [List.length_nil, if_true] at h
  refine ⟨h, ?_⟩
  rintro ⟨-, h2⟩
  rw [h] at h2
  revert h2
  decide

/-- C8 (amended): for every payload of length `L ≥ 1`, with the cursor at the first length
byte of the chain the writer emitted for it, `get_data_size` returns `L` and leaves the
cursor where it was, and the re-read loop of `decompress_image` yields the `L` payload bytes
in order and stops just after the terminator; for the payload of length 0 `get_data_size`
returns 0 and the re-read loop yields no byte and stops after the first of the two zero
bytes the writer emitted. -/
theorem measure_reread_ok (g : Writer.gif_writer) (payload rest : List Nat)
    (hL : 1 ≤ payload.length) :
    measure_reread_holds (emitted_sub_blocks g payload) payload rest ∧
    get_data_size (emitted_sub_blocks g [] ++ rest) =
      some (0, emitted_sub_blocks g [] ++ rest) ∧
    decompress_image_loop ((emitted_sub_blocks g [] ++ rest).length + 1)
      (emitted_sub_blocks g [] ++ rest) [] = some ([], 0 :: rest) := by
  obtain ⟨h1, h2, -⟩ := reader_on_emitted g payload rest
  obtain ⟨e1, e2, -⟩ := reader_on_emitted g [] rest
  rw [if_neg (by omega)] at h2
  simp only [List.length_nil, if_true] at e1 e2
  exact ⟨⟨h1, h2⟩, e1, e2⟩

theorem measure_reread_ok_witness :
    1 ≤ [5, 6, 7].length ∧
    measure_reread_holds (emitted_sub_blocks (Writer.gifw_init 8 none 1 1) [5, 6, 7]) [5, 6, 7]
      [0x3b] ∧
    get_data_size (emitted_sub_blocks (Writer.gifw_init 8 none 1 1) [] ++ [0x3b]) =
      some (0, emitted_sub_blocks (Writer.gifw_init 8 none 1 1) [] ++ [0x3b]) ∧
    decompress_image_loop
      ((emitted_sub_blocks (Writer.gifw_init 8 none 1 1) [] ++ [0x3b]).length + 1)
      (emitted_sub_blocks (Writer.gifw_init 8 none 1 1) [] ++ [0x3b]) [] = some ([], 0 :: [0x3b]) :=
  ⟨by decide, measure_reread_ok (Writer.gifw_init 8 none 1 1) [5, 6, 7] [0x3b] (by decide)⟩

/-- C9: for a code size `c` in `1..8`, a supplied palette `P` of `2^c` entries and `W`, `H`
below 65536, the output buffer after `gifw_init` is `GIF89a`, `W` and `H` as 16-bit
little-endian values, the flags byte `0x80 | (c - 1)`, two zero bytes, the palette, and the
19 bytes of the Netscape loop extension with loop count 0; its length is `32 + 3 * 2^c`. -/
theorem gifw_init_output_ok (c W H : Nat) (P : List Nat) (hc1 : 1 ≤ c) (hc8 : c ≤ 8)
    (hP : P.length = 3 * 2 ^ c) (hW : W < 65536) (hH : H < 65536) :
    (Writer.gifw_init c (some P) W H).dst =
      [0x47, 0x49, 0x46, 0x38, 0x39, 0x61] ++
      [W % 256, W / 256, H % 256, H / 256, 0x80 ||| (c - 1), 0, 0] ++ P ++
      [0x21, 0xff, 0x0b, 0x4e, 0x45, 0x54, 0x53, 0x43, 0x41, 0x50, 0x45, 0x32, 0x2e, 0x30,
        0x03, 0x01, 0x00, 0x00, 0x00] ∧
    (Writer.gifw_init c (some P) W H).dst.length = 32 + 3 * 2 ^ c := by
  rw [gifw_init_eq c W H P hc1 hc8 hP hW hH]
  refine ⟨rfl, ?_⟩
  simp [init_bytes, hP]; omega

theorem gifw_init_output_ok_witness :
    (1 ≤ 2 ∧ 2 ≤ 8 ∧ 300 < 65536 ∧ 2 < 65536) ∧
    (Writer.gifw_init 2 (some [0, 0, 0, 1, 1, 1, 2, 2, 2, 3, 3, 3]) 300 2).dst =
      [0x47, 0x49, 0x46, 0x38, 0x39, 0x61] ++
      [300 % 256, 300 / 256, 2 % 256, 2 / 256, 0x80 ||| (2 - 1), 0, 0] ++
      [0, 0, 0, 1, 1, 1, 2, 2, 2, 3, 3, 3] ++
      [0x21, 0xff, 0x0b, 0x4e, 0x45, 0x54, 0x53, 0x43, 0x41, 0x50, 0x45, 0x32, 0x2e, 0x30,
        0x03, 0x01, 0x00, 0x00, 0x00] ∧
    (Writer.gifw_init 2 (some [0, 0, 0, 1, 1, 1, 2, 2, 2, 3, 3, 3]) 300 2).dst.length
      = 32 + 3 * 2 ^ 2 :=
  ⟨by decide,
    gifw_init_output_ok 2 300 2 [0, 0, 0, 1, 1, 1, 2, 2, 2, 3, 3, 3] (by decide) (by decide)
      (by decide) (by decide) (by decide)⟩

/-- C10: for `left`, `top`, `width`, `height` below 65536, a call of `gifw_push` without
options appends the image descriptor (`0x2C`, the four values as 16-bit little-endian, a
flags byte 0), then the code size byte and the sub-blocked payload; with options it appends
the 8 bytes `0x21 0xF9 0x04 flags delay_lo delay_hi trans_index 0x00` and then the same
bytes, and nothing else. -/
theorem gifw_push_emission_ok (lzwc : Nat → List Nat → List Nat) (g : Writer.gif_writer)
    (l t w h : Nat) (img : List Nat)
    (hl : l < 65536) (ht : t < 65536) (hw : w < 65536) (hh : h < 65536) :
    (Writer.gifw_push lzwc g none l t w h img).dst =
      g.dst ++ [0x2c, l % 256, l / 256, t % 256, t / 256, w % 256, w / 256, h % 256, h / 256, 0]
        ++ [g.code_size]
        ++ emitted_sub_blocks g (lzwc g.code_size (Writer.quantize g w h img)) ∧
    ∀ o : gif_opts, (Writer.gifw_push lzwc g (some o) l t w h img).dst =
      g.dst ++ [0x21, 0xf9, 0x04, o.flags, o.delay % 256, (o.delay / 256) % 256,
          o.trans_index, 0x00]
        ++ [0x2c, l % 256, l / 256, t % 256, t / 256, w % 256, w / 256, h % 256, h / 256, 0]
        ++ [g.code_size]
        ++ emitted_sub_blocks g (lzwc g.code_size (Writer.quantize g w h img)) := by
  have h1 : (l / 256) % 256 = l / 256 := by omega
  have h2 : (t / 256) % 256 = t / 256 := by omega
  have h3 : (w / 256) % 256 = w / 256 := by omega
  have h4 : (h / 256) % 256 = h / 256 := by omega
  constructor
  · rw [gifw_push_eq]; simp [h1, h2, h3, h4]
  · intro o
    rw [gifw_push_eq]; simp [h1, h2, h3, h4]

theorem gifw_push_emission_ok_witness :
    (300 < 65536 ∧ 1 < 65536 ∧ 2 < 65536 ∧ 1 < 65536) ∧
    (Writer.gifw_push stub_compress (Writer.gifw_init 8 none 400 2) none 300 1 2 1
        [0, 0, 0, 224, 224, 192]).dst =
      (Writer.gifw_init 8 none 400 2).dst ++
        [0x2c, 300 % 256, 300 / 256, 1 % 256, 1 / 256, 2 % 256, 2 / 256, 1 % 256, 1 / 256, 0]
        ++ [(Writer.gifw_init 8 none 400 2).code_size]
        ++ emitted_sub_blocks (Writer.gifw_init 8 none 400 2)
          (stub_compress (Writer.gifw_init 8 none 400 2).code_size
            (Writer.quantize (Writer.gifw_init 8 none 400 2) 2 1 [0, 0, 0, 224, 224, 192])) ∧
    ∀ o : gif_opts,
      (Writer.gifw_push stub_compress (Writer.gifw_init 8 none 400 2) (some o) 300 1 2 1
        [0, 0, 0, 224, 224, 192]).dst =
      (Writer.gifw_init 8 none 400 2).dst ++
        [0x21, 0xf9, 0x04, o.flags, o.delay % 256, (o.delay / 256) % 256, o.trans_index, 0x00]
        ++ [0x2c, 300 % 256, 300 / 256, 1 % 256, 1 / 256, 2 % 256, 2 / 256, 1 % 256, 1 / 256, 0]
        ++ [(Writer.gifw_init 8 none 400 2).code_size]
        ++ emitted_sub_blocks (Writer.gifw_init 8 none 400 2)
          (stub_compress (Writer.gifw_init 8 none 400 2).code_size
            (Writer.quantize (Writer.gifw_init 8 none 400 2) 2 1 [0, 0, 0, 224, 224, 192])) :=
  ⟨by decide,
    gifw_push_emission_ok stub_compress (Writer.gifw_init 8 none 400 2) 300 1 2 1
      [0, 0, 0, 224, 224, 192] (by decide) (by decide) (by decide) (by decide)⟩

end

section

open Reader

/-- C11: whenever `gifr_init` returns on a source of bytes that starts with `GIF87a` or
`GIF89a`, it returns 0 and leaves: width and height the little-endian 16-bit values at
bytes 6..7 and 8..9, `bg_color_index` and `aspect` the bytes 11 and 12, and the cursor at
the frame-stream start; if bit 7 of byte 10 is set, `has_global_clut = 1`,
`n_colors = 2 ^ ((flags & 7) + 1)`, which lies in 2..256, the first `3 * n_colors` bytes of
the global table are the stream bytes from offset 13 on (the rest of the 768-byte buffer is
as `malloc` left it) and the frame-stream start is at offset `13 + 3 * n_colors`; if the bit
is clear the table is untouched and the frame-stream start is at offset 13. -/
theorem logical_screen_parsing_ok (u : Uninit) (src : List Nat) (r : Int) (g : gif_reader)
    (hb : ∀ x ∈ src, x < 256)
    (hsig : src.take 6 = [0x47, 0x49, 0x46, 0x38, 0x37, 0x61] ∨
      src.take 6 = [0x47, 0x49, 0x46, 0x38, 0x39, 0x61])
    (h : gifr_init u src = some (r, g)) :
    r = 0 ∧ 13 ≤ src.length ∧
    g.width = src.getD 6 0 + 256 * src.getD 7 0 ∧
    g.height = src.getD 8 0 + 256 * src.getD 9 0 ∧
    g.bg_color_index = src.getD 11 0 ∧ g.aspect = src.getD 12 0 ∧
    g.src = g.start ∧
    (src.getD 10 0 &&& 0x80 ≠ 0 →
      g.has_global_clut = 1 ∧ g.n_colors = 2 ^ ((src.getD 10 0 &&& 7) + 1) ∧
      2 ≤ g.n_colors ∧ g.n_colors ≤ 256 ∧ 13 + 3 * g.n_colors ≤ src.length ∧
      g.global_clut = (src.drop 13).take (3 * g.n_colors) ++
        ((List.range (3 * 256)).map u.global_clut).drop (3 * g.n_colors) ∧
      g.start = src.drop (13 + 3 * g.n_colors)) ∧
    (src.getD 10 0 &&& 0x80 = 0 →
      g.has_global_clut = 0 ∧ g.n_colors = 0 ∧
      g.global_clut = (List.range (3 * 256)).map u.global_clut ∧
      g.start = src.drop 13) := by
  have hsrc : (init_state u src).src = src := rfl
  rcases gifr_init_inv u src r g h with ⟨-, hh⟩ | ⟨hr, g1, g2, g3, hh, hl, hc, hg⟩
  · -- a valid signature is not rejected
    have h6 := (header_inv _ _ _ hh).1
    obtain ⟨e89, e87, -⟩ := header_eq (init_state u src) h6
    rw [hsrc] at e89 e87
    rcases hsig with s | s
    · exact absurd (header_ret_unique _ _ _ _ _ (e87 s) hh) (by decide)
    · exact absurd (header_ret_unique _ _ _ _ _ (e89 s) hh) (by decide)
  · have h6 := (header_inv _ _ _ hh).1
    obtain ⟨e89, e87, -⟩ := header_eq (init_state u src) h6
    rw [hsrc] at e89 e87 h6
    -- the reader after `header`
    have hg1 : g1.src = src.drop 6 ∧
        g1.global_clut = (List.range (3 * 256)).map u.global_clut ∧
        g1.has_global_clut = 0 ∧ g1.n_colors = 0 := by
      rcases hsig with s | s
      · rw [e87 s] at hh
        simp only [Option.some.injEq, Prod.mk.injEq, true_and] at hh
        subst hh
        refine ⟨rfl, ?_, ?_, ?_⟩ <;> simp only [init_state]
      · rw [e89 s] at hh
        simp only [Option.some.injEq, Prod.mk.injEq, true_and] at hh
        subst hh
        refine ⟨rfl, ?_, ?_, ?_⟩ <;> simp only [init_state]
    obtain ⟨s1, c1, f1, n1⟩ := hg1
    obtain ⟨-, l7, lw, lh, lbg, la, lset, lclr⟩ := logical_screen_spec g1 0 g2 hl
      (by rw [s1]; exact fun x hx => hb x (List.mem_of_mem_drop hx))
    rw [s1] at l7 lw lh lbg la lset lclr
    simp only [getD_drop, List.length_drop, List.drop_drop] at l7 lw lh lbg la lset lclr
    -- the prescan and the rewind keep these fields
    have hf := count_images_loop_fields _ _ _ hc
    have hg' : g = { g2 with
        image := (List.range ((g2.width * g2.height * 3) % 4294967296)).map u.image
        start := g2.src, src := g2.src, n_frames := g3.n_frames } := by
      rw [hg, hf]; rfl
    obtain ⟨-, -, hn256⟩ := shl_flags (src.getD 10 0)
    obtain ⟨-, hn2, -⟩ := shl_flags (src.getD 10 0)
    subst hg'
    refine ⟨hr, by omega, lw, lh, lbg, la, rfl, ?_, ?_⟩
    · intro hbit
      obtain ⟨a1, a2, a3, a4, a5⟩ := lset hbit
      refine ⟨a1, a2, ?_, ?_, ?_, ?_, ?_⟩
      · show 2 ≤ g2.n_colors
        rw [a2]; exact hn2
      · show g2.n_colors ≤ 256
        rw [a2]; exact hn256
      · show 13 + 3 * g2.n_colors ≤ src.length
        omega
      · show g2.global_clut = List.take (3 * g2.n_colors) (List.drop 13 src) ++
            List.drop (3 * g2.n_colors) ((List.range (3 * 256)).map u.global_clut)
        rw [a4, c1]
      · show g2.src = List.drop (13 + 3 * g2.n_colors) src
        rw [a5]; congr 1; omega
    · intro hbit
      obtain ⟨a1, a2, a3, a4⟩ := lclr hbit
      exact ⟨a1.trans f1, a2.trans n1, a3.trans c1, a4⟩

theorem logical_screen_parsing_ok_witness :
    (∀ x ∈ screen_stream, x < 256) ∧
    ∃ r g, gifr_init zero_uninit screen_stream = some (r, g) ∧
      (r = 0 ∧ 13 ≤ screen_stream.length ∧
      g.width = screen_stream.getD 6 0 + 256 * screen_stream.getD 7 0 ∧
      g.height = screen_stream.getD 8 0 + 256 * screen_stream.getD 9 0 ∧
      g.bg_color_index = screen_stream.getD 11 0 ∧ g.aspect = screen_stream.getD 12 0 ∧
      g.src = g.start ∧
      (screen_stream.getD 10 0 &&& 0x80 ≠ 0 →
        g.has_global_clut = 1 ∧ g.n_colors = 2 ^ ((screen_stream.getD 10 0 &&& 7) + 1) ∧
        2 ≤ g.n_colors ∧ g.n_colors ≤ 256 ∧ 13 + 3 * g.n_colors ≤ screen_stream.length ∧
        g.global_clut = (screen_stream.drop 13).take (3 * g.n_colors) ++
          ((List.range (3 * 256)).map zero_uninit.global_clut).drop (3 * g.n_colors) ∧
        g.start = screen_stream.drop (13 + 3 * g.n_colors)) ∧
      (screen_stream.getD 10 0 &&& 0x80 = 0 →
        g.has_global_clut = 0 ∧ g.n_colors = 0 ∧
        g.global_clut = (List.range (3 * 256)).map zero_uninit.global_clut ∧
        g.start = screen_stream.drop 13)) := by
  have hs : (gifr_init zero_uninit screen_stream).isSome = true := by decide
  obtain ⟨⟨r, g⟩, hg⟩ := Option.isSome_iff_exists.1 hs
  exact ⟨by decide, r, g, hg,
    logical_screen_parsing_ok zero_uninit screen_stream r g (by decide) (Or.inr (by decide)) hg⟩

/-- C13: `gifr_head` puts the cursor at the remembered frame-stream start and changes no
other field (width, height, `n_frames`, `n_colors`, the global table and the canvas among
them), and a second `gifr_head` changes nothing; after `gifr_init` and any number of calls
of `gifr_next`, the remembered start is the cursor `gifr_init` left. -/
theorem gifr_head_rewind_ok (lzwd : Nat → List Nat → List Nat) :
    (∀ g : gif_reader,
      (gifr_head g).src = g.start ∧ gifr_head g = { g with src := g.start } ∧
      (gifr_head g).width = g.width ∧ (gifr_head g).height = g.height ∧
      (gifr_head g).n_frames = g.n_frames ∧ (gifr_head g).n_colors = g.n_colors ∧
      (gifr_head g).global_clut = g.global_clut ∧ (gifr_head g).image = g.image ∧
      gifr_head (gifr_head g) = gifr_head g) ∧
    (∀ (u : Uninit) (src : List Nat) (g0 : gif_reader) (n : Nat) (rs : List Int)
      (g : gif_reader),
      gifr_init u src = some (0, g0) → gifr_next_n lzwd n g0 = some (rs, g) →
      (gifr_head g).src = g0.src ∧ (gifr_head g).width = g0.width ∧
      (gifr_head g).height = g0.height ∧ (gifr_head g).n_frames = g0.n_frames ∧
      (gifr_head g).n_colors = g0.n_colors ∧ (gifr_head g).global_clut = g0.global_clut) := by
  constructor
  · intro g
    exact ⟨rfl, rfl, rfl, rfl, rfl, rfl, rfl, rfl, rfl⟩
  · intro u src g0 n rs g hi hn
    obtain ⟨a1, a2, a3, a4, a5, a6, -⟩ := gifr_next_n_start lzwd n g0 g rs hn
    have hs := gifr_init_src_start u src g0 hi
    exact ⟨a1.trans hs.symm, a2, a3, a4, a5, a6⟩

theorem gifr_head_rewind_ok_witness :
    ∃ g0 rs g, gifr_init zero_uninit screen_stream = some (0, g0) ∧
      gifr_next_n stub_decompress 1 g0 = some (rs, g) ∧
      (gifr_head g).src = g0.src ∧ (gifr_head g).width = g0.width ∧
      (gifr_head g).height = g0.height ∧ (gifr_head g).n_frames = g0.n_frames ∧
      (gifr_head g).n_colors = g0.n_colors ∧ (gifr_head g).global_clut = g0.global_clut := by
  have h : ((gifr_init zero_uninit screen_stream).bind (fun x =>
      (gifr_next_n stub_decompress 1 x.2).map (fun y => (x.1, y.1)))) = some (0, [0]) := by
    decide
  cases hi : gifr_init zero_uninit screen_stream with
  | none => rw [hi] at h; exact Option.noConfusion h
  | some x =>
    obtain ⟨r, g0⟩ := x
    rw [hi] at h
    simp only [Option.some_bind] at h
    cases hn : gifr_next_n stub_decompress 1 g0 with
    | none => rw [hn] at h; exact Option.noConfusion h
    | some y =>
      obtain ⟨rs, g⟩ := y
      rw [hn] at h
      simp only [Option.map_some', Option.some.injEq, Prod.mk.injEq] at h
      obtain ⟨rfl, -⟩ := h
      exact ⟨g0, rs, g, rfl, hn,
        (gifr_head_rewind_ok stub_decompress).2 zero_uninit screen_stream g0 1 rs g hi hn⟩

/-- C14, as stated, fails: on a 2 × 1 canvas, a frame that paints the left pixel white and
a frame that paints the right pixel white.  After the first call of the first pass the
right pixel is still as `gifr_init` left it; after the first call of the second pass it is
white, because the canvas is kept over `gifr_head`. -/
theorem rewind_canvas_differs :
    ((gifr_init zero_uninit two_pixel_stream).bind (fun x =>
      (gifr_next_pass stub_decompress 2 x.2).bind (fun y =>
        (gifr_next_pass stub_decompress 2 (gifr_head y.2)).map (fun z => (x.1, y.1, z.1))))) =
      some (0, [(1, [255, 255, 255, 0, 0, 0]), (1, [255, 255, 255, 255, 255, 255])],
        [(1, [255, 255, 255, 255, 255, 255]), (1, [255, 255, 255, 255, 255, 255])]) ∧
    ∀ g0, gifr_init zero_uninit two_pixel_stream = some (0, g0) →
      ¬ rewind_idempotent stub_decompress g0 2 := by
  have h : ((gifr_init zero_uninit two_pixel_stream).bind (fun x =>
      (gifr_next_pass stub_decompress 2 x.2).bind (fun y =>
        (gifr_next_pass stub_decompress 2 (gifr_head y.2)).map (fun z => (x.1, y.1, z.1))))) =
      some (0, [(1, [255, 255, 255, 0, 0, 0]), (1, [255, 255, 255, 255, 255, 255])],
        [(1, [255, 255, 255, 255, 255, 255]), (1, [255, 255, 255, 255, 255, 255])]) := by
    decide
  refine ⟨h, ?_⟩
  rintro g0 hi ⟨p1, g1, p2, g2, h1, h2, -, -, h5⟩
  rw [hi] at h
  simp only [Option.some_bind, h1, h2, Option.map_some', Option.some.injEq,
    Prod.mk.injEq, true_and] at h
  obtain ⟨rfl, rfl⟩ := h
  revert h5
  decide

/-- C14 (amended): take a reader whose cursor stands at the frame-stream start, as
`gifr_init` leaves it, of a stream made of extension sections, an image that covers the
whole canvas (left 0, top 0, the width and height of the canvas), and any further sections
of the sizes the reader expects; the canvas has `width * height * 3 < 2^32` bytes, every
frame lies inside it and the decoder returns at least `width * height` bytes for each;
`n` is at most the number of images before the first byte that is no tag.  Suppose
transparency is off when the first frame is drawn in the first pass, and in the second pass
too: a graphic control extension stands before the first image, or `has_trans` is 0 there
also from the value the first pass ends with.  Suppose the first pass leaves
`has_local_clut` and the local table as they were: no image declares a local table, or the
pass is known to leave them.  Then every call of a first pass of `n` calls of `gifr_next`
and, after `gifr_head`, of a second pass returns 1, and the canvas after the k-th call of
the second pass is the canvas after the k-th call of the first pass.  `write_image` stays
inside its buffers for every frame of the stream.  Two readers at the same place of any
stream that agree on the canvas and on the drawing state give the same return values and
the same canvases at every later call.  And a `gifr_init` that returned 0 leaves the cursor
at the frame-stream start and a canvas of `width * height * 3 mod 2^32` bytes. -/
theorem rewind_idempotent_ok (lzwd : Nat → List Nat → List Nat) (g : gif_reader)
    (exts : List ext_section) (desc lct : List Nat) (cs : Nat) (chunks : List (List Nat))
    (post : List stream_section) (n : Nat)
    (hwe : ∀ e ∈ exts, e.wf) (hwi : (stream_section.image desc lct cs chunks).wf)
    (hwp : ∀ s ∈ post, s.wf)
    (hin : ∀ s ∈ stream_section.image desc lct cs chunks :: post,
      s.in_canvas lzwd g.width g.height)
    (hs : g.src = (exts.map stream_section.ext ++
      stream_section.image desc lct cs chunks :: post).flatMap stream_section.bytes)
    (hst : g.start = g.src)
    (hcan : g.image.length = g.width * g.height * 3)
    (hsz : g.width * g.height * 3 < 4294967296)
    (hcov : (stream_section.image desc lct cs chunks).covers g.width g.height)
    (hn : n ≤ leading_images post + 1)
    (hT1 : trans_after (exts.map stream_section.ext) g.has_trans = 0)
    (hT2 : (∃ body, ext_section.graphic_control body ∈ exts) ∨
      ∀ p1 g1, gifr_next_pass lzwd n g = some (p1, g1) →
        trans_after (exts.map stream_section.ext) g1.has_trans = 0)
    (hL : (stream_section.image desc lct cs chunks).no_local_table ∧
        (∀ s ∈ post, s.no_local_table) ∨
      ∀ p1 g1, gifr_next_pass lzwd n g = some (p1, g1) →
        g1.has_local_clut = g.has_local_clut ∧ g1.local_clut = g.local_clut) :
    rewind_idempotent lzwd g n ∧
    (∀ d l c ch, stream_section.image d l c ch ∈
        stream_section.image desc lct cs chunks :: post →
      ∀ r : gif_reader, r.width = g.width → r.height = g.height →
      ∀ a ∈ write_image_accesses r (READ2BYTES d) (READ2BYTES (d.drop 2))
          (READ2BYTES (d.drop 4)) (READ2BYTES (d.drop 6)) (lzwd c ch.flatten),
        a.in_bounds (lzwd c ch.flatten).length (g.width * g.height * 3)) ∧
    (∀ (k : Nat) (secs : List stream_section) (g1 h1 : gif_reader),
      (∀ s ∈ secs, s.wf) → same_drawing g1 h1 →
      g1.src = secs.flatMap stream_section.bytes →
      (gifr_next_pass lzwd k g1).map Prod.fst = (gifr_next_pass lzwd k h1).map Prod.fst) ∧
    (∀ (u : Uninit) (src : List Nat) (g0 : gif_reader), gifr_init u src = some (0, g0) →
      g0.start = g0.src ∧ g0.image.length = (g0.width * g0.height * 3) % 4294967296) := by
  have hs' : g.src = (exts.map stream_section.ext).flatMap stream_section.bytes ++
      ((stream_section.image desc lct cs chunks).bytes ++
        post.flatMap stream_section.bytes) := by
    rw [hs, List.flatMap_append, List.flatMap_cons]
  have hT2' : ∀ p1 g1, gifr_next_pass lzwd n g = some (p1, g1) →
      trans_after (exts.map stream_section.ext) g1.has_trans = 0 := by
    rcases hT2 with ⟨body, hb⟩ | h
    · intro p1 g1 _
      rw [trans_after_indep (exts.map stream_section.ext) g1.has_trans g.has_trans
        ⟨body, List.mem_map.mpr ⟨_, hb, rfl⟩⟩]
      exact hT1
    · exact h
  have hL' : ∀ p1 g1, gifr_next_pass lzwd n g = some (p1, g1) →
      g1.has_local_clut = g.has_local_clut ∧ g1.local_clut = g.local_clut := by
    rcases hL with ⟨hi, hp⟩ | h
    · intro p1 g1 hpass
      refine pass_keeps_local_table lzwd n _ g g1 p1 ?_ ?_ hs hpass
      · intro s hm
        rcases List.mem_append.mp hm with h1 | h1
        · obtain ⟨e, he, rfl⟩ := List.mem_map.mp h1
          exact hwe e he
        · rcases List.mem_cons.mp h1 with rfl | h2
          · exact hwi
          · exact hwp s h2
      · intro s hm
        rcases List.mem_append.mp hm with h1 | h1
        · obtain ⟨e, _, rfl⟩ := List.mem_map.mp h1
          trivial
        · rcases List.mem_cons.mp h1 with rfl | h2
          · exact hi
          · exact hp s h2
    · exact h
  refine ⟨rewind_after_cover lzwd g exts desc lct cs chunks post n hwe hwi hwp hs' hst hcan
    hsz hcov hn hT1 hT2' hL', ?_, ?_,
    fun u src g0 h0 => ⟨(gifr_init_src_start u src g0 h0).symm,
      gifr_init_canvas_size u src g0 h0⟩⟩
  · intro d l c ch hm r hrw hrh a ha
    obtain ⟨i1, i2, i3, i4⟩ := hin _ hm
    have hb := write_image_accesses_bounds r (READ2BYTES d) (READ2BYTES (d.drop 2))
      (READ2BYTES (d.drop 4)) (READ2BYTES (d.drop 6)) (lzwd c ch.flatten)
      (by rw [hrw]; exact i1) (by rw [hrh]; exact i2) (by rw [hrw, hrh]; exact hsz) i3 i4 a ha
    rw [hrw, hrh] at hb
    exact hb
  · intro k secs g1 h1 hwf hsd hsrc
    exact (pass_same lzwd k secs g1 h1 hwf hsd hsrc).1

theorem rewind_idempotent_ok_witness :
    (∀ e ∈ rewind_exts, e.wf) ∧
    (section_reader rewind_sections).src =
      (rewind_exts.map stream_section.ext ++
        stream_section.image [0, 0, 0, 0, 2, 0, 1, 0, 0] [] 2 [[9, 0, 1]] ::
          rewind_post).flatMap stream_section.bytes ∧
    (stream_section.image [0, 0, 0, 0, 2, 0, 1, 0, 0] [] 2 [[9, 0, 1]]).covers
      (section_reader rewind_sections).width (section_reader rewind_sections).height ∧
    2 ≤ leading_images rewind_post + 1 ∧
    trans_after (rewind_exts.map stream_section.ext)
      (section_reader rewind_sections).has_trans = 0 ∧
    rewind_idempotent stub_decompress (section_reader rewind_sections) 2 ∧
    ((gifr_next_pass stub_decompress 2 (section_reader rewind_sections)).bind (fun y =>
      (gifr_next_pass stub_decompress 2 (gifr_head y.2)).map (fun z => (y.1, z.1)))) =
      some ([(1, [10, 20, 30, 40, 50, 60]), (1, [10, 20, 30, 10, 20, 30])],
        [(1, [10, 20, 30, 40, 50, 60]), (1, [10, 20, 30, 10, 20, 30])]) := by
  have hwe : ∀ e ∈ rewind_exts, e.wf := by
    intro e he
    simp only [rewind_exts, List.mem_cons, List.mem_singleton, List.not_mem_nil,
      or_false] at he
    rcases he with rfl | rfl
    · trivial
    · show ([4, 0, 0, 0, 0, 0] : List Nat).length = 6
      rfl
  have hwi : (stream_section.image [0, 0, 0, 0, 2, 0, 1, 0, 0] [] 2 [[9, 0, 1]]).wf := by
    refine ⟨rfl, by decide, ?_⟩
    intro ch hc
    simp only [List.mem_singleton] at hc
    subst hc
    decide
  have hwp : ∀ s ∈ rewind_post, s.wf := by
    intro s hs
    simp only [rewind_post, List.mem_cons, List.mem_singleton, List.not_mem_nil,
      or_false] at hs
    rcases hs with rfl | rfl | rfl | rfl
    · trivial
    · show ([4, 1, 0, 0, 1, 0] : List Nat).length = 6
      rfl
    · refine ⟨rfl, by decide, ?_⟩
      intro ch hc
      simp only [List.mem_singleton] at hc
      subst hc
      decide
    · exact ⟨by decide, by decide, by decide, by decide, by decide, by decide⟩
  have hin : ∀ s ∈ stream_section.image [0, 0, 0, 0, 2, 0, 1, 0, 0] [] 2 [[9, 0, 1]] ::
      rewind_post, s.in_canvas stub_decompress (section_reader rewind_sections).width
        (section_reader rewind_sections).height := by
    intro s hs
    simp only [rewind_post, List.mem_cons, List.mem_singleton, List.not_mem_nil,
      or_false] at hs
    rcases hs with rfl | rfl | rfl | rfl | rfl
    · exact ⟨by decide, by decide, by decide, by decide⟩
    · trivial
    · trivial
    · exact ⟨by decide, by decide, by decide, by decide⟩
    · trivial
  have hnl : ∀ s ∈ rewind_post, s.no_local_table := by
    intro s hs
    simp only [rewind_post, List.mem_cons, List.mem_singleton, List.not_mem_nil,
      or_false] at hs
    rcases hs with rfl | rfl | rfl | rfl
    · trivial
    · trivial
    · show ([1, 0, 0, 0, 1, 0, 1, 0, 0] : List Nat).getD 8 0 &&& 0x80 = 0
      decide
    · trivial
  have hcov : (stream_section.image [0, 0, 0, 0, 2, 0, 1, 0, 0] [] 2 [[9, 0, 1]]).covers
      (section_reader rewind_sections).width (section_reader rewind_sections).height :=
    ⟨by decide, by decide, by decide, by decide⟩
  have hT1 : trans_after (rewind_exts.map stream_section.ext)
      (section_reader rewind_sections).has_trans = 0 := by decide
  obtain ⟨a1, -, -, -⟩ := rewind_idempotent_ok stub_decompress (section_reader rewind_sections)
    rewind_exts [0, 0, 0, 0, 2, 0, 1, 0, 0] [] 2 [[9, 0, 1]] rewind_post 2
    hwe hwi hwp hin rfl rfl rfl (by decide) hcov (by decide) hT1
    (Or.inl ⟨[4, 0, 0, 0, 0, 0], by simp [rewind_exts]⟩)
    (Or.inl ⟨by show ([0, 0, 0, 0, 2, 0, 1, 0, 0] : List Nat).getD 8 0 &&& 0x80 = 0; decide,
      hnl⟩)
  exact ⟨hwe, rfl, hcov, by decide, hT1, a1, by decide⟩

/-- C15, at an input where the code fails it: an image with a local colour table followed by
an image whose descriptor declares none.  The global table starts `(10,20,30)`, the local
one `(1,2,3)`, both images have the one pixel index 0.  After the second `gifr_next` the
canvas holds `(1,2,3)`, the colour of the first frame's local table, not `(10,20,30)`:
`has_local_clut` is still 1. -/
theorem local_table_not_reset :
    ((gifr_init zero_uninit local_table_stream).bind (fun x =>
      (gifr_next_pass stub_decompress 2 x.2).map (fun y =>
        (x.1, x.2.global_clut.take 6, y.1)))) =
      some (0, [10, 20, 30, 40, 50, 60], [(1, [1, 2, 3]), (1, [1, 2, 3])]) ∧
    ((gifr_init zero_uninit local_table_stream).bind (fun x =>
      (gifr_next_pass stub_decompress 2 x.2).map (fun y =>
        (y.2.has_local_clut, y.2.local_clut.take 6)))) = some (1, [1, 2, 3, 4, 5, 6]) := by
  decide

/-- C16, at an input where the code fails it: the stream the writer produces for a frame of
colour `(9,9,9)` pushed with the transparency bit and transparent index 1, then a frame of
colour `(255,255,255)`, index 1, pushed without options, so with no graphic control
extension.  After the second `gifr_next` the canvas still holds `(9,9,9)`: the second frame
was composited with the transparent index of the first (`has_trans` is still 1). -/
theorem transparency_not_reset :
    ((gifr_init zero_uninit sticky_trans_stream).bind (fun x =>
      (gifr_next_pass stub_decompress 2 x.2).map (fun y =>
        (x.1, y.1, y.2.has_trans, y.2.trans_index)))) =
      some (0, [(1, [9, 9, 9]), (1, [9, 9, 9])], 1, 1) := by
  decide

/-- C17, at an input where the code fails it: a stream with an image, the byte `0x00`, an
image and the trailer.  The prescan of `gifr_init` passes the byte `0x00` and counts 2
frames; the calls of `gifr_next` return 1, 0, 1, 0: one call returns 1 before the first
that returns 0. -/
theorem prescan_decode_differ :
    ((gifr_init zero_uninit stray_tag_stream).bind (fun x =>
      (gifr_next_pass stub_decompress 4 x.2).map (fun y => (x.1, x.2.n_frames, y.1)))) =
      some (0, 2, [(1, [10, 20, 30]), (0, [10, 20, 30]), (1, [40, 50, 60]),
        (0, [40, 50, 60])]) := by
  decide

/-- C18: the writer's `graphic_control` appends the 8 bytes
`0x21 0xf9 0x04 flags delay_lo delay_hi trans_index 0x00`; when the cursor of the reader
stands at them, two turns of the loop of `gifr_next` (the introducer, then the label with
its 6 bytes) consume exactly these 8 bytes and leave `delay = opts.delay mod 65536`,
`has_trans = opts.flags & 1`, `trans_index = opts.trans_index` if that bit is set and
unchanged otherwise, and `dispose` the handler `choose_disposal` gives for the selector
`(opts.flags / 4) mod 8`, bits 2-4 of the flags; no other field changes. -/
theorem graphic_control_round_trip_ok (lzwd : Nat → List Nat → List Nat)
    (wg : Writer.gif_writer) (o : gif_opts) (g : gif_reader) (rest : List Nat)
    (hs : g.src = (Writer.graphic_control wg o).dst.drop wg.dst.length ++ rest) :
    (Writer.graphic_control wg o).dst = wg.dst ++
      [0x21, 0xf9, 0x04, o.flags, o.delay % 256, (o.delay / 256) % 256, o.trans_index, 0x00] ∧
    (o.flags &&& 0x1c) >>> 2 = (o.flags / 4) % 8 ∧
    ∃ g', (∀ f, gifr_next_loop lzwd (f + 2) g = gifr_next_loop lzwd f g') ∧
      g'.src = rest ∧ g'.delay = o.delay % 65536 ∧ g'.has_trans = o.flags &&& 1 ∧
      g'.trans_index = (if o.flags &&& 1 ≠ 0 then o.trans_index else g.trans_index) ∧
      g'.dispose = some (choose_disposal ((o.flags / 4) % 8)) ∧
      g' = { g with src := rest, delay := g'.delay, has_trans := g'.has_trans,
                    trans_index := g'.trans_index, dispose := g'.dispose } := by
  rw [writer_graphic_control_bytes] at hs
  refine ⟨?_, disposal_bits o.flags, { apply_opts g (some o) with src := rest },
    fun f => gifr_next_loop_gce lzwd g o rest f hs, rfl, ?_⟩
  · rw [graphic_control_eq]
  · have hmod : o.flags &&& 1 = o.flags % 2 := Nat.and_one_is_mod o.flags
    simp only [apply_opts]
    by_cases hb : o.flags &&& 0x01 ≠ 0
    · rw [if_pos hb, if_pos hb]
      refine ⟨rfl, ?_, rfl, ?_, rfl⟩
      · show 1 = o.flags &&& 1
        omega
      · show some (choose_disposal ((o.flags &&& 0x1c) >>> 2)) = _
        rw [disposal_bits]
    · rw [if_neg hb, if_neg hb]
      refine ⟨rfl, ?_, rfl, ?_, rfl⟩
      · show 0 = o.flags &&& 1
        omega
      · show some (choose_disposal ((o.flags &&& 0x1c) >>> 2)) = _
        rw [disposal_bits]

theorem graphic_control_round_trip_ok_witness :
    gce_state.src =
      (Writer.graphic_control ⟨[], 1, 1, 2, 1, [0, 0, 0, 255, 255, 255]⟩ ⟨3, 0x15, 7⟩).dst.drop
        0 ++ [0x3b] ∧
    (Writer.graphic_control ⟨[], 1, 1, 2, 1, [0, 0, 0, 255, 255, 255]⟩ ⟨3, 0x15, 7⟩).dst =
      [0x21, 0xf9, 0x04, 0x15, 3, 0, 7, 0x00] ∧
    ∃ g', (∀ f, gifr_next_loop stub_decompress (f + 2) gce_state =
        gifr_next_loop stub_decompress f g') ∧
      g'.src = [0x3b] ∧ g'.delay = 3 ∧ g'.has_trans = 1 ∧ g'.trans_index = 7 ∧
      g'.dispose = some dispose_fn.dispose_null := by
  have hs : gce_state.src =
      (Writer.graphic_control ⟨[], 1, 1, 2, 1, [0, 0, 0, 255, 255, 255]⟩ ⟨3, 0x15, 7⟩).dst.drop
        (⟨[], 1, 1, 2, 1, [0, 0, 0, 255, 255, 255]⟩ : Writer.gif_writer).dst.length ++
        [0x3b] := by decide
  obtain ⟨a1, -, g', b1, b2, b3, b4, b5, b6, -⟩ :=
    graphic_control_round_trip_ok stub_decompress ⟨[], 1, 1, 2, 1, [0, 0, 0, 255, 255, 255]⟩
      ⟨3, 0x15, 7⟩ gce_state [0x3b] hs
  exact ⟨hs, a1, g', b1, b2, b3, b4, b5, b6⟩

/-- C20, at an input where the code fails it: for the logical screen 65535 × 21846
`gifr_init` succeeds and leaves a canvas of 65534 bytes, which is `65535 * 21846 * 3`
modulo 2^32, not the product 4295032830. -/
theorem canvas_size_wraps :
    ∃ g, gifr_init zero_uninit
        (gif_stream stub_compress 1 [0, 0, 0, 255, 255, 255] 65535 21846 []) = some (0, g) ∧
      g.width = 65535 ∧ g.height = 21846 ∧ g.image.length = 65534 ∧
      g.width * g.height * 3 = 4295032830 ∧ g.image.length ≠ g.width * g.height * 3 := by
  have hi := gifr_init_stream stub_compress zero_uninit 1 65535 21846 [0, 0, 0, 255, 255, 255]
    [] (by decide) (by decide) (by decide) (by decide) (by decide)
    (fun a ha => absurd ha (List.not_mem_nil _))
  have hw : (opened_reader zero_uninit 1 65535 21846 [0, 0, 0, 255, 255, 255]
      (netscape_bytes ++ (([] : List push_args).flatMap
        (frame_bytes stub_compress (Writer.gifw_init 1 (some [0, 0, 0, 255, 255, 255])
          65535 21846)) ++ [0x3b])) (([] : List push_args).length % 4294967296)).width
      = 65535 := rfl
  have hh : (opened_reader zero_uninit 1 65535 21846 [0, 0, 0, 255, 255, 255]
      (netscape_bytes ++ (([] : List push_args).flatMap
        (frame_bytes stub_compress (Writer.gifw_init 1 (some [0, 0, 0, 255, 255, 255])
          65535 21846)) ++ [0x3b])) (([] : List push_args).length % 4294967296)).height
      = 21846 := rfl
  have hl := gifr_init_canvas_size _ _ _ hi
  rw [hw, hh] at hl
  have hnum : (65535 * 21846 * 3) % 4294967296 = 65534 := by decide
  rw [hnum] at hl
  refine ⟨_, hi, hw, hh, hl, ?_, ?_⟩
  · rw [hw, hh]
  · rw [hl, hw, hh]; decide

end

section

open Reader

/-- C21, as stated for every code size byte, fails: `gifw_init` stores the byte it is given.
For the code size 0 the writer has `n_colors = 1` and emits the flags byte `0xff`; for the
code size 9 it has `n_colors = 512` and emits the flags byte `0x88`.  In both cases the
number of entries is not `2 ^ (k + 1)` for the size field `k`, is outside 2..256, and bits
3-6 of the flags byte are not all 0. -/
theorem table_size_fails :
    ¬ table_size_invariant (Writer.gifw_init 0 (some [1, 2, 3]) 1 1) ∧
    (Writer.gifw_init 0 (some [1, 2, 3]) 1 1).n_colors = 1 ∧
    (Writer.gifw_init 0 (some [1, 2, 3]) 1 1).dst.getD 10 0 = 0xff ∧
    ¬ table_size_invariant (Writer.gifw_init 9 (some (List.replicate 1536 0)) 1 1) ∧
    (Writer.gifw_init 9 (some (List.replicate 1536 0)) 1 1).n_colors = 512 ∧
    (Writer.gifw_init 9 (some (List.replicate 1536 0)) 1 1).dst.getD 10 0 = 0x88 := by
  have n0 : (Writer.gifw_init 0 (some [1, 2, 3]) 1 1).n_colors = 1 := by
    rw [gifw_init_n_colors]; decide
  have n9 : (Writer.gifw_init 9 (some (List.replicate 1536 0)) 1 1).n_colors = 512 := by
    rw [gifw_init_n_colors]; decide
  refine ⟨?_, n0, ?_, ?_, n9, ?_⟩
  · intro h
    have h2 := h.2.1
    rw [n0] at h2
    exact absurd h2 (by decide)
  · rw [gifw_init_flags]; decide
  · intro h
    have h3 := h.2.2.1
    rw [n9] at h3
    exact absurd h3 (by decide)
  · rw [gifw_init_flags]; decide

/-- C21 (amended): for every code size in 1..8 passed to `gifw_init` together with a
supplied palette, the writer's `n_colors = 1 << code_size` is `2 ^ code_size`, a power of
two in 2..256; it equals `2 ^ (k + 1)` for the size field `k`, bits 0-2 of the flags byte
the writer emits (byte 10 of the stream), and bits 3-6 of that byte are 0; and when the
palette holds at least `2 ^ code_size` entries, the stream is 13 bytes, `3 * n_colors`
palette bytes taken from the palette, and the 19 bytes of the loop extension. -/
theorem table_size_ok (c W H : Nat) (P : List Nat) (hc1 : 1 ≤ c) (hc8 : c ≤ 8) :
    table_size_invariant (Writer.gifw_init c (some P) W H) ∧
    (Writer.gifw_init c (some P) W H).n_colors = 2 ^ c ∧
    (Writer.gifw_init c (some P) W H).dst.getD 10 0 &&& 0x07 = c - 1 ∧
    (3 * 2 ^ c ≤ P.length →
      (Writer.gifw_init c (some P) W H).dst.length =
          13 + 3 * (Writer.gifw_init c (some P) W H).n_colors + 19 ∧
        ((Writer.gifw_init c (some P) W H).dst.drop 13).take
            (3 * (Writer.gifw_init c (some P) W H).n_colors) =
          P.take (3 * (Writer.gifw_init c (some P) W H).n_colors)) := by
  refine ⟨table_size_of_code_size c W H P hc1 hc8, ?_, ?_,
    fun hP => gifw_init_palette c W H P hc8 hP⟩
  · rw [gifw_init_n_colors, shl_code_size c hc8]
  · rw [gifw_init_flags]
    interval_cases c <;> decide

theorem table_size_ok_witness :
    (1 ≤ 2 ∧ 2 ≤ 8) ∧
    table_size_invariant
      (Writer.gifw_init 2 (some [0, 0, 0, 85, 85, 85, 170, 170, 170, 255, 255, 255]) 3 2) ∧
    (Writer.gifw_init 2 (some [0, 0, 0, 85, 85, 85, 170, 170, 170, 255, 255, 255]) 3 2).n_colors
      = 4 ∧
    (Writer.gifw_init 2 (some [0, 0, 0, 85, 85, 85, 170, 170, 170, 255, 255, 255]) 3 2).dst.getD
      10 0 = 0x81 :=
  ⟨⟨by decide, by decide⟩,
    (table_size_ok 2 3 2 [0, 0, 0, 85, 85, 85, 170, 170, 170, 255, 255, 255]
      (by decide) (by decide)).1,
    by decide, by decide⟩

/-- C22: for every code size `c` in 1..8, palette `P` of `2 ^ c` entries and `W`, `H` in
0..65535, `gifr_init` on the bytes of `gifw_init(c, P, W, H)` followed by `gifw_end` returns
0 and leaves the version `GIF_89a`, width `W`, height `H`, `has_global_clut = 1`,
`n_colors = 2 ^ c`, the first `3 * 2 ^ c` bytes of the global table equal to `P`,
`bg_color_index = 0`, `aspect = 0`, `n_frames = 0`, and the cursor and the frame-stream
start at offset `13 + 3 * 2 ^ c` of the stream, on the byte `0x21` of the Netscape
application extension, which the trailer follows. -/
theorem header_round_trip_ok (u : Uninit) (c W H : Nat) (P : List Nat) (hc1 : 1 ≤ c)
    (hc8 : c ≤ 8) (hP : P.length = 3 * 2 ^ c) (hW : W < 65536) (hH : H < 65536) :
    ∃ g, gifr_init u (Writer.gifw_end (Writer.gifw_init c (some P) W H)).2 = some (0, g) ∧
      g.version = gif_version.GIF_89a ∧ g.width = W ∧ g.height = H ∧
      g.has_global_clut = 1 ∧ g.n_colors = 2 ^ c ∧ g.global_clut.take (3 * 2 ^ c) = P ∧
      g.bg_color_index = 0 ∧ g.aspect = 0 ∧ g.n_frames = 0 ∧
      g.start = (Writer.gifw_end (Writer.gifw_init c (some P) W H)).2.drop (13 + 3 * 2 ^ c) ∧
      g.src = g.start ∧ g.start = netscape_bytes ++ [0x3b] ∧ g.start.head? = some 0x21 := by
  refine ⟨_, gifr_init_init_end u c W H P hc1 hc8 hP hW hH, rfl, rfl, rfl, rfl, rfl, ?_, rfl,
    rfl, rfl, ?_, rfl, rfl, rfl⟩
  · show (P ++ ((List.range (3 * 256)).map u.global_clut).drop (3 * 2 ^ c)).take (3 * 2 ^ c) = P
    rw [← hP, List.take_left]
  · rw [init_end_stream c W H P hc1 hc8 hP hW hH]
    show netscape_bytes ++ [0x3b] = _
    have e : ([0x47, 0x49, 0x46, 0x38, 0x39, 0x61] ++
        ([W % 256, W / 256, H % 256, H / 256, 0x80 ||| (c - 1), 0, 0] ++
          (P ++ (netscape_bytes ++ [0x3b])))) =
        ([0x47, 0x49, 0x46, 0x38, 0x39, 0x61, W % 256, W / 256, H % 256, H / 256,
          0x80 ||| (c - 1), 0, 0] ++ P) ++ (netscape_bytes ++ [0x3b]) := by
      simp only [List.cons_append, List.nil_append, List.append_assoc]
    rw [e, List.drop_left' (by rw [List.length_append, hP]; rfl)]

theorem header_round_trip_ok_witness :
    ((1 ≤ 1 ∧ 1 ≤ 8) ∧ [10, 20, 30, 40, 50, 60].length = 3 * 2 ^ 1 ∧ 2 < 65536 ∧ 3 < 65536) ∧
    (Writer.gifw_end (Writer.gifw_init 1 (some [10, 20, 30, 40, 50, 60]) 2 3)).2 =
      [0x47, 0x49, 0x46, 0x38, 0x39, 0x61, 2, 0, 3, 0, 0x80, 0, 0, 10, 20, 30, 40, 50, 60,
        0x21, 0xff, 0x0b, 0x4e, 0x45, 0x54, 0x53, 0x43, 0x41, 0x50, 0x45, 0x32, 0x2e, 0x30,
        0x03, 0x01, 0x00, 0x00, 0x00, 0x3b] ∧
    ∃ g, gifr_init zero_uninit
        (Writer.gifw_end (Writer.gifw_init 1 (some [10, 20, 30, 40, 50, 60]) 2 3)).2 =
          some (0, g) ∧
      g.version = gif_version.GIF_89a ∧ g.width = 2 ∧ g.height = 3 ∧ g.n_colors = 2 ∧
      g.global_clut.take 6 = [10, 20, 30, 40, 50, 60] ∧ g.n_frames = 0 ∧
      g.start.head? = some 0x21 := by
  obtain ⟨g, a1, a2, a3, a4, -, a6, a7, -, -, a10, -, -, -, a14⟩ :=
    header_round_trip_ok zero_uninit 1 2 3 [10, 20, 30, 40, 50, 60] (by decide) (by decide)
      (by decide) (by decide) (by decide)
  exact ⟨⟨⟨by decide, by decide⟩, by decide, by decide, by decide⟩, by decide,
    g, a1, a2, a3, a4, a6, a7, a10, a14⟩

/-- C23, at an input where the code fails it: the reader `gifr_init` leaves for a
65535 × 21846 screen (the stream of `gifw_init` and `gifw_end`), and a frame of one pixel at
the last row and column of the canvas.  The frame lies inside the canvas, yet the frame
condition fails: the 32-bit offset `3 * (((i + top) * g->width) + left)` wraps to 65531, and
the third byte of the pixel `(21843, 0)`, which lies outside the frame rectangle, changes
from 0 to 1. -/
theorem frame_condition_wraps :
    gifr_init zero_uninit
        (Writer.gifw_end (Writer.gifw_init 1 (some [1, 2, 3, 4, 5, 6]) 65535 21846)).2 =
      some (0, wrapped_canvas_reader) ∧
    65534 + 1 ≤ wrapped_canvas_reader.width ∧ 21845 + 1 ≤ wrapped_canvas_reader.height ∧
    ¬ frame_condition_holds wrapped_canvas_reader 65534 21845 1 1
        (write_image wrapped_canvas_reader 65534 21845 1 1 1 [0]).image ∧
    wrapped_canvas_reader.image[3 * (0 * 65535 + 21843) + 2]? = some 0 ∧
    (write_image wrapped_canvas_reader 65534 21845 1 1 1 [0]).image[3 * (0 * 65535 + 21843) + 2]?
      = some 1 := by
  obtain ⟨w0, w1⟩ := wrapped_store
  refine ⟨gifr_init_init_end zero_uninit 1 65535 21846 [1, 2, 3, 4, 5, 6] (by decide)
    (by decide) (by decide) (by decide) (by decide), by decide, by decide, ?_, w0, w1⟩
  intro h
  have h0 := h 21843 0 (by decide) (by decide) (Or.inl (by decide)) 2 (by decide)
  have hw : wrapped_canvas_reader.width = 65535 := rfl
  rw [hw] at h0
  have e : 3 * (0 * 65535 + 21843) + 2 = 65531 := by decide
  rw [e, w0, w1] at h0
  exact absurd h0 (by decide)

/-- C24: for a frame inside the canvas (`left + width <= g->width`,
`top + height <= g->height`), a canvas of fewer than `2^32` bytes and a decoded image of at
least `width * height` bytes, every access of `write_image` stays in bounds: every load
from the decoded image is at an offset below its length, every store to the canvas is at an
offset below `g->width * g->height * 3`, and every load from the colour table is at an
offset below 768.  The stores of the trace are the stores of `write_image`: replaying them
on the canvas gives the canvas `write_image` leaves.  The two colour tables hold 768 bytes
after a `gifr_init` that returned 0 and after every `gifr_next` that returns, whatever
table size the stream declared. -/
theorem write_image_index_safe_ok (g : gif_reader) (left top width height : Nat)
    (img : List Nat) (hx : left + width ≤ g.width) (hy : top + height ≤ g.height)
    (hsz : g.width * g.height * 3 < 4294967296) (hlen : width * height ≤ img.length)
    (hb : ∀ b ∈ img, b < 256) :
    (∀ a ∈ write_image_accesses g left top width height img,
      a.in_bounds img.length (g.width * g.height * 3)) ∧
    (write_image g left top width height img.length img).image =
      replay_stores g.image (write_image_accesses g left top width height img) ∧
    (∀ (u : Uninit) (src : List Nat) (g0 : gif_reader), gifr_init u src = some (0, g0) →
      g0.global_clut.length = 3 * 256 ∧ g0.local_clut.length = 3 * 256) ∧
    (∀ (lzwd : Nat → List Nat → List Nat) (g1 g2 : gif_reader) (r : Int),
      gifr_next lzwd g1 = some (r, g2) →
      g1.global_clut.length = 3 * 256 ∧ g1.local_clut.length = 3 * 256 →
      g2.global_clut.length = 3 * 256 ∧ g2.local_clut.length = 3 * 256) :=
  ⟨write_image_accesses_bounds g left top width height img hx hy hsz hlen hb,
    write_image_replay g left top width height img.length img,
    fun u src g0 h => gifr_init_tables u src g0 h,
    fun lzwd g1 g2 r h ht => gifr_next_tables lzwd g1 g2 r h ht⟩

theorem write_image_index_safe_ok_witness :
    (1 + 1 ≤ small_canvas_reader.width ∧ 0 + 2 ≤ small_canvas_reader.height ∧
      small_canvas_reader.width * small_canvas_reader.height * 3 < 4294967296 ∧
      1 * 2 ≤ [0, 1].length ∧ ∀ b ∈ [0, 1], b < 256) ∧
    write_image_accesses small_canvas_reader 1 0 1 2 [0, 1] =
      [access.img_load 0,
       access.pal_load 0, access.canvas_store 3 10,
       access.pal_load 1, access.canvas_store 4 20,
       access.pal_load 2, access.canvas_store 5 30,
       access.img_load 1,
       access.pal_load 3, access.canvas_store 9 40,
       access.pal_load 4, access.canvas_store 10 50,
       access.pal_load 5, access.canvas_store 11 60] ∧
    (∀ a ∈ write_image_accesses small_canvas_reader 1 0 1 2 [0, 1], a.in_bounds 2 12) ∧
    (write_image small_canvas_reader 1 0 1 2 2 [0, 1]).image =
      [0, 0, 0, 10, 20, 30, 0, 0, 0, 40, 50, 60] := by
  have hyp : 1 + 1 ≤ small_canvas_reader.width ∧ 0 + 2 ≤ small_canvas_reader.height ∧
      small_canvas_reader.width * small_canvas_reader.height * 3 < 4294967296 ∧
      1 * 2 ≤ [0, 1].length ∧ ∀ b ∈ [0, 1], b < 256 := by decide
  obtain ⟨a1, -, -, -⟩ := write_image_index_safe_ok small_canvas_reader 1 0 1 2 [0, 1]
    hyp.1 hyp.2.1 hyp.2.2.1 hyp.2.2.2.1 hyp.2.2.2.2
  exact ⟨hyp, by decide, a1, by decide⟩

/-- C25: with the cursor just behind the tag `0x2c` of an image section, whatever its
descriptor flags (local table declared or not, any size exponent) and whatever its chain of
sub-blocks, the prescan path `skip_section(TAG_IMAGE_DESCRIPTOR)` and the decode path
`parse_image_descriptor` followed by `decompress_image` both return and leave the cursor at
the same place, behind the section: they advance it by 9 bytes of descriptor, the
`3 * 2 ^ ((flags & 7) + 1)` bytes of the local table if bit 7 of the flags is set, the code
size byte, and the sub-block chain with its zero terminator. -/
theorem image_section_advance_ok (lzwd : Nat → List Nat → List Nat) (g : gif_reader)
    (desc lct : List Nat) (cs : Nat) (chunks : List (List Nat)) (rest : List Nat)
    (hwf : (stream_section.image desc lct cs chunks).wf)
    (hs : g.src = desc ++ (lct ++ cs :: (chain chunks ++ rest))) :
    skip_section g.src TAG_IMAGE_DESCRIPTOR = some (0, rest) ∧
    (∃ g1 l t w h g2 img, parse_image_descriptor g = some (g1, l, t, w, h) ∧
      decompress_image lzwd g1 = some (0, g2, img) ∧ g2.src = rest) ∧
    g.src.length =
      (9 + (if desc.getD 8 0 &&& 0x80 ≠ 0 then 3 * 2 ^ ((desc.getD 8 0 &&& 0x07) + 1) else 0)
        + 1 + (chain chunks).length) + rest.length ∧
    (chain chunks).length = (chunks.map fun ch => 1 + ch.length).sum + 1 := by
  have hlen := image_section_length desc lct cs chunks rest hwf
  refine ⟨?_, ?_, ?_, chain_length_eq chunks⟩
  · rw [hs]
    exact skip_section_image_gen desc lct cs chunks rest hwf
  · have hp := parse_image_descriptor_section g desc lct (cs :: (chain chunks ++ rest))
      hwf.1 hwf.2.1 hs
    exact ⟨_, _, _, _, _, _, _, hp,
      decompress_image_chain lzwd _ cs chunks rest (fun ch h => (hwf.2.2 ch h).1) rfl, rfl⟩
  · rw [hs]
    have hle : rest.length ≤ (desc ++ (lct ++ cs :: (chain chunks ++ rest))).length := by
      simp only [List.length_append, List.length_cons]
      omega
    omega

theorem image_section_advance_ok_witness :
    (stream_section.image [0, 0, 0, 0, 1, 0, 1, 0, 0x80] [1, 2, 3, 4, 5, 6] 2 [[9, 0]]).wf ∧
    skip_section image_section_reader.src TAG_IMAGE_DESCRIPTOR = some (0, [0x3b]) ∧
    (∃ g1 l t w h g2 img, parse_image_descriptor image_section_reader = some (g1, l, t, w, h) ∧
      decompress_image stub_decompress g1 = some (0, g2, img) ∧ g2.src = [0x3b]) ∧
    image_section_reader.src.length = (9 + 6 + 1 + 4) + 1 := by
  have hwf : (stream_section.image [0, 0, 0, 0, 1, 0, 1, 0, 0x80] [1, 2, 3, 4, 5, 6] 2
      [[9, 0]]).wf := by
    refine ⟨rfl, by decide, ?_⟩
    intro ch hc
    simp only [List.mem_singleton] at hc
    subst hc
    decide
  obtain ⟨a1, a2, -, -⟩ := image_section_advance_ok stub_decompress image_section_reader
    [0, 0, 0, 0, 1, 0, 1, 0, 0x80] [1, 2, 3, 4, 5, 6] 2 [[9, 0]] [0x3b] hwf rfl
  exact ⟨hwf, a1, a2, by decide⟩

end

end Gif
